import Mathlib

/-!
# Transport catalog: a verification development

Shallow embedding of the C++ transport catalog (`transport_catalog/`):
`stop.h`, `bus.h`, `bus.cpp`, `transport_router.h`.  The headers `graph.h` and
`router.h` are not among the sources: the graph container and the shortest path
engine are modelled from the specification, and marked so.

Conventions of the embedding.

* `std::string` is `String`; `std::vector<T>` is `List T`; `std::map<K, V>` is a
  list of pairs kept in strictly ascending key order (its iteration order);
  `std::unordered_map<K, V>` is a list of pairs read only through key lookup.
* `double` quantities are rationals (`ℚ`): statements about them are statements
  in exact arithmetic.
* `int` is a 32 bit signed integer and `size_t` a 64 bit unsigned one.  A
  conversion into `int` is `toInt32`; unsigned arithmetic wraps with `toSizeT`.
  The sums the program accumulates in an `int` (the road length of
  `Bus::EvaluateRoute`, the minutes of a working time interval) are reduced with
  `toInt32` at every addition, the wrap of a two's complement machine; other
  signed `int` arithmetic is carried out in `Int`, which agrees with every run
  that does not overflow.
* A thrown exception, and an out of bounds `operator[]` on a vector, is an
  `Except.error`.
-/

namespace TransportCatalog

/-! ## Machine integers and failures -/

/-- Conversion of an integer value into a 32 bit two's complement `int`. -/
def toInt32 (z : Int) : Int := (z + 2 ^ 31) % 2 ^ 32 - 2 ^ 31

/-- Reduction of an integer value into the range of a 64 bit `size_t`. -/
def toSizeT (z : Int) : Nat := (z % 2 ^ 64).toNat

/-- What a run can fail with. -/
inductive Err where
  /-- `std::out_of_range`, thrown by `std::map::at`. -/
  | out_of_range
  /-- `std::runtime_error` with its message. -/
  | runtime_error (msg : String)
  /-- An out of bounds index into a vector (undefined behaviour in C++). -/
  | bad_index
  /-- `std::bad_variant_access`, thrown when a JSON node holds another kind of
  value than the one asked for. -/
  | bad_variant_access
  /-- An integer division by zero (undefined behaviour in C++). -/
  | division_by_zero
  /-- A read of a member that was never written (undefined behaviour in C++). -/
  | uninitialized
  deriving DecidableEq, Repr

/-- `v[i]` on a `std::vector`. -/
def vecAt {α : Type} (v : List α) (i : Nat) : Except Err α :=
  match v[i]? with
  | some x => .ok x
  | none => .error .bad_index

/-- `m.at(k)` on a `std::map`: throws `std::out_of_range` on a missing key. -/
def mapAt {β : Type} (m : List (String × β)) (k : String) : Except Err β :=
  match m.lookup k with
  | some x => .ok x
  | none => .error .out_of_range

/-! ## stop.h -/

/-- `class Stop` of `stop.h`. -/
structure Stop where
  name_ : String
  latitude_ : ℚ := 0
  longitude_ : ℚ := 0
  real_latitude_ : ℚ := 0
  real_longitude_ : ℚ := 0
  x_ : ℚ := 0
  y_ : ℚ := 0
  distances_ : List (String × Int) := []
  is_base_ : Bool := false
  deriving DecidableEq

/-- The constructor `Stop(name, latitude, longitude, distances)`. -/
def Stop.new (name : String) (latitude longitude : ℚ)
    (distances : List (String × Int)) : Stop :=
  { name_ := name, latitude_ := latitude, longitude_ := longitude,
    real_latitude_ := latitude, real_longitude_ := longitude,
    x_ := 0, y_ := 0, distances_ := distances }

def Stop.GetName (s : Stop) : String := s.name_

def Stop.GetDistances (s : Stop) : List (String × Int) := s.distances_

/-- The catalog's `std::map<std::string, Stop>`. -/
abbrev StopMap := List (String × Stop)

/-! ## bus.h, bus.cpp -/

/-- `MapDistanceBetweenStops` of `bus.cpp`: the distance `stop1` records to
`stop2`, else the one `stop2` records to `stop1`, else a `std::runtime_error`. -/
def MapDistanceBetweenStops (stop1 stop2 : Stop) : Except Err Int :=
  match stop1.GetDistances.lookup stop2.GetName with
  | some d => .ok d
  | none =>
    match stop2.GetDistances.lookup stop1.GetName with
    | some d => .ok d
    | none => .error (.runtime_error "Can't find stop in either distances")

inductive RouteType where
  | ROUND
  | TWOWAY
  deriving DecidableEq, Repr

/-- `class Bus` of `bus.h`. -/
structure Bus where
  name_ : String
  stops_ : List String
  type_ : RouteType
  num_stops_ : Int
  num_unique_stops_ : Int
  geo_route_length_ : Option ℚ := none
  map_route_length_ : Int := 0
  curvature_ : ℚ := 0
  color_id_ : Option Nat := none
  deriving DecidableEq

/-- The comparison `std::sort` uses on `std::string`: lexicographic on the
characters. -/
def strLess (a b : String) : Bool := decide (a.toList < b.toList)

/-- `std::sort(first, last)` on strings (the sorted rearrangement). -/
def stdSort (l : List String) : List String :=
  l.insertionSort (fun a b => strLess b a = false)

/-- `std::unique(first, last)`: the range with every run of equal consecutive
elements reduced to its first element. -/
def stdUnique : List String → List String
  | [] => []
  | [a] => [a]
  | a :: b :: rest => if a = b then stdUnique (b :: rest) else a :: stdUnique (b :: rest)

/-- The constructor `Bus(name, stops, type)` of `bus.h`.  The parameter `stops`
is taken by value: the member `stops_` is a copy made before the sort. -/
def Bus.new (name : String) (stops : List String) (type : RouteType) : Bus :=
  let stops_ := stops
  let sorted := stdSort stops
  let new_end := stdUnique sorted
  { name_ := name
    stops_ := stops_
    type_ := type
    num_unique_stops_ := toInt32 new_end.length
    num_stops_ :=
      match type with
      | .ROUND => toInt32 stops_.length
      | .TWOWAY => toInt32 (toSizeT (2 * (stops_.length : Int) - 1)) }

def Bus.GetName (b : Bus) : String := b.name_
def Bus.GetStops (b : Bus) : List String := b.stops_
def Bus.GetNumStops (b : Bus) : Int := b.num_stops_
def Bus.GetNumUniqueStops (b : Bus) : Int := b.num_unique_stops_
def Bus.GetMapRouteLength (b : Bus) : Int := b.map_route_length_
def Bus.GetType (b : Bus) : RouteType := b.type_

/-- One iteration of the forward loops of `Bus::EvaluateRoute`: reads
`stops_[i]` and `stops_[i + 1]`, adds the geodesic and the road distance.  The
accumulator `map_length` is an `int`: `map_length += ...` leaves the sum reduced
to 32 bits. -/
def evalForwardStep (geo : Stop → Stop → ℚ) (b : Bus) (stops : StopMap)
    (acc : ℚ × Int) (i : Nat) : Except Err (ℚ × Int) := do
  let stop1 ← (vecAt b.stops_ i) >>= mapAt stops
  let stop2 ← (vecAt b.stops_ (i + 1)) >>= mapAt stops
  let d ← MapDistanceBetweenStops stop1 stop2
  pure (acc.1 + geo stop1 stop2, toInt32 (acc.2 + d))

/-- One iteration of the second loop of the TWOWAY branch: the road distance
is looked up from `stops_[i + 1]` to `stops_[i]` and added to the `int`
accumulator `map_length`, the sum reduced to 32 bits. -/
def evalBackwardStep (b : Bus) (stops : StopMap)
    (acc : ℚ × Int) (i : Nat) : Except Err (ℚ × Int) := do
  let stop1 ← (vecAt b.stops_ i) >>= mapAt stops
  let stop2 ← (vecAt b.stops_ (i + 1)) >>= mapAt stops
  let d ← MapDistanceBetweenStops stop2 stop1
  pure (acc.1, toInt32 (acc.2 + d))

/-- `Bus::EvaluateRoute` of `bus.cpp`.  `GeoDistanceBetweenStops` (a formula in
`acos`, `sin`, `cos`) is the parameter `geo`.  The loop counter `i` is an `int`
running from `0` while `i < bound`; `geo_length` is a `double` and `map_length`
an `int` starting at `0`, stored in the `int` member `map_route_length_`. -/
def Bus.EvaluateRoute (geo : Stop → Stop → ℚ) (b : Bus) (stops : StopMap) :
    Except Err Bus :=
  match b.type_ with
  | .ROUND => do
    let r ← (List.range (b.num_stops_ - 1).toNat).foldlM
      (evalForwardStep geo b stops) ((0 : ℚ), (0 : Int))
    pure { b with
      geo_route_length_ := some r.1
      map_route_length_ := r.2
      curvature_ := (r.2 : ℚ) / r.1 }
  | .TWOWAY => do
    let r ← (List.range (Int.tdiv (b.num_stops_ - 1) 2).toNat).foldlM
      (evalForwardStep geo b stops) ((0 : ℚ), (0 : Int))
    let r ← (List.range (Int.tdiv (b.num_stops_ - 1) 2).toNat).foldlM
      (evalBackwardStep b stops) r
    pure { b with
      geo_route_length_ := some (2 * r.1)
      map_route_length_ := r.2
      curvature_ := (r.2 : ℚ) / (2 * r.1) }


/-! ## Specification side definitions for the bus statistics -/

/-- The road distance between the stops named `a` and `b` of the catalog: the
value `MapDistanceBetweenStops` returns on them (`0` where a lookup fails). -/
def roadDistance (stops : StopMap) (a b : String) : Int :=
  match stops.lookup a, stops.lookup b with
  | some sa, some sb =>
    match MapDistanceBetweenStops sa sb with
    | .ok d => d
    | .error _ => 0
  | _, _ => 0

/-- The road length of the claim about `EvaluateRoute`, as an integer: the sum
of the road distances over the consecutive pairs `(l[i], l[i+1])` of the listed
order, plus, for TWOWAY, the sum over the reverse lookups `(l[i+1], l[i])`. -/
def roadLength (stops : StopMap) (l : List String) : RouteType → Int
  | .ROUND =>
    ∑ i ∈ Finset.range (l.length - 1), roadDistance stops (l.getD i "") (l.getD (i + 1) "")
  | .TWOWAY =>
    (∑ i ∈ Finset.range (l.length - 1),
      roadDistance stops (l.getD i "") (l.getD (i + 1) "")) +
    ∑ i ∈ Finset.range (l.length - 1),
      roadDistance stops (l.getD (i + 1) "") (l.getD i "")

/-- Either stop records a road distance to the other. -/
def HasRoad (sa sb : Stop) : Prop :=
  (sa.GetDistances.lookup sb.GetName).isSome ∨ (sb.GetDistances.lookup sa.GetName).isSome

/-- The stops at positions `i` and `i + 1` of the list exist and have a road. -/
def PairOk (stops : StopMap) (l : List String) (i : Nat) : Prop :=
  ∃ sa sb, stops.lookup (l.getD i "") = some sa ∧ stops.lookup (l.getD (i + 1) "") = some sb ∧
    HasRoad sa sb

/-- A stop list is well formed against the catalog: every stop exists and each
consecutive pair has a road distance in at least one direction. -/
def RouteOk (stops : StopMap) (l : List String) : Prop :=
  (∀ s ∈ l, ∃ st, stops.lookup s = some st) ∧
  ∀ i, i + 1 < l.length → ∀ sa sb, stops.lookup (l.getD i "") = some sa →
    stops.lookup (l.getD (i + 1) "") = some sb → HasRoad sa sb

/-- Scenario: stops A, B, C with road distances A→B = 100, B→C = 200, C→A = 300. -/
def roundStops : StopMap :=
  [("A", Stop.new "A" 0 0 [("B", 100)]), ("B", Stop.new "B" 0 0 [("C", 200)]),
   ("C", Stop.new "C" 0 0 [("A", 300)])]

/-- Scenario: stops A, B with the road distance A→B = 2000000000, which B→A
falls back to. -/
def farStops : StopMap :=
  [("A", Stop.new "A" 0 0 [("B", 2000000000)]), ("B", Stop.new "B" 0 0 [])]

/-- Scenario: stops X, Y, Z with X→Y = 100, Y→Z = 50, Z→Y = 60 and no Y→X. -/
def twowayStops : StopMap :=
  [("X", Stop.new "X" 0 0 [("Y", 100)]), ("Y", Stop.new "Y" 0 0 [("Z", 50)]),
   ("Z", Stop.new "Z" 0 0 [("Y", 60)])]

/-! ## yellow_pages_structures.h -/

/-- `enum class AddressComponentType`. -/
inductive AddressComponentType where
  | Country | Region | City | Street | House
  deriving DecidableEq, Repr

/-- `struct AddressComponent`. -/
structure AddressComponent where
  value : String
  type : AddressComponentType
  deriving DecidableEq, Repr

/-- `struct Coords`. -/
structure Coords where
  lat : ℚ
  lon : ℚ
  deriving DecidableEq, Repr

/-- `struct Address`. -/
structure Address where
  formatted : String
  components : List AddressComponent
  coords : Coords
  comment : String
  deriving DecidableEq, Repr

/-- `enum class NameType`. -/
inductive NameType where
  | Main | Synonym | Short
  deriving DecidableEq, Repr

/-- `struct Name`. -/
structure Name where
  value : String
  type : NameType
  deriving DecidableEq, Repr

/-- `enum class PhoneType`. -/
inductive PhoneType where
  | Phone | Fax
  deriving DecidableEq, Repr

/-- `struct Phone`. -/
structure Phone where
  formatted : String
  type : PhoneType
  country_code : String
  local_code : String
  number : String
  extension : String
  description : String
  deriving DecidableEq, Repr

/-- `struct QueryPhone`: a phone of a query, whose `type` may be absent. -/
structure QueryPhone where
  formatted : String
  type : Option PhoneType := none
  country_code : String
  local_code : String
  number : String
  extension : String
  description : String
  deriving DecidableEq, Repr

/-- `struct WorkingTimeInterval` (two `int`s). -/
structure WorkingTimeInterval where
  minutes_from : Int
  minutes_to : Int
  deriving DecidableEq, Repr

/-- `struct WorkingTime`. -/
structure WorkingTime where
  is_everyday : Bool
  intervals : List WorkingTimeInterval
  deriving DecidableEq, Repr

/-- `struct NearbyStop` (`meters` is a `uint32_t`). -/
structure NearbyStop where
  name : String
  meters : Nat
  deriving DecidableEq, Repr

/-- `struct Company` (`rubrics` holds `uint64_t` ids). -/
structure Company where
  address : Address
  names : List Name
  phones : List Phone
  urls : List String
  rubrics : List Nat
  working_time : WorkingTime
  nearby_stops : List NearbyStop
  deriving DecidableEq, Repr

/-- `struct Rubric` (`keywords` is a `std::set`, kept in ascending order). -/
structure Rubric where
  name : String
  keywords : List String
  deriving DecidableEq, Repr

/-! ## transport_router.h -/

/-- Modelled from the spec: `Graph::Edge<double>` of `graph.h`, which is not among
the sources; the constructor builds it as `{from, to, weight}` and `BuildRoute`
reads these three members. -/
structure Edge where
  from_ : Nat
  to_ : Nat
  weight : ℚ
  deriving DecidableEq, Repr

/-- Modelled from the spec: `Graph::DirectedWeightedGraph<double>` of `graph.h`,
which is not among the sources.  The graph keeps its edges in insertion order;
the id of an edge is its position in that order (the serializer reads edge `i`
together with `edge_to_info[i]`). -/
structure DirectedWeightedGraph where
  vertex_count : Nat
  edges : List Edge := []
  deriving DecidableEq, Repr

/-- Modelled from the spec: `AddEdge` appends the edge. -/
def DirectedWeightedGraph.AddEdge (g : DirectedWeightedGraph) (e : Edge) :
    DirectedWeightedGraph :=
  { g with edges := g.edges ++ [e] }

/-- Modelled from the spec: `GetEdge(edge_id)` reads the edge at that position. -/
def DirectedWeightedGraph.GetEdge (g : DirectedWeightedGraph) (edge_id : Nat) :
    Except Err Edge :=
  vecAt g.edges edge_id

/-- Modelled from the spec: `GetEdgeCount()`. -/
def DirectedWeightedGraph.GetEdgeCount (g : DirectedWeightedGraph) : Nat := g.edges.length

/-- `m.insert({k, v})` on a `std::unordered_map`: no effect on a present key. -/
def umapInsert (m : List (String × Nat)) (k : String) (v : Nat) : List (String × Nat) :=
  match m.lookup k with
  | some _ => m
  | none => m ++ [(k, v)]

/-- `m[k]` on a `std::unordered_map<std::string, size_t>`: the value of a
present key; a missing key is first inserted with the value `0`. -/
def umapIndex (m : List (String × Nat)) (k : String) : Nat × List (String × Nat) :=
  match m.lookup k with
  | some v => (v, m)
  | none => (0, m ++ [(k, 0)])

/-- Modelled from the spec: `RouterSettings`, whose declaration is not among the
sources: the wait time (an `int` of the input) and the two velocities, in
metres per minute. -/
structure RouterSettings where
  bus_wait_time : Int
  bus_velocity : ℚ
  pedestrian_velocity : ℚ
  deriving DecidableEq

/-- `class TransportRouter`: its data members but `router_`, the shortest path
engine over `graph_`. -/
structure TransportRouter where
  graph_ : DirectedWeightedGraph
  bus_wait_time_ : Int
  bus_velocity_ : ℚ
  pedestrian_velocity_ : ℚ
  stop_to_id : List (String × Nat) := []
  id_to_stop : List String := []
  edge_to_info : List (String × Int) := []
  deriving DecidableEq

/-- One iteration of the loops of `TransportRouter::TimeBetweenStops`: the road
distance from `bus_stops[i]` to `bus_stops[next]`, divided by the velocity. -/
def timeStep (bus_velocity_ : ℚ) (bus_stops : List String) (stops_info : StopMap)
    (next : Nat → Nat) (t : ℚ) (i : Nat) : Except Err ℚ := do
  let stop1 ← (vecAt bus_stops i) >>= mapAt stops_info
  let stop2 ← (vecAt bus_stops (next i)) >>= mapAt stops_info
  let d ← MapDistanceBetweenStops stop1 stop2
  pure (t + (d : ℚ) / bus_velocity_)

/-- `TransportRouter::TimeBetweenStops`: for `idx_l < idx_r` the loop runs `i`
upwards from `idx_l` to `idx_r - 1` over the pairs `(i, i + 1)`; for
`idx_l > idx_r` it runs `i` downwards from `idx_l` to `idx_r + 1` over the
pairs `(i, i - 1)`. -/
def TimeBetweenStops (bus_velocity_ : ℚ) (bus_stops : List String) (stops_info : StopMap)
    (idx_l idx_r : Nat) : Except Err ℚ :=
  if idx_l < idx_r then
    (List.range' idx_l (idx_r - idx_l)).foldlM
      (timeStep bus_velocity_ bus_stops stops_info (fun i => i + 1)) 0
  else if idx_l > idx_r then
    (List.range' (idx_r + 1) (idx_l - idx_r)).reverse.foldlM
      (timeStep bus_velocity_ bus_stops stops_info (fun i => i - 1)) 0
  else
    pure 0

/-- The body of the `-->` loops of the constructor for positions `i < j`. -/
def forwardEdge (stops : StopMap) (bus : Bus) (tr : TransportRouter) (i j : Nat) :
    Except Err TransportRouter := do
  let bus_stops := bus.GetStops
  let t ← TimeBetweenStops tr.bus_velocity_ bus_stops stops i j
  let si ← vecAt bus_stops i
  let r_i := umapIndex tr.stop_to_id si
  let sj ← vecAt bus_stops j
  let r_j := umapIndex r_i.2 sj
  pure { tr with
    stop_to_id := r_j.2
    graph_ := tr.graph_.AddEdge { from_ := r_i.1, to_ := r_j.1, weight := t + tr.bus_wait_time_ }
    edge_to_info := tr.edge_to_info ++ [(bus.GetName, toInt32 ((j : Int) - i))] }

/-- The body of the `<--` loops of the constructor for positions `i < j`: the
edge goes from the stop at `j` to the stop at `i`. -/
def backwardEdge (stops : StopMap) (bus : Bus) (tr : TransportRouter) (i j : Nat) :
    Except Err TransportRouter := do
  let bus_stops := bus.GetStops
  let t ← TimeBetweenStops tr.bus_velocity_ bus_stops stops j i
  let sj ← vecAt bus_stops j
  let r_j := umapIndex tr.stop_to_id sj
  let si ← vecAt bus_stops i
  let r_i := umapIndex r_j.2 si
  pure { tr with
    stop_to_id := r_i.2
    graph_ := tr.graph_.AddEdge { from_ := r_j.1, to_ := r_i.1, weight := t + tr.bus_wait_time_ }
    edge_to_info := tr.edge_to_info ++ [(bus.GetName, toInt32 ((j : Int) - i))] }

/-- The loop nest `for (size_t i = 0; i < bus_stops_size - 1; i++)
for (size_t j = i + 1; j < bus_stops_size; j++)` around a body.  The outer
bound is computed in `size_t`. -/
def pairLoop (bus_stops_size : Nat) (body : TransportRouter → Nat → Nat → Except Err TransportRouter)
    (tr : TransportRouter) : Except Err TransportRouter :=
  (List.range (toSizeT ((bus_stops_size : Int) - 1))).foldlM
    (fun tr i =>
      (List.range' (i + 1) (bus_stops_size - (i + 1))).foldlM (fun tr j => body tr i j) tr)
    tr

/-- The body of the loop over the buses in the constructor. -/
def addBus (stops : StopMap) (tr : TransportRouter) (bus : Bus) : Except Err TransportRouter :=
  match bus.GetType with
  | .ROUND => pairLoop bus.GetStops.length (forwardEdge stops bus) tr
  | .TWOWAY => do
    let tr ← pairLoop bus.GetStops.length (forwardEdge stops bus) tr
    pairLoop bus.GetStops.length (backwardEdge stops bus) tr

/-- One iteration of the loop over the stops in the constructor:
`stop_to_id.insert({k, unique_v_id++}); id_to_stop.push_back(k);`. -/
def vertexStep (s : TransportRouter × Nat) (kv : String × Stop) : TransportRouter × Nat :=
  ({ s.1 with
      stop_to_id := umapInsert s.1.stop_to_id kv.1 s.2
      id_to_stop := s.1.id_to_stop ++ [kv.1] }, s.2 + 1)

/-- The loop over the stops in the constructor: each key, in the map's order,
gets the next vertex id. -/
def addVertices (stops : StopMap) (tr : TransportRouter) : TransportRouter × Nat :=
  stops.foldl vertexStep (tr, 0)

/-- The constructor `TransportRouter(buses, stops, router_settings)`. -/
def TransportRouter.new (buses : List (String × Bus)) (stops : StopMap)
    (router_settings : RouterSettings) : Except Err TransportRouter :=
  let vertex_count := toInt32 stops.length
  let tr : TransportRouter :=
    { graph_ := { vertex_count := toSizeT vertex_count }
      bus_wait_time_ := router_settings.bus_wait_time
      bus_velocity_ := router_settings.bus_velocity
      pedestrian_velocity_ := router_settings.pedestrian_velocity }
  let tr := (addVertices stops tr).1
  buses.foldlM (fun tr kb => addBus stops tr kb.2) tr

/-- Modelled from the spec: the answer of the shortest path engine for a vertex
pair (`Graph::Router::RouteInfo` of `router.h`, not among the sources, with the
edges `GetRouteEdge` enumerates): the weight of the route and its edge ids in
order. -/
structure RouterRoute where
  weight : ℚ
  edges : List Nat
  deriving DecidableEq, Repr

/-- The items of an itinerary (`StopItem` is the wait at a stop, `BusItem` the
ride). -/
inductive RouteItem where
  | BusItem (name stop_beg stop_end : String) (span_count : Int) (time : ℚ)
  | StopItem (name : String) (time : ℚ)
  | WalkItem (stop_name : String) (time : ℚ)
  | WaitItem (time : ℚ)
  deriving DecidableEq, Repr

def RouteItem.time : RouteItem → ℚ
  | .BusItem _ _ _ _ t => t
  | .StopItem _ t => t
  | .WalkItem _ t => t
  | .WaitItem t => t

/-- `TransportRouter::RouteInfo` (total time, the company of a route to a
company, and items). -/
structure RouteInfo where
  total_time : ℚ := 0
  company : Option Company := none
  items : List RouteItem := []
  deriving DecidableEq, Repr

/-- One iteration of the loop of `TransportRouter::BuildRoute`: the two items
of the edge `edge_id`. -/
def routeStep (tr : TransportRouter) (items : List RouteItem) (edge_id : Nat) :
    Except Err (List RouteItem) := do
  let e ← tr.graph_.GetEdge edge_id
  let e_from ← vecAt tr.id_to_stop e.from_
  let e_to ← vecAt tr.id_to_stop e.to_
  let info ← vecAt tr.edge_to_info edge_id
  pure (items ++
    [RouteItem.StopItem e_from (tr.bus_wait_time_ : ℚ),
     RouteItem.BusItem info.1 e_from e_to info.2 (e.weight - (tr.bus_wait_time_ : ℚ))])

/-- `TransportRouter::BuildRoute(from, to)`.  `engine` is `router_`: its answer
for a pair of vertex ids.  The result is the optional route and the router
after the call (`stop_to_id[...]` may insert). -/
def TransportRouter.BuildRoute (engine : Nat → Nat → Option RouterRoute)
    (tr : TransportRouter) (from_ to_ : String) :
    Except Err (Option RouteInfo × TransportRouter) :=
  let r_from := umapIndex tr.stop_to_id from_
  let r_to := umapIndex r_from.2 to_
  let tr' := { tr with stop_to_id := r_to.2 }
  match engine r_from.1 r_to.1 with
  | none => pure (none, tr')
  | some route => do
    let items ← route.edges.foldlM (routeStep tr') []
    pure (some { total_time := route.weight, items := items }, tr')

/-! ## Specification side definitions for the route graph -/

/-- The vertex id the table `stop_to_id` records for a stop name. -/
def vertexOf (m : List (String × Nat)) (name : String) : Nat := (m.lookup name).getD 0

/-- The position pairs `(i, j)`, `i < j < n`, in the order of the loop nest. -/
def positionPairs (n : Nat) : List (Nat × Nat) :=
  (List.range (n - 1)).flatMap
    (fun i => (List.range' (i + 1) (n - (i + 1))).map (fun j => (i, j)))

/-- The riding time over the positions `i .. j` in the listed direction: the
road distances of the steps `(s[k], s[k+1])`, `i ≤ k < j`, over the velocity. -/
def forwardTime (v : ℚ) (stops : StopMap) (s : List String) (i j : Nat) : ℚ :=
  (∑ k ∈ Finset.Ico i j, (roadDistance stops (s.getD k "") (s.getD (k + 1) "") : ℚ)) / v

/-- The riding time from position `j` back to position `i`: the road distances
of the steps `(s[k], s[k-1])`, `i < k ≤ j`, over the velocity. -/
def backwardTime (v : ℚ) (stops : StopMap) (s : List String) (i j : Nat) : ℚ :=
  (∑ k ∈ Finset.Ico (i + 1) (j + 1),
    (roadDistance stops (s.getD k "") (s.getD (k - 1) "") : ℚ)) / v

/-- The router with a list of edges, each with its side-data, appended. -/
def pushEdges (tr : TransportRouter) (l : List (Edge × (String × Int))) : TransportRouter :=
  { tr with
    graph_ := { tr.graph_ with edges := tr.graph_.edges ++ l.map Prod.fst }
    edge_to_info := tr.edge_to_info ++ l.map Prod.snd }

/-- The edge of the listed direction for the positions `ij.1 < ij.2` of a bus,
with its side-data `(bus name, ij.2 - ij.1)`. -/
def forwardEdgeOf (tr : TransportRouter) (stops : StopMap) (bus : Bus) (ij : Nat × Nat) :
    Edge × (String × Int) :=
  ({ from_ := vertexOf tr.stop_to_id (bus.stops_.getD ij.1 "")
     to_ := vertexOf tr.stop_to_id (bus.stops_.getD ij.2 "")
     weight := (tr.bus_wait_time_ : ℚ) + forwardTime tr.bus_velocity_ stops bus.stops_ ij.1 ij.2 },
   (bus.name_, (ij.2 : Int) - ij.1))

/-- The edge of the reverse direction for the positions `ij.1 < ij.2` of a bus:
from the stop at `ij.2` to the stop at `ij.1`. -/
def backwardEdgeOf (tr : TransportRouter) (stops : StopMap) (bus : Bus) (ij : Nat × Nat) :
    Edge × (String × Int) :=
  ({ from_ := vertexOf tr.stop_to_id (bus.stops_.getD ij.2 "")
     to_ := vertexOf tr.stop_to_id (bus.stops_.getD ij.1 "")
     weight := (tr.bus_wait_time_ : ℚ) + backwardTime tr.bus_velocity_ stops bus.stops_ ij.1 ij.2 },
   (bus.name_, (ij.2 : Int) - ij.1))

/-- The edges a bus contributes, in the order they are added. -/
def busEdges (tr : TransportRouter) (stops : StopMap) (bus : Bus) : List (Edge × (String × Int)) :=
  match bus.type_ with
  | .ROUND => (positionPairs bus.stops_.length).map (forwardEdgeOf tr stops bus)
  | .TWOWAY =>
    (positionPairs bus.stops_.length).map (forwardEdgeOf tr stops bus) ++
    (positionPairs bus.stops_.length).map (backwardEdgeOf tr stops bus)

/-- Every stop name of the list has a vertex id in the table. -/
def Covers (m : List (String × Nat)) (s : List String) : Prop :=
  ∀ name ∈ s, (m.lookup name).isSome


/-- The router after the loop over the stops: vertex `i` is the `i`-th key of
the stop map, and no edge has been added yet. -/
def vertexRouter (stops : StopMap) (rs : RouterSettings) : TransportRouter :=
  { graph_ := { vertex_count := stops.length, edges := [] }
    bus_wait_time_ := rs.bus_wait_time
    bus_velocity_ := rs.bus_velocity
    pedestrian_velocity_ := rs.pedestrian_velocity
    stop_to_id := List.zip (stops.map Prod.fst) (List.range' 0 stops.length)
    id_to_stop := stops.map Prod.fst
    edge_to_info := [] }

/-- The catalog invariants the constructor relies on: the stop map iterates in
strictly ascending key order, and every bus lists existing stops with a road
distance, in at least one direction, between consecutive ones. -/
def CatalogOk (buses : List (String × Bus)) (stops : StopMap) : Prop :=
  (stops.map Prod.fst).Sorted (· < ·) ∧ stops.length < 2 ^ 31 ∧
  ∀ kb ∈ buses, RouteOk stops kb.2.stops_ ∧ kb.2.stops_.length < 2 ^ 31

/-- Scenario: stops A, B, C with road distances A→B = 500 and B→C = 500. -/
def abcStops : StopMap :=
  [("A", Stop.new "A" 0 0 [("B", 500)]), ("B", Stop.new "B" 0 0 [("C", 500)]),
   ("C", Stop.new "C" 0 0 [])]

/-- Scenario: the bus `B1` over A, B, C, listed one way and ridden both ways. -/
def abcBuses : List (String × Bus) := [("B1", Bus.new "B1" ["A", "B", "C"] .TWOWAY)]

/-- Scenario: wait 2 minutes, bus velocity 1000 metres per minute. -/
def abcSettings : RouterSettings :=
  { bus_wait_time := 2, bus_velocity := 1000, pedestrian_velocity := 100 }

/-- The edge id names an edge of the graph whose end points are vertices with
a name and which has side-data. -/
def ValidEdge (tr : TransportRouter) (edge_id : Nat) : Prop :=
  ∃ e, tr.graph_.edges[edge_id]? = some e ∧ e.from_ < tr.id_to_stop.length ∧
    e.to_ < tr.id_to_stop.length ∧ edge_id < tr.edge_to_info.length

/-- The wait item of an edge: wait at the source stop for `bus_wait_time`. -/
def waitItemOf (tr : TransportRouter) (edge_id : Nat) : RouteItem :=
  let e := tr.graph_.edges.getD edge_id { from_ := 0, to_ := 0, weight := 0 }
  RouteItem.StopItem (tr.id_to_stop.getD e.from_ "") (tr.bus_wait_time_ : ℚ)

/-- The ride item of an edge: the bus and span of its side-data, from its
source stop to its target stop, for the weight less the wait time. -/
def rideItemOf (tr : TransportRouter) (edge_id : Nat) : RouteItem :=
  let e := tr.graph_.edges.getD edge_id { from_ := 0, to_ := 0, weight := 0 }
  let info := tr.edge_to_info.getD edge_id ("", 0)
  RouteItem.BusItem info.1 (tr.id_to_stop.getD e.from_ "") (tr.id_to_stop.getD e.to_ "") info.2
    (e.weight - (tr.bus_wait_time_ : ℚ))

/-! ## The shortest path engine -/

/-- Modelled from the spec: how an entry of the routes table of `router.h` was
obtained, from a single edge or by joining two routes at a midpoint. -/
inductive Hop where
  | edge (id : Nat)
  | mid (k : Nat)
  deriving DecidableEq, Repr

/-- Modelled from the spec: an entry of the routes table of `router.h`, the
total weight and how to split the route. -/
structure RouteEntry where
  weight : ℚ
  hop : Hop
  deriving DecidableEq, Repr

/-- Modelled from the spec: the routes table of the shortest path engine
(`Graph::Router` of `router.h`, which is not among the sources), with entries
indexed by the vertex pair `(from, to)`; a pair without a route has no entry. -/
abbrev RoutesTable := Nat → Nat → Option RouteEntry

/-- Modelled from the spec: the entry of the end points of an edge after the
edge, of id `id` and weight `w`, has been offered to the routes table of
`router.h`: the edge, unless a lighter or equally light one is already there. -/
def initVal (z : Option RouteEntry) (id : Nat) (w : ℚ) : Option RouteEntry :=
  match z with
  | none => some { weight := w, hop := .edge id }
  | some old =>
    if w < old.weight then some { weight := w, hop := .edge id } else some old

/-- Modelled from the spec: "initialize with direct edges" in the engine of
`router.h`.  The edge `p.2` with id `p.1` is offered to the entry of its end
points. -/
def initEdge (T : RoutesTable) (p : Nat × Edge) : RoutesTable :=
  fun a b =>
    if a = p.2.from_ ∧ b = p.2.to_ then initVal (T p.2.from_ p.2.to_) p.1 p.2.weight
    else T a b

/-- Modelled from the spec: the routes table of `router.h` after the
initialization with the direct edges, offered in the order of their ids. -/
def initTable (edges : List Edge) : RoutesTable :=
  edges.enum.foldl initEdge (fun _ _ => none)

/-- Modelled from the spec: the entry of `(i, j)` in the routes table of
`router.h` after its relaxation through `k`, from the entries `x` of `(i, k)`,
`y` of `(k, j)` and `z` of `(i, j)`. -/
def relaxVal (x y z : Option RouteEntry) (k : Nat) : Option RouteEntry :=
  match x, y with
  | some a, some b =>
    match z with
    | none => some { weight := a.weight + b.weight, hop := .mid k }
    | some c =>
      if a.weight + b.weight < c.weight then
        some { weight := a.weight + b.weight, hop := .mid k }
      else some c
  | _, _ => z

/-- Modelled from the spec: the step of the engine of `router.h`, "relax (i,j) if
w(i,k)+w(k,j) < w(i,j), recording that the midpoint was k"; a missing entry
counts as an infinite weight.  Only the entry of `(i, j)` is written. -/
def relax (T : RoutesTable) (k i j : Nat) : RoutesTable :=
  fun a b => if a = i ∧ b = j then relaxVal (T i k) (T k j) (T i j) k else T a b

/-- Modelled from the spec: the relaxation, in the routes table of `router.h`, of
every pair `(i, j)` through the intermediate vertex `k`. -/
def relaxPhase (n : Nat) (T : RoutesTable) (k : Nat) : RoutesTable :=
  ((List.range n).product (List.range n)).foldl (fun U p => relax U k p.1 p.2) T

/-- Modelled from the spec: "for each intermediate vertex k relax (i,j)", the
main loop of the engine of `router.h`. -/
def relaxAll (n : Nat) (T : RoutesTable) : RoutesTable :=
  (List.range n).foldl (relaxPhase n) T

/-- Modelled from the spec: the path reconstruction of `router.h`, which "splits
(i,j) around its midpoint k recursively, reaching base cases that are single
edges".  The recursion depth is bounded by `fuel`. -/
def expandRoute (T : RoutesTable) : Nat → Nat → Nat → Option (List Nat)
  | 0, _, _ => none
  | fuel + 1, i, j =>
    match T i j with
    | none => none
    | some e =>
      match e.hop with
      | .edge id => some [id]
      | .mid k =>
        match expandRoute T fuel i k, expandRoute T fuel k j with
        | some a, some b => some (a ++ b)
        | _, _ => none

/-- Modelled from the spec: the query of the shortest path engine
(`Graph::Router::BuildRoute` of `router.h`, not among the sources): no route
when the pair has no entry, else the weight of the entry and the reconstructed
edge sequence. -/
def Router.BuildRoute (g : DirectedWeightedGraph) (from_ to_ : Nat) : Option RouterRoute :=
  let T := relaxAll g.vertex_count (initTable g.edges)
  match T from_ to_ with
  | none => none
  | some e =>
    (expandRoute T (g.vertex_count + 1) from_ to_).map
      (fun edges => { weight := e.weight, edges := edges })

/-! ## Invariants of the routes table -/

/-- Every entry has a non-negative weight. -/
def TblNonneg (T : RoutesTable) : Prop :=
  ∀ i j e, T i j = some e → 0 ≤ e.weight

/-- Every entry weighs at least `w`. -/
def TblAtLeast (w : ℚ) (T : RoutesTable) : Prop :=
  ∀ i j e, T i j = some e → w ≤ e.weight

/-- An entry obtained from a single edge carries the weight of that edge. -/
def TblDirect (edges : List Edge) (T : RoutesTable) : Prop :=
  ∀ i j e id, T i j = some e → e.hop = .edge id →
    ∃ ed, edges[id]? = some ed ∧ ed.weight = e.weight

/-- An entry with a midpoint `k` lies within the table, both halves have an
entry, and the halves together weigh no more than the entry. -/
def TblMid (n : Nat) (T : RoutesTable) : Prop :=
  ∀ i j e k, T i j = some e → e.hop = .mid k →
    i < n ∧ j < n ∧ k < n ∧
    ∃ a b, T i k = some a ∧ T k j = some b ∧ a.weight + b.weight ≤ e.weight

/-- The table is closed under relaxation through every vertex below `k`. -/
def TblClosed (n k : Nat) (T : RoutesTable) : Prop :=
  ∀ m i j a b, m < k → i < n → j < n → T i m = some a → T m j = some b →
    ∃ c, T i j = some c ∧ c.weight ≤ a.weight + b.weight

/-- The weight of the edge with the given id. -/
def edgeWeight (edges : List Edge) (id : Nat) : ℚ :=
  (edges.getD id { from_ := 0, to_ := 0, weight := 0 }).weight

/-- Every entry of the table is a single edge of the graph, with the weight of
that edge, which is at least `w`. -/
def TblInit (edges : List Edge) (w : ℚ) (T : RoutesTable) : Prop :=
  ∀ i j e, T i j = some e →
    w ≤ e.weight ∧ ∃ id ed, e.hop = .edge id ∧ edges[id]? = some ed ∧ ed.weight = e.weight

/-- The invariants of the routes table after the relaxation through the
vertices below `k`. -/
def TblInv (edges : List Edge) (w : ℚ) (n k : Nat) (T : RoutesTable) : Prop :=
  TblAtLeast w T ∧ TblDirect edges T ∧ TblMid n T ∧ TblClosed n k T

/-- Every recorded road distance of the catalog is non-negative. -/
def DistancesNonneg (stops : StopMap) : Prop :=
  ∀ kv ∈ stops, ∀ nd ∈ kv.2.distances_, 0 ≤ nd.2

/-- Scenario: the router of the catalog A, B, C with the bus B1. -/
def abcRouter : TransportRouter :=
  pushEdges (vertexRouter abcStops abcSettings)
    (abcBuses.flatMap (fun kb => busEdges (vertexRouter abcStops abcSettings) abcStops kb.2))

/-- Scenario: stops A, B, C with road distances A→B = 0 and B→C = 0. -/
def zeroStops : StopMap :=
  [("A", Stop.new "A" 0 0 [("B", 0)]), ("B", Stop.new "B" 0 0 [("C", 0)]),
   ("C", Stop.new "C" 0 0 [])]

/-- Scenario: one bus over A, B, C, listed as a ROUND route. -/
def zeroBuses : List (String × Bus) := [("R", Bus.new "R" ["A", "B", "C"] .ROUND)]

/-- Scenario: a wait time of −1 with a positive velocity. -/
def negativeWait : RouterSettings :=
  { bus_wait_time := -1, bus_velocity := 1, pedestrian_velocity := 1 }

/-- The total time of the route `BuildRoute(from, to)` returns on the router
built from a catalog, when both the construction and the query succeed. -/
def routeTotalTime (buses : List (String × Bus)) (stops : StopMap) (rs : RouterSettings)
    (from_ to_ : String) : Option ℚ :=
  match TransportRouter.new buses stops rs with
  | .ok tr =>
    match tr.BuildRoute (Router.BuildRoute tr.graph_) from_ to_ with
    | .ok (some info, _) => some info.total_time
    | _ => none
  | .error _ => none

/-- Every midpoint of the table is below `k`, and the halves of an entry with
midpoint `m` are single edges or have midpoints below `m`. -/
def TblDesc (k : Nat) (T : RoutesTable) : Prop :=
  ∀ i j e m, T i j = some e → e.hop = .mid m →
    m < k ∧
    (∀ a m', T i m = some a → a.hop = .mid m' → m' < m) ∧
    (∀ b m', T m j = some b → b.hop = .mid m' → m' < m)

/-- The recursion depth the reconstruction of an entry needs at most. -/
def hopRank : Hop → Nat
  | .edge _ => 0
  | .mid m => m + 1

/-! ## Walks of the graph and the routes table under arbitrary weights -/

/-- A walk of the graph: the ids of consecutive edges that lead from the first
vertex to the last, every vertex passed on the way satisfying `G`. -/
inductive Walk (edges : List Edge) (G : Nat → Prop) : Nat → List Nat → Nat → Prop where
  | single (i j id : Nat) (ed : Edge) :
      edges[id]? = some ed → ed.from_ = i → ed.to_ = j → Walk edges G i [id] j
  | cons (i v j id : Nat) (ed : Edge) (rest : List Nat) :
      edges[id]? = some ed → ed.from_ = i → ed.to_ = v → G v → Walk edges G v rest j →
      Walk edges G i (id :: rest) j

/-- The weight of a sequence of edges. -/
def walkWeight (edges : List Edge) (ids : List Nat) : ℚ :=
  (ids.map (edgeWeight edges)).sum

/-- Every entry of the second table has an entry in the first that weighs no
more. -/
def TblLe (T' T : RoutesTable) : Prop :=
  ∀ i j e, T i j = some e → ∃ e', T' i j = some e' ∧ e'.weight ≤ e.weight

/-- The entry, if there is one, was obtained by joining two routes. -/
def NotEdge (z : Option RouteEntry) : Prop :=
  ∀ e, z = some e → ∃ m, e.hop = .mid m

/-- An entry obtained from a single edge names an edge between its end points
and carries the weight of that edge. -/
def TblEdge (edges : List Edge) (T : RoutesTable) : Prop :=
  ∀ i j e id, T i j = some e → e.hop = .edge id →
    ∃ ed, edges[id]? = some ed ∧ ed.from_ = i ∧ ed.to_ = j ∧ ed.weight = e.weight

/-- Every pair of vertices joined by a walk through vertices of `G` has an entry
that weighs no more than the walk. -/
def TblWalks (edges : List Edge) (n : Nat) (G : Nat → Prop) (T : RoutesTable) : Prop :=
  ∀ i j ids, i < n → j < n → Walk edges G i ids j →
    ∃ e, T i j = some e ∧ e.weight ≤ walkWeight edges ids

/-- The column of a vertex below `p` that is not in `G` holds no entry obtained
from a single edge. -/
def TblDead (n p : Nat) (G : Nat → Prop) (T : RoutesTable) : Prop :=
  ∀ v, v < p → ¬ G v → ∀ x, x < n → NotEdge (T x v)

/-- The invariants of the routes table after the relaxation through the
vertices below `p`, whatever the sign of the weights: `G` holds the vertices
below `p` whose diagonal entry was not negative when they were relaxed
through. -/
def TblGen (edges : List Edge) (n p : Nat) (G : Nat → Prop) (T : RoutesTable) : Prop :=
  (∀ v, G v → v < p) ∧ TblEdge edges T ∧ TblMid n T ∧ TblWalks edges n G T ∧ TblDead n p G T

/-- Scenario: the router of the catalog A, B, C with road distances 0 and the
bus R, built with a wait time of −1: every edge weighs −1. -/
def zeroRouter : TransportRouter :=
  pushEdges (vertexRouter zeroStops negativeWait)
    (zeroBuses.flatMap (fun kb => busEdges (vertexRouter zeroStops negativeWait) zeroStops kb.2))

/-! ## transport_router.h: routes to a company -/

/-- `TransportRouter::BuildRouteToCompany`: the route to the nearby stop (the
value-initialised `RouteInfo()` when `from_` is that stop), then the walk from
the stop to the company. -/
def TransportRouter.BuildRouteToCompany (engine : Nat → Nat → Option RouterRoute)
    (tr : TransportRouter) (from_ : String) (stop : NearbyStop) :
    Except Err (Option RouteInfo × TransportRouter) := do
  let r ←
    if from_ ≠ stop.name then tr.BuildRoute engine from_ stop.name
    else pure (some ({} : RouteInfo), tr)
  match r.1 with
  | none => pure (none, r.2)
  | some route_info =>
    let walk_time : ℚ := (stop.meters : ℚ) / r.2.pedestrian_velocity_
    pure (some { route_info with
                  total_time := route_info.total_time + walk_time
                  items := route_info.items ++ [RouteItem.WalkItem stop.name walk_time] },
          r.2)

/-! ## database.cpp: company search -/

/-- `DoesPhoneMatch` of `database.cpp`. -/
def DoesPhoneMatch (query_phone : QueryPhone) (object : Phone) : Bool :=
  if query_phone.extension ≠ "" ∧ query_phone.extension ≠ object.extension then false
  else if (match query_phone.type with
           | some t => decide (t ≠ object.type)
           | none => false) then false
  else if query_phone.country_code ≠ "" ∧
      query_phone.country_code ≠ object.country_code then false
  else if (query_phone.local_code ≠ "" ∨ query_phone.country_code ≠ "") ∧
      query_phone.local_code ≠ object.local_code then false
  else decide (query_phone.number = object.number)

/-- The request fields of `class QueryCompanyRequestBase` (`request.h`). -/
structure QueryCompanyRequestBase where
  names_ : List String
  urls_ : List String
  rubrics_ : List String
  phones_ : List QueryPhone
  deriving DecidableEq, Repr

/-- `QueryCompanyRequestBase::BuildRubricsNum`: `um.at(rubric)` for every
queried rubric name, in order; `at` throws on an unknown name. -/
def QueryCompanyRequestBase.BuildRubricsNum (req : QueryCompanyRequestBase)
    (um : List (String × Nat)) : Except Err (List Nat) :=
  req.rubrics_.foldlM
    (fun rubrics_num rubric => do
      let num ← mapAt um rubric
      pure (rubrics_num ++ [num]))
    []

/-- The inner loop of one criterion of `FilterCompaniesByRequest`: the entries
of the company are compared with one filter value, `found = true; break` at the
first equal one. -/
def innerLoop {α β : Type} (eq : β → α → Bool) (filter : α) : List β → Bool → Bool
  | [], found => found
  | x :: xs, found => if eq x filter then true else innerLoop eq filter xs found

/-- The outer loop of one criterion of `FilterCompaniesByRequest`: over the
filter values, leaving at `if (found) break`. -/
def criterionLoop {α β : Type} (eq : β → α → Bool) (objs : List β) : List α → Bool → Bool
  | [], found => found
  | f :: fs, found =>
    let found := innerLoop eq f objs found
    if found then found else criterionLoop eq objs fs found

/-- The body of the loop over `companies_` in `FilterCompaniesByRequest`; a
`continue` leaves `res` as it is. -/
def filterStep (rubrics_num : List Nat) (req : QueryCompanyRequestBase)
    (res : List Company) (company : Company) : List Company :=
  let good := true
  let found := criterionLoop (fun (name : Name) name_filter => name.value == name_filter)
    company.names req.names_ (false || req.names_.isEmpty)
  let good := good && found
  if !good then res else
  let found := criterionLoop (fun (url : String) url_filter => url == url_filter)
    company.urls req.urls_ (false || req.urls_.isEmpty)
  let good := good && found
  if !good then res else
  let found := criterionLoop (fun (rubric : Nat) rubric_filter => rubric == rubric_filter)
    company.rubrics rubrics_num (false || req.rubrics_.isEmpty)
  let good := good && found
  if !good then res else
  let found := criterionLoop (fun (phone : Phone) phone_filter => DoesPhoneMatch phone_filter phone)
    company.phones req.phones_ (false || req.phones_.isEmpty)
  let good := good && found
  if good then res ++ [company] else res

/-- `Database::FilterCompaniesByRequest` over the members `rubrics_` (rubric
name to id) and `companies_` of the database. -/
def FilterCompaniesByRequest (rubrics_ : List (String × Nat)) (companies_ : List Company)
    (req : QueryCompanyRequestBase) : Except Err (List Company) := do
  let rubrics_num ← req.BuildRubricsNum rubrics_
  pure (companies_.foldl (filterStep rubrics_num req) [])

/-- The matching condition of the specification: every non-empty criterion of
the query is met by some entry of the company. -/
def MatchesQuery (rubrics_ : List (String × Nat)) (req : QueryCompanyRequestBase)
    (c : Company) : Prop :=
  (req.names_ = [] ∨ ∃ n ∈ c.names, ∃ q ∈ req.names_, n.value = q) ∧
  (req.urls_ = [] ∨ ∃ u ∈ c.urls, ∃ q ∈ req.urls_, u = q) ∧
  (req.rubrics_ = [] ∨ ∃ r ∈ c.rubrics, ∃ q ∈ req.rubrics_, rubrics_.lookup q = some r) ∧
  (req.phones_ = [] ∨ ∃ p ∈ c.phones, ∃ q ∈ req.phones_, DoesPhoneMatch q p = true)

instance (rubrics_ : List (String × Nat)) (req : QueryCompanyRequestBase) :
    DecidablePred (MatchesQuery rubrics_ req) := by
  intro c; unfold MatchesQuery; infer_instance

/-- Scenario: the rubric dictionary Food = 1, Books = 2. -/
def foodRubrics : List (String × Nat) := [("Food", 1), ("Books", 2)]

/-- Scenario: a company with one main name, one phone and one rubric. -/
def sampleCompany (name : String) (type : PhoneType) (number : String) (rubric : Nat) :
    Company :=
  { address := { formatted := "", components := [], coords := { lat := 0, lon := 0 },
                 comment := "" }
    names := [{ value := name, type := .Main }]
    phones := [{ formatted := "", type := type, country_code := "7", local_code := "812",
                 number := number, extension := "", description := "" }]
    urls := []
    rubrics := [rubric]
    working_time := { is_everyday := true, intervals := [] }
    nearby_stops := [] }

/-- Scenario: a cafe (Food, phone 1234), a canteen (Food, fax 1234), a book shop
(Books, phone 1234) and a bakery (Food, phone 5678). -/
def foodCompanies : List Company :=
  [sampleCompany "Cafe" .Phone "1234" 1, sampleCompany "Canteen" .Fax "1234" 1,
   sampleCompany "Books" .Phone "1234" 2, sampleCompany "Bakery" .Phone "5678" 1]

/-- Scenario: the query for the rubric Food and the phone 1234 of type PHONE. -/
def foodQuery : QueryCompanyRequestBase :=
  { names_ := [], urls_ := [], rubrics_ := ["Food"]
    phones_ := [{ formatted := "", type := some .Phone, country_code := "", local_code := "",
                  number := "1234", extension := "", description := "" }] }

/-! ## company.cpp: waiting for a company to open -/

/-- `static_cast<int>(x)` on a `double`: the fractional part is discarded, the
value is truncated toward zero. The result is not reduced to 32 bits (outside
the range of `int` the cast is undefined). -/
def truncToInt (x : ℚ) : Int := if 0 ≤ x then ⌊x⌋ else ⌈x⌉

/-- `std::fmod(x, y)` in exact arithmetic: `x - n * y`, where `n` is `x / y`
truncated toward zero. -/
def fmod (x y : ℚ) : ℚ := x - (truncToInt (x / y) : ℚ) * y

/-- The loop of `std::upper_bound(first, last, value, comp)`, a binary search
over the positions `first .. first + len`. `comp e` stands for `comp(value, e)`;
every round at least halves `len`, so `fuel = len` rounds are enough. -/
def upperBoundLoop {α : Type} (comp : α → Bool) (xs : List α) : Nat → Nat → Nat → Nat
  | 0, first, _ => first
  | fuel + 1, first, len =>
    if len = 0 then first
    else
      let half := len / 2
      let middle := first + half
      match xs[middle]? with
      | some e =>
        if comp e then upperBoundLoop comp xs fuel first half
        else upperBoundLoop comp xs fuel (middle + 1) (len - half - 1)
      | none => first

/-- `std::upper_bound` over a whole vector: the position it returns, the length
of the vector standing for `end()`. -/
def upperBound {α : Type} (comp : α → Bool) (xs : List α) : Nat :=
  upperBoundLoop comp xs xs.length 0 xs.length

/-- The value of `finish` after the first step of `WaitForCompanyOpen`: folded
into the day by `fmod` when the company works every day. -/
def Company.foldFinish (c : Company) (finish : ℚ) : ℚ :=
  if c.working_time.is_everyday then fmod finish 1440 else finish

/-- `Company::WaitForCompanyOpen`. The search compares
`static_cast<int>(finish) < e.minutes_to`. -/
def Company.WaitForCompanyOpen (c : Company) (finish : ℚ) : ℚ :=
  match c.working_time.intervals with
  | [] => 0
  | first :: _ =>
    let finish := c.foldFinish finish
    let it := upperBound
      (fun (e : WorkingTimeInterval) => decide (truncToInt finish < e.minutes_to))
      c.working_time.intervals
    match c.working_time.intervals[it]? with
    | some e =>
      if finish ≥ (e.minutes_from : ℚ) then 0
      else (e.minutes_from : ℚ) - finish
    | none =>
      if c.working_time.is_everyday then
        1440 - finish + (first.minutes_from : ℚ)
      else
        7 * 1440 - finish + (first.minutes_from : ℚ)

/-- Scenario: a company with the given working time and nothing else. -/
def companyWith (is_everyday : Bool) (intervals : List WorkingTimeInterval) : Company :=
  { address := { formatted := "", components := [], coords := { lat := 0, lon := 0 },
                 comment := "" }
    names := [], phones := [], urls := [], rubrics := []
    working_time := { is_everyday := is_everyday, intervals := intervals }
    nearby_stops := [] }

/-- The intervals are in ascending order of `minutes_to`. -/
def SortedByTo (intervals : List WorkingTimeInterval) : Prop :=
  intervals.Pairwise (fun a b => a.minutes_to ≤ b.minutes_to)

/-- The intervals are in ascending order of `minutes_from`. -/
def SortedByFrom (intervals : List WorkingTimeInterval) : Prop :=
  intervals.Pairwise (fun a b => a.minutes_from ≤ b.minutes_from)

instance : DecidablePred SortedByTo := by
  intro l; unfold SortedByTo; infer_instance

instance : DecidablePred SortedByFrom := by
  intro l; unfold SortedByFrom; infer_instance

/-- The period of the working time, the constant of the wrap in
`WaitForCompanyOpen`: a day of 1440 minutes when the company works every day,
else a week. -/
def Company.period (c : Company) : ℚ :=
  if c.working_time.is_everyday then 1440 else 7 * 1440

/-- Scenario: open every day from 540 to 720. -/
def morningCompany : Company := companyWith true [⟨540, 720⟩]

/-- Scenario: open every day from 540 to 720 and from 900 to 1080. -/
def twoShiftCompany : Company := companyWith true [⟨540, 720⟩, ⟨900, 1080⟩]

/-- Scenario: an interval of length zero at 720, every day. -/
def instantCompany : Company := companyWith true [⟨720, 720⟩]

/-- Scenario: weekly intervals in ascending order of `minutes_to` of which the
second starts before the first. -/
def overlapCompany : Company := companyWith false [⟨500, 600⟩, ⟨100, 700⟩]

/-- Scenario: a weekly interval before the start of the week. -/
def negativeCompany : Company := companyWith false [⟨-80, -50⟩]

/-! ## request.h, database_yellow_pages.cpp: the yellow pages of make_base -/

/-- Modelled from the spec: `Json::Node` of `json.h`, which is not among the
sources: a JSON value, one of int, double, bool, string, array and map (a
`std::map`, keys in ascending order), whose accessor `AsX` throws when the node
holds another kind of value. -/
inductive Node where
  | int (v : Int)
  | double (v : ℚ)
  | bool (v : Bool)
  | string (v : String)
  | array (v : List Node)
  | map (v : List (String × Node))

/-- Modelled from the spec: `Node::AsMap` of `json.h`. -/
def Node.AsMap : Node → Except Err (List (String × Node))
  | .map m => .ok m
  | _ => .error .bad_variant_access

/-- Modelled from the spec: `Node::AsArray` of `json.h`. -/
def Node.AsArray : Node → Except Err (List Node)
  | .array l => .ok l
  | _ => .error .bad_variant_access

/-- Modelled from the spec: `Node::AsString` of `json.h`. -/
def Node.AsString : Node → Except Err String
  | .string s => .ok s
  | _ => .error .bad_variant_access

/-- Modelled from the spec: `Node::AsInt` of `json.h`. -/
def Node.AsInt : Node → Except Err Int
  | .int v => .ok v
  | _ => .error .bad_variant_access

/-- The chain of comparisons of `day` in `YellowPagesRequest::ParseFromJson`:
the start of the day in minutes from the start of the week, `none` when no
branch assigns `wti`. -/
def dayStart (day : String) : Option Int :=
  if day = "MONDAY" then some (0 * 1440)
  else if day = "TUESDAY" then some (1 * 1440)
  else if day = "WEDNESDAY" then some (2 * 1440)
  else if day = "THURSDAY" then some (3 * 1440)
  else if day = "FRIDAY" then some (4 * 1440)
  else if day = "SATURDAY" then some (5 * 1440)
  else if day = "SUNDAY" then some (6 * 1440)
  else none

/-- The body of the loop over `"intervals"` in `ParseFromJson`, on the flag
`is_everyday` of the company: the flag after the round and the interval pushed.
`uninit` stands for the indeterminate content of the uninitialised
`WorkingTimeInterval wti`, which is read when `"day"` is absent or names no
day. `minutes_from` and `minutes_to` are `int` members: `+=` leaves the sum
reduced to 32 bits. -/
def parseInterval (uninit : WorkingTimeInterval) (is_everyday : Bool) (i : Node) :
    Except Err (Bool × WorkingTimeInterval) := do
  let interval_m ← i.AsMap
  let r ←
    match interval_m.lookup "day" with
    | some d => do
      let day ← d.AsString
      if day ≠ "EVERYDAY" then
        match dayStart day with
        | some start => pure (false, ({ minutes_from := start, minutes_to := start } :
            WorkingTimeInterval))
        | none => pure (false, uninit)
      else
        pure (is_everyday, ({ minutes_from := 0, minutes_to := 0 } : WorkingTimeInterval))
    | none => pure (is_everyday, uninit)
  let wti := r.2
  let wti ←
    match interval_m.lookup "minutes_from" with
    | some v => do
      let n ← v.AsInt
      pure { wti with minutes_from := toInt32 (wti.minutes_from + n) }
    | none => pure wti
  let wti ←
    match interval_m.lookup "minutes_to" with
    | some v => do
      let n ← v.AsInt
      pure { wti with minutes_to := toInt32 (wti.minutes_to + n) }
    | none => pure wti
  pure (r.1, wti)

/-- The working time block of `ParseFromJson` for one company (from
`company.working_time.is_everyday = true` to the end of the loop over
`"intervals"`): every interval is pushed to the back, in the order of the
array. -/
def parseWorkingTime (uninit : WorkingTimeInterval) (company_m : List (String × Node)) :
    Except Err WorkingTime :=
  match company_m.lookup "working_time" with
  | none => pure { is_everyday := true, intervals := [] }
  | some wt => do
    let working_time_m ← wt.AsMap
    match working_time_m.lookup "intervals" with
    | none => pure { is_everyday := true, intervals := [] }
    | some arr => do
      let l ← arr.AsArray
      let r ← l.foldlM
        (fun (acc : Bool × List WorkingTimeInterval) i => do
          let r ← parseInterval uninit acc.1 i
          pure (r.1, acc.2 ++ [r.2]))
        (true, [])
      pure { is_everyday := r.1, intervals := r.2 }

/-- The body of the loop over `"companies"` in `ParseFromJson`. `other` stands
for the blocks that fill the address, names, phones, urls, rubrics and nearby
stops of the company; none of them reads or writes `working_time`. -/
def parseCompany (other : List (String × Node) → Except Err Company)
    (uninit : WorkingTimeInterval) (c : Node) : Except Err Company := do
  let company_m ← c.AsMap
  let company ← other company_m
  let working_time ← parseWorkingTime uninit company_m
  pure { company with working_time := working_time }

/-- The members of `class YellowPagesRequest` (`rubrics_` is an
`unordered_map` from the rubric id). -/
structure YellowPagesRequest where
  rubrics_ : List (Nat × Rubric)
  companies_ : List Company

/-- `YellowPagesRequest::ParseFromJson`. `rubricsBlock` stands for the block
that parses `"rubrics"` into `rubrics_`, which touches no company. -/
def YellowPagesRequest.ParseFromJson
    (rubricsBlock : List (String × Node) → Except Err (List (Nat × Rubric)))
    (other : List (String × Node) → Except Err Company)
    (uninit : WorkingTimeInterval) (request : Node) : Except Err YellowPagesRequest := do
  let request_m ← request.AsMap
  let rubrics_ ← rubricsBlock request_m
  let companies_ ←
    match request_m.lookup "companies" with
    | none => pure []
    | some cs => do
      let l ← cs.AsArray
      l.foldlM
        (fun (companies_ : List Company) c => do
          let company ← parseCompany other uninit c
          pure (companies_ ++ [company]))
        []
  pure { rubrics_ := rubrics_, companies_ := companies_ }

/-- `Database::FillCompanies` on the members `rubrics_` and `companies_` of the
database: the rubric names are entered with their ids, the companies are
copied as parsed. -/
def FillCompanies (rubrics_ : List (String × Nat)) (request : YellowPagesRequest) :
    List (String × Nat) × List Company :=
  (request.rubrics_.foldl (fun m kv => umapInsert m kv.2.name kv.1) rubrics_,
   request.companies_)

/-- An interval as the input gives it: the name of the day and the minutes
within the day. -/
structure IntervalInput where
  day : String
  minutes_from : Int
  minutes_to : Int
  deriving DecidableEq, Repr

/-- The JSON node of an interval of the input. -/
def IntervalInput.node (i : IntervalInput) : Node :=
  .map [("day", .string i.day), ("minutes_from", .int i.minutes_from),
        ("minutes_to", .int i.minutes_to)]

/-- The start of the named day, 0 for `EVERYDAY`. -/
def IntervalInput.start (i : IntervalInput) : Option Int :=
  if i.day = "EVERYDAY" then some 0 else dayStart i.day

/-- The interval in minutes from the start of the week, as the 32 bit `int`
members hold it. -/
def IntervalInput.stored (i : IntervalInput) : WorkingTimeInterval :=
  { minutes_from := toInt32 (i.start.getD 0 + i.minutes_from)
    minutes_to := toInt32 (i.start.getD 0 + i.minutes_to) }

/-- The JSON node of a company with the given intervals and nothing else. -/
def companyNode (ins : List IntervalInput) : Node :=
  .map [("working_time", .map [("intervals", .array (ins.map IntervalInput.node))])]

/-- Scenario: a make_base input with one company, whose intervals are listed
afternoon first. -/
def unsortedInput : Node :=
  .map [("companies", .array [companyNode [⟨"EVERYDAY", 900, 1080⟩, ⟨"EVERYDAY", 540, 720⟩]])]

/-- Scenario: the company the unsorted input is stored as, the afternoon
interval first. -/
def unsortedCompany : Company := companyWith true [⟨900, 1080⟩, ⟨540, 720⟩]

/-- Scenario: the same company with the intervals in ascending order. -/
def sortedInput : Node :=
  .map [("companies", .array [companyNode [⟨"EVERYDAY", 540, 720⟩, ⟨"EVERYDAY", 900, 1080⟩]])]

/-- Scenario: a rubrics block that finds no rubrics. -/
def noRubrics : List (String × Node) → Except Err (List (Nat × Rubric)) := fun _ => .ok []

/-- Scenario: the other fields of a company left empty. -/
def emptyOther : List (String × Node) → Except Err Company :=
  fun _ => .ok (companyWith true [])

/-! ## database.cpp: `Quote` -/

/-- The first loop of `Quote`: the number of `"` characters of `s`. -/
def quoteCount (s : List Char) : Nat :=
  s.foldl (fun quote_count c => quote_count + (if c = '"' then 1 else 0)) 0

/-- The second loop of `Quote` from position `i` on: the characters of `s` that
are left, the buffer `res` and the write position `j`. A write through
`res[j++]` is `List.set`. -/
def quoteLoop : List Char → List Char → Nat → List Char
  | [], res, _ => res
  | c :: rest, res, j =>
    if c = '"' then quoteLoop rest ((res.set j '\\').set (j + 1) c) (j + 2)
    else quoteLoop rest (res.set j c) (j + 1)

/-- `Quote` of `database.cpp`: the buffer of `s.size() + quote_count`
characters `'0'` is filled from the left. -/
def Quote (s : String) : String :=
  let quote_count := quoteCount s.toList
  let res := List.replicate (s.toList.length + quote_count) '0'
  String.mk (quoteLoop s.toList res 0)

/-- The escaped form of the specification: a backslash before every `"`. -/
def escapeQuotes (s : List Char) : List Char :=
  s.flatMap (fun c => if c = '"' then ['\\', '"'] else [c])

/-- Deleting the character that precedes each `"`. -/
def dropBeforeQuote : List Char → List Char
  | [] => []
  | [c] => [c]
  | c :: d :: rest =>
    if d = '"' then d :: dropBeforeQuote rest else c :: dropBeforeQuote (d :: rest)

/-! ## svg.h -/

/-- `struct Svg::Point`. -/
structure Svg.Point where
  x : ℚ := 0
  y : ℚ := 0
  deriving DecidableEq, Repr

/-- `struct Svg::Rgb`. -/
structure Svg.Rgb where
  red : Int
  green : Int
  blue : Int
  deriving DecidableEq, Repr

/-- `struct Svg::Rgba`. -/
structure Svg.Rgba where
  color : Svg.Rgb
  alpha : ℚ
  deriving DecidableEq, Repr

/-- The `std::variant<std::string, Rgb, Rgba>` of `Svg::Color`. -/
inductive Svg.ColorValue where
  | str (s : String)
  | rgb (c : Svg.Rgb)
  | rgba (c : Svg.Rgba)
  deriving DecidableEq, Repr

/-- `struct Svg::Color`; the default is `NoneColor`. -/
structure Svg.Color where
  color : Option Svg.ColorValue := none
  deriving DecidableEq, Repr

/-- The data members of `Svg::Object<T>` with their default values. -/
structure Svg.ObjectProps where
  fill_color_ : Svg.Color := {}
  stroke_color_ : Svg.Color := {}
  stroke_width_ : ℚ := 1
  stroke_line_cap_ : Option String := none
  stroke_line_join_ : Option String := none
  deriving DecidableEq, Repr

/-- `class Svg::Circle`. -/
structure Svg.Circle extends Svg.ObjectProps where
  center_ : Svg.Point := {}
  radius_ : ℚ := 1
  deriving DecidableEq, Repr

/-- `class Svg::Polyline`. -/
structure Svg.Polyline extends Svg.ObjectProps where
  points_ : List Svg.Point := []
  deriving DecidableEq, Repr

/-- `class Svg::Rectangle`. -/
structure Svg.Rectangle extends Svg.ObjectProps where
  point_ : Svg.Point := {}
  w_ : ℚ
  h_ : ℚ
  deriving DecidableEq, Repr

/-- `class Svg::Text` (`font_size_` is a `uint32_t`). -/
structure Svg.Text extends Svg.ObjectProps where
  point_ : Svg.Point := {}
  offset_ : Svg.Point := {}
  font_size_ : Nat := 1
  font_family_ : Option String := none
  font_weight_ : Option String := none
  data_ : String := ""
  deriving DecidableEq, Repr

/-- An object of a document: what a `std::shared_ptr<IObject>` points to. -/
inductive Svg.Object where
  | circle (c : Svg.Circle)
  | polyline (l : Svg.Polyline)
  | rectangle (r : Svg.Rectangle)
  | text (t : Svg.Text)
  deriving DecidableEq, Repr

/-- `class Svg::Document`: the objects in the order they were added. -/
structure Svg.Document where
  objects_ : List Svg.Object := []
  deriving DecidableEq, Repr

/-- `Document::Add`. -/
def Svg.Document.Add (doc : Svg.Document) (obj : Svg.Object) : Svg.Document :=
  { doc with objects_ := doc.objects_ ++ [obj] }

/-- `Polyline::AddPoint`. -/
def Svg.Polyline.AddPoint (l : Svg.Polyline) (p : Svg.Point) : Svg.Polyline :=
  { l with points_ := l.points_ ++ [p] }

/-- `Object<Polyline>::SetStrokeColor`. -/
def Svg.Polyline.SetStrokeColor (l : Svg.Polyline) (c : Svg.Color) : Svg.Polyline :=
  { l with stroke_color_ := c }

/-- `Object<Polyline>::SetStrokeWidth`. -/
def Svg.Polyline.SetStrokeWidth (l : Svg.Polyline) (w : ℚ) : Svg.Polyline :=
  { l with stroke_width_ := w }

/-- `Object<Polyline>::SetStrokeLineCap`. -/
def Svg.Polyline.SetStrokeLineCap (l : Svg.Polyline) (s : String) : Svg.Polyline :=
  { l with stroke_line_cap_ := some s }

/-- `Object<Polyline>::SetStrokeLineJoin`. -/
def Svg.Polyline.SetStrokeLineJoin (l : Svg.Polyline) (s : String) : Svg.Polyline :=
  { l with stroke_line_join_ := some s }

/-- `Text::SetPoint`. -/
def Svg.Text.SetPoint (t : Svg.Text) (p : Svg.Point) : Svg.Text := { t with point_ := p }

/-- `Text::SetOffset`. -/
def Svg.Text.SetOffset (t : Svg.Text) (p : Svg.Point) : Svg.Text := { t with offset_ := p }

/-- `Text::SetFontSize(uint32_t)`. -/
def Svg.Text.SetFontSize (t : Svg.Text) (sz : Nat) : Svg.Text := { t with font_size_ := sz }

/-- `Text::SetFontFamily`. -/
def Svg.Text.SetFontFamily (t : Svg.Text) (s : String) : Svg.Text :=
  { t with font_family_ := some s }

/-- `Text::SetFontWeight`. -/
def Svg.Text.SetFontWeight (t : Svg.Text) (s : String) : Svg.Text :=
  { t with font_weight_ := some s }

/-- `Text::SetData`. -/
def Svg.Text.SetData (t : Svg.Text) (s : String) : Svg.Text := { t with data_ := s }

/-- `Object<Text>::SetFillColor`. -/
def Svg.Text.SetFillColor (t : Svg.Text) (c : Svg.Color) : Svg.Text :=
  { t with fill_color_ := c }

/-- `Object<Text>::SetStrokeColor`. -/
def Svg.Text.SetStrokeColor (t : Svg.Text) (c : Svg.Color) : Svg.Text :=
  { t with stroke_color_ := c }

/-- `Object<Text>::SetStrokeWidth`. -/
def Svg.Text.SetStrokeWidth (t : Svg.Text) (w : ℚ) : Svg.Text :=
  { t with stroke_width_ := w }

/-- `Object<Text>::SetStrokeLineCap`. -/
def Svg.Text.SetStrokeLineCap (t : Svg.Text) (s : String) : Svg.Text :=
  { t with stroke_line_cap_ := some s }

/-- `Object<Text>::SetStrokeLineJoin`. -/
def Svg.Text.SetStrokeLineJoin (t : Svg.Text) (s : String) : Svg.Text :=
  { t with stroke_line_join_ := some s }

/-! ## request.h, database.h: settings and the members of the database -/

/-- `struct RenderSettings` of `request.h`. -/
structure RenderSettings where
  width : ℚ
  height : ℚ
  padding : ℚ
  stop_radius : ℚ := 0
  line_width : ℚ := 0
  stop_label_font_size : Int := 0
  stop_label_offset : Svg.Point := {}
  underlayer_color : Svg.Color := {}
  underlayer_width : ℚ := 0
  color_palette : List Svg.Color := []
  bus_label_font_size : Int := 0
  bus_label_offset : Svg.Point := {}
  layers : List String := []
  outer_margin : ℚ := 0
  company_radius : ℚ := 0
  company_line_width : ℚ := 0
  deriving DecidableEq, Repr

/-- `struct MapSettings` of `database.h`. -/
structure MapSettings where
  render_settings : RenderSettings
  min_lon : ℚ := 0
  max_lat : ℚ := 0
  zoom_coef : ℚ := 0
  deriving DecidableEq, Repr

/-- The data members of `class Database` that the catalog, the layout and the
rendering use. `std::map` members are lists in ascending key order, a
`std::set<std::string>` is a list in ascending order without repetition. -/
structure Database where
  buses_ : List (String × Bus) := []
  stops_ : StopMap := []
  stops_to_buses_ : List (String × List String) := []
  stops_neighbours_ : List (String × List String) := []
  map_settings_ : MapSettings
  companies_ : List Company := []
  rubrics_ : List (String × Nat) := []

/-! ## bus.h: the colour of a bus -/

/-- The conversion of a `size_t` to `uint32_t`. -/
def toUInt32 (n : Nat) : Nat := n % 4294967296

/-- The conversion of an `int` to `uint32_t`. -/
def intToUInt32 (z : Int) : Nat := (z % 4294967296).toNat

/-- `Bus::SetColorId(size_t)`: the member `color_id_` is a `uint32_t`. -/
def Bus.SetColorId (b : Bus) (id : Nat) : Bus := { b with color_id_ := some (toUInt32 id) }

/-- `Bus::GetColorId`: the member is written by `SetColorId` only. -/
def Bus.GetColorId (b : Bus) : Except Err Nat :=
  match b.color_id_ with
  | some c => .ok c
  | none => .error .uninitialized

def Stop.GetX (s : Stop) : ℚ := s.x_
def Stop.GetY (s : Stop) : ℚ := s.y_

/-! ## database_render.cpp -/

/-- The body of the loop of `SetBusColors` on the counter `color_id` and the
buses already coloured. The counter stays below `palette.size()` between the
rounds, so `color_id++` does not wrap. -/
def setBusColorStep (palette : List Svg.Color) (acc : Nat × List (String × Bus))
    (kb : String × Bus) : Except Err (Nat × List (String × Bus)) :=
  let color_id := acc.1
  let bus := kb.2.SetColorId color_id
  let color_id := color_id + 1
  if palette.length = 0 then .error .division_by_zero
  else .ok (color_id % palette.length, acc.2 ++ [(kb.1, bus)])

/-- `Database::SetBusColors`. -/
def Database.SetBusColors (db : Database) : Except Err Database := do
  let r ← db.buses_.foldlM
    (setBusColorStep db.map_settings_.render_settings.color_palette) (0, [])
  pure { db with buses_ := r.2 }

/-- `line.AddPoint({stop.GetX(), stop.GetY()})` for `stops_.at(stop_name)`. -/
def addStopPoint (stops_ : StopMap) (line : Svg.Polyline) (stop_name : String) :
    Except Err Svg.Polyline := do
  let stop ← mapAt stops_ stop_name
  pure (line.AddPoint { x := stop.GetX, y := stop.GetY })

/-- The same for `stops_.at(bus_stops[i])`. -/
def addStopPointAt (stops_ : StopMap) (bus_stops : List String) (line : Svg.Polyline)
    (i : Nat) : Except Err Svg.Polyline := do
  let stop_name ← vecAt bus_stops i
  addStopPoint stops_ line stop_name

/-- The values the `int i` of `for (int i = n - 2; i >= 0; i--)` takes, `n` a
`size_t`: the difference is taken in `size_t` and converted to `int`. -/
def countDownFrom (n : Nat) : List Nat :=
  (List.range (toInt32 (toSizeT ((n : Int) - 2)) + 1).toNat).reverse

/-- The `// set points` part of `RenderBuses`: the stops in listed order for a
ROUND bus; for a TWOWAY bus the listed order, then a second loop with an
`int i` from `bus_stops.size() - 2` down to `0`. -/
def busPoints (db : Database) (bus : Bus) (line : Svg.Polyline) : Except Err Svg.Polyline :=
  match bus.GetType with
  | .ROUND => bus.GetStops.foldlM (addStopPoint db.stops_) line
  | .TWOWAY => do
    let line ← (List.range bus.GetStops.length).foldlM
      (addStopPointAt db.stops_ bus.GetStops) line
    (countDownFrom bus.GetStops.length).foldlM (addStopPointAt db.stops_ bus.GetStops) line

/-- The polyline of `RenderBuses` before its points are set. -/
def busLineStyle (db : Database) (color : Svg.Color) : Svg.Polyline :=
  let line : Svg.Polyline := {}
  let line := line.SetStrokeColor color
  let line := line.SetStrokeWidth db.map_settings_.render_settings.line_width
  let line := line.SetStrokeLineCap "round"
  let line := line.SetStrokeLineJoin "round"
  line

/-- The body of the loop of `RenderBuses`: the polyline of one bus. -/
def renderBusStep (db : Database) (doc : Svg.Document) (kb : String × Bus) :
    Except Err Svg.Document := do
  let color ← kb.2.GetColorId >>= vecAt db.map_settings_.render_settings.color_palette
  let line ← busPoints db kb.2 (busLineStyle db color)
  pure (doc.Add (.polyline line))

/-- `Database::RenderBuses`. -/
def Database.RenderBuses (db : Database) (doc : Svg.Document) : Except Err Svg.Document :=
  db.buses_.foldlM (renderBusStep db) doc

/-- `struct NameSvgItem` of `database.h`. -/
structure NameSvgItem where
  underlayer : Svg.Text
  toplayer : Svg.Text
  deriving DecidableEq, Repr

/-- `Database::RenderBusName`. -/
def Database.RenderBusName (db : Database) (stop : Stop) (bus_name : String)
    (color_id : Nat) : Except Err NameSvgItem := do
  let rs := db.map_settings_.render_settings
  let underlayer : Svg.Text := {}
  let underlayer := underlayer.SetPoint { x := stop.GetX, y := stop.GetY }
  let underlayer := underlayer.SetOffset rs.bus_label_offset
  let underlayer := underlayer.SetFontSize (intToUInt32 rs.bus_label_font_size)
  let underlayer := underlayer.SetFontFamily "Verdana"
  let underlayer := underlayer.SetFontWeight "bold"
  let underlayer := underlayer.SetData bus_name
  let toplayer := underlayer
  let underlayer := underlayer.SetFillColor rs.underlayer_color
  let underlayer := underlayer.SetStrokeColor rs.underlayer_color
  let underlayer := underlayer.SetStrokeWidth rs.underlayer_width
  let underlayer := underlayer.SetStrokeLineCap "round"
  let underlayer := underlayer.SetStrokeLineJoin "round"
  let color ← vecAt rs.color_palette color_id
  let toplayer := toplayer.SetFillColor color
  pure { underlayer := underlayer, toplayer := toplayer }

/-- The body of the loop of `RenderBusNames`: the labels of one bus. -/
def renderBusNamesStep (db : Database) (doc : Svg.Document) (kb : String × Bus) :
    Except Err Svg.Document := do
  let bus := kb.2
  let stops := bus.GetStops
  let stop_start ← vecAt stops 0 >>= mapAt db.stops_
  let color_id ← bus.GetColorId
  let start ← db.RenderBusName stop_start bus.GetName color_id
  let doc := doc.Add (.text start.underlayer)
  let doc := doc.Add (.text start.toplayer)
  match bus.GetType with
  | .TWOWAY => do
    let stop_finish ← vecAt stops (toSizeT ((stops.length : Int) - 1)) >>= mapAt db.stops_
    let finish ← db.RenderBusName stop_finish bus.GetName color_id
    let doc := doc.Add (.text finish.underlayer)
    let doc := doc.Add (.text finish.toplayer)
    pure doc
  | .ROUND => pure doc

/-- `Database::RenderBusNames`. -/
def Database.RenderBusNames (db : Database) (doc : Svg.Document) : Except Err Svg.Document :=
  db.buses_.foldlM (renderBusNamesStep db) doc

/-- The stops of the full traversal of a bus: the listed order for ROUND, the
listed order and back without the turnaround stop for TWOWAY. -/
def Bus.traversal (b : Bus) : List String :=
  match b.type_ with
  | .ROUND => b.stops_
  | .TWOWAY => b.stops_ ++ b.stops_.dropLast.reverse

/-- The position of the stop named `name` on the map, the origin when there is
no such stop. -/
def stopPoint (stops_ : StopMap) (name : String) : Svg.Point :=
  match stops_.lookup name with
  | some stop => { x := stop.GetX, y := stop.GetY }
  | none => {}

/-- Scenario: render settings of a map 200 by 100 with padding 10 and a palette
of two colours. -/
def sampleRender : RenderSettings :=
  { width := 200, height := 100, padding := 10, line_width := 3
    color_palette := [{ color := some (.str "green") }, { color := some (.str "red") }]
    bus_label_font_size := 20 }

/-- Scenario: the stops A, B, C placed at (10, 90), (100, 50), (190, 10). -/
def placedStops : StopMap :=
  [("A", { Stop.new "A" 0 0 [] with x_ := 10, y_ := 90 }),
   ("B", { Stop.new "B" 0 0 [] with x_ := 100, y_ := 50 }),
   ("C", { Stop.new "C" 0 0 [] with x_ := 190, y_ := 10 })]

/-- Scenario: a ROUND bus over A, B, C, A, a TWOWAY bus over A, B, C and a
TWOWAY bus over A, B, A, not yet coloured. -/
def renderBuses : List (String × Bus) :=
  [("R1", Bus.new "R1" ["A", "B", "C", "A"] .ROUND),
   ("T1", Bus.new "T1" ["A", "B", "C"] .TWOWAY),
   ("T2", Bus.new "T2" ["A", "B", "A"] .TWOWAY)]

/-- Scenario: the database of these stops and buses. -/
def renderDb : Database :=
  { buses_ := renderBuses, stops_ := placedStops
    map_settings_ := { render_settings := sampleRender } }

/-- Scenario: the same database after the colours 0, 1, 0 were set. -/
def colouredDb : Database :=
  { renderDb with
    buses_ := [("R1", (Bus.new "R1" ["A", "B", "C", "A"] .ROUND).SetColorId 0),
               ("T1", (Bus.new "T1" ["A", "B", "C"] .TWOWAY).SetColorId 1),
               ("T2", (Bus.new "T2" ["A", "B", "A"] .TWOWAY).SetColorId 0)] }

/-- The polyline of a bus as the specification describes it: the colour of the
bus from the palette, round caps and joins, and the positions of the stops of
the full traversal. -/
def busPolyline (db : Database) (b : Bus) : Svg.Polyline :=
  { stroke_color_ := db.map_settings_.render_settings.color_palette.getD (b.color_id_.getD 0) {}
    stroke_width_ := db.map_settings_.render_settings.line_width
    stroke_line_cap_ := some "round"
    stroke_line_join_ := some "round"
    points_ := b.traversal.map (stopPoint db.stops_) }

/-- The two labels of a bus at the stop named `stop_name` as
`RenderBusName` makes them, none when the stop or the colour is missing. -/
def busLabelPair (db : Database) (b : Bus) (stop_name : String) : List Svg.Object :=
  match db.stops_.lookup stop_name with
  | some stop =>
    match db.RenderBusName stop b.name_ (b.color_id_.getD 0) with
    | .ok item => [.text item.underlayer, .text item.toplayer]
    | .error _ => []
  | none => []

/-- The labels of a bus: a pair at its first stop and, for a TWOWAY bus, a pair
at its last stop. -/
def busLabels (db : Database) (b : Bus) : List Svg.Object :=
  busLabelPair db b (b.stops_.getD 0 "") ++
    match b.type_ with
    | .TWOWAY => busLabelPair db b (b.stops_.getD (b.stops_.length - 1) "")
    | .ROUND => []

/-- The labels of a bus as the claim describes them: the second pair only
when the last stop differs from the first. -/
def busLabelsIfDiffer (db : Database) (b : Bus) : List Svg.Object :=
  busLabelPair db b (b.stops_.getD 0 "") ++
    if b.type_ = .TWOWAY ∧ b.stops_.getD (b.stops_.length - 1) "" ≠ b.stops_.getD 0 "" then
      busLabelPair db b (b.stops_.getD (b.stops_.length - 1) "")
    else []

/-- The position of a text object, the origin for the other objects. -/
def Svg.Object.textPoint : Svg.Object → Svg.Point
  | .text t => t.point_
  | _ => {}

/-- The string of a text object, empty for the other objects. -/
def Svg.Object.textData : Svg.Object → String
  | .text t => t.data_
  | _ => ""

/-! ## database_serializer.cpp: the record of a stop -/

/-- `m[k] = v` on a map: the value of a present key is replaced, a missing key
is entered. -/
def umapSet {β : Type} (m : List (String × β)) (k : String) (v : β) : List (String × β) :=
  match m with
  | [] => [(k, v)]
  | (k', v') :: rest => if k' = k then (k, v) :: rest else (k', v') :: umapSet rest k v

/-- Modelled from the spec: the message `TCatalog::Stop` of
`transport_catalog.pb.h`, which is not among the sources: a record of the
fields that `SerializeStops` writes and `GetStopFromTCStop` reads, each getter
returning what the setter of the field stored; `distances` is a map from
string to int. -/
structure TCStop where
  name : String := ""
  latitude : ℚ := 0
  longitude : ℚ := 0
  real_latitude : ℚ := 0
  real_longitude : ℚ := 0
  x : ℚ := 0
  y : ℚ := 0
  distances : List (String × Int) := []
  deriving DecidableEq, Repr

def Stop.GetLatitude (s : Stop) : ℚ := s.latitude_
def Stop.GetLongitude (s : Stop) : ℚ := s.longitude_
def Stop.GetRealLatitude (s : Stop) : ℚ := s.real_latitude_
def Stop.GetRealLongitude (s : Stop) : ℚ := s.real_longitude_
def Stop.IsBase (s : Stop) : Bool := s.is_base_

/-- The body of the loop of `SerializeStops`: the record of one stop. -/
def serializeStop (stop : Stop) : TCStop :=
  let s : TCStop := {}
  let s := { s with name := stop.GetName }
  let s := { s with latitude := stop.GetLatitude }
  let s := { s with longitude := stop.GetLongitude }
  let s := { s with real_latitude := stop.GetRealLatitude }
  let s := { s with real_longitude := stop.GetRealLongitude }
  let s := { s with x := stop.GetX }
  let s := { s with y := stop.GetY }
  let dist_map := stop.GetDistances.foldl (fun dist_map nd => umapSet dist_map nd.1 nd.2)
    s.distances
  { s with distances := dist_map }

/-- `SerializeStops`: one record for every stop of the catalog, added in the
order of the map. -/
def SerializeStops (tc_stops : List TCStop) (stops : StopMap) : List TCStop :=
  stops.foldl (fun tc_stops kv => tc_stops ++ [serializeStop kv.2]) tc_stops

/-- The constructor `Stop(name, latitude, longitude, real_latitude,
real_longitude, x, y, distances)` "for deserializing only"; `is_base_` keeps
its default member initialiser `false`. -/
def Stop.restore (name : String) (latitude longitude real_latitude real_longitude x y : ℚ)
    (distances : List (String × Int)) : Stop :=
  { name_ := name, latitude_ := latitude, longitude_ := longitude,
    real_latitude_ := real_latitude, real_longitude_ := real_longitude,
    x_ := x, y_ := y, distances_ := distances }

/-- `GetStopFromTCStop`. -/
def GetStopFromTCStop (tcstop : TCStop) : Stop :=
  let dist_map := tcstop.distances.foldl (fun dist_map e => umapSet dist_map e.1 e.2) []
  Stop.restore tcstop.name tcstop.latitude tcstop.longitude tcstop.real_latitude
    tcstop.real_longitude tcstop.x tcstop.y dist_map

/-- Scenario: a base stop after the layout, with two road distances. -/
def baseStop : Stop :=
  { Stop.new "A" 55 37 [("B", 500), ("C", 700)] with
    latitude_ := 56, longitude_ := 38, x_ := 10, y_ := 90, is_base_ := true }

/-! ## database.cpp: the closest company -/

/-- The block of `BuildRouteToClosestCompany` that checks "if company is open
and add wait if not": the wait at the arrival time, folded into the week, is
added to the route when it is positive. -/
def addWait (start : ℚ) (company : Company) (route : RouteInfo) : RouteInfo :=
  let finish := fmod (start + route.total_time) (60 * 24 * 7)
  let wait_time := company.WaitForCompanyOpen finish
  if wait_time > 0 then
    { route with
      items := route.items ++ [RouteItem.WaitItem wait_time]
      total_time := route.total_time + wait_time }
  else route

/-- The body of the inner loop of `BuildRouteToClosestCompany` for one nearby
stop of `company`; the state is `best` and the router `trouter_`.  A route
longer than the best one is passed over by `continue` before the wait is
looked at. -/
def closestStep (engine : Nat → Nat → Option RouterRoute) (from_ : String) (start : ℚ)
    (company : Company) (s : Option RouteInfo × TransportRouter) (stop : NearbyStop) :
    Except Err (Option RouteInfo × TransportRouter) := do
  let r ← s.2.BuildRouteToCompany engine from_ stop
  match r.1 with
  | none => pure (s.1, r.2)
  | some route =>
    match s.1 with
    | some best =>
      if route.total_time > best.total_time then pure (some best, r.2)
      else
        let route := addWait start company route
        if route.total_time < best.total_time then
          pure (some { route with company := some company }, r.2)
        else pure (some best, r.2)
    | none =>
      let route := addWait start company route
      pure (some { route with company := some company }, r.2)

/-- `Database::BuildRouteToClosestCompany(from, start, candidates)`, with the
router `trouter_` of the database as an argument and in the result. -/
def BuildRouteToClosestCompany (engine : Nat → Nat → Option RouterRoute)
    (trouter_ : TransportRouter) (from_ : String) (start : ℚ) (candidates : List Company) :
    Except Err (Option RouteInfo × TransportRouter) :=
  candidates.foldlM
    (fun s company => company.nearby_stops.foldlM (closestStep engine from_ start company) s)
    (none, trouter_)

/-- The pairs of a candidate and one of its nearby stops, in the order of the
two loops. -/
def candidatePairs (candidates : List Company) : List (Company × NearbyStop) :=
  candidates.flatMap (fun c => c.nearby_stops.map (fun stop => (c, stop)))

/-- The route `BuildRouteToCompany` returns for a nearby stop, if any. -/
def pairRoute (engine : Nat → Nat → Option RouterRoute) (tr : TransportRouter) (from_ : String)
    (stop : NearbyStop) : Option RouteInfo :=
  match tr.BuildRouteToCompany engine from_ stop with
  | .ok r => r.1
  | .error _ => none

/-- The wait of a pair whose route is `route`. -/
def pairWait (start : ℚ) (company : Company) (route : RouteInfo) : ℚ :=
  company.WaitForCompanyOpen (fmod (start + route.total_time) (7 * 1440))

/-- The final total time of a pair: the wait is added when it is positive. -/
def finalTime (start : ℚ) (company : Company) (route : RouteInfo) : ℚ :=
  if pairWait start company route > 0 then route.total_time + pairWait start company route
  else route.total_time

/-- The candidate route of a pair: the route with its wait and the company. -/
def pairCandidate (engine : Nat → Nat → Option RouterRoute) (tr : TransportRouter)
    (from_ : String) (start : ℚ) (p : Company × NearbyStop) : Option RouteInfo :=
  (pairRoute engine tr from_ p.2).map
    (fun route => { addWait start p.1 route with company := some p.1 })

/-- The better of the best route so far and a candidate: the candidate when it
is strictly shorter, or the first one. -/
def pickBetter (best cand : Option RouteInfo) : Option RouteInfo :=
  match cand with
  | none => best
  | some c =>
    match best with
    | none => some c
    | some b => if c.total_time < b.total_time then some c else some b

/-- Scenario: a company open every day from 9 to 12, 300 m from the stop C and
600 m from the stop A. -/
def nearCompany : Company :=
  { companyWith true [⟨540, 720⟩] with
    nearby_stops := [{ name := "C", meters := 300 }, { name := "A", meters := 600 }] }

/-- Scenario: a company open every day from 15 to 16:40, 100 m from the stop A. -/
def lateCompany : Company :=
  { companyWith true [⟨900, 1000⟩] with nearby_stops := [{ name := "A", meters := 100 }] }

/-- Scenario: a company open every day from 9 to 12, 5000 m from the stop C and
200 m from the stop B. -/
def farCompany : Company :=
  { companyWith true [⟨540, 720⟩] with
    nearby_stops := [{ name := "C", meters := 5000 }, { name := "B", meters := 200 }] }

/-- The route of a result of the router, if any. -/
def routeOfResult (r : Except Err (Option RouteInfo × TransportRouter)) : Option RouteInfo :=
  match r with
  | .ok s => s.1
  | .error _ => none

/-! ## database.cpp: the updates and the Stop query -/

/-- `s.insert(x)` on a `std::set<std::string>`, kept in ascending order: no
effect when `x` is present. -/
def setInsert : List String → String → List String
  | [], x => [x]
  | y :: rest, x =>
    if strLess x y then x :: y :: rest
    else if strLess y x then y :: setInsert rest x
    else y :: rest

/-- `m.insert({k, v})` on a `std::map` with string keys, kept in ascending
order of the keys: no effect when the key is present. -/
def mapInsert {β : Type} : List (String × β) → String → β → List (String × β)
  | [], k, v => [(k, v)]
  | (k', v') :: rest, k, v =>
    if strLess k k' then (k, v) :: (k', v') :: rest
    else if strLess k' k then (k', v') :: mapInsert rest k v
    else (k', v') :: rest

/-- `m[k] = v` on a `std::map` with string keys, kept in ascending order of
the keys. -/
def mapAssign {β : Type} : List (String × β) → String → β → List (String × β)
  | [], k, v => [(k, v)]
  | (k', v') :: rest, k, v =>
    if strLess k k' then (k, v) :: (k', v') :: rest
    else if strLess k' k then (k', v') :: mapAssign rest k v
    else (k, v) :: rest

/-- The update requests of `request.h` by their request type: a Bus request
(`UpdateBusRequest`: name, stops, route type), a Stop request
(`UpdateStopRequest`: name, coordinates, distances), or a request of any other
type. -/
inductive UpdateRequest where
  | bus (name_ : String) (stops_ : List String) (type_ : RouteType)
  | stop (name_ : String) (latitude_ longitude_ : ℚ) (distances_ : List (String × Int))
  | other
  deriving DecidableEq

/-- `stops_to_buses_[stop].insert(bus_name)`. -/
def stopsToBusesAdd (m : List (String × List String)) (stop bus_name : String) :
    List (String × List String) :=
  umapSet m stop (setInsert ((m.lookup stop).getD []) bus_name)

/-- The body of the loop of `Database::UpdateDatabase` for one request. -/
def updateStep (db : Database) : UpdateRequest → Except Err Database
  | .bus name_ stops_ type_ =>
    let bus := Bus.new name_ stops_ type_
    let stops_to_buses_ := bus.GetStops.foldl
      (fun m stop => stopsToBusesAdd m stop bus.GetName) db.stops_to_buses_
    .ok { db with stops_to_buses_ := stops_to_buses_, buses_ := mapInsert db.buses_ name_ bus }
  | .stop name_ latitude_ longitude_ distances_ =>
    let stop := Stop.new name_ latitude_ longitude_ distances_
    let stops_to_buses_ :=
      if (db.stops_to_buses_.lookup stop.GetName).isNone then
        umapSet db.stops_to_buses_ stop.GetName []
      else db.stops_to_buses_
    .ok { db with stops_to_buses_ := stops_to_buses_, stops_ := mapInsert db.stops_ name_ stop }
  | .other => .error (.runtime_error "Unknown request type in UpdateDatabase")

/-- `Database::UpdateDatabase`. -/
def Database.UpdateDatabase (db : Database) (requests : List UpdateRequest) :
    Except Err Database :=
  requests.foldlM updateStep db

/-- The `QueryStopRequest` branch of `Database::ProcessQueries`: the response
to the Stop query `request_id` on `name`, a `std::map` from string to JSON
node. -/
def Database.ProcessStopQuery (db : Database) (request_id : Int) (name : String) :
    List (String × Node) :=
  let response := mapAssign [] "request_id" (Node.int request_id)
  match db.stops_to_buses_.lookup name with
  | none => mapAssign response "error_message" (Node.string "not found")
  | some s =>
    if s.isEmpty then mapAssign response "buses" (Node.array [])
    else
      let buses := s.foldl (fun buses b => buses ++ [Node.string b]) []
      mapAssign response "buses" (Node.array buses)

/-- Some Bus request of the list has the name `n` and lists the stop `s`. -/
def Listed (requests : List UpdateRequest) (n s : String) : Prop :=
  ∃ stops type_, UpdateRequest.bus n stops type_ ∈ requests ∧ s ∈ stops

/-- Some Stop request of the list declares the stop `s`. -/
def Declared (requests : List UpdateRequest) (s : String) : Prop :=
  ∃ lat lon d, UpdateRequest.stop s lat lon d ∈ requests

/-- The table `stops_to_buses_` against the stops known (`K`) and the relation
"the bus `n` lists the stop `s`" (`R`): the known stops have an entry, and the
entry of a stop is the ascending list of the buses that list it. -/
def TableFor (m : List (String × List String)) (K : String → Prop)
    (R : String → String → Prop) : Prop :=
  ∀ s, (m.lookup s = none ↔ ¬ K s) ∧
    ∀ names, m.lookup s = some names →
      names.Pairwise (fun a b => a < b) ∧ ∀ n, n ∈ names ↔ R n s

/-- Scenario: the stop D is declared and on no bus; the buses `9` and `10`
both stop at A, the bus `10` requested first. -/
def stopUpdates : List UpdateRequest :=
  [.stop "D" 0 0 [], .bus "9" ["A", "B"] .TWOWAY, .bus "10" ["B", "A", "B"] .ROUND,
   .stop "A" 0 0 []]

/-- Scenario: a database with no buses and no stops. -/
def emptyDb : Database := { map_settings_ := renderDb.map_settings_ }

/-- The names of the Bus requests of the list, in order. -/
def busNames (requests : List UpdateRequest) : List String :=
  requests.filterMap (fun r =>
    match r with
    | .bus n _ _ => some n
    | _ => none)

/-- The map `buses_` against the Bus requests: every entry is the bus built
from a Bus request of its name, and, the names of the requests being distinct,
the bus of every request is an entry. -/
def BusesFrom (buses_ : List (String × Bus)) (requests : List UpdateRequest) : Prop :=
  (∀ n bus, (n, bus) ∈ buses_ →
    ∃ stops type_, UpdateRequest.bus n stops type_ ∈ requests ∧ bus = Bus.new n stops type_) ∧
  ((busNames requests).Nodup → ∀ n stops type_, UpdateRequest.bus n stops type_ ∈ requests →
    (n, Bus.new n stops type_) ∈ buses_)

/-- The response to the Stop query `request_id` on `name` after the updates,
empty when the updates throw. -/
def stopQueryAfter (db : Database) (requests : List UpdateRequest) (request_id : Int)
    (name : String) : List (String × Node) :=
  match db.UpdateDatabase requests with
  | .ok db' => db'.ProcessStopQuery request_id name
  | .error _ => []

/-! ## database.cpp: the neighbours of the stops -/

/-- `stops_neighbours_[a].insert(b)`. -/
def neighboursAdd (m : List (String × List String)) (a b : String) :
    List (String × List String) :=
  mapAssign m a (setInsert ((m.lookup a).getD []) b)

/-- The body of the inner loop of `FillStopsNeighbours`: it reads
`bus_stops[i]` and `bus_stops[i + 1]`. -/
def fillNeighboursStep (bus_stops : List String) (m : List (String × List String)) (i : Nat) :
    Except Err (List (String × List String)) := do
  let a ← vecAt bus_stops i
  let b ← vecAt bus_stops (i + 1)
  pure (neighboursAdd (neighboursAdd m a b) b a)

/-- `Database::FillStopsNeighbours`.  The bound `bus_stops.size() - 1` is
computed in `size_t`. -/
def Database.FillStopsNeighbours (db : Database) : Except Err Database := do
  let m ← db.buses_.foldlM
    (fun m kb =>
      (List.range (toSizeT ((kb.2.GetStops.length : Int) - 1))).foldlM
        (fillNeighboursStep kb.2.GetStops) m)
    db.stops_neighbours_
  pure { db with stops_neighbours_ := m }

/-! ## database.cpp: the base stops and the intermediate stops -/

def Stop.SetLatitude (s : Stop) (lat : ℚ) : Stop := { s with latitude_ := lat }
def Stop.SetLongitude (s : Stop) (lon : ℚ) : Stop := { s with longitude_ := lon }
def Stop.SetX (s : Stop) (x : ℚ) : Stop := { s with x_ := x }
def Stop.SetY (s : Stop) (y : ℚ) : Stop := { s with y_ := y }
def Stop.SetIsBase (s : Stop) (b : Bool) : Stop := { s with is_base_ := b }

/-- A setter called on `stops_.at(name)`: `at` throws `std::out_of_range` on a
missing key.  The keys of a `std::map` are distinct, so the entries with the
key `name` are the one entry `at` returns. -/
def stopsModify (stops_ : StopMap) (name : String) (f : Stop → Stop) : Except Err StopMap :=
  match stops_.lookup name with
  | none => .error .out_of_range
  | some _ => .ok (stops_.map (fun kv => if kv.1 = name then (kv.1, f kv.2) else kv))

/-- The body of the first loop of `MarkBaseStops`: a stop with no entry in
`stops_to_buses_`, or with more than one bus, becomes a base stop. -/
def markStep (stops_to_buses_ : List (String × List String)) (kv : String × Stop) :
    String × Stop :=
  if kv.2.IsBase then kv
  else
    match stops_to_buses_.lookup kv.1 with
    | none => (kv.1, kv.2.SetIsBase true)
    | some s => if s.length > 1 then (kv.1, kv.2.SetIsBase true) else kv

/-- The table `counter` of `MarkBaseStops`: `counter[name] += 1` for every
name of the list, the entries in the order of their first occurrence. -/
def countStops (stops : List String) : List (String × Int) :=
  stops.foldl (fun counter name => umapSet counter name ((counter.lookup name).getD 0 + 1)) []

/-- The body of the loop over `counter` in `MarkBaseStops`. -/
def markCountStep (bus : Bus) (stops_ : StopMap) (nc : String × Int) : Except Err StopMap :=
  match bus.GetType with
  | .ROUND =>
    if nc.2 > 2 then stopsModify stops_ nc.1 (fun s => s.SetIsBase true) else pure stops_
  | .TWOWAY =>
    if nc.2 ≥ 2 then stopsModify stops_ nc.1 (fun s => s.SetIsBase true) else pure stops_

/-- The body of the loop over the buses in `MarkBaseStops`.  `stops.front()`
and `stops.back()` read the first and the last element of the vector. -/
def markBusStep (stops_ : StopMap) (kb : String × Bus) : Except Err StopMap := do
  let stops := kb.2.GetStops
  let front ← vecAt stops 0
  let stops_ ← stopsModify stops_ front (fun s => s.SetIsBase true)
  let back ← vecAt stops (stops.length - 1)
  let stops_ ← stopsModify stops_ back (fun s => s.SetIsBase true)
  (countStops stops).foldlM (markCountStep kb.2) stops_

/-- `Database::MarkBaseStops`. -/
def Database.MarkBaseStops (db : Database) : Except Err Database := do
  let stops_ := db.stops_.map (markStep db.stops_to_buses_)
  let stops_ ← db.buses_.foldlM markBusStep stops_
  pure { db with stops_ := stops_ }

/-- The body of the loop over `j` in `MoveIntermediateStops`, up to the
`break`: the first position from `i + 1` on that holds a base stop. -/
def findBaseStep (stops : List String) (stops_ : StopMap) (found : Option Nat) (j : Nat) :
    Except Err (Option Nat) :=
  match found with
  | some j' => pure (some j')
  | none => do
    let name ← vecAt stops j
    let stop ← mapAt stops_ name
    if stop.IsBase then pure (some j) else pure none

/-- The body of the loop over `k` in `MoveIntermediateStops`. -/
def moveStep (stops : List String) (i : Nat) (base_lat base_lon lat_step lon_step : ℚ)
    (stops_ : StopMap) (k : Nat) : Except Err StopMap := do
  let name ← vecAt stops k
  let stops_ ← stopsModify stops_ name
    (fun s => s.SetLatitude (base_lat + lat_step * ((k - i : Nat) : ℚ)))
  stopsModify stops_ name
    (fun s => s.SetLongitude (base_lon + lon_step * ((k - i : Nat) : ℚ)))

/-- The loop over `i` in `MoveIntermediateStops` for one bus, from the value
`i` on; `bound` is `stops.size() - 1`.  After a `break` the counter is `j - 1`,
then `i++`.  The counter grows in every round, so `fuel = stops.size() + 1`
rounds are enough. -/
def moveLoop (stops : List String) (bound : Nat) : Nat → Nat → StopMap → Except Err StopMap
  | 0, _, stops_ => pure stops_
  | fuel + 1, i, stops_ =>
    if i < bound then do
      let name_i ← vecAt stops i
      let stop_i ← mapAt stops_ name_i
      let base_lat := stop_i.GetLatitude
      let base_lon := stop_i.GetLongitude
      let found ← (List.range' (i + 1) (stops.length - (i + 1))).foldlM
        (findBaseStep stops stops_) none
      match found with
      | some j => do
        let name_j ← vecAt stops j
        let stop_j ← mapAt stops_ name_j
        let lat_step := (stop_j.GetLatitude - base_lat) / ((j - i : Nat) : ℚ)
        let lon_step := (stop_j.GetLongitude - base_lon) / ((j - i : Nat) : ℚ)
        let stops_ ← (List.range' i (j - i + 1)).foldlM
          (moveStep stops i base_lat base_lon lat_step lon_step) stops_
        moveLoop stops bound fuel (j - 1 + 1) stops_
      | none => moveLoop stops bound fuel (i + 1) stops_
    else pure stops_

/-- `Database::MoveIntermediateStops`.  The bound `stops.size() - 1` is
computed in `size_t`. -/
def Database.MoveIntermediateStops (db : Database) : Except Err Database := do
  let stops_ ← db.buses_.foldlM
    (fun stops_ kb =>
      moveLoop kb.2.GetStops (toSizeT ((kb.2.GetStops.length : Int) - 1))
        (kb.2.GetStops.length + 1) 0 stops_)
    db.stops_
  pure { db with stops_ := stops_ }

/-! ## database.cpp: the render settings and the compressed coordinates -/

/-- `std::numeric_limits<double>::max()`, the largest finite `double`. -/
def doubleMax : ℚ := (2 ^ 53 - 1) * 2 ^ 971

/-- `std::numeric_limits<double>::min()`, the smallest positive normal
`double`. -/
def doubleMin : ℚ := 1 / 2 ^ 1022

/-- The four running values `min_lat`, `max_lat`, `min_lon`, `max_lon` of
`UpdateRenderSettings`. -/
structure LatLonBounds where
  min_lat : ℚ
  max_lat : ℚ
  min_lon : ℚ
  max_lon : ℚ
  deriving DecidableEq, Repr

/-- The body of both loops of `UpdateRenderSettings` on a point. -/
def LatLonBounds.add (b : LatLonBounds) (lat lon : ℚ) : LatLonBounds :=
  { min_lat := min b.min_lat lat, max_lat := max b.max_lat lat
    min_lon := min b.min_lon lon, max_lon := max b.max_lon lon }

/-- `Database::UpdateRenderSettings`. -/
def Database.UpdateRenderSettings (db : Database) : Database :=
  let b : LatLonBounds :=
    { min_lat := doubleMax, min_lon := doubleMax, max_lat := doubleMin, max_lon := doubleMin }
  let b := db.stops_.foldl (fun b kv => b.add kv.2.GetLatitude kv.2.GetLongitude) b
  let b := db.companies_.foldl
    (fun b company => b.add company.address.coords.lat company.address.coords.lon) b
  let rs := db.map_settings_.render_settings
  let width_zoom_coef : ℚ :=
    if b.min_lon ≠ b.max_lon then (rs.width - 2 * rs.padding) / (b.max_lon - b.min_lon) else 0
  let height_zoom_coef : ℚ :=
    if b.min_lat ≠ b.max_lat then (rs.height - 2 * rs.padding) / (b.max_lat - b.min_lat) else 0
  let zoom_coef : ℚ :=
    if width_zoom_coef > 0 ∧ height_zoom_coef > 0 then min width_zoom_coef height_zoom_coef
    else width_zoom_coef + height_zoom_coef
  { db with
    map_settings_ :=
      { db.map_settings_ with min_lon := b.min_lon, max_lat := b.max_lat, zoom_coef := zoom_coef } }

/-- `struct MapItem` of `database.h`.  `stop_ptr` points to a stop of `stops_`
and is only asked for the name of the stop, which nothing changes: it is that
name; `company_ptr` points to `companies_[i]`: it is the index `i`. -/
structure MapItem where
  coord : ℚ
  stop_ptr : Option String
  company_ptr : Option Nat
  id : Int
  deriving DecidableEq, Repr

/-- `Database::GetXOnMap(const double lon)`; the overload on a stop is this
function on `stop.GetLongitude()`. -/
def Database.GetXOnMap (db : Database) (lon : ℚ) : ℚ :=
  (lon - db.map_settings_.min_lon) * db.map_settings_.zoom_coef
    + db.map_settings_.render_settings.padding

/-- `Database::GetYOnMap(const double lat)`; the overload on a stop is this
function on `stop.GetLatitude()`. -/
def Database.GetYOnMap (db : Database) (lat : ℚ) : ℚ :=
  (db.map_settings_.max_lat - lat) * db.map_settings_.zoom_coef
    + db.map_settings_.render_settings.padding

/-- `Database::AreNeighbours`.  `stops_neighbours_.at` throws on a stop with
no entry. -/
def Database.AreNeighbours (db : Database) (lhs rhs : MapItem) : Except Err Bool :=
  match lhs.stop_ptr, rhs.stop_ptr with
  | some lname, some rname => do
    let s ← mapAt db.stops_neighbours_ lname
    pure (decide (s.count rname ≠ 0))
  | _, _ =>
    match lhs.company_ptr, rhs.stop_ptr with
    | some lcompany, some rname => do
      let company ← vecAt db.companies_ lcompany
      pure (company.nearby_stops.any (fun stop => decide (stop.name = rname)))
    | _, _ =>
      match lhs.stop_ptr, rhs.company_ptr with
      | some lname, some rcompany => do
        let company ← vecAt db.companies_ rcompany
        pure (company.nearby_stops.any (fun stop => decide (stop.name = lname)))
      | _, _ => pure false

/-- The body of the loop over `j` of the rank assignment in
`CompressCoordinates`, on `id_i` and the running maximum. -/
def rankInnerStep (db : Database) (xs : List MapItem) (i : Nat) (s : Int × Int) (j : Nat) :
    Except Err (Int × Int) := do
  let xi ← vecAt xs i
  let xj ← vecAt xs j
  if (← db.AreNeighbours xi xj) then
    let id_i := max s.1 (xj.id + 1)
    pure (id_i, max s.2 id_i)
  else pure s

/-- The body of the loop over `i` of the rank assignment, on the vector and
the running maximum. -/
def rankOuterStep (db : Database) (s : List MapItem × Int) (i : Nat) :
    Except Err (List MapItem × Int) := do
  let r ← (List.range i).foldlM (rankInnerStep db s.1 i) (0, s.2)
  let xi ← vecAt s.1 i
  pure (s.1.set i { xi with id := r.1 }, r.2)

/-- The rank assignment of `CompressCoordinates` (the same loops on `xs` and
on `ys`): the vector with its ranks and the maximum `max_id`. -/
def Database.assignRanks (db : Database) (xs : List MapItem) : Except Err (List MapItem × Int) :=
  (List.range' 1 (xs.length - 1)).foldlM (rankOuterStep db) (xs, 0)

/-- The body of the loops that write the positions: the setter on
`stops_.at(name)` for an item of a stop, the assignment to the coordinate of
the company otherwise (an item with neither pointer dereferences null). -/
def writeStep (setStop : Stop → ℚ → Stop) (setCompany : Company → ℚ → Company)
    (value : MapItem → ℚ) (s : StopMap × List Company) (item : MapItem) :
    Except Err (StopMap × List Company) :=
  match item.stop_ptr with
  | some name => do
    let stops_ ← stopsModify s.1 name (fun stop => setStop stop (value item))
    pure (stops_, s.2)
  | none =>
    match item.company_ptr with
    | some c => do
      let company ← vecAt s.2 c
      pure (s.1, s.2.set c (setCompany company (value item)))
    | none => .error .bad_index

def Company.SetLon (company : Company) (lon : ℚ) : Company :=
  { company with address := { company.address with coords := { company.address.coords with lon := lon } } }

def Company.SetLat (company : Company) (lat : ℚ) : Company :=
  { company with address := { company.address with coords := { company.address.coords with lat := lat } } }

/-- The vector `xs` of `CompressCoordinates` before the sort. -/
def Database.xItems (db : Database) : List MapItem :=
  db.stops_.map (fun kv =>
    { coord := db.GetXOnMap kv.2.GetLongitude, stop_ptr := some kv.2.GetName,
      company_ptr := none, id := 0 }) ++
  db.companies_.enum.map (fun ic =>
    { coord := db.GetXOnMap ic.2.address.coords.lon, stop_ptr := none,
      company_ptr := some ic.1, id := 0 })

/-- The vector `ys` of `CompressCoordinates` before the sort. -/
def Database.yItems (db : Database) : List MapItem :=
  db.stops_.map (fun kv =>
    { coord := db.GetYOnMap kv.2.GetLatitude, stop_ptr := some kv.2.GetName,
      company_ptr := none, id := 0 }) ++
  db.companies_.enum.map (fun ic =>
    { coord := db.GetYOnMap ic.2.address.coords.lat, stop_ptr := none,
      company_ptr := some ic.1, id := 0 })

/-- The part of `CompressCoordinates` on `xs`.  `sortX` is the `std::sort` by
ascending `coord`, which leaves the order of items of equal `coord` open. -/
def Database.compressX (sortX : List MapItem → List MapItem) (db : Database) :
    Except Err Database := do
  let xs := sortX db.xItems
  let r ← db.assignRanks xs
  let rs := db.map_settings_.render_settings
  if r.2 > 0 then
    let xstep : ℚ := (rs.width - 2 * rs.padding) / (r.2 : ℚ)
    let s ← r.1.foldlM
      (writeStep Stop.SetX Company.SetLon (fun item => rs.padding + (item.id : ℚ) * xstep))
      (db.stops_, db.companies_)
    pure { db with stops_ := s.1, companies_ := s.2 }
  else
    let s ← r.1.foldlM (writeStep Stop.SetX Company.SetLon (fun _ => rs.padding))
      (db.stops_, db.companies_)
    pure { db with stops_ := s.1, companies_ := s.2 }

/-- The part of `CompressCoordinates` on `ys`.  `sortY` is the `std::sort` by
descending `coord`. -/
def Database.compressY (sortY : List MapItem → List MapItem) (db : Database) :
    Except Err Database := do
  let ys := sortY db.yItems
  let r ← db.assignRanks ys
  let rs := db.map_settings_.render_settings
  if r.2 > 0 then
    let ystep : ℚ := (rs.height - 2 * rs.padding) / (r.2 : ℚ)
    let s ← r.1.foldlM
      (writeStep Stop.SetY Company.SetLat
        (fun item => rs.height - rs.padding - (item.id : ℚ) * ystep))
      (db.stops_, db.companies_)
    pure { db with stops_ := s.1, companies_ := s.2 }
  else
    let s ← r.1.foldlM
      (writeStep Stop.SetY Company.SetLat (fun _ => rs.height - rs.padding))
      (db.stops_, db.companies_)
    pure { db with stops_ := s.1, companies_ := s.2 }

/-- The three calls that open `CompressCoordinates`: `MarkBaseStops`,
`MoveIntermediateStops`, `UpdateRenderSettings`. -/
def Database.prepareLayout (db : Database) : Except Err Database := do
  let db ← db.MarkBaseStops
  let db ← db.MoveIntermediateStops
  pure db.UpdateRenderSettings

/-- `Database::CompressCoordinates`. -/
def Database.CompressCoordinates (sortX sortY : List MapItem → List MapItem) (db : Database) :
    Except Err Database := do
  let db ← db.prepareLayout
  let db ← db.compressX sortX
  db.compressY sortY

/-- The item without its rank. -/
def MapItem.noId (a : MapItem) : MapItem := { a with id := 0 }

/-- The pointers of an item can be followed by `AreNeighbours`: its stop has
an entry in `stops_neighbours_`, its company is one of `companies_`. -/
def ItemOk (db : Database) (a : MapItem) : Prop :=
  (∀ l, a.stop_ptr = some l → (db.stops_neighbours_.lookup l).isSome) ∧
  (∀ c, a.company_ptr = some c → c < db.companies_.length)

/-- The stops `a` and `b` are adjacent in the stop list of some bus. -/
def Adjacent (buses : List (String × Bus)) (a b : String) : Prop :=
  ∃ kb ∈ buses, ∃ i : Nat,
    (kb.2.GetStops[i]? = some a ∧ kb.2.GetStops[i + 1]? = some b) ∨
    (kb.2.GetStops[i]? = some b ∧ kb.2.GetStops[i + 1]? = some a)

/-- The stop `s` is one of the nearby stops of the company `companies[c]`. -/
def Nearby (companies : List Company) (c : Nat) (s : String) : Prop :=
  ∃ company, companies[c]? = some company ∧ ∃ stop ∈ company.nearby_stops, stop.name = s

/-- The item is the item of the stop `l`. -/
def MapItem.IsStop (a : MapItem) (l : String) : Prop :=
  a.stop_ptr = some l ∧ a.company_ptr = none

/-- The item is the item of the company `companies_[c]`. -/
def MapItem.IsCompany (a : MapItem) (c : Nat) : Prop :=
  a.stop_ptr = none ∧ a.company_ptr = some c

/-- Two layout items are neighbours: two stops adjacent on some bus, or a
company and one of its nearby stops. -/
def NeighbourItems (db : Database) (a b : MapItem) : Prop :=
  (∃ l r, a.IsStop l ∧ b.IsStop r ∧ Adjacent db.buses_ l r) ∨
  (∃ c r, a.IsCompany c ∧ b.IsStop r ∧ Nearby db.companies_ c r) ∨
  (∃ l c, a.IsStop l ∧ b.IsCompany c ∧ Nearby db.companies_ c l)

/-- The stops `a` and `b` stand at two consecutive positions below `k + 1` of
the stop list, in either order. -/
def AdjacentIn (stops : List String) (k : Nat) (a b : String) : Prop :=
  ∃ i : Nat, i < k ∧
    ((stops[i]? = some a ∧ stops[i + 1]? = some b) ∨
     (stops[i]? = some b ∧ stops[i + 1]? = some a))

/-- Scenario: `std::sort` by ascending `coord` as a stable insertion sort. -/
def sortAscending (l : List MapItem) : List MapItem :=
  l.insertionSort (fun a b => a.coord ≤ b.coord)

/-- Scenario: `std::sort` by descending `coord` as a stable insertion sort. -/
def sortDescending (l : List MapItem) : List MapItem :=
  l.insertionSort (fun a b => a.coord ≥ b.coord)

/-- Scenario: a company at latitude 4, longitude 4 with the nearby stop C. -/
def cornerCompany : Company :=
  { companyWith true [] with
    address := { formatted := "", components := [], coords := { lat := 4, lon := 4 }, comment := "" }
    nearby_stops := [{ name := "C", meters := 100 }] }

/-- Scenario: the stops A (0, 0), B (3, 1), C (2, 2) on the bus `B1` from A by
B to C, the company near C, a map of 200 by 100 with the padding 10, before
`FillStopsNeighbours`. -/
def layoutDb : Database :=
  { buses_ := [("B1", Bus.new "B1" ["A", "B", "C"] .TWOWAY)]
    stops_ := [("A", Stop.new "A" 0 0 []), ("B", Stop.new "B" 3 1 []), ("C", Stop.new "C" 2 2 [])]
    stops_to_buses_ := [("A", ["B1"]), ("B", ["B1"]), ("C", ["B1"])]
    map_settings_ := { render_settings := { width := 200, height := 100, padding := 10 } }
    companies_ := [cornerCompany] }

/-- The ranks the assignment gives to a vector of items, after
`FillStopsNeighbours` (none when one of the two throws). -/
def ranksAfterFill (db0 : Database) (xs : List MapItem) : List Int :=
  match db0.FillStopsNeighbours with
  | .ok db =>
    match db.assignRanks xs with
    | .ok r => r.1.map (fun a => a.id)
    | .error _ => []
  | .error _ => []

/-- The final positions of the stops after `FillStopsNeighbours` and
`CompressCoordinates` (none when one of the two throws). -/
def positionsAfterLayout (sortX sortY : List MapItem → List MapItem) (db0 : Database) :
    List (String × ℚ × ℚ) :=
  match db0.FillStopsNeighbours with
  | .ok db =>
    match db.CompressCoordinates sortX sortY with
    | .ok db' => db'.stops_.map (fun kv => (kv.1, kv.2.x_, kv.2.y_))
    | .error _ => []
  | .error _ => []

/-- The keys of the map of the stops with the names of their stops. -/
def stopsSkeleton (m : StopMap) : List (String × String) :=
  m.map (fun kv => (kv.1, kv.2.name_))

/-- The database a call returned, `db` when it threw. -/
def databaseOr (r : Except Err Database) (db : Database) : Database :=
  match r with
  | .ok d => d
  | .error _ => db

/-- Scenario: the catalog of `layoutDb` after `FillStopsNeighbours`. -/
def filledLayoutDb : Database := databaseOr layoutDb.FillStopsNeighbours layoutDb

/-- Scenario: one stop and no bus on a map of 100 by 100 with the padding 60,
more than half the width. -/
def narrowDb : Database :=
  { stops_ := [("A", Stop.new "A" 0 0 [])]
    map_settings_ := { render_settings := { width := 100, height := 100, padding := 60 } } }

/-! ## Specification side definitions for the render settings -/

/-- The latitudes `UpdateRenderSettings` reads: `GetLatitude()` of the stops,
then `address.coords.lat` of the companies. -/
def Database.displayLats (db : Database) : List ℚ :=
  db.stops_.map (fun kv => kv.2.GetLatitude) ++
    db.companies_.map (fun company => company.address.coords.lat)

/-- The longitudes `UpdateRenderSettings` reads. -/
def Database.displayLons (db : Database) : List ℚ :=
  db.stops_.map (fun kv => kv.2.GetLongitude) ++
    db.companies_.map (fun company => company.address.coords.lon)

/-- The zoom of the specification from the four extremes: the width zoom
`(W − 2·pad)/(max_lon − min_lon)` if the span is not zero, else 0, likewise the
height zoom, and the minimum of the two if both are positive, else their
sum. -/
def zoomOf (rs : RenderSettings) (min_lat max_lat min_lon max_lon : ℚ) : ℚ :=
  let width_zoom : ℚ :=
    if min_lon ≠ max_lon then (rs.width - 2 * rs.padding) / (max_lon - min_lon) else 0
  let height_zoom : ℚ :=
    if min_lat ≠ max_lat then (rs.height - 2 * rs.padding) / (max_lat - min_lat) else 0
  if width_zoom > 0 ∧ height_zoom > 0 then min width_zoom height_zoom
  else width_zoom + height_zoom

/-- Scenario: two stops south and west of the origin, at (−10, −20) and
(−30, −40), on a map of 200 by 100 with the padding 10. -/
def southDb : Database :=
  { stops_ := [("A", Stop.new "A" (-10) (-20) []), ("B", Stop.new "B" (-30) (-40) [])]
    map_settings_ := { render_settings := { width := 200, height := 100, padding := 10 } } }

/-- An entry of the map of the stops before and after marks were set: the
same key and the same stop but for the mark, which is set iff it was set
before or the key is one of `S`. -/
def MarkRel (S : String → Prop) (kv0 kv : String × Stop) : Prop :=
  kv.1 = kv0.1 ∧ kv.2 = { kv0.2 with is_base_ := kv.2.is_base_ } ∧
  (kv.2.is_base_ = true ↔ (kv0.2.is_base_ = true ∨ S kv0.1))

/-- The map `m` is the map `m0` with the stops of `S` marked as base stops. -/
def Marked (S : String → Prop) (m0 m : StopMap) : Prop := List.Forall₂ (MarkRel S) m0 m

/-- The stops the first loop of `MarkBaseStops` marks: those with no entry in
`stops_to_buses_` and those whose entry holds more than one bus. -/
def FirstMarks (stops_to_buses_ : List (String × List String)) (k : String) : Prop :=
  stops_to_buses_.lookup k = none ∨ ∃ s, stops_to_buses_.lookup k = some s ∧ s.length > 1

/-- The stops the second loop of `MarkBaseStops` marks for one bus: the first
and the last listed stop, a stop listed more than twice on a ROUND bus, a stop
listed at least twice on a TWOWAY bus. -/
def BusMarks (bus : Bus) (k : String) : Prop :=
  bus.GetStops.head? = some k ∨ bus.GetStops.getLast? = some k ∨
  (bus.GetType = .ROUND ∧ bus.GetStops.count k > 2) ∨
  (bus.GetType = .TWOWAY ∧ bus.GetStops.count k ≥ 2)

/-- Scenario: the stops A, B, C, D, E, F are declared; the TWOWAY bus `1` runs
from A by B to C, the ROUND bus `2` lists C, D, E, D, C; no bus stops at F. -/
def markUpdates : List UpdateRequest :=
  [.stop "A" 0 0 [], .stop "B" 0 0 [], .stop "C" 0 0 [], .stop "D" 0 0 [], .stop "E" 0 0 [],
   .stop "F" 0 0 [], .bus "1" ["A", "B", "C"] .TWOWAY, .bus "2" ["C", "D", "E", "D", "C"] .ROUND]

/-- Scenario: the database of make_base after `UpdateDatabase` on the requests
of `markUpdates`. -/
def markDb : Database := databaseOr (emptyDb.UpdateDatabase markUpdates) emptyDb

/-- The marks of the stops of the database a call returned (none when it
threw). -/
def baseMarks (r : Except Err Database) : List (String × Bool) :=
  match r with
  | .ok db => db.stops_.map (fun kv => (kv.1, kv.2.IsBase))
  | .error _ => []

/-- The test of `MarkBaseStops` on the count of a stop on a bus. -/
def CountCond (bus : Bus) (c : Int) : Prop :=
  (bus.GetType = .ROUND ∧ c > 2) ∨ (bus.GetType = .TWOWAY ∧ c ≥ 2)

/-- The entry of the stop `k` in `stops_to_buses_` holds, each once, the names
of the buses of the catalog that list `k`. -/
def EntryOk (db : Database) (k : String) : Prop :=
  match db.stops_to_buses_.lookup k with
  | none => False
  | some names =>
    names.Nodup ∧ (∀ n ∈ names, ∃ kb ∈ db.buses_, kb.1 = n ∧ k ∈ kb.2.GetStops) ∧
    ∀ kb ∈ db.buses_, k ∈ kb.2.GetStops → kb.1 ∈ names

instance (db : Database) (k : String) : Decidable (EntryOk db k) := by
  unfold EntryOk
  split <;> infer_instance

/-! ## Scenarios for the ranks and the neighbour test -/

/-- The exception a call threw (none when it returned). -/
def thrown {α : Type} (r : Except Err α) : Option Err :=
  match r with
  | .ok _ => none
  | .error e => some e

/-- The layout item of the stop `name`, as `CompressCoordinates` builds it. -/
def stopItem (coord : ℚ) (name : String) : MapItem :=
  { coord := coord, stop_ptr := some name, company_ptr := none, id := 0 }

/-- The layout item of the company `companies_[c]`. -/
def companyItem (coord : ℚ) (c : Nat) : MapItem :=
  { coord := coord, stop_ptr := none, company_ptr := some c, id := 0 }

/-- The part of the constructor of make_base up to `FillStopsNeighbours`, on
the update requests (the empty database when a call threw). -/
def filledFrom (requests : List UpdateRequest) : Database :=
  databaseOr (emptyDb.UpdateDatabase requests >>= fun db => db.FillStopsNeighbours) emptyDb

/-- Scenario: exactly two stops, A and B, with the same coordinates, and no
bus. -/
def twinDb : Database := filledFrom [.stop "A" 1 1 [], .stop "B" 1 1 []]

/-- Scenario: the two stops of `twinDb` on the bus `1` from A to B. -/
def twinLineDb : Database :=
  filledFrom [.stop "A" 1 1 [], .stop "B" 1 1 [], .bus "1" ["A", "B"] .TWOWAY]

/-- Scenario: the two stops of `twinDb`, each on a bus of its own that lists
it twice. -/
def twinLoopDb : Database :=
  filledFrom [.stop "A" 1 1 [], .stop "B" 1 1 [], .bus "1" ["A", "A"] .ROUND,
    .bus "2" ["B", "B"] .ROUND]

/-- The ranks `CompressCoordinates` assigns on the X axis and the value of
`max_id_x`. -/
def Database.xRanks (sortX : List MapItem → List MapItem) (db : Database) :
    Except Err (List MapItem × Int) := do
  let db ← db.prepareLayout
  db.assignRanks (sortX db.xItems)

/-- The ranks `CompressCoordinates` assigns on the Y axis and the value of
`max_id_y`. -/
def Database.yRanks (sortX sortY : List MapItem → List MapItem) (db : Database) :
    Except Err (List MapItem × Int) := do
  let db ← db.prepareLayout
  let db ← db.compressX sortX
  db.assignRanks (sortY db.yItems)

/-- The stops of a ranked vector with their ranks, and the maximum (none when
the assignment threw). -/
def rankView (r : Except Err (List MapItem × Int)) : Option (List (Option String × Int) × Int) :=
  match r with
  | .ok r => some (r.1.map (fun a => (a.stop_ptr, a.id)), r.2)
  | .error _ => none

/-- Scenario: the catalog of `markDb` after `FillStopsNeighbours`. -/
def filledMarkDb : Database := databaseOr markDb.FillStopsNeighbours markDb

/-! ## Specification side definitions for the intermediate stops -/

/-- The stop without its display coordinates. -/
def Stop.noDisplay (s : Stop) : Stop := { s with latitude_ := 0, longitude_ := 0 }

/-- The map `m'` holds the stops of `m` under the same keys, the same but for
their display coordinates. -/
def SameButDisplay (m m' : StopMap) : Prop :=
  ∀ q, (m'.lookup q).map Stop.noDisplay = (m.lookup q).map Stop.noDisplay

/-- The position `k` of the stop list holds a base stop of the map. -/
def BaseAt (m : StopMap) (stops : List String) (k : Nat) : Prop :=
  ∃ name s, stops[k]? = some name ∧ m.lookup name = some s ∧ s.IsBase = true

/-- The stop with the display coordinates the loop over `k` of
`MoveIntermediateStops` writes at the position `k`. -/
def moveWrite (i : Nat) (base_lat base_lon lat_step lon_step : ℚ) (k : Nat) (s : Stop) : Stop :=
  (s.SetLatitude (base_lat + lat_step * ((k - i : Nat) : ℚ))).SetLongitude
    (base_lon + lon_step * ((k - i : Nat) : ℚ))
/-- The loop of `moveLoop` with the values of the counter `i` at which its
body ran, in order: the anchor positions of the scan of one bus. -/
def moveScan (stops : List String) (bound : Nat) :
    Nat → Nat → StopMap → Except Err (StopMap × List Nat)
  | 0, _, stops_ => pure (stops_, [])
  | fuel + 1, i, stops_ =>
    if i < bound then do
      let name_i ← vecAt stops i
      let stop_i ← mapAt stops_ name_i
      let base_lat := stop_i.GetLatitude
      let base_lon := stop_i.GetLongitude
      let found ← (List.range' (i + 1) (stops.length - (i + 1))).foldlM
        (findBaseStep stops stops_) none
      match found with
      | some j => do
        let name_j ← vecAt stops j
        let stop_j ← mapAt stops_ name_j
        let lat_step := (stop_j.GetLatitude - base_lat) / ((j - i : Nat) : ℚ)
        let lon_step := (stop_j.GetLongitude - base_lon) / ((j - i : Nat) : ℚ)
        let stops_ ← (List.range' i (j - i + 1)).foldlM
          (moveStep stops i base_lat base_lon lat_step lon_step) stops_
        let r ← moveScan stops bound fuel (j - 1 + 1) stops_
        pure (r.1, i :: r.2)
      | none => do
        let r ← moveScan stops bound fuel (i + 1) stops_
        pure (r.1, i :: r.2)
    else pure (stops_, [])

/-- The body of the loop over the buses of `MoveIntermediateStops`, with the
anchor positions of each bus. -/
def scanStep (s : StopMap × List (String × List Nat)) (kb : String × Bus) :
    Except Err (StopMap × List (String × List Nat)) := do
  let r ← moveScan kb.2.GetStops (toSizeT ((kb.2.GetStops.length : Int) - 1))
    (kb.2.GetStops.length + 1) 0 s.1
  pure (r.1, s.2 ++ [(kb.1, r.2)])

/-- The anchor positions of the scans of `MoveIntermediateStops`, bus by
bus. -/
def Database.scanAnchors (db : Database) : Except Err (List (String × List Nat)) := do
  let r ← db.buses_.foldlM scanStep (db.stops_, [])
  pure r.2

/-- The value at the position `k` on the line from `x_i` at the position `i`
to `x_j` at the position `j`: `x_i + (x_j − x_i)·(k − i)/(j − i)`. -/
def interpolate (x_i x_j : ℚ) (i j k : Nat) : ℚ :=
  x_i + (x_j - x_i) * ((k : ℚ) - (i : ℚ)) / ((j : ℚ) - (i : ℚ))

instance (m : StopMap) (stops : List String) (k : Nat) : Decidable (BaseAt m stops k) :=
  match h1 : stops[k]? with
  | none => isFalse (fun ⟨_, _, e1, _, _⟩ => by rw [h1] at e1; cases e1)
  | some name =>
    match h2 : m.lookup name with
    | none => isFalse (fun ⟨_, _, e1, e2, _⟩ => by
        rw [h1] at e1; cases e1; rw [h2] at e2; cases e2)
    | some s =>
      if h3 : s.IsBase = true then isTrue ⟨name, s, h1, h2, h3⟩
      else isFalse (fun ⟨_, _, e1, e2, e3⟩ => by
        rw [h1] at e1; cases e1; rw [h2] at e2; cases e2; exact h3 e3)

/-- Scenario: the ROUND bus `1` lists A, B, C, B, E, A, the stop B twice; the
TWOWAY bus `2` runs from E to F; A is at (0, 0) and E at (4, 8). -/
def loopUpdates : List UpdateRequest :=
  [.stop "A" 0 0 [], .stop "B" 5 5 [], .stop "C" 7 7 [], .stop "E" 4 8 [], .stop "F" 9 9 [],
   .bus "1" ["A", "B", "C", "B", "E", "A"] .ROUND, .bus "2" ["E", "F"] .TWOWAY]

/-- Scenario: the database of `loopUpdates` after `MarkBaseStops`. -/
def loopDb : Database := databaseOr (filledFrom loopUpdates).MarkBaseStops emptyDb

/-- The display coordinates of the stop `q` in the database a call returned
(none when it threw, or when there is no such stop). -/
def displayOf (r : Except Err Database) (q : String) : Option (ℚ × ℚ) :=
  match r with
  | .ok db => (db.stops_.lookup q).map (fun s => (s.GetLatitude, s.GetLongitude))
  | .error _ => none

/-! ## database_render.cpp: the buses of a route -/

/-- The loop over `j` of `RenderBusesOnRoute` for a ROUND bus, on the values
of `j` still to come.  `j` and `j + span_count` are `size_t`;
`stops[j + span_count]` is read, with no check of the index, when `stops[j]`
is `stop_beg`; at the first match the points of the positions `j` to
`j + span_count` are added and the loop is left. -/
def roundRun (stops_ : StopMap) (stops : List String) (stop_beg stop_end : String)
    (span_count : Int) (line : Svg.Polyline) : List Nat → Except Err Svg.Polyline
  | [] => pure line
  | j :: js => do
    let s ← vecAt stops j
    if s = stop_beg then
      let last := toSizeT ((j : Int) + span_count)
      let e ← vecAt stops last
      if e = stop_end then
        (List.range' j (last + 1 - j)).foldlM (addStopPointAt stops_ stops) line
      else roundRun stops_ stops stop_beg stop_end span_count line js
    else roundRun stops_ stops stop_beg stop_end span_count line js

/-- The test `ok && stops[idx] == name`: the stop list is read only when `ok`
holds. -/
def stopIs (stops : List String) (ok : Bool) (idx : Nat) (name : String) : Except Err Bool :=
  if ok then do
    let e ← vecAt stops idx
    pure (decide (e = name))
  else pure false

/-- The loop over `j` of `RenderBusesOnRoute` for a TWOWAY bus, on the values
of `j` still to come.  `j`, `k`, `j + span_count` and `j - span_count` are
`int`; an index into `stops` is converted to `size_t`.  Where `stops[j]` is
`stop_beg`, the run forward is tested first, then the run backward; at the
first match the points are added and the loop is left. -/
def twowayRun (stops_ : StopMap) (stops : List String) (stop_beg stop_end : String)
    (span_count : Int) (line : Svg.Polyline) : List Nat → Except Err Svg.Polyline
  | [] => pure line
  | j :: js => do
    let s ← vecAt stops j
    if s = stop_beg then
      let up := toInt32 ((j : Int) + span_count)
      let forward ← stopIs stops (decide (up < toInt32 stops.length)) (toSizeT up) stop_end
      if forward then
        (List.range' j (up + 1 - j).toNat).foldlM (addStopPointAt stops_ stops) line
      else
        let down := toInt32 ((j : Int) - span_count)
        let backward ← stopIs stops (decide ((j : Int) ≥ span_count)) (toSizeT down) stop_end
        if backward then
          ((List.range ((j : Int) - down + 1).toNat).map
            (fun (t : Nat) => toSizeT ((j : Int) - (t : Int)))).foldlM
            (addStopPointAt stops_ stops) line
        else twowayRun stops_ stops stop_beg stop_end span_count line js
    else twowayRun stops_ stops stop_beg stop_end span_count line js

/-- The body of the loop of `RenderBusesOnRoute`: an item that is no
`BusItem` is passed over; for a `BusItem` the polyline of the ride is added,
whether or not a run was found. -/
def renderRideStep (db : Database) (doc : Svg.Document) (item : RouteItem) :
    Except Err Svg.Document :=
  match item with
  | .BusItem name stop_beg stop_end span_count _ => do
    let bus ← mapAt db.buses_ name
    let stops := bus.GetStops
    let color ← bus.GetColorId >>= vecAt db.map_settings_.render_settings.color_palette
    let line := busLineStyle db color
    let line ←
      match bus.GetType with
      | .ROUND =>
        roundRun db.stops_ stops stop_beg stop_end span_count line (List.range stops.length)
      | .TWOWAY =>
        twowayRun db.stops_ stops stop_beg stop_end span_count line
          (List.range (toInt32 stops.length).toNat)
    pure (doc.Add (.polyline line))
  | _ => pure doc

/-- `Database::RenderBusesOnRoute`. -/
def Database.RenderBusesOnRoute (db : Database) (doc : Svg.Document) (route : RouteInfo) :
    Except Err Svg.Document :=
  route.items.foldlM (renderRideStep db) doc

/-! ## Specification side definitions for the buses of a route -/

/-- The positions on the map of the stops at the positions `a` to `a + span`
of a stop list, in this order. -/
def runPoints (stops_ : StopMap) (stops : List String) (a span : Nat) : List Svg.Point :=
  (List.range' a (span + 1)).map (fun k => stopPoint stops_ (stops.getD k ""))

/-- The bus of a catalog can be drawn: it has fewer than `2 ^ 30` stops, all
of them stops of the catalog, and a colour of the palette. -/
def BusDrawable (db : Database) (bus : Bus) : Prop :=
  bus.GetStops.length < 2 ^ 30 ∧
  (∀ name ∈ bus.GetStops, (db.stops_.lookup name).isSome) ∧
  ∃ c, bus.color_id_ = some c ∧ c < db.map_settings_.render_settings.color_palette.length

/-- The item is no `BusItem`, or it is the ride `BuildRoute` makes from an
edge of a drawable bus of the catalog: for two positions `i < j` of the stop
list of the bus, the ride from the stop at `i` to the stop at `j`, or, on a
TWOWAY bus, from the stop at `j` to the stop at `i`, with the span `j - i`. -/
def RideOk (db : Database) (item : RouteItem) : Prop :=
  match item with
  | .BusItem name stop_beg stop_end span_count _ =>
    ∃ bus, db.buses_.lookup name = some bus ∧ BusDrawable db bus ∧
      ∃ j : Nat, j < bus.GetStops.length ∧ ∃ i : Nat, i < j ∧
        span_count = (j : Int) - (i : Int) ∧
        ((stop_beg = bus.GetStops.getD i "" ∧ stop_end = bus.GetStops.getD j "") ∨
         (bus.GetType = .TWOWAY ∧ stop_beg = bus.GetStops.getD j "" ∧
           stop_end = bus.GetStops.getD i ""))
  | _ => True

/-- The object is the polyline of the ride: in the colour of the bus, with
`span_count + 1` points, the positions on the map of a run of consecutive
positions of the stop list of the bus that starts at a position `a` holding
`stop_beg` and ends at a position holding `stop_end`, taken forward, or, on a
TWOWAY bus, backward. -/
def RideLine (db : Database) (item : RouteItem) (obj : Svg.Object) : Prop :=
  match item with
  | .BusItem name stop_beg stop_end span_count _ =>
    ∃ (bus : Bus) (color : Svg.Color) (a : Nat) (pts : List Svg.Point),
      db.buses_.lookup name = some bus ∧
      (bus.GetColorId >>= vecAt db.map_settings_.render_settings.color_palette) = .ok color ∧
      obj = .polyline { busLineStyle db color with points_ := pts } ∧
      (pts.length : Int) = span_count + 1 ∧
      bus.GetStops.getD a "" = stop_beg ∧
      ((a + span_count.toNat < bus.GetStops.length ∧
          bus.GetStops.getD (a + span_count.toNat) "" = stop_end ∧
          pts = runPoints db.stops_ bus.GetStops a span_count.toNat) ∨
       (bus.GetType = .TWOWAY ∧ span_count.toNat ≤ a ∧ a < bus.GetStops.length ∧
          bus.GetStops.getD (a - span_count.toNat) "" = stop_end ∧
          pts = (runPoints db.stops_ bus.GetStops (a - span_count.toNat) span_count.toNat).reverse))
  | _ => False

/-- The item is a `BusItem`. -/
def RouteItem.isRide : RouteItem → Bool
  | .BusItem _ _ _ _ _ => true
  | _ => false

instance (db : Database) (bus : Bus) : Decidable (BusDrawable db bus) := by
  unfold BusDrawable
  infer_instance

instance (db : Database) (item : RouteItem) : Decidable (RideOk db item) := by
  unfold RideOk
  split <;> infer_instance

/-- The points of a polyline of a document, none for another object. -/
def Svg.Object.linePoints : Svg.Object → List Svg.Point
  | .polyline l => l.points_
  | _ => []

/-- Scenario: a route on the catalog of `colouredDb`: a ride on the TWOWAY bus
`T1`, which lists A, B, C, from C back to A, then a ride on the ROUND bus `R1`,
which lists A, B, C, A, from B to A. -/
def rideRoute : RouteInfo :=
  { total_time := 6
    items := [.StopItem "C" 2, .BusItem "T1" "C" "A" 2 1, .StopItem "B" 2,
      .BusItem "R1" "B" "A" 2 1] }

/-! ## Theorems: bus statistics -/

theorem strLess_iff (a b : String) : strLess a b = true ↔ a < b := by
  simp [strLess, String.lt_iff_toList_lt]

theorem strLess_false_iff (a b : String) : strLess b a = false ↔ a ≤ b := by
  rw [← not_lt, ← strLess_iff]; simp

theorem stdSort_eq (l : List String) : stdSort l = l.insertionSort (· ≤ ·) := by
  unfold stdSort
  congr 1
  funext a b
  exact propext (strLess_false_iff a b)

theorem stdSort_perm (l : List String) : (stdSort l).Perm l := by
  unfold stdSort; exact List.perm_insertionSort _ l

theorem stdSort_sorted (l : List String) : (stdSort l).Sorted (· ≤ ·) := by
  rw [stdSort_eq]; exact List.sorted_insertionSort _ l

theorem mem_stdUnique (l : List String) (x : String) : x ∈ stdUnique l ↔ x ∈ l := by
  induction l using stdUnique.induct with
  | case1 => simp [stdUnique]
  | case2 a => simp [stdUnique]
  | case3 b rest ih => simp [stdUnique, ih]
  | case4 a b rest h ih => simp [stdUnique, h, ih]

theorem stdUnique_sorted (l : List String) (hl : l.Sorted (· ≤ ·)) :
    (stdUnique l).Sorted (· < ·) := by
  induction l using stdUnique.induct with
  | case1 => simp [stdUnique]
  | case2 a => simp [stdUnique]
  | case3 b rest ih =>
    simp only [stdUnique, if_true]
    exact ih (List.Sorted.of_cons hl)
  | case4 a b rest h ih =>
    simp only [stdUnique, h, if_false]
    have hs := ih (List.Sorted.of_cons hl)
    rw [List.sorted_cons] at hl ⊢
    refine ⟨fun c hc => ?_, hs⟩
    rw [mem_stdUnique] at hc
    have hab : a ≤ b := hl.1 b (List.mem_cons_self _ _)
    have hab' : a < b := lt_of_le_of_ne hab h
    rcases List.mem_cons.1 hc with rfl | hc
    · exact hab'
    · exact lt_of_lt_of_le hab' ((List.sorted_cons.1 hl.2).1 c hc)

theorem stdUnique_stdSort_length (l : List String) :
    (stdUnique (stdSort l)).length = l.dedup.length := by
  have hnd : (stdUnique (stdSort l)).Nodup :=
    (stdUnique_sorted _ (stdSort_sorted l)).nodup
  have hperm : (stdUnique (stdSort l)).Perm l.dedup := by
    rw [List.perm_ext_iff_of_nodup hnd (List.nodup_dedup l)]
    intro x
    rw [mem_stdUnique, (stdSort_perm l).mem_iff, List.mem_dedup]
  exact hperm.length_eq

theorem toInt32_of_lt (n : Nat) (h : n < 2 ^ 31) : toInt32 n = n := by
  unfold toInt32; omega

theorem toInt32_toSizeT_two_mul_sub_one (n : Nat) (h : n ≤ 2 ^ 30) :
    toInt32 (toSizeT (2 * (n : Int) - 1)) = 2 * (n : Int) - 1 := by
  unfold toInt32 toSizeT; omega

theorem Bus_new_num_stops (name : String) (stops : List String) (type : RouteType) :
    (Bus.new name stops type).num_stops_ =
      match type with
      | .ROUND => toInt32 stops.length
      | .TWOWAY => toInt32 (toSizeT (2 * (stops.length : Int) - 1)) := by
  cases type <;> rfl

/-- C2. For every bus constructed from a name, a stop list and a route type,
`GetNumStops` is `len(stops)` for ROUND and `2·len(stops) − 1` for TWOWAY
(the stop list being short enough for these counts to fit the `int` member). -/
theorem Bus_num_stops (name : String) (stops : List String)
    (h : stops.length ≤ 2 ^ 30) :
    (Bus.new name stops .ROUND).GetNumStops = stops.length ∧
    (Bus.new name stops .TWOWAY).GetNumStops = 2 * (stops.length : Int) - 1 := by
  constructor
  · rw [Bus.GetNumStops, Bus_new_num_stops]
    exact toInt32_of_lt _ (by omega)
  · rw [Bus.GetNumStops, Bus_new_num_stops]
    exact toInt32_toSizeT_two_mul_sub_one _ h

/-- Witness of C2 on the stop list `[X, Y, Z]`. -/
theorem Bus_num_stops_witness :
    ["X", "Y", "Z"].length ≤ 2 ^ 30 ∧
    (Bus.new "b" ["X", "Y", "Z"] .ROUND).GetNumStops = 3 ∧
    (Bus.new "b" ["X", "Y", "Z"] .TWOWAY).GetNumStops = 5 :=
  ⟨by decide, Bus_num_stops "b" ["X", "Y", "Z"] (by decide)⟩

theorem Bus_new_num_unique_stops (name : String) (stops : List String) (type : RouteType) :
    (Bus.new name stops type).num_unique_stops_ =
      toInt32 (stdUnique (stdSort stops)).length := rfl

theorem Bus_new_stops (name : String) (stops : List String) (type : RouteType) :
    (Bus.new name stops type).stops_ = stops := rfl

theorem Bus_new_type (name : String) (stops : List String) (type : RouteType) :
    (Bus.new name stops type).type_ = type := rfl

/-- C3. For every bus, `GetNumUniqueStops` is the number of distinct stop names
of its stop list, and the stop sequence `GetStops` returns is the list as
given: the sort works on the constructor's own copy. -/
theorem Bus_num_unique_stops (name : String) (stops : List String) (type : RouteType)
    (h : stops.length < 2 ^ 31) :
    (Bus.new name stops type).GetNumUniqueStops = stops.dedup.length ∧
    stops.dedup.length = stops.toFinset.card ∧
    (Bus.new name stops type).GetStops = stops := by
  refine ⟨?_, (List.card_toFinset stops).symm, ?_⟩
  · rw [Bus.GetNumUniqueStops, Bus_new_num_unique_stops, stdUnique_stdSort_length]
    exact toInt32_of_lt _ (lt_of_le_of_lt (List.Sublist.length_le (List.dedup_sublist stops)) h)
  · rw [Bus.GetStops, Bus_new_stops]

/-- Witness of C3: `[A, B, C, A]` has 3 distinct names and is returned unchanged. -/
theorem Bus_num_unique_stops_witness :
    ["A", "B", "C", "A"].length < 2 ^ 31 ∧
    ((Bus.new "r" ["A", "B", "C", "A"] .ROUND).GetNumUniqueStops =
        (["A", "B", "C", "A"].dedup.length : Nat) ∧
      ["A", "B", "C", "A"].dedup.length = ["A", "B", "C", "A"].toFinset.card ∧
      (Bus.new "r" ["A", "B", "C", "A"] .ROUND).GetStops = ["A", "B", "C", "A"]) ∧
    (Bus.new "r" ["A", "B", "C", "A"] .ROUND).GetNumUniqueStops = 3 :=
  ⟨by decide, Bus_num_unique_stops "r" ["A", "B", "C", "A"] .ROUND (by decide), by decide⟩

/-- C4. `MapDistanceBetweenStops(a, b)` returns the distance `a` records to `b`
when `a` records one; otherwise the distance `b` records to `a` when `b`
records one; it fails exactly when neither stop records the other. -/
theorem MapDistanceBetweenStops_spec (a b : Stop) :
    (∀ d, a.GetDistances.lookup b.GetName = some d → MapDistanceBetweenStops a b = .ok d) ∧
    (∀ d, a.GetDistances.lookup b.GetName = none →
      b.GetDistances.lookup a.GetName = some d → MapDistanceBetweenStops a b = .ok d) ∧
    ((∃ e, MapDistanceBetweenStops a b = .error e) ↔
      (a.GetDistances.lookup b.GetName = none ∧ b.GetDistances.lookup a.GetName = none)) := by
  unfold MapDistanceBetweenStops
  cases h1 : a.GetDistances.lookup b.GetName with
  | some d1 => simp
  | none =>
    cases h2 : b.GetDistances.lookup a.GetName with
    | some d2 => simp
    | none => simp

theorem MapDistanceBetweenStops_ok (sa sb : Stop) (h : HasRoad sa sb) :
    ∃ d, MapDistanceBetweenStops sa sb = .ok d := by
  unfold MapDistanceBetweenStops
  cases h1 : sa.GetDistances.lookup sb.GetName with
  | some d1 => exact ⟨d1, rfl⟩
  | none =>
    cases h2 : sb.GetDistances.lookup sa.GetName with
    | some d2 => exact ⟨d2, rfl⟩
    | none => simp [HasRoad, h1, h2] at h

theorem vecAt_of_lt {α : Type} (v : List α) (i : Nat) (h : i < v.length) :
    vecAt v i = .ok (v.get ⟨i, h⟩) := by
  simp [vecAt, List.getElem?_eq_getElem h]

theorem mapAt_of_lookup {β : Type} (m : List (String × β)) (k : String) (x : β)
    (h : m.lookup k = some x) : mapAt m k = .ok x := by
  simp [mapAt, h]

theorem roadDistance_eq (stops : StopMap) (a b : String) (sa sb : Stop) (d : Int)
    (ha : stops.lookup a = some sa) (hb : stops.lookup b = some sb)
    (hd : MapDistanceBetweenStops sa sb = .ok d) : roadDistance stops a b = d := by
  simp [roadDistance, ha, hb, hd]

theorem HasRoad_symm {sa sb : Stop} (h : HasRoad sa sb) : HasRoad sb sa := Or.symm h

theorem ok_bind {α β : Type} (a : α) (f : α → Except Err β) :
    (Except.ok a >>= f) = f a := rfl

theorem toInt32_add_left (a b : Int) : toInt32 (toInt32 a + b) = toInt32 (a + b) := by
  unfold toInt32; omega

theorem toInt32_idem (a : Int) : toInt32 (toInt32 a) = toInt32 a := by
  unfold toInt32; omega

theorem toInt32_of_range (a : Int) (h1 : -2 ^ 31 ≤ a) (h2 : a < 2 ^ 31) : toInt32 a = a := by
  unfold toInt32; omega

theorem evalForwardStep_ok (geo : Stop → Stop → ℚ) (b : Bus) (stops : StopMap)
    (acc : ℚ × Int) (i : Nat) (hi : i + 1 < b.stops_.length)
    (hp : PairOk stops b.stops_ i) :
    ∃ g, evalForwardStep geo b stops acc i =
      .ok (acc.1 + g,
        toInt32 (acc.2 + roadDistance stops (b.stops_.getD i "") (b.stops_.getD (i + 1) ""))) := by
  obtain ⟨sa, sb, ha, hb, hr⟩ := hp
  obtain ⟨d, hd⟩ := MapDistanceBetweenStops_ok sa sb hr
  have e1 : b.stops_.getD i "" = b.stops_.get ⟨i, by omega⟩ := by
    simp [List.getD_eq_getElem?_getD, List.getElem?_eq_getElem (show i < b.stops_.length by omega)]
  have e2 : b.stops_.getD (i + 1) "" = b.stops_.get ⟨i + 1, hi⟩ := by
    simp [List.getD_eq_getElem?_getD, List.getElem?_eq_getElem hi]
  refine ⟨geo sa sb, ?_⟩
  rw [roadDistance_eq stops _ _ sa sb d ha hb hd]
  rw [e1] at ha
  rw [e2] at hb
  unfold evalForwardStep
  rw [vecAt_of_lt _ i (by omega), vecAt_of_lt _ (i + 1) hi]
  simp only [bind, Except.bind, mapAt_of_lookup _ _ _ ha, mapAt_of_lookup _ _ _ hb, hd]
  rfl

theorem evalBackwardStep_ok (b : Bus) (stops : StopMap)
    (acc : ℚ × Int) (i : Nat) (hi : i + 1 < b.stops_.length)
    (hp : PairOk stops b.stops_ i) :
    evalBackwardStep b stops acc i =
      .ok (acc.1,
        toInt32 (acc.2 + roadDistance stops (b.stops_.getD (i + 1) "") (b.stops_.getD i ""))) := by
  obtain ⟨sa, sb, ha, hb, hr⟩ := hp
  obtain ⟨d, hd⟩ := MapDistanceBetweenStops_ok sb sa (HasRoad_symm hr)
  have e1 : b.stops_.getD i "" = b.stops_.get ⟨i, by omega⟩ := by
    simp [List.getD_eq_getElem?_getD, List.getElem?_eq_getElem (show i < b.stops_.length by omega)]
  have e2 : b.stops_.getD (i + 1) "" = b.stops_.get ⟨i + 1, hi⟩ := by
    simp [List.getD_eq_getElem?_getD, List.getElem?_eq_getElem hi]
  rw [roadDistance_eq stops _ _ sb sa d hb ha hd]
  rw [e1] at ha
  rw [e2] at hb
  unfold evalBackwardStep
  rw [vecAt_of_lt _ i (by omega), vecAt_of_lt _ (i + 1) hi]
  simp only [bind, Except.bind, mapAt_of_lookup _ _ _ ha, mapAt_of_lookup _ _ _ hb, hd]
  rfl

/-- The forward loop from an accumulator that holds a 32 bit value: the
accumulator ends as the 32 bit reduction of its start plus the road distances. -/
theorem forward_loop (geo : Stop → Stop → ℚ) (b : Bus) (stops : StopMap) (k : Nat)
    (hk : k ≤ b.stops_.length - 1) (hp : ∀ i, i < k → PairOk stops b.stops_ i) (acc : ℚ × Int)
    (hacc : toInt32 acc.2 = acc.2) :
    ∃ g, (List.range k).foldlM (evalForwardStep geo b stops) acc =
      .ok (g, toInt32 (acc.2 + ∑ i ∈ Finset.range k,
        roadDistance stops (b.stops_.getD i "") (b.stops_.getD (i + 1) ""))) := by
  induction k with
  | zero =>
    refine ⟨acc.1, ?_⟩
    simp only [List.range_zero, List.foldlM_nil, Finset.range_zero, Finset.sum_empty, add_zero,
      hacc]
    rfl
  | succ k ih =>
    obtain ⟨g, hg⟩ := ih (by omega) (fun i hi => hp i (by omega))
    obtain ⟨g2, hg2⟩ := evalForwardStep_ok geo b stops
      (g, toInt32 (acc.2 + ∑ i ∈ Finset.range k,
        roadDistance stops (b.stops_.getD i "") (b.stops_.getD (i + 1) ""))) k (by omega)
      (hp k (by omega))
    refine ⟨g + g2, ?_⟩
    rw [List.range_succ, List.foldlM_append, hg, ok_bind, List.foldlM_cons, hg2, ok_bind,
      List.foldlM_nil, toInt32_add_left, Finset.sum_range_succ, add_assoc]
    rfl

theorem backward_loop (b : Bus) (stops : StopMap) (k : Nat)
    (hk : k ≤ b.stops_.length - 1) (hp : ∀ i, i < k → PairOk stops b.stops_ i) (acc : ℚ × Int)
    (hacc : toInt32 acc.2 = acc.2) :
    (List.range k).foldlM (evalBackwardStep b stops) acc =
      .ok (acc.1, toInt32 (acc.2 + ∑ i ∈ Finset.range k,
        roadDistance stops (b.stops_.getD (i + 1) "") (b.stops_.getD i ""))) := by
  induction k with
  | zero =>
    simp only [List.range_zero, List.foldlM_nil, Finset.range_zero, Finset.sum_empty, add_zero,
      hacc]
    rfl
  | succ k ih =>
    have hg := ih (by omega) (fun i hi => hp i (by omega))
    have hg2 := evalBackwardStep_ok b stops
      (acc.1, toInt32 (acc.2 + ∑ i ∈ Finset.range k,
        roadDistance stops (b.stops_.getD (i + 1) "") (b.stops_.getD i ""))) k (by omega)
      (hp k (by omega))
    rw [List.range_succ, List.foldlM_append, hg, ok_bind, List.foldlM_cons, hg2, ok_bind,
      List.foldlM_nil, toInt32_add_left, Finset.sum_range_succ, add_assoc]
    rfl


theorem twoway_bound (n : Nat) : (Int.tdiv (2 * (n : Int) - 1 - 1) 2).toNat = n - 1 := by
  have h : 2 * (n : Int) - 1 - 1 = 2 * ((n : Int) - 1) := by ring
  rw [h, Int.mul_tdiv_cancel_left _ (by norm_num)]
  omega

theorem round_bound (n : Nat) : ((n : Int) - 1).toNat = n - 1 := by omega

theorem toInt32_zero : toInt32 0 = 0 := by decide

theorem Bus.EvaluateRoute_round (geo : Stop → Stop → ℚ) (b : Bus) (stops : StopMap)
    (ht : b.type_ = .ROUND) (hn : b.num_stops_ = b.stops_.length)
    (hp : ∀ i, i < b.stops_.length - 1 → PairOk stops b.stops_ i) :
    ∃ r, b.EvaluateRoute geo stops = .ok r ∧ r.stops_ = b.stops_ ∧
      r.map_route_length_ = toInt32 (roadLength stops b.stops_ .ROUND) := by
  obtain ⟨g, hg⟩ := forward_loop geo b stops (b.stops_.length - 1) le_rfl hp (0, 0) toInt32_zero
  rw [zero_add] at hg
  unfold Bus.EvaluateRoute
  rw [ht]
  simp only [hn, round_bound]
  rw [hg, ok_bind]
  exact ⟨_, rfl, rfl, rfl⟩

theorem Bus.EvaluateRoute_twoway (geo : Stop → Stop → ℚ) (b : Bus) (stops : StopMap)
    (ht : b.type_ = .TWOWAY) (hn : b.num_stops_ = 2 * (b.stops_.length : Int) - 1)
    (hp : ∀ i, i < b.stops_.length - 1 → PairOk stops b.stops_ i) :
    ∃ r, b.EvaluateRoute geo stops = .ok r ∧ r.stops_ = b.stops_ ∧
      r.map_route_length_ = toInt32 (roadLength stops b.stops_ .TWOWAY) := by
  obtain ⟨g, hg⟩ := forward_loop geo b stops (b.stops_.length - 1) le_rfl hp (0, 0) toInt32_zero
  have hb := backward_loop b stops (b.stops_.length - 1) le_rfl hp
    (g, toInt32 (∑ i ∈ Finset.range (b.stops_.length - 1),
          roadDistance stops (b.stops_.getD i "") (b.stops_.getD (i + 1) "")))
    (toInt32_idem _)
  rw [zero_add] at hg
  rw [toInt32_add_left] at hb
  unfold Bus.EvaluateRoute
  rw [ht]
  simp only [hn, twoway_bound]
  rw [hg, ok_bind, hb, ok_bind]
  exact ⟨_, rfl, rfl, rfl⟩

theorem RouteOk.pairOk {stops : StopMap} {l : List String} (h : RouteOk stops l)
    (i : Nat) (hi : i < l.length - 1) : PairOk stops l i := by
  have h1 : i < l.length := by omega
  have h2 : i + 1 < l.length := by omega
  have m1 : l.getD i "" ∈ l := by
    rw [List.getD_eq_getElem _ _ h1]; exact List.getElem_mem _
  have m2 : l.getD (i + 1) "" ∈ l := by
    rw [List.getD_eq_getElem _ _ h2]; exact List.getElem_mem _
  obtain ⟨sa, ha⟩ := h.1 _ m1
  obtain ⟨sb, hb⟩ := h.1 _ m2
  exact ⟨sa, sb, ha, hb, h.2 i h2 sa sb ha hb⟩

/-- The road length `EvaluateRoute` stores on a well formed bus: the sum of the
claim, reduced to the 32 bits of the `int` it is accumulated in. -/
theorem EvaluateRoute_stored (geo : Stop → Stop → ℚ) (name : String)
    (l : List String) (type : RouteType) (stops : StopMap)
    (hlen : l.length ≤ 2 ^ 30) (hok : RouteOk stops l) :
    ∃ r, (Bus.new name l type).EvaluateRoute geo stops = .ok r ∧
      r.GetStops = l ∧ r.GetMapRouteLength = toInt32 (roadLength stops l type) := by
  have hs := Bus_new_stops name l type
  have hn := Bus_new_num_stops name l type
  cases type with
  | ROUND =>
    have h := Bus.EvaluateRoute_round geo (Bus.new name l .ROUND) stops
      (Bus_new_type _ _ _) (by rw [hn, hs]; exact toInt32_of_lt _ (by omega))
      (by rw [hs]; exact fun i hi => hok.pairOk i hi)
    rw [hs] at h
    exact h
  | TWOWAY =>
    have h := Bus.EvaluateRoute_twoway geo (Bus.new name l .TWOWAY) stops
      (Bus_new_type _ _ _) (by rw [hn, hs]; exact toInt32_toSizeT_two_mul_sub_one _ hlen)
      (by rw [hs]; exact fun i hi => hok.pairOk i hi)
    rw [hs] at h
    exact h

/-- C1, amended. For every bus whose stops all exist and whose consecutive pairs
have a road distance in at least one direction, and for which the sum of
`MapDistanceBetweenStops` over the full traversal (for ROUND the consecutive
pairs `(stops[i], stops[i+1])` of the listed order, for TWOWAY those pairs plus
the reverse lookups `(stops[i+1], stops[i])`) lies in the range of the 32 bit
`int` it is accumulated in, `Bus::EvaluateRoute` returns and sets the road
length to that sum.  The stop list is short enough for the `int` stop count that
bounds the loops. -/
theorem EvaluateRoute_road_length (geo : Stop → Stop → ℚ) (name : String)
    (l : List String) (type : RouteType) (stops : StopMap)
    (hlen : l.length ≤ 2 ^ 30) (hok : RouteOk stops l)
    (hlo : -2 ^ 31 ≤ roadLength stops l type) (hhi : roadLength stops l type < 2 ^ 31) :
    ∃ r, (Bus.new name l type).EvaluateRoute geo stops = .ok r ∧
      r.GetStops = l ∧
      r.GetMapRouteLength =
        match type with
        | .ROUND =>
          ∑ i ∈ Finset.range (l.length - 1), roadDistance stops (l.getD i "") (l.getD (i + 1) "")
        | .TWOWAY =>
          (∑ i ∈ Finset.range (l.length - 1),
            roadDistance stops (l.getD i "") (l.getD (i + 1) "")) +
          ∑ i ∈ Finset.range (l.length - 1),
            roadDistance stops (l.getD (i + 1) "") (l.getD i "") := by
  obtain ⟨r, hr, hst, hm⟩ := EvaluateRoute_stored geo name l type stops hlen hok
  refine ⟨r, hr, hst, ?_⟩
  rw [hm, toInt32_of_range _ hlo hhi]
  cases type <;> rfl

theorem routeOk_twowayStops : RouteOk twowayStops ["X", "Y", "Z"] := by
  constructor
  · intro s hs
    simp only [List.mem_cons, List.mem_singleton, List.not_mem_nil, or_false] at hs
    rcases hs with rfl | rfl | rfl <;> exact ⟨_, rfl⟩
  · intro i hi sa sb ha hb
    have hi' : i < 2 := by simp at hi; omega
    interval_cases i
    · cases ha; cases hb; exact Or.inl rfl
    · cases ha; cases hb; exact Or.inl rfl

theorem routeOk_roundStops : RouteOk roundStops ["A", "B", "C", "A"] := by
  constructor
  · intro s hs
    simp only [List.mem_cons, List.mem_singleton, List.not_mem_nil, or_false] at hs
    rcases hs with rfl | rfl | rfl | rfl <;> exact ⟨_, rfl⟩
  · intro i hi sa sb ha hb
    have hi' : i < 3 := by simp at hi; omega
    interval_cases i
    · cases ha; cases hb; exact Or.inl rfl
    · cases ha; cases hb; exact Or.inl rfl
    · cases ha; cases hb; exact Or.inl rfl

theorem routeOk_farStops : RouteOk farStops ["A", "B", "A"] := by
  constructor
  · intro s hs
    simp only [List.mem_cons, List.mem_singleton, List.not_mem_nil, or_false] at hs
    rcases hs with rfl | rfl | rfl <;> exact ⟨_, rfl⟩
  · intro i hi sa sb ha hb
    have hi' : i < 2 := by simp at hi; omega
    interval_cases i
    · cases ha; cases hb; exact Or.inl rfl
    · cases ha; cases hb; exact Or.inr rfl

/-- Counterexample to C1 as stated: on the ROUND bus `[A, B, A]` with the road
distance A→B = 2000000000 (B→A falls back to it) every stop exists and every
consecutive pair has a road distance; the sum of `MapDistanceBetweenStops` over
the traversal is 4000000000, and `EvaluateRoute` sets the road length to
−294967296, the 32 bit `int` the sum wraps to. -/
theorem EvaluateRoute_road_length_counterexample :
    ["A", "B", "A"].length ≤ 2 ^ 30 ∧ RouteOk farStops ["A", "B", "A"] ∧
    roadLength farStops ["A", "B", "A"] .ROUND = 4000000000 ∧
    ((Bus.new "far" ["A", "B", "A"] .ROUND).EvaluateRoute (fun _ _ => 1) farStops).toOption.map
      Bus.GetMapRouteLength = some (-294967296) ∧
    ¬ (((Bus.new "far" ["A", "B", "A"] .ROUND).EvaluateRoute (fun _ _ => 1) farStops).toOption.map
      Bus.GetMapRouteLength = some (roadLength farStops ["A", "B", "A"] .ROUND)) :=
  ⟨by decide, routeOk_farStops, by decide, by decide, by decide⟩

/-- Witness of C1, amended: TWOWAY `[X, Y, Z]` gives 310 and ROUND
`[A, B, C, A]` gives 600. -/
theorem EvaluateRoute_road_length_witness :
    (["X", "Y", "Z"].length ≤ 2 ^ 30 ∧ RouteOk twowayStops ["X", "Y", "Z"] ∧
      -2 ^ 31 ≤ roadLength twowayStops ["X", "Y", "Z"] .TWOWAY ∧
      roadLength twowayStops ["X", "Y", "Z"] .TWOWAY < 2 ^ 31) ∧
    (∃ r, (Bus.new "t" ["X", "Y", "Z"] .TWOWAY).EvaluateRoute (fun _ _ => 1) twowayStops = .ok r ∧
      r.GetStops = ["X", "Y", "Z"] ∧
      r.GetMapRouteLength =
        (∑ i ∈ Finset.range 2,
          roadDistance twowayStops (["X", "Y", "Z"].getD i "") (["X", "Y", "Z"].getD (i + 1) "")) +
        ∑ i ∈ Finset.range 2,
          roadDistance twowayStops (["X", "Y", "Z"].getD (i + 1) "") (["X", "Y", "Z"].getD i "")) ∧
    (∃ r, (Bus.new "r" ["A", "B", "C", "A"] .ROUND).EvaluateRoute (fun _ _ => 1) roundStops = .ok r ∧
      r.GetStops = ["A", "B", "C", "A"] ∧
      r.GetMapRouteLength =
        ∑ i ∈ Finset.range 3,
          roadDistance roundStops (["A", "B", "C", "A"].getD i "")
            (["A", "B", "C", "A"].getD (i + 1) "")) ∧
    ((Bus.new "t" ["X", "Y", "Z"] .TWOWAY).EvaluateRoute (fun _ _ => 1) twowayStops).toOption.map
      Bus.GetMapRouteLength = some 310 ∧
    ((Bus.new "r" ["A", "B", "C", "A"] .ROUND).EvaluateRoute (fun _ _ => 1) roundStops).toOption.map
      Bus.GetMapRouteLength = some 600 :=
  ⟨⟨by decide, routeOk_twowayStops, by decide, by decide⟩,
    EvaluateRoute_road_length (fun _ _ => 1) "t" ["X", "Y", "Z"] .TWOWAY twowayStops (by decide)
      routeOk_twowayStops (by decide) (by decide),
    EvaluateRoute_road_length (fun _ _ => 1) "r" ["A", "B", "C", "A"] .ROUND roundStops (by decide)
      routeOk_roundStops (by decide) (by decide),
    by decide, by decide⟩

/-! ## Theorems: construction of the route graph -/

theorem vecAt_getD (v : List String) (i : Nat) (h : i < v.length) :
    vecAt v i = .ok (v.getD i "") := by
  simp [vecAt, List.getElem?_eq_getElem h, List.getD_eq_getElem _ _ h]

theorem timeStep_ok (v : ℚ) (s : List String) (stops : StopMap) (next : Nat → Nat) (t : ℚ)
    (k : Nat) (hk : k < s.length) (hn : next k < s.length) (sa sb : Stop)
    (ha : stops.lookup (s.getD k "") = some sa) (hb : stops.lookup (s.getD (next k) "") = some sb)
    (hr : HasRoad sa sb) :
    timeStep v s stops next t k =
      .ok (t + (roadDistance stops (s.getD k "") (s.getD (next k) "") : ℚ) / v) := by
  obtain ⟨d, hd⟩ := MapDistanceBetweenStops_ok sa sb hr
  rw [roadDistance_eq stops _ _ sa sb d ha hb hd]
  unfold timeStep
  rw [vecAt_getD _ k hk, vecAt_getD _ (next k) hn]
  simp only [bind, Except.bind, mapAt_of_lookup _ _ _ ha, mapAt_of_lookup _ _ _ hb, hd]
  rfl

theorem time_up (v : ℚ) (s : List String) (stops : StopMap) (hok : RouteOk stops s) :
    ∀ (m i : Nat) (t : ℚ), i + m < s.length →
      (List.range' i m).foldlM (timeStep v s stops (fun i => i + 1)) t =
        .ok (t + ∑ k ∈ Finset.Ico i (i + m),
          (roadDistance stops (s.getD k "") (s.getD (k + 1) "") : ℚ) / v) := by
  intro m
  induction m with
  | zero => intro i t _; simp [pure, Except.pure]
  | succ m ih =>
    intro i t h
    obtain ⟨sa, sb, ha, hb, hr⟩ := hok.pairOk (i + m) (by omega)
    rw [List.range'_concat, List.foldlM_append, ih i t (by omega)]
    simp only [bind, Except.bind, List.foldlM_cons, List.foldlM_nil, one_mul]
    rw [timeStep_ok v s stops _ _ (i + m) (by omega) (by omega) sa sb ha hb hr]
    simp only [pure, Except.pure]
    rw [← add_assoc i m 1, Finset.sum_Ico_succ_top (by omega), add_assoc]

theorem time_down (v : ℚ) (s : List String) (stops : StopMap) (hok : RouteOk stops s) :
    ∀ (m a : Nat) (t : ℚ), 1 ≤ a → a + m ≤ s.length →
      (List.range' a m).reverse.foldlM (timeStep v s stops (fun i => i - 1)) t =
        .ok (t + ∑ k ∈ Finset.Ico a (a + m),
          (roadDistance stops (s.getD k "") (s.getD (k - 1) "") : ℚ) / v) := by
  intro m
  induction m with
  | zero => intro a t _ _; simp [pure, Except.pure]
  | succ m ih =>
    intro a t h1 h
    obtain ⟨sa, sb, ha, hb, hr⟩ := hok.pairOk (a - 1) (by omega)
    have e : a - 1 + 1 = a := by omega
    rw [e] at hb
    rw [List.range'_succ, List.reverse_cons, List.foldlM_append, ih (a + 1) t (by omega) (by omega)]
    simp only [bind, Except.bind, List.foldlM_cons, List.foldlM_nil]
    rw [timeStep_ok v s stops _ _ a (by omega) (by omega) sb sa hb ha (HasRoad_symm hr)]
    simp only [pure, Except.pure]
    rw [Finset.sum_eq_sum_Ico_succ_bot (show a < a + (m + 1) by omega)]
    congr 1
    have e2 : a + 1 + m = a + (m + 1) := by omega
    rw [e2]
    ring

theorem TimeBetweenStops_forward (v : ℚ) (s : List String) (stops : StopMap)
    (hok : RouteOk stops s) (i j : Nat) (hij : i < j) (hj : j < s.length) :
    TimeBetweenStops v s stops i j = .ok (forwardTime v stops s i j) := by
  unfold TimeBetweenStops forwardTime
  rw [if_pos hij, time_up v s stops hok (j - i) i 0 (by omega), Finset.sum_div]
  have e : i + (j - i) = j := by omega
  rw [e, zero_add]

theorem TimeBetweenStops_backward (v : ℚ) (s : List String) (stops : StopMap)
    (hok : RouteOk stops s) (i j : Nat) (hij : i < j) (hj : j < s.length) :
    TimeBetweenStops v s stops j i = .ok (backwardTime v stops s i j) := by
  unfold TimeBetweenStops backwardTime
  rw [if_neg (by omega), if_pos (show j > i from hij),
    time_down v s stops hok (j - i) (i + 1) 0 (by omega) (by omega), Finset.sum_div]
  have e : i + 1 + (j - i) = j + 1 := by omega
  rw [e, zero_add]

theorem toInt32_sub_of_lt (i j : Nat) (hij : i < j) (hj : j < 2 ^ 31) :
    toInt32 ((j : Int) - i) = (j : Int) - i := by
  unfold toInt32; omega

theorem toSizeT_pred (n : Nat) (h1 : 1 ≤ n) (h2 : n < 2 ^ 31) :
    toSizeT ((n : Int) - 1) = n - 1 := by
  unfold toSizeT; omega

theorem umapIndex_of_lookup (m : List (String × Nat)) (k : String)
    (h : (m.lookup k).isSome) : umapIndex m k = (vertexOf m k, m) := by
  unfold umapIndex vertexOf
  cases hl : m.lookup k with
  | some v => rfl
  | none => rw [hl] at h; cases h

theorem pushEdges_pushEdges (tr : TransportRouter) (l l' : List (Edge × (String × Int))) :
    pushEdges (pushEdges tr l) l' = pushEdges tr (l ++ l') := by
  simp [pushEdges, List.append_assoc]

theorem pushEdges_nil (tr : TransportRouter) : pushEdges tr [] = tr := by
  simp [pushEdges]

theorem getD_mem (s : List String) (i : Nat) (h : i < s.length) : s.getD i "" ∈ s := by
  rw [List.getD_eq_getElem _ _ h]; exact List.getElem_mem _

theorem forwardEdge_ok (stops : StopMap) (bus : Bus) (tr0 : TransportRouter)
    (hok : RouteOk stops bus.stops_) (hcov : Covers tr0.stop_to_id bus.stops_)
    (hn : bus.stops_.length < 2 ^ 31) (l : List (Edge × (String × Int)))
    (i j : Nat) (hij : i < j) (hj : j < bus.stops_.length) :
    forwardEdge stops bus (pushEdges tr0 l) i j =
      .ok (pushEdges tr0 (l ++ [forwardEdgeOf tr0 stops bus (i, j)])) := by
  have hi : i < bus.stops_.length := by omega
  unfold forwardEdge
  simp only [Bus.GetStops, Bus.GetName]
  have e1 : (pushEdges tr0 l).bus_velocity_ = tr0.bus_velocity_ := rfl
  have e2 : (pushEdges tr0 l).stop_to_id = tr0.stop_to_id := rfl
  have e3 : (pushEdges tr0 l).bus_wait_time_ = tr0.bus_wait_time_ := rfl
  rw [e1, e2, e3, TimeBetweenStops_forward _ _ _ hok i j hij hj, vecAt_getD _ i hi,
    vecAt_getD _ j hj, toInt32_sub_of_lt i j hij (by omega)]
  simp only [bind, Except.bind, pure, Except.pure]
  rw [umapIndex_of_lookup _ _ (hcov _ (getD_mem _ _ hi))]
  simp only []
  rw [umapIndex_of_lookup _ _ (hcov _ (getD_mem _ _ hj))]
  simp only [pushEdges, forwardEdgeOf, DirectedWeightedGraph.AddEdge, List.map_append,
    List.map_cons, List.map_nil, List.append_assoc, add_comm]

theorem backwardEdge_ok (stops : StopMap) (bus : Bus) (tr0 : TransportRouter)
    (hok : RouteOk stops bus.stops_) (hcov : Covers tr0.stop_to_id bus.stops_)
    (hn : bus.stops_.length < 2 ^ 31) (l : List (Edge × (String × Int)))
    (i j : Nat) (hij : i < j) (hj : j < bus.stops_.length) :
    backwardEdge stops bus (pushEdges tr0 l) i j =
      .ok (pushEdges tr0 (l ++ [backwardEdgeOf tr0 stops bus (i, j)])) := by
  have hi : i < bus.stops_.length := by omega
  unfold backwardEdge
  simp only [Bus.GetStops, Bus.GetName]
  have e1 : (pushEdges tr0 l).bus_velocity_ = tr0.bus_velocity_ := rfl
  have e2 : (pushEdges tr0 l).stop_to_id = tr0.stop_to_id := rfl
  have e3 : (pushEdges tr0 l).bus_wait_time_ = tr0.bus_wait_time_ := rfl
  rw [e1, e2, e3, TimeBetweenStops_backward _ _ _ hok i j hij hj, vecAt_getD _ i hi,
    vecAt_getD _ j hj, toInt32_sub_of_lt i j hij (by omega)]
  simp only [bind, Except.bind, pure, Except.pure]
  rw [umapIndex_of_lookup _ _ (hcov _ (getD_mem _ _ hj))]
  simp only []
  rw [umapIndex_of_lookup _ _ (hcov _ (getD_mem _ _ hi))]
  simp only [pushEdges, backwardEdgeOf, DirectedWeightedGraph.AddEdge, List.map_append,
    List.map_cons, List.map_nil, List.append_assoc, add_comm]

theorem foldlM_pushEdges {α : Type} (f : TransportRouter → α → Except Err TransportRouter)
    (g : α → List (Edge × (String × Int))) (tr0 : TransportRouter) :
    ∀ (xs : List α) (l : List (Edge × (String × Int))),
      (∀ l x, x ∈ xs → f (pushEdges tr0 l) x = .ok (pushEdges tr0 (l ++ g x))) →
      xs.foldlM f (pushEdges tr0 l) = .ok (pushEdges tr0 (l ++ xs.flatMap g)) := by
  intro xs
  induction xs with
  | nil => intro l _; simp [pure, Except.pure]
  | cons x xs ih =>
    intro l h
    rw [List.foldlM_cons, h l x (List.mem_cons_self _ _)]
    simp only [bind, Except.bind]
    rw [ih (l ++ g x) (fun l y hy => h l y (List.mem_cons_of_mem _ hy))]
    simp [List.append_assoc]

theorem flatMap_singleton_map {α β : Type} (xs : List α) (g : α → β) :
    xs.flatMap (fun x => [g x]) = xs.map g := by
  induction xs with
  | nil => rfl
  | cons x xs ih => simp [List.flatMap_cons, ih]

theorem flatMap_range_extend (n : Nat) (F : Nat → List (Edge × (String × Int)))
    (hF : ∀ i, n - 1 ≤ i → F i = []) :
    ∀ N, n - 1 ≤ N → (List.range N).flatMap F = (List.range (n - 1)).flatMap F := by
  intro N hN
  induction N with
  | zero =>
    have : n - 1 = 0 := by omega
    rw [this]
  | succ N ih =>
    by_cases h : n - 1 = N + 1
    · rw [h]
    · rw [List.range_succ, List.flatMap_append, ih (by omega)]
      simp [hF N (by omega)]

theorem pairLoop_push (n : Nat) (hn : n < 2 ^ 31)
    (body : TransportRouter → Nat → Nat → Except Err TransportRouter)
    (g : Nat × Nat → Edge × (String × Int)) (tr0 : TransportRouter)
    (h : ∀ l i j, i < j → j < n →
      body (pushEdges tr0 l) i j = .ok (pushEdges tr0 (l ++ [g (i, j)])))
    (l : List (Edge × (String × Int))) :
    pairLoop n body (pushEdges tr0 l) = .ok (pushEdges tr0 (l ++ (positionPairs n).map g)) := by
  unfold pairLoop
  rw [foldlM_pushEdges _
    (fun i => (List.range' (i + 1) (n - (i + 1))).map (fun j => g (i, j))) tr0]
  · congr 2
    have hN : n - 1 ≤ toSizeT ((n : Int) - 1) := by
      rcases Nat.eq_zero_or_pos n with h0 | h0
      · omega
      · rw [toSizeT_pred n h0 hn]
    rw [flatMap_range_extend n _ (fun i hi => by
      have : n - (i + 1) = 0 := by omega
      rw [this]; rfl) _ hN]
    unfold positionPairs
    rw [List.map_flatMap]
    simp only [List.map_map, Function.comp_def]
  · intro l' i _
    rw [foldlM_pushEdges _ (fun j => [g (i, j)]) tr0, flatMap_singleton_map]
    intro l'' j hj
    rw [List.mem_range'_1] at hj
    exact h l'' i j (by omega) (by omega)

theorem addBus_ok (stops : StopMap) (bus : Bus) (tr0 : TransportRouter)
    (hok : RouteOk stops bus.stops_) (hcov : Covers tr0.stop_to_id bus.stops_)
    (hn : bus.stops_.length < 2 ^ 31) (l : List (Edge × (String × Int))) :
    addBus stops (pushEdges tr0 l) bus = .ok (pushEdges tr0 (l ++ busEdges tr0 stops bus)) := by
  unfold addBus busEdges
  simp only [Bus.GetType, Bus.GetStops]
  cases bus.type_ with
  | ROUND =>
    exact pairLoop_push _ hn _ _ tr0 (fun l i j hij hj =>
      forwardEdge_ok stops bus tr0 hok hcov hn l i j hij hj) l
  | TWOWAY =>
    simp only []
    rw [pairLoop_push _ hn _ _ tr0 (fun l i j hij hj =>
      forwardEdge_ok stops bus tr0 hok hcov hn l i j hij hj) l]
    simp only [bind, Except.bind]
    rw [pairLoop_push _ hn _ _ tr0 (fun l i j hij hj =>
      backwardEdge_ok stops bus tr0 hok hcov hn l i j hij hj), List.append_assoc]

theorem mem_positionPairs (n : Nat) (p : Nat × Nat) :
    p ∈ positionPairs n ↔ p.1 < p.2 ∧ p.2 < n := by
  unfold positionPairs
  simp only [List.mem_flatMap, List.mem_range, List.mem_map, List.mem_range'_1]
  constructor
  · rintro ⟨i, hi, j, hj, rfl⟩
    simp only
    omega
  · rintro ⟨h1, h2⟩
    exact ⟨p.1, by omega, p.2, by omega, rfl⟩

theorem nodup_positionPairs (n : Nat) : (positionPairs n).Nodup := by
  unfold positionPairs
  rw [List.nodup_flatMap]
  constructor
  · intro i _
    exact (List.nodup_range' _ _).map (fun a b h => by simpa using h)
  · refine List.Pairwise.imp ?_ (List.nodup_range (n - 1))
    intro a b hab
    simp only [Function.onFun]
    intro p hp1 hp2
    simp only [List.mem_map] at hp1 hp2
    obtain ⟨_, _, rfl⟩ := hp1
    obtain ⟨_, _, h⟩ := hp2
    simp only [Prod.mk.injEq] at h
    exact hab h.1.symm

theorem length_positionPairs (n : Nat) : (positionPairs n).length * 2 = n * (n - 1) := by
  unfold positionPairs
  rw [List.length_flatMap]
  have h : ∀ m, m ≤ n - 1 →
      ((List.range m).map
        (List.length ∘ fun i => (List.range' (i + 1) (n - (i + 1))).map (fun j => (i, j)))).sum * 2
        + m * (m + 1) = 2 * m * n := by
    intro m
    induction m with
    | zero => intro _; simp
    | succ m ih =>
      intro hm
      have := ih (by omega)
      rw [List.range_succ, List.map_append, List.sum_append]
      simp only [List.map_cons, List.map_nil, List.sum_cons, List.sum_nil, Function.comp_apply,
        List.length_map, List.length_range', add_zero]
      have e : n - (m + 1) + (m + 1) = n := by omega
      nlinarith [this, e]
  have := h (n - 1) le_rfl
  rcases Nat.eq_zero_or_pos n with h0 | h0
  · subst h0; simp
  · have e : n - 1 + 1 = n := by omega
    rw [e] at this
    nlinarith [this]

theorem lookup_append_of_none (m : List (String × Nat)) (k k' : String) (v : Nat)
    (h : m.lookup k' = none) (hne : k' ≠ k) : (m ++ [(k, v)]).lookup k' = none := by
  rw [List.lookup_append, h]
  have e : (k' == k) = false := by simpa using hne
  simp [List.lookup_cons, e]

theorem vertexStep_fold (stops : StopMap) :
    ∀ (tr : TransportRouter) (c : Nat), (stops.map Prod.fst).Nodup →
      (∀ k ∈ stops.map Prod.fst, tr.stop_to_id.lookup k = none) →
      stops.foldl vertexStep (tr, c) =
        ({ tr with
            stop_to_id := tr.stop_to_id ++ List.zip (stops.map Prod.fst) (List.range' c stops.length)
            id_to_stop := tr.id_to_stop ++ stops.map Prod.fst }, c + stops.length) := by
  induction stops with
  | nil => intro tr c _ _; simp
  | cons kv rest ih =>
    intro tr c hnd hnone
    rw [List.map_cons, List.nodup_cons] at hnd
    have h0 : tr.stop_to_id.lookup kv.1 = none := hnone kv.1 (by simp)
    rw [List.foldl_cons]
    have hs : vertexStep (tr, c) kv =
        ({ tr with stop_to_id := tr.stop_to_id ++ [(kv.1, c)]
                   id_to_stop := tr.id_to_stop ++ [kv.1] }, c + 1) := by
      simp [vertexStep, umapInsert, h0]
    rw [hs, ih _ (c + 1) hnd.2]
    · simp [List.range'_succ, List.append_assoc, Nat.add_assoc, Nat.add_comm 1]
    · intro k hk
      refine lookup_append_of_none _ _ _ _ (hnone k (by simp [List.mem_map] at hk ⊢; exact Or.inr hk)) ?_
      rintro rfl
      exact hnd.1 hk

theorem lookup_zip_range' :
    ∀ (keys : List String), keys.Nodup → ∀ (c i : Nat) (h : i < keys.length),
      (List.zip keys (List.range' c keys.length)).lookup (keys.get ⟨i, h⟩) = some (c + i) := by
  intro keys
  induction keys with
  | nil => intro _ c i h; simp at h
  | cons k rest ih =>
    intro hnd c i h
    rw [List.nodup_cons] at hnd
    cases i with
    | zero => simp [List.range'_succ, List.lookup_cons]
    | succ i =>
      have hi : i < rest.length := by simpa using h
      have hne : rest.get ⟨i, hi⟩ ≠ k := by
        intro e; exact hnd.1 (e ▸ List.get_mem _ _ _)
      have := ih hnd.2 (c + 1) i hi
      simp only [List.length_cons, List.range'_succ, List.zip_cons_cons, List.lookup_cons,
        List.get_cons_succ]
      simp only [List.get_eq_getElem] at hne this ⊢
      rw [show (rest[i] == k) = false from by simpa using hne]
      simp only []
      rw [this]
      congr 1; omega

theorem lookup_zip_isSome_iff (keys : List String) (c : Nat) (name : String) :
    ((List.zip keys (List.range' c keys.length)).lookup name).isSome ↔ name ∈ keys := by
  induction keys generalizing c with
  | nil => simp
  | cons k rest ih =>
    simp only [List.length_cons, List.range'_succ, List.zip_cons_cons, List.lookup_cons,
      List.mem_cons]
    by_cases h : name = k
    · subst h; simp
    · rw [show (name == k) = false from by simpa using h]
      simp only [h, false_or]
      exact ih (c + 1)

theorem lookup_isSome_mem_keys {β : Type} (m : List (String × β)) (k : String) (x : β)
    (h : m.lookup k = some x) : k ∈ m.map Prod.fst := by
  induction m with
  | nil => simp at h
  | cons kv rest ih =>
    obtain ⟨k', v⟩ := kv
    simp only [List.lookup_cons] at h
    by_cases e : k = k'
    · subst e; simp
    · rw [show (k == k') = false from by simpa using e] at h
      simp only [List.map_cons, List.mem_cons]
      exact Or.inr (ih h)

theorem toSizeT_toInt32_of_lt (n : Nat) (h : n < 2 ^ 31) : toSizeT (toInt32 n) = n := by
  unfold toSizeT toInt32; omega

theorem addVertices_eq (stops : StopMap) (rs : RouterSettings)
    (hnd : (stops.map Prod.fst).Nodup) (hsize : stops.length < 2 ^ 31) :
    (addVertices stops
      { graph_ := { vertex_count := toSizeT (toInt32 stops.length) }
        bus_wait_time_ := rs.bus_wait_time
        bus_velocity_ := rs.bus_velocity
        pedestrian_velocity_ := rs.pedestrian_velocity }).1 = vertexRouter stops rs := by
  unfold addVertices
  rw [vertexStep_fold stops _ 0 hnd (fun k _ => by simp), toSizeT_toInt32_of_lt _ hsize]
  simp [vertexRouter]

theorem RouteOk.covers {stops : StopMap} {s : List String} (h : RouteOk stops s)
    (rs : RouterSettings) : Covers (vertexRouter stops rs).stop_to_id s := by
  intro name hname
  obtain ⟨st, hst⟩ := h.1 name hname
  have hm := lookup_isSome_mem_keys stops name st hst
  have hl : (stops.map Prod.fst).length = stops.length := List.length_map _ _
  have := (lookup_zip_isSome_iff (stops.map Prod.fst) 0 name).2 hm
  rw [hl] at this
  exact this

theorem TransportRouter_new_ok (buses : List (String × Bus)) (stops : StopMap)
    (rs : RouterSettings) (h : CatalogOk buses stops) :
    TransportRouter.new buses stops rs =
      .ok (pushEdges (vertexRouter stops rs)
        (buses.flatMap (fun kb => busEdges (vertexRouter stops rs) stops kb.2))) := by
  obtain ⟨hsorted, hsize, hbuses⟩ := h
  unfold TransportRouter.new
  simp only []
  rw [addVertices_eq stops rs hsorted.nodup hsize]
  have := foldlM_pushEdges (fun tr (kb : String × Bus) => addBus stops tr kb.2)
    (fun kb => busEdges (vertexRouter stops rs) stops kb.2) (vertexRouter stops rs) buses []
    (fun l kb hkb => addBus_ok stops kb.2 _ (hbuses kb hkb).1 ((hbuses kb hkb).1.covers rs)
      (hbuses kb hkb).2 l)
  rw [pushEdges_nil, List.nil_append] at this
  exact this

theorem pushEdges_edges_of_nil (tr : TransportRouter) (l : List (Edge × (String × Int)))
    (h : tr.graph_.edges = []) : (pushEdges tr l).graph_.edges = l.map Prod.fst := by
  simp [pushEdges, h]

theorem pushEdges_info_of_nil (tr : TransportRouter) (l : List (Edge × (String × Int)))
    (h : tr.edge_to_info = []) : (pushEdges tr l).edge_to_info = l.map Prod.snd := by
  simp [pushEdges, h]

/-- C5. The `TransportRouter` built from a catalog has exactly one vertex per
stop, and the vertex ids follow the ascending order of the stop names:
`id_to_stop` is the strictly ascending list of the stop names, and
`stop_to_id` maps the name at position `i` to `i` and holds no other name. -/
theorem TransportRouter_vertices (buses : List (String × Bus)) (stops : StopMap)
    (rs : RouterSettings) (h : CatalogOk buses stops) :
    ∃ tr, TransportRouter.new buses stops rs = .ok tr ∧
      tr.graph_.vertex_count = stops.length ∧
      tr.id_to_stop = stops.map Prod.fst ∧
      tr.id_to_stop.Sorted (· < ·) ∧
      (∀ i (hi : i < tr.id_to_stop.length),
        tr.stop_to_id.lookup (tr.id_to_stop.get ⟨i, hi⟩) = some i) ∧
      (∀ name, (tr.stop_to_id.lookup name).isSome ↔ name ∈ tr.id_to_stop) := by
  refine ⟨_, TransportRouter_new_ok buses stops rs h, rfl, rfl, h.1, ?_, ?_⟩
  · intro i hi
    have := lookup_zip_range' (stops.map Prod.fst) h.1.nodup 0 i hi
    simp only [List.length_map, Nat.zero_add] at this
    exact this
  · intro name
    have hl : (stops.map Prod.fst).length = stops.length := List.length_map _ _
    have := lookup_zip_isSome_iff (stops.map Prod.fst) 0 name
    rw [hl] at this
    exact this

theorem abcStops_routeOk : RouteOk abcStops ["A", "B", "C"] := by
  constructor
  · intro s hs
    simp only [List.mem_cons, List.mem_singleton, List.not_mem_nil, or_false] at hs
    rcases hs with rfl | rfl | rfl <;> exact ⟨_, rfl⟩
  · intro i hi sa sb ha hb
    have hi' : i < 2 := by simp at hi; omega
    interval_cases i
    · cases ha; cases hb; exact Or.inl rfl
    · cases ha; cases hb; exact Or.inl rfl

theorem abc_catalogOk : CatalogOk abcBuses abcStops := by
  refine ⟨?_, by decide, ?_⟩
  · simp [abcStops, String.lt_iff_toList_lt]
    decide
  · intro kb hkb
    simp only [abcBuses, List.mem_singleton] at hkb
    subst hkb
    exact ⟨abcStops_routeOk, by decide⟩

/-- Witness of C5 on the catalog of the stops A, B, C and the bus B1. -/
theorem TransportRouter_vertices_witness :
    CatalogOk abcBuses abcStops ∧
    ∃ tr, TransportRouter.new abcBuses abcStops abcSettings = .ok tr ∧
      tr.graph_.vertex_count = abcStops.length ∧
      tr.id_to_stop = abcStops.map Prod.fst ∧
      tr.id_to_stop.Sorted (· < ·) ∧
      (∀ i (hi : i < tr.id_to_stop.length),
        tr.stop_to_id.lookup (tr.id_to_stop.get ⟨i, hi⟩) = some i) ∧
      (∀ name, (tr.stop_to_id.lookup name).isSome ↔ name ∈ tr.id_to_stop) :=
  ⟨abc_catalogOk, TransportRouter_vertices abcBuses abcStops abcSettings abc_catalogOk⟩

theorem busEdges_shape (tr : TransportRouter) (stops : StopMap) (bus : Bus) :
    (busEdges tr stops bus).map (fun x => (x.1.from_, x.1.to_, x.2)) =
      (positionPairs bus.stops_.length).map
        (fun p => (vertexOf tr.stop_to_id (bus.stops_.getD p.1 ""),
          vertexOf tr.stop_to_id (bus.stops_.getD p.2 ""), (bus.name_, (p.2 : Int) - p.1))) ++
      match bus.type_ with
      | .ROUND => []
      | .TWOWAY =>
        (positionPairs bus.stops_.length).map
          (fun p => (vertexOf tr.stop_to_id (bus.stops_.getD p.2 ""),
            vertexOf tr.stop_to_id (bus.stops_.getD p.1 ""), (bus.name_, (p.2 : Int) - p.1))) := by
  unfold busEdges
  cases bus.type_ <;>
    simp [forwardEdgeOf, backwardEdgeOf, List.map_append, List.map_map, Function.comp_def]

theorem length_positionPairs_div (n : Nat) : (positionPairs n).length = n * (n - 1) / 2 := by
  have := length_positionPairs n
  omega

theorem busEdges_length (tr : TransportRouter) (stops : StopMap) (bus : Bus) :
    (busEdges tr stops bus).length =
      match bus.type_ with
      | .ROUND => bus.stops_.length * (bus.stops_.length - 1) / 2
      | .TWOWAY => bus.stops_.length * (bus.stops_.length - 1) := by
  unfold busEdges
  cases bus.type_
  · simp [length_positionPairs_div]
  · have := length_positionPairs bus.stops_.length
    simp only [List.length_append, List.length_map]
    omega

/-- C6. For every bus of the catalog, the constructor adds exactly one edge per
position pair `i < j`, from the vertex of `s[i]` to the vertex of `s[j]`, with
side-data `(bus name, j − i)`; for a TWOWAY bus it then adds one edge per pair
`i < j` from `s[j]` to `s[i]` with the same side-data.  A ROUND bus contributes
`n(n−1)/2` edges and a TWOWAY bus `n(n−1)`, and `edge_to_info` lists the
side-data of the edges in the order the edges were added. -/
theorem TransportRouter_bus_edges (buses : List (String × Bus)) (stops : StopMap)
    (rs : RouterSettings) (h : CatalogOk buses stops) :
    ∃ tr all, TransportRouter.new buses stops rs = .ok tr ∧
      all = buses.flatMap (fun kb => busEdges tr stops kb.2) ∧
      tr.graph_.edges = all.map Prod.fst ∧
      tr.edge_to_info = all.map Prod.snd ∧
      ∀ kb ∈ buses,
        (busEdges tr stops kb.2).map (fun x => (x.1.from_, x.1.to_, x.2)) =
          ((positionPairs kb.2.stops_.length).map
            (fun p => (vertexOf tr.stop_to_id (kb.2.stops_.getD p.1 ""),
              vertexOf tr.stop_to_id (kb.2.stops_.getD p.2 ""),
              (kb.2.name_, (p.2 : Int) - p.1))) ++
          match kb.2.type_ with
          | .ROUND => []
          | .TWOWAY =>
            (positionPairs kb.2.stops_.length).map
              (fun p => (vertexOf tr.stop_to_id (kb.2.stops_.getD p.2 ""),
                vertexOf tr.stop_to_id (kb.2.stops_.getD p.1 ""),
                (kb.2.name_, (p.2 : Int) - p.1)))) ∧
        (positionPairs kb.2.stops_.length).Nodup ∧
        (∀ p, p ∈ positionPairs kb.2.stops_.length ↔ p.1 < p.2 ∧ p.2 < kb.2.stops_.length) ∧
        (busEdges tr stops kb.2).length =
          match kb.2.type_ with
          | .ROUND => kb.2.stops_.length * (kb.2.stops_.length - 1) / 2
          | .TWOWAY => kb.2.stops_.length * (kb.2.stops_.length - 1) := by
  refine ⟨_, _, TransportRouter_new_ok buses stops rs h, rfl, ?_, ?_, ?_⟩
  · exact pushEdges_edges_of_nil _ _ rfl
  · exact pushEdges_info_of_nil _ _ rfl
  · intro kb _
    exact ⟨busEdges_shape _ stops kb.2, nodup_positionPairs _, mem_positionPairs _,
      busEdges_length _ stops kb.2⟩

/-- Witness of C6: the TWOWAY bus B1 over A, B, C contributes `3·2 = 6` edges. -/
theorem TransportRouter_bus_edges_witness :
    CatalogOk abcBuses abcStops ∧
    (TransportRouter.new abcBuses abcStops abcSettings).toOption.map
        (fun tr => (tr.graph_.edges.map (fun e => (e.from_, e.to_)), tr.edge_to_info)) =
      some ([(0, 1), (0, 2), (1, 2), (1, 0), (2, 0), (2, 1)],
        [("B1", 1), ("B1", 2), ("B1", 1), ("B1", 1), ("B1", 2), ("B1", 1)]) ∧
    ∃ tr all, TransportRouter.new abcBuses abcStops abcSettings = .ok tr ∧
      all = abcBuses.flatMap (fun kb => busEdges tr abcStops kb.2) ∧
      tr.graph_.edges = all.map Prod.fst ∧
      tr.edge_to_info = all.map Prod.snd :=
  ⟨abc_catalogOk, by decide!,
    (TransportRouter_bus_edges abcBuses abcStops abcSettings abc_catalogOk).imp
      (fun _ h => h.imp (fun _ h' => ⟨h'.1, h'.2.1, h'.2.2.1, h'.2.2.2.1⟩))⟩

/-- C7. In exact arithmetic, the edge the constructor adds for the positions
`i < j` of a bus in the listed direction weighs
`bus_wait_time + (Σ_{k=i}^{j-1} MapDistance(s[k], s[k+1])) / bus_velocity`, and
the edge of the reverse direction (from `s[j]` to `s[i]`) weighs
`bus_wait_time + (Σ_{k=i+1}^{j} MapDistance(s[k], s[k-1])) / bus_velocity`: the
wait time enters each edge once. -/
theorem TransportRouter_edge_weight (stops : StopMap) (bus : Bus) (tr : TransportRouter)
    (hok : RouteOk stops bus.stops_) (hcov : Covers tr.stop_to_id bus.stops_)
    (hn : bus.stops_.length < 2 ^ 31) (_hv : tr.bus_velocity_ ≠ 0)
    (i j : Nat) (hij : i < j) (hj : j < bus.stops_.length) :
    (∃ tr' e, forwardEdge stops bus tr i j = .ok tr' ∧
      tr'.graph_.edges = tr.graph_.edges ++ [e] ∧
      e.from_ = vertexOf tr.stop_to_id (bus.stops_.getD i "") ∧
      e.to_ = vertexOf tr.stop_to_id (bus.stops_.getD j "") ∧
      e.weight = (tr.bus_wait_time_ : ℚ) +
        (∑ k ∈ Finset.Ico i j,
          (roadDistance stops (bus.stops_.getD k "") (bus.stops_.getD (k + 1) "") : ℚ)) /
          tr.bus_velocity_) ∧
    (∃ tr' e, backwardEdge stops bus tr i j = .ok tr' ∧
      tr'.graph_.edges = tr.graph_.edges ++ [e] ∧
      e.from_ = vertexOf tr.stop_to_id (bus.stops_.getD j "") ∧
      e.to_ = vertexOf tr.stop_to_id (bus.stops_.getD i "") ∧
      e.weight = (tr.bus_wait_time_ : ℚ) +
        (∑ k ∈ Finset.Ico (i + 1) (j + 1),
          (roadDistance stops (bus.stops_.getD k "") (bus.stops_.getD (k - 1) "") : ℚ)) /
          tr.bus_velocity_) := by
  have hf := forwardEdge_ok stops bus tr hok hcov hn [] i j hij hj
  have hb := backwardEdge_ok stops bus tr hok hcov hn [] i j hij hj
  rw [pushEdges_nil, List.nil_append] at hf hb
  exact ⟨⟨_, _, hf, rfl, rfl, rfl, rfl⟩, ⟨_, _, hb, rfl, rfl, rfl, rfl⟩⟩

theorem abc_covers :
    Covers (vertexRouter abcStops abcSettings).stop_to_id (Bus.new "B1" ["A", "B", "C"] .TWOWAY).stops_ :=
  abcStops_routeOk.covers abcSettings

/-- Witness of C7: for the bus B1 over A, B, C with velocity 1000, wait 2 and
distances 500 and 500, the edge from A to C weighs 3. -/
theorem TransportRouter_edge_weight_witness :
    (vertexRouter abcStops abcSettings).bus_velocity_ ≠ 0 ∧
    ((forwardEdge abcStops (Bus.new "B1" ["A", "B", "C"] .TWOWAY)
        (vertexRouter abcStops abcSettings) 0 2).toOption.map (fun tr => tr.graph_.edges)
      = some [{ from_ := 0, to_ := 2, weight := 3 }]) ∧
    (∃ tr' e, forwardEdge abcStops (Bus.new "B1" ["A", "B", "C"] .TWOWAY)
        (vertexRouter abcStops abcSettings) 0 2 = .ok tr' ∧
      tr'.graph_.edges = (vertexRouter abcStops abcSettings).graph_.edges ++ [e] ∧
      e.from_ = 0 ∧ e.to_ = 2 ∧
      e.weight = ((2 : Int) : ℚ) +
        (∑ k ∈ Finset.Ico 0 2,
          (roadDistance abcStops (["A", "B", "C"].getD k "") (["A", "B", "C"].getD (k + 1) "") : ℚ)) /
          1000) :=
  ⟨by decide!, by decide!,
    (TransportRouter_edge_weight abcStops (Bus.new "B1" ["A", "B", "C"] .TWOWAY)
      (vertexRouter abcStops abcSettings) abcStops_routeOk abc_covers (by decide) (by decide!)
      0 2 (by decide) (by decide)).1⟩

theorem routeStep_ok (tr : TransportRouter) (items : List RouteItem) (edge_id : Nat)
    (h : ValidEdge tr edge_id) :
    routeStep tr items edge_id = .ok (items ++ [waitItemOf tr edge_id, rideItemOf tr edge_id]) := by
  obtain ⟨e, he, hf, ht, hi⟩ := h
  have hlt : edge_id < tr.graph_.edges.length := by
    by_contra hc
    rw [List.getElem?_eq_none (by omega)] at he
    cases he
  have hge : tr.graph_.edges.getD edge_id { from_ := 0, to_ := 0, weight := 0 } = e := by
    simp [List.getD_eq_getElem?_getD, he]
  unfold routeStep waitItemOf rideItemOf DirectedWeightedGraph.GetEdge
  simp only [hge]
  simp only [vecAt, he, List.getElem?_eq_getElem hf, List.getElem?_eq_getElem ht,
    List.getElem?_eq_getElem hi, List.getD_eq_getElem _ _ hf, List.getD_eq_getElem _ _ ht,
    List.getD_eq_getElem _ _ hi, bind, Except.bind, pure, Except.pure]

theorem routeStep_fold (tr : TransportRouter) :
    ∀ (ids : List Nat) (items : List RouteItem), (∀ id ∈ ids, ValidEdge tr id) →
      ids.foldlM (routeStep tr) items =
        .ok (items ++ ids.flatMap (fun id => [waitItemOf tr id, rideItemOf tr id])) := by
  intro ids
  induction ids with
  | nil => intro items _; simp [pure, Except.pure]
  | cons id rest ih =>
    intro items h
    rw [List.foldlM_cons, routeStep_ok tr items id (h id (List.mem_cons_self _ _))]
    simp only [bind, Except.bind]
    rw [ih _ (fun x hx => h x (List.mem_cons_of_mem _ hx))]
    simp [List.append_assoc]

theorem flatMap_pair_length {α β : Type} (ids : List α) (f g : α → β) :
    (ids.flatMap (fun id => [f id, g id])).length = 2 * ids.length := by
  induction ids with
  | nil => rfl
  | cons id rest ih => simp [List.flatMap_cons, ih]; omega

theorem flatMap_pair_get {α β : Type} (f g : α → β) :
    ∀ (ids : List α) (k : Nat) (hk : k < ids.length),
      (ids.flatMap (fun id => [f id, g id]))[2 * k]? = some (f (ids.get ⟨k, hk⟩)) ∧
      (ids.flatMap (fun id => [f id, g id]))[2 * k + 1]? = some (g (ids.get ⟨k, hk⟩)) := by
  intro ids
  induction ids with
  | nil => intro k hk; simp at hk
  | cons id rest ih =>
    intro k hk
    cases k with
    | zero => simp [List.flatMap_cons]
    | succ k =>
      have hk' : k < rest.length := by simpa using hk
      have := ih k hk'
      have e1 : 2 * (k + 1) = 2 * k + 1 + 1 := by omega
      have e2 : 2 * (k + 1) + 1 = 2 * k + 1 + 1 + 1 := by omega
      simp only [List.flatMap_cons, List.cons_append, List.nil_append, e1, e2,
        List.getElem?_cons_succ, List.get_cons_succ]
      exact this

theorem BuildRoute_eq (engine : Nat → Nat → Option RouterRoute) (tr : TransportRouter)
    (from_ to_ : String) (route : RouterRoute)
    (hr : engine (umapIndex tr.stop_to_id from_).1
      (umapIndex (umapIndex tr.stop_to_id from_).2 to_).1 = some route)
    (hvalid : ∀ id ∈ route.edges, ValidEdge tr id) :
    tr.BuildRoute engine from_ to_ =
      .ok (some { total_time := route.weight
                  items := route.edges.flatMap (fun id => [waitItemOf tr id, rideItemOf tr id]) },
        { tr with stop_to_id := (umapIndex (umapIndex tr.stop_to_id from_).2 to_).2 }) := by
  have hfold := routeStep_fold
    { tr with stop_to_id := (umapIndex (umapIndex tr.stop_to_id from_).2 to_).2 }
    route.edges [] hvalid
  unfold TransportRouter.BuildRoute
  simp only [hr]
  rw [hfold]
  simp only [bind, Except.bind, pure, Except.pure, List.nil_append]
  rfl

theorem BuildRoute_some (engine : Nat → Nat → Option RouterRoute) (tr : TransportRouter)
    (from_ to_ : String) (info : RouteInfo) (tr' : TransportRouter)
    (h : tr.BuildRoute engine from_ to_ = .ok (some info, tr')) :
    ∃ route, engine (umapIndex tr.stop_to_id from_).1
      (umapIndex (umapIndex tr.stop_to_id from_).2 to_).1 = some route := by
  unfold TransportRouter.BuildRoute at h
  simp only at h
  cases he : engine (umapIndex tr.stop_to_id from_).1
      (umapIndex (umapIndex tr.stop_to_id from_).2 to_).1 with
  | none =>
    rw [he] at h
    simp only [pure, Except.pure] at h
    cases h
  | some route => exact ⟨route, rfl⟩

/-- C8. For every route of `n` edges `e_0 .. e_{n-1}` the shortest path engine
finds, `TransportRouter::BuildRoute` returns a list of `2n` items in which item
`2k` is the wait at the source stop of `e_k` for `bus_wait_time` and item
`2k+1` is the ride on the bus of the side-data of `e_k`, from the source stop
to the target stop of `e_k`, with the span of that side-data and the time
`weight(e_k) − bus_wait_time`. -/
theorem BuildRoute_items (engine : Nat → Nat → Option RouterRoute) (tr : TransportRouter)
    (from_ to_ : String) (route : RouterRoute)
    (hr : engine (umapIndex tr.stop_to_id from_).1
      (umapIndex (umapIndex tr.stop_to_id from_).2 to_).1 = some route)
    (hvalid : ∀ id ∈ route.edges, ValidEdge tr id) :
    ∃ info tr', tr.BuildRoute engine from_ to_ = .ok (some info, tr') ∧
      info.total_time = route.weight ∧
      info.items.length = 2 * route.edges.length ∧
      ∀ (k : Nat) (hk : k < route.edges.length),
        info.items[2 * k]? = some (waitItemOf tr (route.edges.get ⟨k, hk⟩)) ∧
        info.items[2 * k + 1]? = some (rideItemOf tr (route.edges.get ⟨k, hk⟩)) := by
  refine ⟨_, _, BuildRoute_eq engine tr from_ to_ route hr hvalid, rfl, ?_, ?_⟩
  · exact flatMap_pair_length _ _ _
  · intro k hk
    exact flatMap_pair_get _ _ route.edges k hk

/-! ## Theorems: the shortest path engine -/

theorem relax_apply (T : RoutesTable) (k i j a b : Nat) :
    relax T k i j a b =
      if a = i ∧ b = j then relaxVal (T i k) (T k j) (T i j) k else T a b := rfl

theorem relaxVal_diag_right (x y : Option RouteEntry) (k : Nat)
    (hy : ∀ d, y = some d → 0 ≤ d.weight) : relaxVal x y x k = x := by
  unfold relaxVal
  cases x with
  | none => rfl
  | some a =>
    cases y with
    | none => rfl
    | some b =>
      have := hy b rfl
      simp only
      rw [if_neg (by linarith)]

theorem relaxVal_diag_left (x y : Option RouteEntry) (k : Nat)
    (hx : ∀ d, x = some d → 0 ≤ d.weight) : relaxVal x y y k = y := by
  unfold relaxVal
  cases x with
  | none => rfl
  | some a =>
    cases y with
    | none => rfl
    | some b =>
      have := hx a rfl
      simp only
      rw [if_neg (by linarith)]

theorem relax_fold (T : RoutesTable) (k : Nat) (hd : ∀ d, T k k = some d → 0 ≤ d.weight) :
    ∀ (L : List (Nat × Nat)), L.Nodup → ∀ a b,
      (L.foldl (fun U p => relax U k p.1 p.2) T) a b =
        if (a, b) ∈ L then relaxVal (T a k) (T k b) (T a b) k else T a b := by
  intro L
  induction L using List.reverseRecOn with
  | nil => intro _ a b; simp
  | append_singleton L p ih =>
    intro hnd a b
    rw [List.nodup_append] at hnd
    obtain ⟨hL, _, hdisj⟩ := hnd
    have hp : p ∉ L := fun hp => hdisj hp (List.mem_singleton_self p)
    rw [List.foldl_append, List.foldl_cons, List.foldl_nil, relax_apply]
    by_cases hab : a = p.1 ∧ b = p.2
    · obtain ⟨rfl, rfl⟩ := hab
      have e1 : (List.foldl (fun U p => relax U k p.1 p.2) T L) p.1 k = T p.1 k := by
        rw [ih hL]
        split_ifs
        · exact relaxVal_diag_right _ _ _ hd
        · rfl
      have e2 : (List.foldl (fun U p => relax U k p.1 p.2) T L) k p.2 = T k p.2 := by
        rw [ih hL]
        split_ifs
        · exact relaxVal_diag_left _ _ _ hd
        · rfl
      have e3 : (List.foldl (fun U p => relax U k p.1 p.2) T L) p.1 p.2 = T p.1 p.2 := by
        rw [ih hL, if_neg hp]
      rw [if_pos ⟨rfl, rfl⟩, e1, e2, e3, if_pos (by simp)]
    · rw [if_neg hab, ih hL]
      have : (a, b) ≠ p := by
        rintro rfl; exact hab ⟨rfl, rfl⟩
      simp [this]

theorem relaxPhase_apply (n : Nat) (T : RoutesTable) (k : Nat)
    (hd : ∀ d, T k k = some d → 0 ≤ d.weight) (a b : Nat) :
    relaxPhase n T k a b =
      if a < n ∧ b < n then relaxVal (T a k) (T k b) (T a b) k else T a b := by
  unfold relaxPhase
  have h := relax_fold T k hd ((List.range n).product (List.range n))
    ((List.nodup_range n).product (List.nodup_range n)) a b
  rw [h]
  have hm : (a, b) ∈ (List.range n).product (List.range n) ↔ a < n ∧ b < n := by
    rw [List.pair_mem_product, List.mem_range, List.mem_range]
  simp only [hm]

/-- Where an entry of the relaxed table comes from. -/
theorem relaxVal_cases (x y z : Option RouteEntry) (k : Nat) :
    relaxVal x y z k = z ∨
    ∃ a b, x = some a ∧ y = some b ∧
      relaxVal x y z k = some { weight := a.weight + b.weight, hop := .mid k } ∧
      ∀ c, z = some c → a.weight + b.weight < c.weight := by
  unfold relaxVal
  cases x with
  | none => exact Or.inl rfl
  | some a =>
    cases y with
    | none => exact Or.inl rfl
    | some b =>
      cases z with
      | none => exact Or.inr ⟨a, b, rfl, rfl, rfl, fun c hc => by cases hc⟩
      | some c =>
        simp only
        by_cases h : a.weight + b.weight < c.weight
        · rw [if_pos h]
          exact Or.inr ⟨a, b, rfl, rfl, rfl, fun c' hc' => by cases hc'; exact h⟩
        · rw [if_neg h]; exact Or.inl rfl

theorem relaxVal_mono (x y z : Option RouteEntry) (k : Nat) (c : RouteEntry) (hz : z = some c) :
    ∃ c', relaxVal x y z k = some c' ∧ c'.weight ≤ c.weight := by
  rcases relaxVal_cases x y z k with h | ⟨a, b, _, _, h, hlt⟩
  · exact ⟨c, by rw [h, hz], le_rfl⟩
  · exact ⟨_, h, le_of_lt (hlt c hz)⟩

theorem relaxVal_le (x y z : Option RouteEntry) (k : Nat) (a b : RouteEntry)
    (hx : x = some a) (hy : y = some b) :
    ∃ c', relaxVal x y z k = some c' ∧ c'.weight ≤ a.weight + b.weight := by
  subst hx hy
  unfold relaxVal
  cases z with
  | none => exact ⟨_, rfl, le_rfl⟩
  | some c =>
    simp only
    by_cases h : a.weight + b.weight < c.weight
    · rw [if_pos h]; exact ⟨_, rfl, le_rfl⟩
    · rw [if_neg h]; exact ⟨_, rfl, not_lt.1 h⟩

theorem phase_diag (T : RoutesTable) (hT : TblNonneg T) (k : Nat) :
    ∀ d, T k k = some d → 0 ≤ d.weight := fun d hd => hT k k d hd

theorem phase_mono (n : Nat) (T : RoutesTable) (hT : TblNonneg T) (k i j : Nat)
    (c : RouteEntry) (h : T i j = some c) :
    ∃ c', relaxPhase n T k i j = some c' ∧ c'.weight ≤ c.weight := by
  rw [relaxPhase_apply n T k (phase_diag T hT k)]
  split_ifs
  · exact relaxVal_mono _ _ _ k c h
  · exact ⟨c, h, le_rfl⟩

theorem phase_le (n : Nat) (T : RoutesTable) (hT : TblNonneg T) (k i j : Nat)
    (hi : i < n) (hj : j < n) (a b : RouteEntry) (ha : T i k = some a) (hb : T k j = some b) :
    ∃ c', relaxPhase n T k i j = some c' ∧ c'.weight ≤ a.weight + b.weight := by
  rw [relaxPhase_apply n T k (phase_diag T hT k), if_pos ⟨hi, hj⟩]
  exact relaxVal_le _ _ _ k a b ha hb

theorem phase_cases (n : Nat) (T : RoutesTable) (hT : TblNonneg T) (k i j : Nat) :
    relaxPhase n T k i j = T i j ∨
    (i < n ∧ j < n ∧ ∃ a b, T i k = some a ∧ T k j = some b ∧
      relaxPhase n T k i j = some { weight := a.weight + b.weight, hop := .mid k }) := by
  rw [relaxPhase_apply n T k (phase_diag T hT k)]
  split_ifs with h
  · rcases relaxVal_cases (T i k) (T k j) (T i j) k with h' | ⟨a, b, ha, hb, h', _⟩
    · exact Or.inl h'
    · exact Or.inr ⟨h.1, h.2, a, b, ha, hb, h'⟩
  · exact Or.inl rfl

theorem phase_col (n : Nat) (T : RoutesTable) (hT : TblNonneg T) (k i : Nat) :
    relaxPhase n T k i k = T i k := by
  rw [relaxPhase_apply n T k (phase_diag T hT k)]
  split_ifs
  · exact relaxVal_diag_right _ _ _ (phase_diag T hT k)
  · rfl

theorem phase_row (n : Nat) (T : RoutesTable) (hT : TblNonneg T) (k j : Nat) :
    relaxPhase n T k k j = T k j := by
  rw [relaxPhase_apply n T k (phase_diag T hT k)]
  split_ifs
  · exact relaxVal_diag_left _ _ _ (phase_diag T hT k)
  · rfl

theorem phase_nonneg (n : Nat) (T : RoutesTable) (hT : TblNonneg T) (k : Nat) :
    TblNonneg (relaxPhase n T k) := by
  intro i j e he
  rcases phase_cases n T hT k i j with h | ⟨_, _, a, b, ha, hb, h⟩
  · rw [h] at he; exact hT i j e he
  · rw [h] at he
    cases he
    have := hT _ _ a ha
    have := hT _ _ b hb
    simp only
    linarith

theorem phase_atLeast (n : Nat) (w : ℚ) (hw : 0 ≤ w) (T : RoutesTable) (hT : TblAtLeast w T)
    (k : Nat) : TblAtLeast w (relaxPhase n T k) := by
  have hnn : TblNonneg T := fun i j e he => le_trans hw (hT i j e he)
  intro i j e he
  rcases phase_cases n T hnn k i j with h | ⟨_, _, a, b, ha, hb, h⟩
  · rw [h] at he; exact hT i j e he
  · rw [h] at he
    cases he
    have := hT _ _ a ha
    have := hT _ _ b hb
    simp only
    linarith

theorem phase_direct (n : Nat) (edges : List Edge) (T : RoutesTable) (hT : TblNonneg T)
    (hD : TblDirect edges T) (k : Nat) : TblDirect edges (relaxPhase n T k) := by
  intro i j e id he hid
  rcases phase_cases n T hT k i j with h | ⟨_, _, a, b, _, _, h⟩
  · rw [h] at he; exact hD i j e id he hid
  · rw [h] at he
    cases he
    cases hid

theorem phase_mid (n : Nat) (T : RoutesTable) (hT : TblNonneg T) (hM : TblMid n T)
    (k : Nat) (hk : k < n) : TblMid n (relaxPhase n T k) := by
  intro i j e k' he hk'
  rcases phase_cases n T hT k i j with h | ⟨hi, hj, a, b, ha, hb, h⟩
  · rw [h] at he
    obtain ⟨hi, hj, hkn, a, b, ha, hb, hab⟩ := hM i j e k' he hk'
    obtain ⟨a', ha', hla⟩ := phase_mono n T hT k i k' a ha
    obtain ⟨b', hb', hlb⟩ := phase_mono n T hT k k' j b hb
    exact ⟨hi, hj, hkn, a', b', ha', hb', by linarith⟩
  · rw [h] at he
    cases he
    cases hk'
    refine ⟨hi, hj, hk, a, b, ?_, ?_, le_rfl⟩
    · rw [phase_col n T hT k i]; exact ha
    · rw [phase_row n T hT k j]; exact hb

theorem phase_closed (n : Nat) (T : RoutesTable) (hT : TblNonneg T)
    (k : Nat) (hk : k < n) (hC : TblClosed n k T) : TblClosed n (k + 1) (relaxPhase n T k) := by
  intro m i j a' b' hm hi hj ha' hb'
  rcases Nat.lt_succ_iff_lt_or_eq.1 hm with hmk | rfl
  · rcases phase_cases n T hT k i m with h1 | ⟨_, _, a1, a2, ha1, ha2, h1⟩ <;>
    rcases phase_cases n T hT k m j with h2 | ⟨_, _, b1, b2, hb1, hb2, h2⟩
    · rw [h1] at ha'
      rw [h2] at hb'
      obtain ⟨c, hc, hcl⟩ := hC m i j a' b' hmk hi hj ha' hb'
      obtain ⟨c', hc', hcl'⟩ := phase_mono n T hT k i j c hc
      exact ⟨c', hc', by linarith⟩
    · rw [h1] at ha'
      rw [h2] at hb'
      cases hb'
      obtain ⟨d, hd, hdl⟩ := hC m i k a' b1 hmk hi hk ha' hb1
      obtain ⟨c', hc', hcl'⟩ := phase_le n T hT k i j hi hj d b2 hd hb2
      exact ⟨c', hc', by simp only; linarith⟩
    · rw [h1] at ha'
      rw [h2] at hb'
      cases ha'
      obtain ⟨d, hd, hdl⟩ := hC m k j a2 b' hmk hk hj ha2 hb'
      obtain ⟨c', hc', hcl'⟩ := phase_le n T hT k i j hi hj a1 d ha1 hd
      exact ⟨c', hc', by simp only; linarith⟩
    · rw [h1] at ha'
      rw [h2] at hb'
      cases ha'
      cases hb'
      obtain ⟨d, hd, hdl⟩ := hC m k k a2 b1 hmk hk hk ha2 hb1
      have hd0 := hT k k d hd
      obtain ⟨c', hc', hcl'⟩ := phase_le n T hT k i j hi hj a1 b2 ha1 hb2
      exact ⟨c', hc', by simp only; linarith⟩
  · rw [phase_col n T hT m i] at ha'
    rw [phase_row n T hT m j] at hb'
    exact phase_le n T hT m i j hi hj a' b' ha' hb'

theorem foldl_inv {α β : Type} (P : β → Prop) (f : β → α → β) :
    ∀ (L : List α) (b0 : β), (∀ b a, a ∈ L → P b → P (f b a)) → P b0 → P (L.foldl f b0) := by
  intro L
  induction L with
  | nil => intro b0 _ h0; exact h0
  | cons x xs ih =>
    intro b0 h h0
    exact ih _ (fun b a ha => h b a (List.mem_cons_of_mem _ ha))
      (h b0 x (List.mem_cons_self _ _) h0)

theorem initEdge_inv (edges : List Edge) (w : ℚ) (T : RoutesTable) (p : Nat × Edge)
    (hp : edges[p.1]? = some p.2) (hw : w ≤ p.2.weight) (hT : TblInit edges w T) :
    TblInit edges w (initEdge T p) := by
  intro i j e he
  unfold initEdge at he
  split_ifs at he with h
  · unfold initVal at he
    cases hz : T p.2.from_ p.2.to_ with
    | none =>
      rw [hz] at he
      cases he
      exact ⟨hw, p.1, p.2, rfl, hp, rfl⟩
    | some old =>
      rw [hz] at he
      simp only at he
      split_ifs at he
      · cases he
        exact ⟨hw, p.1, p.2, rfl, hp, rfl⟩
      · cases he
        exact hT _ _ _ hz
  · exact hT i j e he

theorem initTable_init (edges : List Edge) (w : ℚ) (hw : ∀ e ∈ edges, w ≤ e.weight) :
    TblInit edges w (initTable edges) := by
  unfold initTable
  refine foldl_inv (TblInit edges w) initEdge edges.enum _ ?_ ?_
  · intro T p hp hT
    have hp' := List.mem_enum_iff_getElem?.mp hp
    exact initEdge_inv edges w T p hp' (hw _ (List.getElem?_mem hp')) hT
  · intro i j e he
    cases he

theorem initTable_inv (edges : List Edge) (w : ℚ) (n : Nat)
    (hw : ∀ e ∈ edges, w ≤ e.weight) : TblInv edges w n 0 (initTable edges) := by
  have h := initTable_init edges w hw
  refine ⟨fun i j e he => (h i j e he).1, ?_, ?_, ?_⟩
  · intro i j e id he hid
    obtain ⟨_, id', ed, hid', hed, hwe⟩ := h i j e he
    rw [hid] at hid'
    cases hid'
    exact ⟨ed, hed, hwe⟩
  · intro i j e k he hk
    obtain ⟨_, id', ed, hid', _, _⟩ := h i j e he
    rw [hk] at hid'
    cases hid'
  · intro m i j a b hm
    exact absurd hm (Nat.not_lt_zero m)

theorem phase_inv (edges : List Edge) (w : ℚ) (hw : 0 ≤ w) (n k : Nat) (hk : k < n)
    (T : RoutesTable) (hT : TblInv edges w n k T) :
    TblInv edges w n (k + 1) (relaxPhase n T k) := by
  obtain ⟨hA, hD, hM, hC⟩ := hT
  have hnn : TblNonneg T := fun i j e he => le_trans hw (hA i j e he)
  exact ⟨phase_atLeast n w hw T hA k, phase_direct n edges T hnn hD k,
    phase_mid n T hnn hM k hk, phase_closed n T hnn k hk hC⟩

theorem relaxAll_inv (edges : List Edge) (w : ℚ) (hw : 0 ≤ w) (n : Nat)
    (T : RoutesTable) (hT : TblInv edges w n 0 T) :
    TblInv edges w n n (relaxAll n T) := by
  unfold relaxAll
  have h : ∀ m, m ≤ n → TblInv edges w n m ((List.range m).foldl (relaxPhase n) T) := by
    intro m
    induction m with
    | zero => intro _; exact hT
    | succ m ih =>
      intro hm
      rw [List.range_succ, List.foldl_append, List.foldl_cons, List.foldl_nil]
      exact phase_inv edges w hw n m (by omega) _ (ih (by omega))
  exact h n le_rfl

theorem edgeWeight_of_getElem? (edges : List Edge) (id : Nat) (ed : Edge)
    (h : edges[id]? = some ed) : edgeWeight edges id = ed.weight := by
  simp [edgeWeight, List.getD_eq_getElem?_getD, h]

theorem lt_length_of_getElem? {α : Type} (l : List α) (i : Nat) (x : α)
    (h : l[i]? = some x) : i < l.length := by
  by_contra hc
  rw [List.getElem?_eq_none (by omega)] at h
  cases h

theorem expandRoute_sum (edges : List Edge) (w : ℚ) (n : Nat) (T : RoutesTable)
    (hT : TblInv edges w n n T) :
    ∀ (fuel i j : Nat) (p : List Nat) (e : RouteEntry),
      expandRoute T fuel i j = some p → T i j = some e →
      (p.map (edgeWeight edges)).sum = e.weight ∧ p ≠ [] ∧ ∀ id ∈ p, id < edges.length := by
  obtain ⟨_, hD, hM, hC⟩ := hT
  intro fuel
  induction fuel with
  | zero => intro i j p e h; simp [expandRoute] at h
  | succ fuel ih =>
    intro i j p e h he
    unfold expandRoute at h
    rw [he] at h
    simp only at h
    cases hh : e.hop with
    | edge id =>
      rw [hh] at h
      simp only [Option.some.injEq] at h
      subst h
      obtain ⟨ed, hed, hwe⟩ := hD i j e id he hh
      refine ⟨?_, by simp, ?_⟩
      · simp [edgeWeight_of_getElem? edges id ed hed, hwe]
      · intro x hx
        simp only [List.mem_singleton] at hx
        subst hx
        exact lt_length_of_getElem? _ _ _ hed
    | mid k =>
      rw [hh] at h
      simp only at h
      obtain ⟨hi, hj, hk, a, b, ha, hb, hab⟩ := hM i j e k he hh
      obtain ⟨c, hc, hcl⟩ := hC k i j a b hk hi hj ha hb
      rw [he] at hc
      cases hc
      cases h1 : expandRoute T fuel i k with
      | none => rw [h1] at h; cases h
      | some pa =>
        cases h2 : expandRoute T fuel k j with
        | none => rw [h1, h2] at h; cases h
        | some pb =>
          rw [h1, h2] at h
          simp only [Option.some.injEq] at h
          subst h
          obtain ⟨sa, na, va⟩ := ih i k pa a h1 ha
          obtain ⟨sb, _, vb⟩ := ih k j pb b h2 hb
          refine ⟨?_, ?_, ?_⟩
          · rw [List.map_append, List.sum_append, sa, sb]
            linarith
          · simp [na]
          · intro x hx
            rcases List.mem_append.1 hx with hx | hx
            · exact va x hx
            · exact vb x hx

theorem Router_BuildRoute_sound (g : DirectedWeightedGraph) (w : ℚ) (hw : 0 ≤ w)
    (hg : ∀ e ∈ g.edges, w ≤ e.weight) (i j : Nat) (route : RouterRoute)
    (h : Router.BuildRoute g i j = some route) :
    (route.edges.map (edgeWeight g.edges)).sum = route.weight ∧ w ≤ route.weight ∧
      route.edges ≠ [] ∧ ∀ id ∈ route.edges, id < g.edges.length := by
  have hinv := relaxAll_inv g.edges w hw g.vertex_count _
    (initTable_inv g.edges w g.vertex_count hg)
  unfold Router.BuildRoute at h
  simp only at h
  cases he : relaxAll g.vertex_count (initTable g.edges) i j with
  | none => rw [he] at h; cases h
  | some e =>
    rw [he] at h
    simp only at h
    cases hp : expandRoute (relaxAll g.vertex_count (initTable g.edges))
        (g.vertex_count + 1) i j with
    | none => rw [hp] at h; cases h
    | some p =>
      rw [hp] at h
      simp only [Option.map_some', Option.some.injEq] at h
      subst h
      obtain ⟨hs, hne, hv⟩ := expandRoute_sum g.edges w g.vertex_count _ hinv _ i j p e hp he
      exact ⟨hs, hinv.1 i j e he, hne, hv⟩

theorem phase_cases_strict (n : Nat) (T : RoutesTable) (hT : TblNonneg T) (k i j : Nat) :
    relaxPhase n T k i j = T i j ∨
    (i < n ∧ j < n ∧ ∃ a b, T i k = some a ∧ T k j = some b ∧
      relaxPhase n T k i j = some { weight := a.weight + b.weight, hop := .mid k } ∧
      ∀ c, T i j = some c → a.weight + b.weight < c.weight) := by
  rw [relaxPhase_apply n T k (phase_diag T hT k)]
  split_ifs with h
  · rcases relaxVal_cases (T i k) (T k j) (T i j) k with h' | ⟨a, b, ha, hb, h', hlt⟩
    · exact Or.inl h'
    · exact Or.inr ⟨h.1, h.2, a, b, ha, hb, h', hlt⟩
  · exact Or.inl rfl

theorem phase_update (n : Nat) (T : RoutesTable) (hT : TblNonneg T) (k i j : Nat)
    (hi : i < n) (hj : j < n) (a b c : RouteEntry) (ha : T i k = some a) (hb : T k j = some b)
    (hc : T i j = some c) (hlt : a.weight + b.weight < c.weight) :
    relaxPhase n T k i j = some { weight := a.weight + b.weight, hop := .mid k } := by
  rw [relaxPhase_apply n T k (phase_diag T hT k), if_pos ⟨hi, hj⟩, ha, hb, hc]
  simp only [relaxVal]
  rw [if_pos hlt]

theorem phase_desc (edges : List Edge) (w : ℚ) (hw : 0 ≤ w) (n k : Nat) (hk : k < n)
    (T : RoutesTable) (hT : TblInv edges w n k T) (hS : TblDesc k T) :
    TblDesc (k + 1) (relaxPhase n T k) := by
  obtain ⟨hA, _, hM, hC⟩ := hT
  have hnn : TblNonneg T := fun i j e he => le_trans hw (hA i j e he)
  intro i j e' m he' hm
  rcases phase_cases_strict n T hnn k i j with hold | ⟨_, _, a, b, ha, hb, hnew, _⟩
  · rw [hold] at he'
    obtain ⟨hmk, hL, hR⟩ := hS i j e' m he' hm
    obtain ⟨hi, hj, hmn, a, b, ha, hb, hab⟩ := hM i j e' m he' hm
    refine ⟨by omega, ?_, ?_⟩
    · intro a' m' ha' hm'
      rcases phase_cases_strict n T hnn k i m with h1 | ⟨_, _, a1, a2, ha1, ha2, _, hlt⟩
      · rw [h1] at ha'; exact hL a' m' ha' hm'
      · exfalso
        obtain ⟨d, hd, hdl⟩ := hC m k j a2 b hmk hk hj ha2 hb
        have hstrict := hlt a ha
        have hup := phase_update n T hnn k i j hi hj a1 d e' ha1 hd he' (by linarith)
        rw [hold, he'] at hup
        cases hup
        simp only at hm
        cases hm
        omega
    · intro b' m' hb' hm'
      rcases phase_cases_strict n T hnn k m j with h1 | ⟨_, _, b1, b2, hb1, hb2, _, hlt⟩
      · rw [h1] at hb'; exact hR b' m' hb' hm'
      · exfalso
        obtain ⟨d, hd, hdl⟩ := hC m i k a b1 hmk hi hk ha hb1
        have hstrict := hlt b hb
        have hup := phase_update n T hnn k i j hi hj d b2 e' hd hb2 he' (by linarith)
        rw [hold, he'] at hup
        cases hup
        simp only at hm
        cases hm
        omega
  · rw [hnew] at he'
    cases he'
    cases hm
    refine ⟨by omega, ?_, ?_⟩
    · intro a' m' ha' hm'
      rw [phase_col n T hnn k i] at ha'
      exact (hS _ _ a' m' ha' hm').1
    · intro b' m' hb' hm'
      rw [phase_row n T hnn k j] at hb'
      exact (hS _ _ b' m' hb' hm').1

theorem initTable_desc (edges : List Edge) (w : ℚ) (hw : ∀ e ∈ edges, w ≤ e.weight) :
    TblDesc 0 (initTable edges) := by
  intro i j e m he hm
  obtain ⟨_, id', ed, hid', _, _⟩ := initTable_init edges w hw i j e he
  rw [hm] at hid'
  cases hid'

theorem relaxAll_desc (edges : List Edge) (w : ℚ) (hw : 0 ≤ w) (n : Nat)
    (T : RoutesTable) (hT : TblInv edges w n 0 T) (hS : TblDesc 0 T) :
    TblDesc n (relaxAll n T) := by
  unfold relaxAll
  have h : ∀ m, m ≤ n → TblInv edges w n m ((List.range m).foldl (relaxPhase n) T) ∧
      TblDesc m ((List.range m).foldl (relaxPhase n) T) := by
    intro m
    induction m with
    | zero => intro _; exact ⟨hT, hS⟩
    | succ m ih =>
      intro hm
      rw [List.range_succ, List.foldl_append, List.foldl_cons, List.foldl_nil]
      obtain ⟨h1, h2⟩ := ih (by omega)
      exact ⟨phase_inv edges w hw n m (by omega) _ h1,
        phase_desc edges w hw n m (by omega) _ h1 h2⟩
  exact (h n le_rfl).2

theorem expandRoute_isSome (n : Nat) (T : RoutesTable) (hM : TblMid n T) (hS : TblDesc n T) :
    ∀ (fuel i j : Nat) (e : RouteEntry), T i j = some e → hopRank e.hop < fuel →
      (expandRoute T fuel i j).isSome := by
  intro fuel
  induction fuel with
  | zero => intro i j e _ h; exact absurd h (Nat.not_lt_zero _)
  | succ fuel ih =>
    intro i j e he hr
    unfold expandRoute
    rw [he]
    simp only
    cases hh : e.hop with
    | edge id => rfl
    | mid m =>
      simp only
      rw [hh] at hr
      simp only [hopRank] at hr
      obtain ⟨_, _, _, a, b, ha, hb, _⟩ := hM i j e m he hh
      obtain ⟨_, hL, hR⟩ := hS i j e m he hh
      have ra : hopRank a.hop < fuel := by
        cases haa : a.hop with
        | edge _ => simp only [hopRank]; omega
        | mid m' => have := hL a m' ha haa; simp only [hopRank]; omega
      have rb : hopRank b.hop < fuel := by
        cases hbb : b.hop with
        | edge _ => simp only [hopRank]; omega
        | mid m' => have := hR b m' hb hbb; simp only [hopRank]; omega
      have h1 := ih i m a ha ra
      have h2 := ih m j b hb rb
      cases e1 : expandRoute T fuel i m with
      | none => rw [e1] at h1; cases h1
      | some pa =>
        cases e2 : expandRoute T fuel m j with
        | none => rw [e2] at h2; cases h2
        | some pb => rfl

/-- With non-negative edge weights the reconstruction never runs out of fuel:
the engine answers every vertex pair that has an entry in the routes table. -/
theorem Router_BuildRoute_complete (g : DirectedWeightedGraph)
    (hg : ∀ e ∈ g.edges, 0 ≤ e.weight) (i j : Nat) :
    (Router.BuildRoute g i j).isSome =
      (relaxAll g.vertex_count (initTable g.edges) i j).isSome := by
  have hinv := relaxAll_inv g.edges 0 le_rfl g.vertex_count _
    (initTable_inv g.edges 0 g.vertex_count hg)
  have hdesc := relaxAll_desc g.edges 0 le_rfl g.vertex_count _
    (initTable_inv g.edges 0 g.vertex_count hg) (initTable_desc g.edges 0 hg)
  unfold Router.BuildRoute
  simp only
  cases he : relaxAll g.vertex_count (initTable g.edges) i j with
  | none => rfl
  | some e =>
    simp only
    have hr : hopRank e.hop < g.vertex_count + 1 := by
      cases hh : e.hop with
      | edge _ => simp only [hopRank]; omega
      | mid m =>
        have := (hdesc i j e m he hh).1
        simp only [hopRank]; omega
    have := expandRoute_isSome g.vertex_count _ hinv.2.2.1 hdesc _ i j e he hr
    cases hp : expandRoute (relaxAll g.vertex_count (initTable g.edges))
        (g.vertex_count + 1) i j with
    | none => rw [hp] at this; cases this
    | some p => rfl

/-! ## Theorems: itineraries -/

theorem lookup_mem {β : Type} (l : List (String × β)) (k : String) (v : β)
    (h : l.lookup k = some v) : (k, v) ∈ l := by
  induction l with
  | nil => simp at h
  | cons kv rest ih =>
    obtain ⟨k', v'⟩ := kv
    simp only [List.lookup_cons] at h
    by_cases e : k = k'
    · subst e
      simp only [beq_self_eq_true, Option.some.injEq] at h
      subst h
      exact List.mem_cons_self _ _
    · rw [show (k == k') = false from by simpa using e] at h
      exact List.mem_cons_of_mem _ (ih h)

theorem MapDistanceBetweenStops_nonneg (sa sb : Stop) (d : Int)
    (ha : ∀ nd ∈ sa.distances_, 0 ≤ nd.2) (hb : ∀ nd ∈ sb.distances_, 0 ≤ nd.2)
    (h : MapDistanceBetweenStops sa sb = .ok d) : 0 ≤ d := by
  unfold MapDistanceBetweenStops at h
  cases h1 : sa.GetDistances.lookup sb.GetName with
  | some d1 =>
    rw [h1] at h
    cases h
    exact ha _ (lookup_mem _ _ _ h1)
  | none =>
    rw [h1] at h
    simp only at h
    cases h2 : sb.GetDistances.lookup sa.GetName with
    | some d2 =>
      rw [h2] at h
      cases h
      exact hb _ (lookup_mem _ _ _ h2)
    | none => rw [h2] at h; cases h

theorem roadDistance_nonneg (stops : StopMap) (hd : DistancesNonneg stops) (a b : String) :
    0 ≤ roadDistance stops a b := by
  unfold roadDistance
  cases ha : stops.lookup a with
  | none => simp
  | some sa =>
    cases hb : stops.lookup b with
    | none => simp
    | some sb =>
      simp only
      cases hm : MapDistanceBetweenStops sa sb with
      | error _ => simp
      | ok d =>
        simp only
        exact MapDistanceBetweenStops_nonneg sa sb d (hd _ (lookup_mem _ _ _ ha))
          (hd _ (lookup_mem _ _ _ hb)) hm

theorem forwardTime_nonneg (v : ℚ) (hv : 0 < v) (stops : StopMap) (hd : DistancesNonneg stops)
    (s : List String) (i j : Nat) : 0 ≤ forwardTime v stops s i j := by
  unfold forwardTime
  refine div_nonneg (Finset.sum_nonneg fun k _ => ?_) (le_of_lt hv)
  exact_mod_cast roadDistance_nonneg stops hd _ _

theorem backwardTime_nonneg (v : ℚ) (hv : 0 < v) (stops : StopMap) (hd : DistancesNonneg stops)
    (s : List String) (i j : Nat) : 0 ≤ backwardTime v stops s i j := by
  unfold backwardTime
  refine div_nonneg (Finset.sum_nonneg fun k _ => ?_) (le_of_lt hv)
  exact_mod_cast roadDistance_nonneg stops hd _ _

theorem vertexOf_lt (keys : List String) (hnd : keys.Nodup) (name : String)
    (h : name ∈ keys) :
    vertexOf (List.zip keys (List.range' 0 keys.length)) name < keys.length := by
  obtain ⟨i, hi, rfl⟩ := List.getElem_of_mem h
  have := lookup_zip_range' keys hnd 0 i hi
  simp only [List.get_eq_getElem, Nat.zero_add] at this
  unfold vertexOf
  rw [this]
  exact hi

theorem busEdges_mem (tr : TransportRouter) (stops : StopMap) (bus : Bus)
    (x : Edge × (String × Int)) (hx : x ∈ busEdges tr stops bus) :
    ∃ p, p.1 < p.2 ∧ p.2 < bus.stops_.length ∧
      (x = forwardEdgeOf tr stops bus p ∨ x = backwardEdgeOf tr stops bus p) := by
  unfold busEdges at hx
  cases ht : bus.type_ with
  | ROUND =>
    rw [ht] at hx
    simp only [List.mem_map] at hx
    obtain ⟨p, hp, rfl⟩ := hx
    rw [mem_positionPairs] at hp
    exact ⟨p, hp.1, hp.2, Or.inl rfl⟩
  | TWOWAY =>
    rw [ht] at hx
    simp only [List.mem_append, List.mem_map] at hx
    rcases hx with ⟨p, hp, rfl⟩ | ⟨p, hp, rfl⟩
    · rw [mem_positionPairs] at hp
      exact ⟨p, hp.1, hp.2, Or.inl rfl⟩
    · rw [mem_positionPairs] at hp
      exact ⟨p, hp.1, hp.2, Or.inr rfl⟩

theorem busEdges_weight (tr : TransportRouter) (stops : StopMap) (bus : Bus)
    (hv : 0 < tr.bus_velocity_) (hd : DistancesNonneg stops)
    (x : Edge × (String × Int)) (hx : x ∈ busEdges tr stops bus) :
    (tr.bus_wait_time_ : ℚ) ≤ x.1.weight := by
  obtain ⟨p, _, _, rfl | rfl⟩ := busEdges_mem tr stops bus x hx
  · have := forwardTime_nonneg tr.bus_velocity_ hv stops hd bus.stops_ p.1 p.2
    simp only [forwardEdgeOf]
    linarith
  · have := backwardTime_nonneg tr.bus_velocity_ hv stops hd bus.stops_ p.1 p.2
    simp only [backwardEdgeOf]
    linarith

theorem busEdges_ends (stops : StopMap) (rs : RouterSettings) (bus : Bus)
    (hnd : (stops.map Prod.fst).Nodup) (hok : RouteOk stops bus.stops_)
    (x : Edge × (String × Int)) (hx : x ∈ busEdges (vertexRouter stops rs) stops bus) :
    x.1.from_ < stops.length ∧ x.1.to_ < stops.length := by
  have key : ∀ i, i < bus.stops_.length →
      vertexOf (vertexRouter stops rs).stop_to_id (bus.stops_.getD i "") < stops.length := by
    intro i hi
    obtain ⟨st, hst⟩ := hok.1 _ (getD_mem _ _ hi)
    have hm := lookup_isSome_mem_keys stops _ st hst
    have := vertexOf_lt (stops.map Prod.fst) hnd _ hm
    simp only [List.length_map] at this
    exact this
  obtain ⟨p, h1, h2, rfl | rfl⟩ := busEdges_mem _ stops bus x hx
  · exact ⟨key p.1 (by omega), key p.2 h2⟩
  · exact ⟨key p.2 h2, key p.1 (by omega)⟩

/-- What the constructor establishes for the itinerary queries: every edge
weighs at least the wait time, joins two named vertices and has side-data. -/
theorem TransportRouter_new_edges (buses : List (String × Bus)) (stops : StopMap)
    (rs : RouterSettings) (hcat : CatalogOk buses stops) (hd : DistancesNonneg stops)
    (hv : 0 < rs.bus_velocity) (tr : TransportRouter)
    (htr : TransportRouter.new buses stops rs = .ok tr) :
    tr.bus_wait_time_ = rs.bus_wait_time ∧
    (∀ e ∈ tr.graph_.edges, (rs.bus_wait_time : ℚ) ≤ e.weight) ∧
    (∀ e ∈ tr.graph_.edges, e.from_ < tr.id_to_stop.length ∧ e.to_ < tr.id_to_stop.length) ∧
    tr.edge_to_info.length = tr.graph_.edges.length := by
  rw [TransportRouter_new_ok buses stops rs hcat] at htr
  cases htr
  refine ⟨rfl, ?_, ?_, ?_⟩
  · intro e he
    rw [pushEdges_edges_of_nil _ _ rfl] at he
    simp only [List.mem_map, List.mem_flatMap] at he
    obtain ⟨x, ⟨kb, _, hx⟩, rfl⟩ := he
    exact busEdges_weight (vertexRouter stops rs) stops kb.2 hv hd x hx
  · intro e he
    rw [pushEdges_edges_of_nil _ _ rfl] at he
    simp only [List.mem_map, List.mem_flatMap] at he
    obtain ⟨x, ⟨kb, hkb, hx⟩, rfl⟩ := he
    have := busEdges_ends stops rs kb.2 hcat.1.nodup (hcat.2.2 kb hkb).1 x hx
    simpa [pushEdges, vertexRouter] using this
  · rw [pushEdges_edges_of_nil _ _ rfl, pushEdges_info_of_nil _ _ rfl]
    simp

/-! ## Theorems: the routes table under arbitrary weights -/

theorem tblLe_refl (T : RoutesTable) : TblLe T T := fun _ _ e he => ⟨e, he, le_rfl⟩

theorem tblLe_trans (T1 T2 T3 : RoutesTable) (h12 : TblLe T1 T2) (h23 : TblLe T2 T3) :
    TblLe T1 T3 := by
  intro i j e he
  obtain ⟨e2, he2, hle2⟩ := h23 i j e he
  obtain ⟨e1, he1, hle1⟩ := h12 i j e2 he2
  exact ⟨e1, he1, le_trans hle1 hle2⟩

theorem relax_le (T : RoutesTable) (k i j : Nat) : TblLe (relax T k i j) T := by
  intro a b e he
  rw [relax_apply]
  split_ifs with h
  · obtain ⟨rfl, rfl⟩ := h
    exact relaxVal_mono _ _ _ k e he
  · exact ⟨e, he, le_rfl⟩

/-- An entry of the relaxed table is the old entry or was joined at `k`. -/
theorem relax_cases (T : RoutesTable) (k i j a b : Nat) :
    relax T k i j a b = T a b ∨
    (a = i ∧ b = j ∧ ∃ x y, T i k = some x ∧ T k j = some y ∧
      relax T k i j a b = some { weight := x.weight + y.weight, hop := .mid k }) := by
  rw [relax_apply]
  split_ifs with h
  · obtain ⟨rfl, rfl⟩ := h
    rcases relaxVal_cases (T a k) (T k b) (T a b) k with h' | ⟨x, y, hx, hy, h', _⟩
    · exact Or.inl h'
    · exact Or.inr ⟨rfl, rfl, x, y, hx, hy, h'⟩
  · exact Or.inl rfl

theorem relax_notEdge (T : RoutesTable) (k i j a b : Nat) (h : NotEdge (T a b)) :
    NotEdge (relax T k i j a b) := by
  intro e he
  rcases relax_cases T k i j a b with h' | ⟨_, _, x, y, _, _, h'⟩
  · rw [h'] at he; exact h e he
  · rw [h'] at he; cases he; exact ⟨k, rfl⟩

theorem relax_edge (edges : List Edge) (T : RoutesTable) (k i j : Nat) (h : TblEdge edges T) :
    TblEdge edges (relax T k i j) := by
  intro a b e id he hid
  rcases relax_cases T k i j a b with h' | ⟨_, _, x, y, _, _, h'⟩
  · rw [h'] at he; exact h a b e id he hid
  · rw [h'] at he; cases he; cases hid

theorem relax_mid (n : Nat) (T : RoutesTable) (k i j : Nat) (hk : k < n) (hi : i < n)
    (hj : j < n) (h : TblMid n T) : TblMid n (relax T k i j) := by
  intro a b e m he hm
  rcases relax_cases T k i j a b with h' | ⟨rfl, rfl, x, y, hx, hy, h'⟩
  · rw [h'] at he
    obtain ⟨ha, hb, hmn, x, y, hx, hy, hxy⟩ := h a b e m he hm
    obtain ⟨x', hx', hlx⟩ := relax_le T k i j _ _ x hx
    obtain ⟨y', hy', hly⟩ := relax_le T k i j _ _ y hy
    exact ⟨ha, hb, hmn, x', y', hx', hy', by linarith⟩
  · rw [h'] at he
    cases he
    cases hm
    obtain ⟨x', hx', hlx⟩ := relax_le T k a b _ _ x hx
    obtain ⟨y', hy', hly⟩ := relax_le T k a b _ _ y hy
    exact ⟨hi, hj, hk, x', y', hx', hy', by simp only; linarith⟩

/-- What every step of a phase keeps: the entries only get lighter, and no entry
turns into a single edge. -/
theorem relaxFold_keep (edges : List Edge) (n k : Nat) (hk : k < n) :
    ∀ (L : List (Nat × Nat)) (T : RoutesTable), (∀ p ∈ L, p.1 < n ∧ p.2 < n) →
      TblLe (L.foldl (fun U p => relax U k p.1 p.2) T) T ∧
      (TblEdge edges T → TblEdge edges (L.foldl (fun U p => relax U k p.1 p.2) T)) ∧
      (TblMid n T → TblMid n (L.foldl (fun U p => relax U k p.1 p.2) T)) ∧
      (∀ a b, NotEdge (T a b) → NotEdge ((L.foldl (fun U p => relax U k p.1 p.2) T) a b)) := by
  intro L
  induction L with
  | nil =>
    intro T _
    exact ⟨tblLe_refl T, fun h => h, fun h => h, fun _ _ h => h⟩
  | cons p L ih =>
    intro T hL
    have hp := hL p (List.mem_cons_self _ _)
    obtain ⟨h1, h2, h3, h4⟩ := ih (relax T k p.1 p.2) (fun q hq => hL q (List.mem_cons_of_mem _ hq))
    rw [List.foldl_cons]
    exact ⟨tblLe_trans _ _ _ h1 (relax_le T k p.1 p.2),
      fun h => h2 (relax_edge edges T k p.1 p.2 h),
      fun h => h3 (relax_mid n T k p.1 p.2 hk hp.1 hp.2 h),
      fun a b h => h4 a b (relax_notEdge T k p.1 p.2 a b h)⟩

/-- After a phase the entry of a relaxed pair weighs no more than the two halves
did before the phase. -/
theorem relaxFold_tri (edges : List Edge) (n k : Nat) (hk : k < n) (i j : Nat) :
    ∀ (L : List (Nat × Nat)) (T : RoutesTable), (∀ p ∈ L, p.1 < n ∧ p.2 < n) → (i, j) ∈ L →
      ∀ a b, T i k = some a → T k j = some b →
      ∃ c, (L.foldl (fun U p => relax U k p.1 p.2) T) i j = some c ∧
        c.weight ≤ a.weight + b.weight := by
  intro L
  induction L with
  | nil => intro T _ h; cases h
  | cons p L ih =>
    intro T hL hmem a b ha hb
    have hL' : ∀ q ∈ L, q.1 < n ∧ q.2 < n := fun q hq => hL q (List.mem_cons_of_mem _ hq)
    rw [List.foldl_cons]
    by_cases hp : (i, j) = p
    · subst hp
      obtain ⟨c1, hc1, hle1⟩ : ∃ c1, relax T k i j i j = some c1 ∧
          c1.weight ≤ a.weight + b.weight := by
        rw [relax_apply, if_pos ⟨rfl, rfl⟩]
        exact relaxVal_le _ _ _ k a b ha hb
      obtain ⟨c, hc, hle⟩ := (relaxFold_keep edges n k hk L (relax T k i j) hL').1 i j c1 hc1
      exact ⟨c, hc, le_trans hle hle1⟩
    · have hmem' : (i, j) ∈ L := by
        rcases List.mem_cons.1 hmem with h | h
        · exact absurd h hp
        · exact h
      obtain ⟨a1, ha1, hla⟩ := relax_le T k p.1 p.2 _ _ a ha
      obtain ⟨b1, hb1, hlb⟩ := relax_le T k p.1 p.2 _ _ b hb
      obtain ⟨c, hc, hle⟩ := ih (relax T k p.1 p.2) hL' hmem' a1 b1 ha1 hb1
      exact ⟨c, hc, by linarith⟩

/-- After a phase through a vertex with a negative diagonal entry, no entry of
the column of that vertex is a single edge. -/
theorem relaxFold_dead (edges : List Edge) (n k : Nat) (hk : k < n) (x : Nat) :
    ∀ (L : List (Nat × Nat)) (T : RoutesTable), (∀ p ∈ L, p.1 < n ∧ p.2 < n) → (x, k) ∈ L →
      ∀ d, T k k = some d → d.weight < 0 →
      NotEdge ((L.foldl (fun U p => relax U k p.1 p.2) T) x k) := by
  intro L
  induction L with
  | nil => intro T _ h; cases h
  | cons p L ih =>
    intro T hL hmem d hd hneg
    have hL' : ∀ q ∈ L, q.1 < n ∧ q.2 < n := fun q hq => hL q (List.mem_cons_of_mem _ hq)
    rw [List.foldl_cons]
    by_cases hp : (x, k) = p
    · subst hp
      refine (relaxFold_keep edges n k hk L (relax T k x k) hL').2.2.2 x k ?_
      intro e he
      rw [relax_apply, if_pos ⟨rfl, rfl⟩] at he
      cases hx : T x k with
      | none =>
        rw [hx] at he
        simp [relaxVal] at he
      | some a =>
        rw [hx, hd] at he
        simp only [relaxVal] at he
        rw [if_pos (by linarith)] at he
        cases he
        exact ⟨k, rfl⟩
    · have hmem' : (x, k) ∈ L := by
        rcases List.mem_cons.1 hmem with h | h
        · exact absurd h hp
        · exact h
      obtain ⟨d1, hd1, hld⟩ := relax_le T k p.1 p.2 _ _ d hd
      exact ih (relax T k p.1 p.2) hL' hmem' d1 hd1 (by linarith)

theorem walk_mono (edges : List Edge) (G G' : Nat → Prop) (hG : ∀ v, G v → G' v)
    (i j : Nat) (ids : List Nat) (h : Walk edges G i ids j) : Walk edges G' i ids j := by
  induction h with
  | single i j id ed he hf ht => exact Walk.single i j id ed he hf ht
  | cons i v j id ed rest he hf ht hv _ ih => exact Walk.cons i v j id ed rest he hf ht (hG v hv) ih

theorem walk_append (edges : List Edge) (G : Nat → Prop) (i k j : Nat) (p q : List Nat)
    (hp : Walk edges G i p k) (hk : G k) (hq : Walk edges G k q j) :
    Walk edges G i (p ++ q) j := by
  induction hp with
  | single i k id ed he hf ht => exact Walk.cons i k j id ed q he hf ht hk hq
  | cons i v k id ed rest he hf ht hv _ ih =>
    exact Walk.cons i v j id ed (rest ++ q) he hf ht hv (ih hk hq)

theorem walkWeight_cons (edges : List Edge) (id : Nat) (rest : List Nat) :
    walkWeight edges (id :: rest) = edgeWeight edges id + walkWeight edges rest := by
  simp [walkWeight]

theorem walkWeight_single (edges : List Edge) (id : Nat) :
    walkWeight edges [id] = edgeWeight edges id := by
  simp [walkWeight]

theorem walkWeight_append (edges : List Edge) (p q : List Nat) :
    walkWeight edges (p ++ q) = walkWeight edges p + walkWeight edges q := by
  simp [walkWeight]

/-- A walk that may pass the vertex `k`, whose diagonal entry is not negative,
passes it not at all, or weighs at least as much as a walk to `k` and a walk
from `k` that do not pass it. -/
theorem walk_split (edges : List Edge) (n k : Nat) (hk : k < n) (G : Nat → Prop)
    (T : RoutesTable) (hW : TblWalks edges n G T)
    (hgood : ∀ d, T k k = some d → 0 ≤ d.weight) (i j : Nat) (ids : List Nat)
    (h : Walk edges (fun v => G v ∨ v = k) i ids j) :
    Walk edges G i ids j ∨
    ∃ q1 q2, Walk edges G i q1 k ∧ Walk edges G k q2 j ∧
      walkWeight edges q1 + walkWeight edges q2 ≤ walkWeight edges ids := by
  induction h with
  | single i j id ed he hf ht => exact Or.inl (Walk.single i j id ed he hf ht)
  | cons i v j id ed rest he hf ht hv _ ih =>
    rcases hv with hv | hv
    · rcases ih with ih | ⟨q1, q2, h1, h2, hle⟩
      · exact Or.inl (Walk.cons i v j id ed rest he hf ht hv ih)
      · refine Or.inr ⟨id :: q1, q2, Walk.cons i v k id ed q1 he hf ht hv h1, h2, ?_⟩
        rw [walkWeight_cons, walkWeight_cons]
        linarith
    · subst hv
      rcases ih with ih | ⟨q1, q2, h1, h2, hle⟩
      · refine Or.inr ⟨[id], rest, Walk.single i v id ed he hf ht, ih, ?_⟩
        rw [walkWeight_single, walkWeight_cons]
      · obtain ⟨d, hd, hdle⟩ := hW v v q1 hk hk h1
        have := hgood d hd
        refine Or.inr ⟨[id], q2, Walk.single i v id ed he hf ht, h2, ?_⟩
        rw [walkWeight_single, walkWeight_cons]
        linarith

theorem mem_pairs (n i j : Nat) :
    (i, j) ∈ (List.range n).product (List.range n) ↔ i < n ∧ j < n := by
  rw [List.pair_mem_product, List.mem_range, List.mem_range]

/-- One phase of the relaxation keeps the invariants, whatever the sign of the
weights. -/
theorem phase_gen (edges : List Edge) (n k : Nat) (hk : k < n) (G : Nat → Prop)
    (T : RoutesTable) (hT : TblGen edges n k G T) :
    ∃ G', TblGen edges n (k + 1) G' (relaxPhase n T k) := by
  obtain ⟨hG, hE, hM, hW, hD⟩ := hT
  have hL : ∀ p ∈ (List.range n).product (List.range n), p.1 < n ∧ p.2 < n :=
    fun p hp => (mem_pairs n p.1 p.2).1 hp
  obtain ⟨kle, kedge, kmid, knot⟩ := relaxFold_keep edges n k hk _ T hL
  by_cases hgood : ∀ d, T k k = some d → 0 ≤ d.weight
  · refine ⟨fun v => G v ∨ v = k, ?_, kedge hE, kmid hM, ?_, ?_⟩
    · rintro v (hv | rfl)
      · exact Nat.lt_succ_of_lt (hG v hv)
      · exact Nat.lt_succ_self _
    · intro i j ids hi hj hw
      rcases walk_split edges n k hk G T hW hgood i j ids hw with h | ⟨q1, q2, h1, h2, hle⟩
      · obtain ⟨e, he, hle⟩ := hW i j ids hi hj h
        obtain ⟨e', he', hle'⟩ := kle i j e he
        exact ⟨e', he', le_trans hle' hle⟩
      · obtain ⟨a, ha, hla⟩ := hW i k q1 hi hk h1
        obtain ⟨b, hb, hlb⟩ := hW k j q2 hk hj h2
        obtain ⟨c, hc, hlc⟩ := relaxFold_tri edges n k hk i j _ T hL
          ((mem_pairs n i j).2 ⟨hi, hj⟩) a b ha hb
        exact ⟨c, hc, by linarith⟩
    · intro v hv hnG x hx
      have hvk : v ≠ k := fun h => hnG (Or.inr h)
      exact knot x v (hD v (by omega) (fun h => hnG (Or.inl h)) x hx)
  · push_neg at hgood
    obtain ⟨d, hd, hneg⟩ := hgood
    refine ⟨G, fun v hv => Nat.lt_succ_of_lt (hG v hv), kedge hE, kmid hM, ?_, ?_⟩
    · intro i j ids hi hj hw
      obtain ⟨e, he, hle⟩ := hW i j ids hi hj hw
      obtain ⟨e', he', hle'⟩ := kle i j e he
      exact ⟨e', he', le_trans hle' hle⟩
    · intro v hv hnG x hx
      by_cases hvk : v = k
      · subst hvk
        exact relaxFold_dead edges n v hk x _ T hL ((mem_pairs n x v).2 ⟨hx, hk⟩) d hd hneg
      · exact knot x v (hD v (by omega) hnG x hx)

theorem relaxAll_gen (edges : List Edge) (n : Nat) (G : Nat → Prop) (T : RoutesTable)
    (hT : TblGen edges n 0 G T) : ∃ G', TblGen edges n n G' (relaxAll n T) := by
  unfold relaxAll
  have h : ∀ m, m ≤ n → ∃ G', TblGen edges n m G' ((List.range m).foldl (relaxPhase n) T) := by
    intro m
    induction m with
    | zero => intro _; exact ⟨G, hT⟩
    | succ m ih =>
      intro hm
      rw [List.range_succ, List.foldl_append, List.foldl_cons, List.foldl_nil]
      obtain ⟨G1, h1⟩ := ih (by omega)
      exact phase_gen edges n m (by omega) G1 _ h1
  exact h n le_rfl

/-- Every entry of the table is a single edge between its end points, with the
weight of that edge. -/
theorem initEdge_start (edges : List Edge) (T : RoutesTable) (p : Nat × Edge)
    (hp : edges[p.1]? = some p.2)
    (hT : ∀ i j e, T i j = some e → ∃ id ed, e.hop = .edge id ∧ edges[id]? = some ed ∧
      ed.from_ = i ∧ ed.to_ = j ∧ ed.weight = e.weight) :
    ∀ i j e, initEdge T p i j = some e → ∃ id ed, e.hop = .edge id ∧ edges[id]? = some ed ∧
      ed.from_ = i ∧ ed.to_ = j ∧ ed.weight = e.weight := by
  intro i j e he
  unfold initEdge at he
  split_ifs at he with h
  · obtain ⟨rfl, rfl⟩ := h
    unfold initVal at he
    cases hz : T p.2.from_ p.2.to_ with
    | none =>
      rw [hz] at he
      cases he
      exact ⟨p.1, p.2, rfl, hp, rfl, rfl, rfl⟩
    | some old =>
      rw [hz] at he
      simp only at he
      split_ifs at he
      · cases he
        exact ⟨p.1, p.2, rfl, hp, rfl, rfl, rfl⟩
      · cases he
        exact hT _ _ _ hz
  · exact hT i j e he

theorem initEdge_le (T : RoutesTable) (p : Nat × Edge) : TblLe (initEdge T p) T := by
  intro i j e he
  unfold initEdge
  split_ifs with h
  · obtain ⟨rfl, rfl⟩ := h
    unfold initVal
    rw [he]
    simp only
    split_ifs with hlt
    · exact ⟨_, rfl, le_of_lt hlt⟩
    · exact ⟨e, rfl, le_rfl⟩
  · exact ⟨e, he, le_rfl⟩

theorem initEdge_self (T : RoutesTable) (p : Nat × Edge) :
    ∃ e, initEdge T p p.2.from_ p.2.to_ = some e ∧ e.weight ≤ p.2.weight := by
  unfold initEdge
  rw [if_pos ⟨rfl, rfl⟩]
  unfold initVal
  cases T p.2.from_ p.2.to_ with
  | none => exact ⟨_, rfl, le_rfl⟩
  | some old =>
    simp only
    split_ifs with hlt
    · exact ⟨_, rfl, le_rfl⟩
    · exact ⟨old, rfl, not_lt.1 hlt⟩

theorem initFold_le : ∀ (L : List (Nat × Edge)) (T : RoutesTable),
    TblLe (L.foldl initEdge T) T ∧
    ∀ p ∈ L, ∃ e, (L.foldl initEdge T) p.2.from_ p.2.to_ = some e ∧ e.weight ≤ p.2.weight := by
  intro L
  induction L with
  | nil => intro T; exact ⟨tblLe_refl T, fun p hp => by cases hp⟩
  | cons q L ih =>
    intro T
    obtain ⟨h1, h2⟩ := ih (initEdge T q)
    rw [List.foldl_cons]
    refine ⟨tblLe_trans _ _ _ h1 (initEdge_le T q), ?_⟩
    intro p hp
    rcases List.mem_cons.1 hp with rfl | hp
    · obtain ⟨e, he, hle⟩ := initEdge_self T p
      obtain ⟨e', he', hle'⟩ := h1 _ _ e he
      exact ⟨e', he', le_trans hle' hle⟩
    · exact h2 p hp

theorem initTable_gen (edges : List Edge) (n : Nat) :
    TblGen edges n 0 (fun _ => False) (initTable edges) := by
  have hS : ∀ i j e, initTable edges i j = some e → ∃ id ed, e.hop = .edge id ∧
      edges[id]? = some ed ∧ ed.from_ = i ∧ ed.to_ = j ∧ ed.weight = e.weight := by
    unfold initTable
    refine foldl_inv (fun (T : RoutesTable) => ∀ i j e, T i j = some e → ∃ id ed,
      e.hop = .edge id ∧ edges[id]? = some ed ∧ ed.from_ = i ∧ ed.to_ = j ∧
      ed.weight = e.weight) initEdge edges.enum _ ?_ ?_
    · intro T p hp hT
      exact initEdge_start edges T p (List.mem_enum_iff_getElem?.mp hp) hT
    · intro i j e he
      cases he
  refine ⟨fun v hv => hv.elim, ?_, ?_, ?_, ?_⟩
  · intro i j e id he hid
    obtain ⟨id', ed, hid', hed, hf, ht, hw⟩ := hS i j e he
    rw [hid] at hid'
    cases hid'
    exact ⟨ed, hed, hf, ht, hw⟩
  · intro i j e k he hk
    obtain ⟨id', ed, hid', _⟩ := hS i j e he
    rw [hk] at hid'
    cases hid'
  · intro i j ids _ _ hw
    cases hw with
    | single _ _ id ed he hf ht =>
      have hmem : (id, ed) ∈ edges.enum := List.mem_enum_iff_getElem?.mpr he
      obtain ⟨e, hee, hle⟩ := (initFold_le edges.enum (fun _ _ => none)).2 (id, ed) hmem
      subst hf ht
      refine ⟨e, hee, ?_⟩
      rw [walkWeight_single, edgeWeight_of_getElem? edges id ed he]
      exact hle
    | cons _ v _ id ed rest he hf ht hv _ => exact hv.elim
  · intro v hv
    exact absurd hv (Nat.not_lt_zero v)

/-- The reconstruction of an entry in a column without single edges never
ends. -/
theorem expandRoute_dead (n : Nat) (T : RoutesTable) (hM : TblMid n T) (k : Nat)
    (hcol : ∀ x, x < n → NotEdge (T x k)) :
    ∀ (fuel x : Nat), x < n → expandRoute T fuel x k = none := by
  intro fuel
  induction fuel with
  | zero => intro x _; rfl
  | succ fuel ih =>
    intro x hx
    unfold expandRoute
    cases he : T x k with
    | none => rfl
    | some e =>
      obtain ⟨m, hm⟩ := hcol x hx e he
      obtain ⟨_, _, hmn, _⟩ := hM x k e m he hm
      simp only [hm, ih m hmn]
      cases expandRoute T fuel x m <;> rfl

/-- A reconstructed route is a walk of the graph between the end points of the
entry that weighs exactly as much as the entry. -/
theorem expandRoute_gen (edges : List Edge) (n : Nat) (G : Nat → Prop) (T : RoutesTable)
    (hT : TblGen edges n n G T) :
    ∀ (fuel i j : Nat) (p : List Nat) (e : RouteEntry),
      expandRoute T fuel i j = some p → T i j = some e →
      Walk edges G i p j ∧ walkWeight edges p ≤ e.weight ∧
        walkWeight edges p = e.weight := by
  obtain ⟨hG, hE, hM, hW, hD⟩ := hT
  intro fuel
  induction fuel with
  | zero => intro i j p e h; simp [expandRoute] at h
  | succ fuel ih =>
    intro i j p e h he
    unfold expandRoute at h
    rw [he] at h
    simp only at h
    cases hh : e.hop with
    | edge id =>
      rw [hh] at h
      simp only [Option.some.injEq] at h
      subst h
      obtain ⟨ed, hed, hf, ht, hwe⟩ := hE i j e id he hh
      have hw : walkWeight edges [id] = e.weight := by
        rw [walkWeight_single, edgeWeight_of_getElem? edges id ed hed, hwe]
      exact ⟨Walk.single i j id ed hed hf ht, le_of_eq hw, hw⟩
    | mid k =>
      rw [hh] at h
      simp only at h
      obtain ⟨hi, hj, hk, a, b, ha, hb, hab⟩ := hM i j e k he hh
      cases h1 : expandRoute T fuel i k with
      | none => rw [h1] at h; cases h
      | some pa =>
        cases h2 : expandRoute T fuel k j with
        | none => rw [h1, h2] at h; cases h
        | some pb =>
          rw [h1, h2] at h
          simp only [Option.some.injEq] at h
          subst h
          have hGk : G k := by
            by_contra hn
            have := expandRoute_dead n T hM k (hD k hk hn) fuel i hi
            rw [h1] at this
            cases this
          obtain ⟨wa, la, _⟩ := ih i k pa a h1 ha
          obtain ⟨wb, lb, _⟩ := ih k j pb b h2 hb
          have hwalk := walk_append edges G i k j pa pb wa hGk wb
          have hle : walkWeight edges (pa ++ pb) ≤ e.weight := by
            rw [walkWeight_append]; linarith
          obtain ⟨e', he', hle'⟩ := hW i j _ hi hj hwalk
          rw [he] at he'
          cases he'
          exact ⟨hwalk, hle, le_antisymm hle hle'⟩

/-- The edges of a route the engine returns add up to its weight, whatever the
sign of the weights of the graph. -/
theorem Router_BuildRoute_sum (g : DirectedWeightedGraph) (i j : Nat) (route : RouterRoute)
    (h : Router.BuildRoute g i j = some route) :
    (route.edges.map (edgeWeight g.edges)).sum = route.weight := by
  obtain ⟨G, hinv⟩ := relaxAll_gen g.edges g.vertex_count _ _
    (initTable_gen g.edges g.vertex_count)
  unfold Router.BuildRoute at h
  simp only at h
  cases he : relaxAll g.vertex_count (initTable g.edges) i j with
  | none => rw [he] at h; cases h
  | some e =>
    rw [he] at h
    simp only at h
    cases hp : expandRoute (relaxAll g.vertex_count (initTable g.edges))
        (g.vertex_count + 1) i j with
    | none => rw [hp] at h; cases h
    | some p =>
      rw [hp] at h
      simp only [Option.map_some', Option.some.injEq] at h
      subst h
      exact (expandRoute_gen g.edges g.vertex_count G _ hinv _ i j p e hp he).2.2

theorem items_time_sum (tr : TransportRouter) (ids : List Nat) :
    ((ids.flatMap (fun id => [waitItemOf tr id, rideItemOf tr id])).map RouteItem.time).sum =
      (ids.map (edgeWeight tr.graph_.edges)).sum := by
  induction ids with
  | nil => rfl
  | cons id rest ih =>
    simp only [List.flatMap_cons, List.cons_append, List.nil_append, List.map_cons,
      List.sum_cons, ih]
    simp only [waitItemOf, rideItemOf, RouteItem.time, edgeWeight]
    ring

theorem validEdge_of_lt (tr : TransportRouter)
    (hends : ∀ e ∈ tr.graph_.edges, e.from_ < tr.id_to_stop.length ∧ e.to_ < tr.id_to_stop.length)
    (hlen : tr.edge_to_info.length = tr.graph_.edges.length)
    (id : Nat) (hid : id < tr.graph_.edges.length) : ValidEdge tr id := by
  refine ⟨tr.graph_.edges[id], List.getElem?_eq_getElem hid, ?_, ?_, by omega⟩
  · exact (hends _ (List.getElem_mem _)).1
  · exact (hends _ (List.getElem_mem _)).2

/-- The itinerary of a query on a router the constructor built, with the
shortest path engine over its graph. -/
theorem BuildRoute_of_new (buses : List (String × Bus)) (stops : StopMap)
    (rs : RouterSettings) (hcat : CatalogOk buses stops) (hd : DistancesNonneg stops)
    (hv : 0 < rs.bus_velocity) (hw : 0 ≤ rs.bus_wait_time) (tr : TransportRouter)
    (htr : TransportRouter.new buses stops rs = .ok tr) (m : List (String × Nat))
    (from_ to_ : String) (info : RouteInfo) (tr' : TransportRouter)
    (h : TransportRouter.BuildRoute (Router.BuildRoute tr.graph_)
      { tr with stop_to_id := m } from_ to_ = .ok (some info, tr')) :
    ∃ route : RouterRoute,
      info.total_time = route.weight ∧
      info.items = route.edges.flatMap (fun id => [waitItemOf tr id, rideItemOf tr id]) ∧
      (route.edges.map (edgeWeight tr.graph_.edges)).sum = route.weight ∧
      (rs.bus_wait_time : ℚ) ≤ route.weight ∧ route.edges ≠ [] := by
  obtain ⟨_, hge, hends, hlen⟩ := TransportRouter_new_edges buses stops rs hcat hd hv tr htr
  obtain ⟨route, hroute⟩ := BuildRoute_some _ _ from_ to_ info tr' h
  have hw' : (0 : ℚ) ≤ (rs.bus_wait_time : ℚ) := by exact_mod_cast hw
  obtain ⟨hsum, hwt, hne, hval⟩ :=
    Router_BuildRoute_sound tr.graph_ (rs.bus_wait_time : ℚ) hw' hge _ _ route hroute
  have hvalid : ∀ id ∈ route.edges, ValidEdge { tr with stop_to_id := m } id :=
    fun id hid => validEdge_of_lt tr hends hlen id (hval id hid)
  rw [BuildRoute_eq _ _ from_ to_ route hroute hvalid] at h
  simp only [Except.ok.injEq, Prod.mk.injEq, Option.some.injEq] at h
  obtain ⟨rfl, _⟩ := h
  exact ⟨route, rfl, rfl, hsum, hwt, hne⟩

theorem routeStep_time (tr : TransportRouter) (items items' : List RouteItem) (id : Nat)
    (h : routeStep tr items id = .ok items') :
    (items'.map RouteItem.time).sum =
      (items.map RouteItem.time).sum + edgeWeight tr.graph_.edges id := by
  unfold routeStep DirectedWeightedGraph.GetEdge at h
  cases he : vecAt tr.graph_.edges id with
  | error _ => rw [he] at h; cases h
  | ok e =>
    have hge : edgeWeight tr.graph_.edges id = e.weight := by
      unfold vecAt at he
      cases hq : tr.graph_.edges[id]? with
      | none => rw [hq] at he; cases he
      | some e' =>
        rw [hq] at he
        cases he
        exact edgeWeight_of_getElem? _ _ _ hq
    rw [he] at h
    simp only [bind, Except.bind] at h
    cases h1 : vecAt tr.id_to_stop e.from_ with
    | error _ => rw [h1] at h; cases h
    | ok e_from =>
      rw [h1] at h
      simp only at h
      cases h2 : vecAt tr.id_to_stop e.to_ with
      | error _ => rw [h2] at h; cases h
      | ok e_to =>
        rw [h2] at h
        simp only at h
        cases h3 : vecAt tr.edge_to_info id with
        | error _ => rw [h3] at h; cases h
        | ok inf =>
          rw [h3] at h
          simp only [pure, Except.pure, Except.ok.injEq] at h
          subst h
          simp only [List.map_append, List.sum_append, List.map_cons, List.map_nil,
            List.sum_cons, List.sum_nil, RouteItem.time, hge]
          ring

theorem routeStep_fold_time (tr : TransportRouter) :
    ∀ (ids : List Nat) (items items' : List RouteItem),
      ids.foldlM (routeStep tr) items = .ok items' →
      (items'.map RouteItem.time).sum =
        (items.map RouteItem.time).sum + (ids.map (edgeWeight tr.graph_.edges)).sum := by
  intro ids
  induction ids with
  | nil =>
    intro items items' h
    simp only [List.foldlM_nil, pure, Except.pure, Except.ok.injEq] at h
    subst h
    simp
  | cons id rest ih =>
    intro items items' h
    rw [List.foldlM_cons] at h
    cases h1 : routeStep tr items id with
    | error _ => rw [h1] at h; cases h
    | ok items1 =>
      rw [h1] at h
      simp only [bind, Except.bind] at h
      rw [ih items1 items' h, routeStep_time tr items items1 id h1]
      simp only [List.map_cons, List.sum_cons]
      ring

/-- What a successful query returns: the weight of the route of the engine as
the total time, and items whose times add up to the weights of its edges. -/
theorem BuildRoute_inv (engine : Nat → Nat → Option RouterRoute) (tr : TransportRouter)
    (from_ to_ : String) (info : RouteInfo) (tr' : TransportRouter)
    (h : tr.BuildRoute engine from_ to_ = .ok (some info, tr')) :
    ∃ route, engine (umapIndex tr.stop_to_id from_).1
        (umapIndex (umapIndex tr.stop_to_id from_).2 to_).1 = some route ∧
      info.total_time = route.weight ∧
      (info.items.map RouteItem.time).sum = (route.edges.map (edgeWeight tr.graph_.edges)).sum := by
  unfold TransportRouter.BuildRoute at h
  simp only at h
  cases he : engine (umapIndex tr.stop_to_id from_).1
      (umapIndex (umapIndex tr.stop_to_id from_).2 to_).1 with
  | none =>
    rw [he] at h
    simp only [pure, Except.pure] at h
    cases h
  | some route =>
    rw [he] at h
    simp only [bind, Except.bind] at h
    cases hf : route.edges.foldlM
        (routeStep { tr with stop_to_id := (umapIndex (umapIndex tr.stop_to_id from_).2 to_).2 })
        [] with
    | error _ => rw [hf] at h; cases h
    | ok items =>
      rw [hf] at h
      simp only [pure, Except.pure, Except.ok.injEq, Prod.mk.injEq, Option.some.injEq] at h
      obtain ⟨rfl, _⟩ := h
      refine ⟨route, rfl, rfl, ?_⟩
      have := routeStep_fold_time _ route.edges [] items hf
      simpa using this

/-- C9. For every pair of stops for which `BuildRoute` returns a route, the
returned `total_time` equals the sum of the times of the returned items, in
exact arithmetic.  The router is any router (the deserialized one and the
router after earlier queries included), whatever the sign of the weights of its
graph, with the shortest path engine over its graph. -/
theorem BuildRoute_total_time (tr : TransportRouter)
    (from_ to_ : String) (info : RouteInfo) (tr' : TransportRouter)
    (h : tr.BuildRoute (Router.BuildRoute tr.graph_) from_ to_ = .ok (some info, tr')) :
    info.total_time = (info.items.map RouteItem.time).sum := by
  obtain ⟨route, hroute, ht, hi⟩ := BuildRoute_inv _ tr from_ to_ info tr' h
  rw [ht, hi, Router_BuildRoute_sum tr.graph_ _ _ route hroute]

/-- C10, amended. For all stop pairs `(A, B)` for which `BuildRoute(A, B)`
returns a route (`A = B` included), the returned `total_time` is at least
`bus_wait_time`, given non-negative road distances, a positive `bus_velocity`
and a non-negative `bus_wait_time`. -/
theorem BuildRoute_total_time_ge (buses : List (String × Bus)) (stops : StopMap)
    (rs : RouterSettings) (hcat : CatalogOk buses stops) (hd : DistancesNonneg stops)
    (hv : 0 < rs.bus_velocity) (hw : 0 ≤ rs.bus_wait_time) (tr : TransportRouter)
    (htr : TransportRouter.new buses stops rs = .ok tr) (m : List (String × Nat))
    (from_ to_ : String) (info : RouteInfo) (tr' : TransportRouter)
    (h : TransportRouter.BuildRoute (Router.BuildRoute tr.graph_)
      { tr with stop_to_id := m } from_ to_ = .ok (some info, tr')) :
    (rs.bus_wait_time : ℚ) ≤ info.total_time := by
  obtain ⟨route, ht, _, _, hge, _⟩ :=
    BuildRoute_of_new buses stops rs hcat hd hv hw tr htr m from_ to_ info tr' h
  rw [ht]
  exact hge

theorem abc_new : TransportRouter.new abcBuses abcStops abcSettings = .ok abcRouter :=
  TransportRouter_new_ok abcBuses abcStops abcSettings abc_catalogOk

theorem abc_distancesNonneg : DistancesNonneg abcStops := by
  unfold DistancesNonneg
  decide

theorem abc_engine :
    Router.BuildRoute abcRouter.graph_ (umapIndex abcRouter.stop_to_id "A").1
      (umapIndex (umapIndex abcRouter.stop_to_id "A").2 "C").1 =
      some { weight := 3, edges := [1] } := by
  decide!

theorem abc_valid : ∀ id ∈ [1], ValidEdge abcRouter id := by
  intro id hid
  simp only [List.mem_singleton] at hid
  subst hid
  exact ⟨{ from_ := 0, to_ := 2, weight := 3 }, by decide!, by decide, by decide, by decide⟩

theorem abc_buildRoute :
    TransportRouter.BuildRoute (Router.BuildRoute abcRouter.graph_)
      { abcRouter with stop_to_id := abcRouter.stop_to_id } "A" "C" =
      .ok (some { total_time := 3
                  items := [1].flatMap (fun id => [waitItemOf abcRouter id, rideItemOf abcRouter id]) },
        { abcRouter with
          stop_to_id := (umapIndex (umapIndex abcRouter.stop_to_id "A").2 "C").2 }) :=
  BuildRoute_eq _ abcRouter "A" "C" { weight := 3, edges := [1] } abc_engine abc_valid

/-- Witness of C8: the route from A to C is the single edge `1`, and the items
are the wait at A for 2 and the ride on B1 from A to C, span 2, time 1. -/
theorem BuildRoute_items_witness :
    (∀ id ∈ [1], ValidEdge abcRouter id) ∧
    (∃ info tr', abcRouter.BuildRoute (Router.BuildRoute abcRouter.graph_) "A" "C" =
        .ok (some info, tr') ∧
      info.total_time = 3 ∧
      info.items.length = 2 * [1].length ∧
      ∀ (k : Nat) (hk : k < [1].length),
        info.items[2 * k]? = some (waitItemOf abcRouter ([1].get ⟨k, hk⟩)) ∧
        info.items[2 * k + 1]? = some (rideItemOf abcRouter ([1].get ⟨k, hk⟩))) ∧
    waitItemOf abcRouter 1 = RouteItem.StopItem "A" 2 ∧
    rideItemOf abcRouter 1 = RouteItem.BusItem "B1" "A" "C" 2 1 :=
  ⟨abc_valid,
    BuildRoute_items (Router.BuildRoute abcRouter.graph_) abcRouter "A" "C"
      { weight := 3, edges := [1] } abc_engine abc_valid,
    by decide!, by decide!⟩

theorem abc_buildRoute_plain :
    abcRouter.BuildRoute (Router.BuildRoute abcRouter.graph_) "A" "C" =
      .ok (some { total_time := 3
                  items := [1].flatMap (fun id => [waitItemOf abcRouter id, rideItemOf abcRouter id]) },
        { abcRouter with
          stop_to_id := (umapIndex (umapIndex abcRouter.stop_to_id "A").2 "C").2 }) :=
  BuildRoute_eq _ abcRouter "A" "C" { weight := 3, edges := [1] } abc_engine abc_valid

theorem zero_engine :
    Router.BuildRoute zeroRouter.graph_ (umapIndex zeroRouter.stop_to_id "A").1
      (umapIndex (umapIndex zeroRouter.stop_to_id "A").2 "C").1 =
      some { weight := -2, edges := [0, 2] } := by
  decide!

theorem zero_valid : ∀ id ∈ [0, 2], ValidEdge zeroRouter id := by
  intro id hid
  simp only [List.mem_cons, List.mem_singleton, List.not_mem_nil, or_false] at hid
  rcases hid with rfl | rfl
  · exact ⟨{ from_ := 0, to_ := 1, weight := -1 }, by decide!, by decide, by decide, by decide⟩
  · exact ⟨{ from_ := 1, to_ := 2, weight := -1 }, by decide!, by decide, by decide, by decide⟩

theorem zero_buildRoute :
    zeroRouter.BuildRoute (Router.BuildRoute zeroRouter.graph_) "A" "C" =
      .ok (some { total_time := -2
                  items := [0, 2].flatMap
                    (fun id => [waitItemOf zeroRouter id, rideItemOf zeroRouter id]) },
        { zeroRouter with
          stop_to_id := (umapIndex (umapIndex zeroRouter.stop_to_id "A").2 "C").2 }) :=
  BuildRoute_eq _ zeroRouter "A" "C" { weight := -2, edges := [0, 2] } zero_engine zero_valid

/-- Witness of C9 on the route from A to C of the router whose three edges weigh
−1 each: the engine joins the edges A→B and B→C at the midpoint B, and the total
time −2 is the sum of the times of the four items. -/
theorem BuildRoute_total_time_witness :
    (∀ e ∈ zeroRouter.graph_.edges, e.weight = -1) ∧
    ∃ info tr', zeroRouter.BuildRoute (Router.BuildRoute zeroRouter.graph_) "A" "C" =
        .ok (some info, tr') ∧
      info.total_time = -2 ∧ info.items.length = 4 ∧
      info.total_time = (info.items.map RouteItem.time).sum :=
  ⟨by decide!, _, _, zero_buildRoute, rfl, rfl,
    BuildRoute_total_time zeroRouter "A" "C" _ _ zero_buildRoute⟩

/-- Witness of C10, amended, on the route from A to C of the scenario. -/
theorem BuildRoute_total_time_ge_witness :
    CatalogOk abcBuses abcStops ∧ DistancesNonneg abcStops ∧
    0 < abcSettings.bus_velocity ∧ 0 ≤ abcSettings.bus_wait_time ∧
    TransportRouter.new abcBuses abcStops abcSettings = .ok abcRouter ∧
    ∃ info tr', TransportRouter.BuildRoute (Router.BuildRoute abcRouter.graph_)
        { abcRouter with stop_to_id := abcRouter.stop_to_id } "A" "C" = .ok (some info, tr') ∧
      (abcSettings.bus_wait_time : ℚ) ≤ info.total_time :=
  ⟨abc_catalogOk, abc_distancesNonneg, by decide!, by decide, abc_new, _, _, abc_buildRoute,
    BuildRoute_total_time_ge abcBuses abcStops abcSettings abc_catalogOk abc_distancesNonneg
      (by decide!) (by decide) abcRouter abc_new abcRouter.stop_to_id "A" "C" _ _ abc_buildRoute⟩

theorem zero_routeOk : RouteOk zeroStops ["A", "B", "C"] := by
  constructor
  · intro s hs
    simp only [List.mem_cons, List.mem_singleton, List.not_mem_nil, or_false] at hs
    rcases hs with rfl | rfl | rfl <;> exact ⟨_, rfl⟩
  · intro i hi sa sb ha hb
    have hi' : i < 2 := by simp at hi; omega
    interval_cases i
    · cases ha; cases hb; exact Or.inl rfl
    · cases ha; cases hb; exact Or.inl rfl

theorem zero_catalogOk : CatalogOk zeroBuses zeroStops := by
  refine ⟨?_, by decide, ?_⟩
  · simp [zeroStops, String.lt_iff_toList_lt]
    decide
  · intro kb hkb
    simp only [zeroBuses, List.mem_singleton] at hkb
    subst hkb
    exact ⟨zero_routeOk, by decide⟩

/-- Counterexample to C10 as stated: with road distances 0, velocity 1 and a
wait time of −1, the route from A to C over the bus A, B, C takes two edges of
weight −1 each, so its total time −2 is below the wait time −1. -/
theorem BuildRoute_total_time_ge_counterexample :
    CatalogOk zeroBuses zeroStops ∧ DistancesNonneg zeroStops ∧
    0 < negativeWait.bus_velocity ∧
    routeTotalTime zeroBuses zeroStops negativeWait "A" "C" = some (-2) ∧
    ¬ ((negativeWait.bus_wait_time : ℚ) ≤ -2) :=
  ⟨zero_catalogOk, by unfold DistancesNonneg; decide, by decide!, by decide!, by decide!⟩

/-! ## Theorems: names that are not stops, routes to a company -/

theorem abc_unknown_engine :
    Router.BuildRoute abcRouter.graph_ (umapIndex abcRouter.stop_to_id "Q").1
      (umapIndex (umapIndex abcRouter.stop_to_id "Q").2 "C").1 =
      some { weight := 3, edges := [1] } := by
  decide!

theorem abc_unknown_buildRoute :
    abcRouter.BuildRoute (Router.BuildRoute abcRouter.graph_) "Q" "C" =
      .ok (some { total_time := 3
                  items := [RouteItem.StopItem "A" 2, RouteItem.BusItem "B1" "A" "C" 2 1] },
        { abcRouter with stop_to_id := abcRouter.stop_to_id ++ [("Q", 0)] }) := by
  have hw : waitItemOf abcRouter 1 = RouteItem.StopItem "A" 2 := by decide!
  have hr : rideItemOf abcRouter 1 = RouteItem.BusItem "B1" "A" "C" 2 1 := by decide!
  have hs : (umapIndex (umapIndex abcRouter.stop_to_id "Q").2 "C").2 =
      abcRouter.stop_to_id ++ [("Q", 0)] := by decide!
  rw [BuildRoute_eq _ abcRouter "Q" "C" { weight := 3, edges := [1] } abc_unknown_engine abc_valid,
    hs]
  simp only [List.flatMap_cons, List.flatMap_nil, List.append_nil, hw, hr]

/-- `BuildRoute` changes nothing but the table `stop_to_id`. -/
theorem BuildRoute_frame (engine : Nat → Nat → Option RouterRoute) (tr : TransportRouter)
    (from_ to_ : String) (r : Option RouteInfo) (tr' : TransportRouter)
    (h : tr.BuildRoute engine from_ to_ = .ok (r, tr')) :
    tr' = { tr with stop_to_id := (umapIndex (umapIndex tr.stop_to_id from_).2 to_).2 } := by
  unfold TransportRouter.BuildRoute at h
  simp only at h
  cases he : engine (umapIndex tr.stop_to_id from_).1
      (umapIndex (umapIndex tr.stop_to_id from_).2 to_).1 with
  | none =>
    rw [he] at h
    simp only [pure, Except.pure, Except.ok.injEq, Prod.mk.injEq] at h
    exact h.2.symm
  | some route =>
    rw [he] at h
    simp only [bind, Except.bind, pure, Except.pure] at h
    split at h
    · cases h
    · simp only [Except.ok.injEq, Prod.mk.injEq] at h
      exact h.2.symm

/-- On names that are both in the table `BuildRoute` leaves the router as it
was. -/
theorem BuildRoute_state_known (engine : Nat → Nat → Option RouterRoute) (tr : TransportRouter)
    (from_ to_ : String) (hf : (tr.stop_to_id.lookup from_).isSome)
    (ht : (tr.stop_to_id.lookup to_).isSome) (r : Option RouteInfo) (tr' : TransportRouter)
    (h : tr.BuildRoute engine from_ to_ = .ok (r, tr')) : tr' = tr := by
  rw [BuildRoute_frame engine tr from_ to_ r tr' h, umapIndex_of_lookup _ _ hf]
  simp only
  rw [umapIndex_of_lookup _ _ ht]

/-- A name that is not in the table is routed as the vertex 0: on the router
of the catalog A, B, C every engine is asked for the same pair of vertices on
the query from Q to C as on the query from A to C, and the answer is the
same. -/
theorem abc_unknown_as_first (engine : Nat → Nat → Option RouterRoute) :
    (abcRouter.BuildRoute engine "Q" "C").map Prod.fst =
      (abcRouter.BuildRoute engine "A" "C").map Prod.fst := by
  have hq : (umapIndex abcRouter.stop_to_id "Q").1 = 0 := by decide!
  have ha : (umapIndex abcRouter.stop_to_id "A").1 = 0 := by decide!
  have hqc : (umapIndex (umapIndex abcRouter.stop_to_id "Q").2 "C").1 = 2 := by decide!
  have hac : (umapIndex (umapIndex abcRouter.stop_to_id "A").2 "C").1 = 2 := by decide!
  unfold TransportRouter.BuildRoute
  simp only [hq, ha, hqc, hac]
  cases engine 0 2 with
  | none => rfl
  | some route =>
    simp only [bind, Except.bind, pure, Except.pure]
    have hstep : ∀ m1 m2 : List (String × Nat),
        routeStep { abcRouter with stop_to_id := m1 } =
          routeStep { abcRouter with stop_to_id := m2 } := by
      intro m1 m2
      rfl
    rw [hstep _ (umapIndex (umapIndex abcRouter.stop_to_id "A").2 "C").2]
    cases List.foldlM (routeStep { abcRouter with
      stop_to_id := (umapIndex (umapIndex abcRouter.stop_to_id "A").2 "C").2 }) [] route.edges with
    | error e => rfl
    | ok items => rfl

/-- C11, the code at the failing input: in the catalog of the stops A, B, C
with the bus B1 the name Q is no stop, and the Route query from Q to C is not
answered with "not found": `stop_to_id[from]` enters Q into the table with the
vertex id 0 of the stop A, so every engine answers it as the query from A to
C, and the route from A to C is returned. -/
theorem BuildRoute_unknown_stop :
    TransportRouter.new abcBuses abcStops abcSettings = .ok abcRouter ∧
    abcStops.lookup "Q" = none ∧
    (umapIndex abcRouter.stop_to_id "Q").1 = 0 ∧
    abcRouter.id_to_stop[0]? = some "A" ∧
    (∀ engine : Nat → Nat → Option RouterRoute,
      (abcRouter.BuildRoute engine "Q" "C").map Prod.fst =
        (abcRouter.BuildRoute engine "A" "C").map Prod.fst) ∧
    ∃ tr', abcRouter.BuildRoute (Router.BuildRoute abcRouter.graph_) "Q" "C" =
      .ok (some { total_time := 3
                  items := [RouteItem.StopItem "A" 2, RouteItem.BusItem "B1" "A" "C" 2 1] },
        tr') :=
  ⟨abc_new, by decide, by decide!, by decide!, abc_unknown_as_first, _,
    abc_unknown_buildRoute⟩

/-- C12, the code at the failing input: the Route query from Q, which is no
stop of the catalog A, B, C, leaves the router with a larger table
`stop_to_id`, the entry of Q with the vertex id 0 appended. -/
theorem BuildRoute_changes_state :
    abcRouter.stop_to_id.lookup "Q" = none ∧
    ∃ r tr', abcRouter.BuildRoute (Router.BuildRoute abcRouter.graph_) "Q" "C" = .ok (r, tr') ∧
      tr'.stop_to_id = abcRouter.stop_to_id ++ [("Q", 0)] ∧
      tr'.stop_to_id ≠ abcRouter.stop_to_id :=
  ⟨by decide!, _, _, abc_unknown_buildRoute, rfl, by
    intro h
    have hl := congrArg List.length h
    simp at hl⟩

/-- C13: `BuildRouteToCompany(from, stop)` on equal names is the single walk
from the stop, total time 0 plus the walk time; on different names it fails
exactly when `BuildRoute(from, stop.name)` fails, and otherwise returns the
items of `BuildRoute` followed by that one walk, the total time of `BuildRoute`
plus the walk time; the walk time is `stop.meters / pedestrian_velocity`. -/
theorem BuildRouteToCompany_spec (engine : Nat → Nat → Option RouterRoute)
    (tr : TransportRouter) (from_ : String) (stop : NearbyStop) :
    (from_ = stop.name →
      tr.BuildRouteToCompany engine from_ stop =
        .ok (some { total_time := 0 + (stop.meters : ℚ) / tr.pedestrian_velocity_
                    items := [] ++ [RouteItem.WalkItem stop.name
                      ((stop.meters : ℚ) / tr.pedestrian_velocity_)] }, tr)) ∧
    (from_ ≠ stop.name → ∀ tr', tr.BuildRoute engine from_ stop.name = .ok (none, tr') →
      tr.BuildRouteToCompany engine from_ stop = .ok (none, tr')) ∧
    (from_ ≠ stop.name → ∀ info tr',
      tr.BuildRoute engine from_ stop.name = .ok (some info, tr') →
      tr.BuildRouteToCompany engine from_ stop =
        .ok (some { total_time := info.total_time + (stop.meters : ℚ) / tr.pedestrian_velocity_
                    company := info.company
                    items := info.items ++ [RouteItem.WalkItem stop.name
                      ((stop.meters : ℚ) / tr.pedestrian_velocity_)] }, tr')) ∧
    (from_ ≠ stop.name → ∀ e, tr.BuildRoute engine from_ stop.name = .error e →
      tr.BuildRouteToCompany engine from_ stop = .error e) := by
  refine ⟨?_, ?_, ?_, ?_⟩
  · intro h
    unfold TransportRouter.BuildRouteToCompany
    simp only [h, ne_eq, not_true_eq_false, if_false, bind, Except.bind, pure, Except.pure,
      zero_add, List.nil_append]
  · intro h tr' hb
    unfold TransportRouter.BuildRouteToCompany
    simp only [ne_eq, h, not_false_eq_true, if_true, hb, bind, Except.bind, pure, Except.pure]
  · intro h info tr' hb
    have hf := BuildRoute_frame engine tr from_ stop.name _ tr' hb
    unfold TransportRouter.BuildRouteToCompany
    simp only [ne_eq, h, not_false_eq_true, if_true, hb, bind, Except.bind, pure, Except.pure]
    rw [hf]
  · intro h e hb
    unfold TransportRouter.BuildRouteToCompany
    simp only [ne_eq, h, not_false_eq_true, if_true, hb, bind, Except.bind]

/-- Witness of C13: from A to a company 300 m from the stop C, the route from
A to C followed by the walk of 3 minutes, and from C the walk alone. -/
theorem BuildRouteToCompany_spec_witness :
    abcRouter.BuildRouteToCompany (Router.BuildRoute abcRouter.graph_) "A"
        { name := "C", meters := 300 } =
      .ok (some { total_time := 3 + 300 / abcRouter.pedestrian_velocity_
                  company := none
                  items := [1].flatMap (fun id => [waitItemOf abcRouter id, rideItemOf abcRouter id])
                    ++ [RouteItem.WalkItem "C" (300 / abcRouter.pedestrian_velocity_)] },
        { abcRouter with
          stop_to_id := (umapIndex (umapIndex abcRouter.stop_to_id "A").2 "C").2 }) ∧
    abcRouter.pedestrian_velocity_ = 100 :=
  ⟨(BuildRouteToCompany_spec (Router.BuildRoute abcRouter.graph_) abcRouter "A"
      { name := "C", meters := 300 }).2.2.1 (by decide) _ _ abc_buildRoute_plain, by decide!⟩


/-! ## Theorems: company search -/

/-- C15: `DoesPhoneMatch(q, p)` holds exactly when the numbers are equal, the
extension of the query is empty or equal, the type of the query is absent or
equal, the country code of the query is empty or equal, and the local codes are
equal unless both the country code and the local code of the query are empty. -/
theorem DoesPhoneMatch_iff (q : QueryPhone) (p : Phone) :
    DoesPhoneMatch q p = true ↔
      q.number = p.number ∧
      (q.extension = "" ∨ q.extension = p.extension) ∧
      (q.type = none ∨ q.type = some p.type) ∧
      (q.country_code = "" ∨ q.country_code = p.country_code) ∧
      ((q.country_code = "" ∧ q.local_code = "") ∨ q.local_code = p.local_code) := by
  unfold DoesPhoneMatch
  cases ht : q.type with
  | none =>
    by_cases h1 : q.extension = "" <;> by_cases h2 : q.extension = p.extension <;>
    by_cases h3 : q.country_code = "" <;> by_cases h4 : q.country_code = p.country_code <;>
    by_cases h5 : q.local_code = "" <;> by_cases h6 : q.local_code = p.local_code <;>
    simp [h1, h2, h3, h4, h5, h6] <;> tauto
  | some t =>
    by_cases h0 : t = p.type <;>
    by_cases h1 : q.extension = "" <;> by_cases h2 : q.extension = p.extension <;>
    by_cases h3 : q.country_code = "" <;> by_cases h4 : q.country_code = p.country_code <;>
    by_cases h5 : q.local_code = "" <;> by_cases h6 : q.local_code = p.local_code <;>
    simp [h0, h1, h2, h3, h4, h5, h6] <;> tauto

theorem innerLoop_eq {α β : Type} (eq : β → α → Bool) (filter : α) (xs : List β) (found : Bool) :
    innerLoop eq filter xs found = (found || xs.any (fun x => eq x filter)) := by
  induction xs with
  | nil => simp [innerLoop]
  | cons x xs ih =>
    unfold innerLoop
    by_cases h : eq x filter = true
    · simp [h]
    · simp [h, ih]

theorem criterionLoop_eq {α β : Type} (eq : β → α → Bool) (objs : List β) (fs : List α)
    (found : Bool) :
    criterionLoop eq objs fs found =
      (found || fs.any (fun f => objs.any (fun x => eq x f))) := by
  induction fs generalizing found with
  | nil => simp [criterionLoop]
  | cons f fs ih =>
    unfold criterionLoop
    simp only [innerLoop_eq, ih, List.any_cons]
    cases found <;> cases objs.any (fun x => eq x f) <;> simp

theorem BuildRubricsNum_fold (um : List (String × Nat)) (l : List String)
    (hknown : ∀ q ∈ l, (um.lookup q).isSome) (acc : List Nat) :
    l.foldlM (fun rubrics_num rubric => do
        let num ← mapAt um rubric
        pure (rubrics_num ++ [num])) acc =
      (.ok (acc ++ l.map (fun q => (um.lookup q).getD 0)) : Except Err (List Nat)) := by
  induction l generalizing acc with
  | nil => simp [pure, Except.pure]
  | cons q l ih =>
    have hq := hknown q (List.mem_cons_self _ _)
    obtain ⟨v, hv⟩ := Option.isSome_iff_exists.mp hq
    have hstep : mapAt um q = .ok v := by simp only [mapAt, hv]
    rw [List.foldlM_cons, hstep]
    show List.foldlM _ (acc ++ [v]) l = _
    rw [ih (fun r hr => hknown r (List.mem_cons_of_mem _ hr))]
    simp [hv]

theorem BuildRubricsNum_known (req : QueryCompanyRequestBase) (um : List (String × Nat))
    (hknown : ∀ q ∈ req.rubrics_, (um.lookup q).isSome) :
    req.BuildRubricsNum um = .ok (req.rubrics_.map (fun q => (um.lookup q).getD 0)) := by
  unfold QueryCompanyRequestBase.BuildRubricsNum
  rw [BuildRubricsNum_fold um req.rubrics_ hknown []]
  simp

theorem filterStep_eq (rubrics_ : List (String × Nat)) (req : QueryCompanyRequestBase)
    (hknown : ∀ q ∈ req.rubrics_, (rubrics_.lookup q).isSome)
    (res : List Company) (c : Company) :
    filterStep (req.rubrics_.map (fun q => (rubrics_.lookup q).getD 0)) req res c =
      if MatchesQuery rubrics_ req c then res ++ [c] else res := by
  have hn : (req.names_.isEmpty ||
      req.names_.any (fun f => c.names.any (fun x => x.value == f))) = true ↔
      (req.names_ = [] ∨ ∃ n ∈ c.names, ∃ q ∈ req.names_, n.value = q) := by
    simp only [Bool.or_eq_true, List.isEmpty_iff, List.any_eq_true, beq_iff_eq]
    constructor
    · rintro (h | ⟨q, hq, n, hn, h⟩)
      · exact Or.inl h
      · exact Or.inr ⟨n, hn, q, hq, h⟩
    · rintro (h | ⟨n, hn, q, hq, h⟩)
      · exact Or.inl h
      · exact Or.inr ⟨q, hq, n, hn, h⟩
  have hu : (req.urls_.isEmpty ||
      req.urls_.any (fun f => c.urls.any (fun x => x == f))) = true ↔
      (req.urls_ = [] ∨ ∃ u ∈ c.urls, ∃ q ∈ req.urls_, u = q) := by
    simp only [Bool.or_eq_true, List.isEmpty_iff, List.any_eq_true, beq_iff_eq]
    constructor
    · rintro (h | ⟨q, hq, n, hn, h⟩)
      · exact Or.inl h
      · exact Or.inr ⟨n, hn, q, hq, h⟩
    · rintro (h | ⟨n, hn, q, hq, h⟩)
      · exact Or.inl h
      · exact Or.inr ⟨q, hq, n, hn, h⟩
  have hr : (req.rubrics_.isEmpty ||
      (req.rubrics_.map (fun q => (rubrics_.lookup q).getD 0)).any
        (fun f => c.rubrics.any (fun x => x == f))) = true ↔
      (req.rubrics_ = [] ∨ ∃ r ∈ c.rubrics, ∃ q ∈ req.rubrics_, rubrics_.lookup q = some r) := by
    simp only [Bool.or_eq_true, List.isEmpty_iff, List.any_eq_true, beq_iff_eq, List.mem_map]
    constructor
    · rintro (h | ⟨f, ⟨q, hq, hf⟩, r, hr, h⟩)
      · exact Or.inl h
      · refine Or.inr ⟨r, hr, q, hq, ?_⟩
        obtain ⟨v, hv⟩ := Option.isSome_iff_exists.mp (hknown q hq)
        rw [hv] at hf ⊢
        simp only [Option.getD_some] at hf
        rw [h, hf]
    · rintro (h | ⟨r, hr, q, hq, h⟩)
      · exact Or.inl h
      · exact Or.inr ⟨r, ⟨q, hq, by rw [h]; rfl⟩, r, hr, rfl⟩
  have hp : (req.phones_.isEmpty ||
      req.phones_.any (fun f => c.phones.any (fun x => DoesPhoneMatch f x))) = true ↔
      (req.phones_ = [] ∨ ∃ p ∈ c.phones, ∃ q ∈ req.phones_, DoesPhoneMatch q p = true) := by
    simp only [Bool.or_eq_true, List.isEmpty_iff, List.any_eq_true]
    constructor
    · rintro (h | ⟨q, hq, n, hn, h⟩)
      · exact Or.inl h
      · exact Or.inr ⟨n, hn, q, hq, h⟩
    · rintro (h | ⟨n, hn, q, hq, h⟩)
      · exact Or.inl h
      · exact Or.inr ⟨q, hq, n, hn, h⟩
  unfold filterStep MatchesQuery
  simp only [criterionLoop_eq, Bool.false_or, Bool.true_and]
  generalize (req.names_.isEmpty ||
      req.names_.any (fun f => c.names.any (fun x => x.value == f))) = bN at hn
  generalize (req.urls_.isEmpty ||
      req.urls_.any (fun f => c.urls.any (fun x => x == f))) = bU at hu
  generalize (req.rubrics_.isEmpty ||
      (req.rubrics_.map (fun q => (rubrics_.lookup q).getD 0)).any
        (fun f => c.rubrics.any (fun x => x == f))) = bR at hr
  generalize (req.phones_.isEmpty ||
      req.phones_.any (fun f => c.phones.any (fun x => DoesPhoneMatch f x))) = bP at hp
  simp only [← hn, ← hu, ← hr, ← hp]
  cases bN <;> cases bU <;> cases bR <;> cases bP <;> simp

theorem filterStep_foldl (rubrics_ : List (String × Nat)) (req : QueryCompanyRequestBase)
    (hknown : ∀ q ∈ req.rubrics_, (rubrics_.lookup q).isSome)
    (companies : List Company) (res : List Company) :
    companies.foldl (filterStep (req.rubrics_.map (fun q => (rubrics_.lookup q).getD 0)) req) res =
      res ++ companies.filter (fun c => decide (MatchesQuery rubrics_ req c)) := by
  induction companies generalizing res with
  | nil => simp
  | cons c cs ih =>
    rw [List.foldl_cons, filterStep_eq rubrics_ req hknown, ih]
    by_cases h : MatchesQuery rubrics_ req c
    · simp [h, List.filter_cons]
    · simp [h, List.filter_cons]

/-- C14: for a query whose rubric names are all in the dictionary,
`FilterCompaniesByRequest` returns the companies of the catalog that meet every
non-empty criterion of the query (some name equal to a queried name, some url
equal to a queried url, some rubric id that is the id of a queried rubric name,
some phone matching a queried phone), in catalog order; with all four criteria
empty it returns every company. -/
theorem FilterCompaniesByRequest_spec (rubrics_ : List (String × Nat))
    (companies_ : List Company) (req : QueryCompanyRequestBase)
    (hknown : ∀ q ∈ req.rubrics_, (rubrics_.lookup q).isSome) :
    FilterCompaniesByRequest rubrics_ companies_ req =
      .ok (companies_.filter (fun c => decide (MatchesQuery rubrics_ req c))) ∧
    (req.names_ = [] → req.urls_ = [] → req.rubrics_ = [] → req.phones_ = [] →
      FilterCompaniesByRequest rubrics_ companies_ req = .ok companies_) := by
  have h : FilterCompaniesByRequest rubrics_ companies_ req =
      .ok (companies_.filter (fun c => decide (MatchesQuery rubrics_ req c))) := by
    unfold FilterCompaniesByRequest
    rw [BuildRubricsNum_known req rubrics_ hknown]
    simp only [bind, Except.bind, pure, Except.pure]
    rw [filterStep_foldl rubrics_ req hknown, List.nil_append]
  refine ⟨h, ?_⟩
  intro h1 h2 h3 h4
  rw [h]
  have hall : ∀ c ∈ companies_, decide (MatchesQuery rubrics_ req c) = true := by
    intro c _
    simp [MatchesQuery, h1, h2, h3, h4]
  rw [List.filter_eq_self.mpr hall]

/-- Witness of C14: the query for the rubric Food and the phone 1234 of type
PHONE returns the cafe alone, not the canteen (a fax), the book shop (another
rubric) or the bakery (another number). -/
theorem FilterCompaniesByRequest_spec_witness :
    (∀ q ∈ foodQuery.rubrics_, (foodRubrics.lookup q).isSome) ∧
    FilterCompaniesByRequest foodRubrics foodCompanies foodQuery =
      .ok (foodCompanies.filter (fun c => decide (MatchesQuery foodRubrics foodQuery c))) ∧
    foodCompanies.filter (fun c => decide (MatchesQuery foodRubrics foodQuery c)) =
      [sampleCompany "Cafe" .Phone "1234" 1] :=
  ⟨by decide, (FilterCompaniesByRequest_spec foodRubrics foodCompanies foodQuery (by decide)).1,
    by decide⟩


/-! ## Theorems: waiting for a company to open -/

theorem upperBoundLoop_spec {α : Type} (comp : α → Bool) (xs : List α)
    (hmono : ∀ (i j : Nat) (e e' : α), i ≤ j → xs[i]? = some e → xs[j]? = some e' →
      comp e = true → comp e' = true) :
    ∀ fuel first len, len ≤ fuel → first + len ≤ xs.length →
      (∀ (i : Nat) (e : α), i < first → xs[i]? = some e → comp e = false) →
      (∀ (i : Nat) (e : α), first + len ≤ i → xs[i]? = some e → comp e = true) →
      upperBoundLoop comp xs fuel first len ≤ xs.length ∧
      (∀ (i : Nat) (e : α), i < upperBoundLoop comp xs fuel first len → xs[i]? = some e → comp e = false) ∧
      (∀ (i : Nat) (e : α), upperBoundLoop comp xs fuel first len ≤ i → xs[i]? = some e →
        comp e = true) := by
  intro fuel
  induction fuel with
  | zero =>
    intro first len hlen hle hlo hhi
    have h0 : len = 0 := by omega
    subst h0
    unfold upperBoundLoop
    exact ⟨by omega, hlo, fun i e hi => hhi i e (by omega)⟩
  | succ fuel ih =>
    intro first len hlen hle hlo hhi
    unfold upperBoundLoop
    by_cases h0 : len = 0
    · subst h0
      simp only [if_true]
      exact ⟨by omega, hlo, fun i e hi => hhi i e (by omega)⟩
    · simp only [h0, if_false]
      have hmid : first + len / 2 < xs.length := by
        have : len / 2 < len := Nat.div_lt_self (by omega) (by decide)
        omega
      have hget : xs[first + len / 2]? = some (xs[first + len / 2]) :=
        List.getElem?_eq_getElem hmid
      rw [hget]
      simp only
      have hhalf : len / 2 < len := Nat.div_lt_self (by omega) (by decide)
      cases hc : comp (xs[first + len / 2]) with
      | true =>
        simp only [if_true]
        apply ih first (len / 2) (by omega) (by omega) hlo
        intro i e hi hie
        exact hmono (first + len / 2) i _ e hi hget hie hc
      | false =>
        simp only [Bool.false_eq_true, if_false]
        apply ih (first + len / 2 + 1) (len - len / 2 - 1) (by omega) (by omega)
        · intro i e hi hie
          cases hce : comp e with
          | false => rfl
          | true =>
            have := hmono i (first + len / 2) e _ (by omega) hie hget hce
            rw [hc] at this
            cases this
        · intro i e hi hie
          exact hhi i e (by omega) hie

theorem upperBound_split {α : Type} (comp : α → Bool) (xs pre post : List α) (x : α)
    (hmono : ∀ (i j : Nat) (e e' : α), i ≤ j → xs[i]? = some e → xs[j]? = some e' →
      comp e = true → comp e' = true)
    (hsplit : xs = pre ++ x :: post) (hpre : ∀ e ∈ pre, comp e = false)
    (hx : comp x = true) : upperBound comp xs = pre.length := by
  obtain ⟨_, hlo, hhi⟩ := upperBoundLoop_spec comp xs hmono xs.length 0 xs.length
    (le_refl _) (by omega) (fun i e hi => by omega)
    (fun i e hi hie => by
      have : i < xs.length := (List.getElem?_eq_some_iff.mp hie).1
      omega)
  have hxat : xs[pre.length]? = some x := by
    rw [hsplit, List.getElem?_append_right (le_refl _)]
    simp
  have hlen : xs.length = pre.length + (post.length + 1) := by
    rw [hsplit]
    simp
  unfold upperBound
  by_contra hne
  rcases Nat.lt_or_gt_of_ne hne with hlt | hgt
  · have hr : upperBoundLoop comp xs xs.length 0 xs.length < xs.length := by
      omega
    have hget := List.getElem?_eq_getElem hr
    have htrue := hhi _ _ (le_refl _) hget
    have hmem : xs[upperBoundLoop comp xs xs.length 0 xs.length] ∈ pre := by
      have h1 : (pre ++ x :: post)[upperBoundLoop comp xs xs.length 0 xs.length]? =
          some (xs[upperBoundLoop comp xs xs.length 0 xs.length]) := by
        rw [← hsplit]; exact hget
      rw [List.getElem?_append_left hlt] at h1
      exact List.getElem?_mem h1
    rw [hpre _ hmem] at htrue
    cases htrue
  · have := hlo _ _ hgt hxat
    rw [hx] at this
    cases this

theorem upperBound_none {α : Type} (comp : α → Bool) (xs : List α)
    (hall : ∀ e ∈ xs, comp e = false) : upperBound comp xs = xs.length := by
  obtain ⟨hle, _, hhi⟩ := upperBoundLoop_spec comp xs
    (fun i j e e' _ hie _ hc => by
      rw [hall e (List.getElem?_mem hie)] at hc
      cases hc)
    xs.length 0 xs.length
    (le_refl _) (by omega) (fun i e hi => by omega)
    (fun i e hi hie => by
      have : i < xs.length := (List.getElem?_eq_some_iff.mp hie).1
      omega)
  unfold upperBound
  by_contra hne
  have hr : upperBoundLoop comp xs xs.length 0 xs.length < xs.length := by omega
  have hget := List.getElem?_eq_getElem hr
  have htrue := hhi _ _ (le_refl _) hget
  rw [hall _ (List.getElem?_mem hget)] at htrue
  cases htrue

theorem truncToInt_lt_imp (x : ℚ) (m : Int) (h : truncToInt x < m) : x < (m : ℚ) := by
  unfold truncToInt at h
  split at h
  · exact Int.floor_lt.mp h
  · exact lt_of_le_of_lt (Int.le_ceil x) (by exact_mod_cast h)

theorem truncToInt_lt_iff (x : ℚ) (hx : 0 ≤ x) (m : Int) : truncToInt x < m ↔ x < (m : ℚ) := by
  unfold truncToInt
  rw [if_pos hx]
  exact Int.floor_lt

theorem le_truncToInt (x : ℚ) (m : Int) (h : (m : ℚ) < x) : m ≤ truncToInt x := by
  unfold truncToInt
  split
  · exact Int.le_floor.mpr (le_of_lt h)
  · exact le_trans (Int.le_floor.mpr (le_of_lt h)) (Int.floor_le_ceil x)

theorem truncToInt_le (x : ℚ) (hx : 0 ≤ x) : (truncToInt x : ℚ) ≤ x := by
  unfold truncToInt
  rw [if_pos hx]
  exact Int.floor_le x

theorem fmod_range (x : ℚ) (hx : 0 ≤ x) : 0 ≤ fmod x 1440 ∧ fmod x 1440 < 1440 := by
  unfold fmod truncToInt
  have hq : (0 : ℚ) ≤ x / 1440 := div_nonneg hx (by norm_num)
  rw [if_pos hq]
  have h1 := Int.floor_le (x / 1440)
  have h2 := Int.lt_floor_add_one (x / 1440)
  have h3 : x = x / 1440 * 1440 := by field_simp
  constructor
  · nlinarith
  · nlinarith

theorem fmod_of_lt (x : ℚ) (hx : 0 ≤ x) (h : x < 1440) : fmod x 1440 = x := by
  unfold fmod truncToInt
  have hq : (0 : ℚ) ≤ x / 1440 := div_nonneg hx (by norm_num)
  rw [if_pos hq]
  have hfl : ⌊x / 1440⌋ = 0 := by
    rw [Int.floor_eq_iff]
    constructor
    · simpa using hq
    · rw [div_lt_iff₀ (by norm_num)]
      simpa using h
  rw [hfl]
  simp

theorem sortedByTo_mono (t : Int) (xs : List WorkingTimeInterval) (hs : SortedByTo xs) :
    ∀ (i j : Nat) (e e' : WorkingTimeInterval), i ≤ j → xs[i]? = some e → xs[j]? = some e' →
      decide (t < e.minutes_to) = true → decide (t < e'.minutes_to) = true := by
  intro i j e e' hij hi hj hc
  rcases Nat.eq_or_lt_of_le hij with heq | hlt
  · subst heq
    rw [hi] at hj
    cases hj
    exact hc
  · obtain ⟨hil, hie⟩ := List.getElem?_eq_some_iff.mp hi
    obtain ⟨hjl, hje⟩ := List.getElem?_eq_some_iff.mp hj
    have := List.pairwise_iff_getElem.mp hs i j hil hjl hlt
    rw [hie, hje] at this
    simp only [decide_eq_true_eq] at hc ⊢
    omega

/-- On intervals in ascending order of `minutes_to` the search returns the
position of the first interval with `t < minutes_to`. -/
theorem upperBound_sorted (t : Int) (xs : List WorkingTimeInterval) (hs : SortedByTo xs) :
    upperBound (fun (e : WorkingTimeInterval) => decide (t < e.minutes_to)) xs ≤ xs.length ∧
    (∀ (i : Nat) (e : WorkingTimeInterval),
      i < upperBound (fun (e : WorkingTimeInterval) => decide (t < e.minutes_to)) xs →
      xs[i]? = some e → e.minutes_to ≤ t) ∧
    (∀ (i : Nat) (e : WorkingTimeInterval),
      upperBound (fun (e : WorkingTimeInterval) => decide (t < e.minutes_to)) xs ≤ i →
      xs[i]? = some e → t < e.minutes_to) := by
  obtain ⟨hle, hlo, hhi⟩ := upperBoundLoop_spec
    (fun (e : WorkingTimeInterval) => decide (t < e.minutes_to)) xs (sortedByTo_mono t xs hs)
    xs.length 0 xs.length (le_refl _) (by omega) (fun i e hi => by omega)
    (fun i e hi hie => by
      have : i < xs.length := (List.getElem?_eq_some_iff.mp hie).1
      omega)
  refine ⟨hle, ?_, ?_⟩
  · intro i e hi hie
    have := hlo i e hi hie
    simp only [decide_eq_false_iff_not] at this
    omega
  · intro i e hi hie
    have := hhi i e hi hie
    simpa using this


/-- C16 as amended: on intervals in ascending order of `minutes_to`, when some
interval has `minutes_to` above `finish` truncated to whole minutes (`finish`
folded into the day first for an everyday company), `WaitForCompanyOpen`
returns, with `I` the first such interval, 0 when `finish ≥ I.minutes_from`
and `I.minutes_from − finish` otherwise. -/
theorem WaitForCompanyOpen_first (c : Company) (finish : ℚ)
    (pre post : List WorkingTimeInterval) (I : WorkingTimeInterval)
    (hsorted : SortedByTo c.working_time.intervals)
    (hsplit : c.working_time.intervals = pre ++ I :: post)
    (hpre : ∀ e ∈ pre, e.minutes_to ≤ truncToInt (c.foldFinish finish))
    (hI : truncToInt (c.foldFinish finish) < I.minutes_to) :
    c.WaitForCompanyOpen finish =
      if c.foldFinish finish ≥ (I.minutes_from : ℚ) then 0
      else (I.minutes_from : ℚ) - c.foldFinish finish := by
  have hit : upperBound
      (fun (e : WorkingTimeInterval) => decide (truncToInt (c.foldFinish finish) < e.minutes_to))
      c.working_time.intervals = pre.length :=
    upperBound_split _ _ pre post I (sortedByTo_mono _ _ hsorted) hsplit
      (fun e he => by simpa using hpre e he) (by simpa using hI)
  have hget : c.working_time.intervals[pre.length]? = some I := by
    rw [hsplit, List.getElem?_append_right (le_refl _)]
    simp
  unfold Company.WaitForCompanyOpen
  split
  · rename_i hnil
    rw [hnil] at hsplit
    simp at hsplit
  · simp only [hit, hget]

/-- C17: when `finish` (folded into the day first for an everyday company) is
later than `minutes_to` of every interval of a non-empty list,
`WaitForCompanyOpen` wraps to the first interval: `1440 − finish +
intervals[0].minutes_from` in everyday mode, `7·1440 − finish +
intervals[0].minutes_from` in weekly mode. The order of the intervals plays no
part in this case. -/
theorem WaitForCompanyOpen_wrap (c : Company) (finish : ℚ)
    (first : WorkingTimeInterval) (rest : List WorkingTimeInterval)
    (hne : c.working_time.intervals = first :: rest)
    (hlate : ∀ e ∈ c.working_time.intervals, (e.minutes_to : ℚ) < c.foldFinish finish) :
    c.WaitForCompanyOpen finish =
      if c.working_time.is_everyday then 1440 - c.foldFinish finish + (first.minutes_from : ℚ)
      else 7 * 1440 - c.foldFinish finish + (first.minutes_from : ℚ) := by
  have hit : upperBound
      (fun (e : WorkingTimeInterval) => decide (truncToInt (c.foldFinish finish) < e.minutes_to))
      c.working_time.intervals = c.working_time.intervals.length :=
    upperBound_none _ _ (fun e he => by
      have := le_truncToInt _ _ (hlate e he)
      simp only [decide_eq_false_iff_not]
      omega)
  have hget : c.working_time.intervals[c.working_time.intervals.length]? = none :=
    List.getElem?_eq_none (le_refl _)
  unfold Company.WaitForCompanyOpen
  split
  · rename_i hnil
    rw [hnil] at hne
    cases hne
  · rename_i first' rest' hcons
    rw [hne] at hcons
    cases hcons
    simp only [hit, hget]

/-- Counterexample to C16 as stated: for the company open every day from 540 to
720 and the arrival at 720, the interval is the first one with
`minutes_to ≥ finish` and `finish ≥ minutes_from`, yet the wait is not 0 but
1260: the search passes the interval whose `minutes_to` equals `finish`. -/
theorem WaitForCompanyOpen_first_counterexample :
    morningCompany.working_time.intervals = [⟨540, 720⟩] ∧
    SortedByTo morningCompany.working_time.intervals ∧
    morningCompany.foldFinish 720 = 720 ∧
    (((⟨540, 720⟩ : WorkingTimeInterval).minutes_to : ℚ) ≥ 720) ∧
    ((720 : ℚ) ≥ ((⟨540, 720⟩ : WorkingTimeInterval).minutes_from : ℚ)) ∧
    morningCompany.WaitForCompanyOpen 720 = 1260 ∧
    morningCompany.WaitForCompanyOpen 720 ≠ 0 :=
  ⟨rfl, by decide, by decide!, by decide!, by decide!, by decide!, by decide!⟩

/-- Witness of C16 as amended: for the company open from 540 to 720 and from
900 to 1080 the arrival at 800 waits 100 for the second interval, and the
arrival at 720 does so for 180. -/
theorem WaitForCompanyOpen_first_witness :
    SortedByTo twoShiftCompany.working_time.intervals ∧
    twoShiftCompany.WaitForCompanyOpen 800 =
      (if twoShiftCompany.foldFinish 800 ≥ (((⟨900, 1080⟩ : WorkingTimeInterval).minutes_from : ℚ))
        then 0
        else ((⟨900, 1080⟩ : WorkingTimeInterval).minutes_from : ℚ) -
          twoShiftCompany.foldFinish 800) ∧
    twoShiftCompany.WaitForCompanyOpen 800 = 100 ∧
    twoShiftCompany.WaitForCompanyOpen 720 = 180 :=
  ⟨by decide,
    WaitForCompanyOpen_first twoShiftCompany 800 [⟨540, 720⟩] [] ⟨900, 1080⟩ (by decide) rfl
      (by decide!) (by decide!),
    by decide!, by decide!⟩

/-- Witness of C17: for the company open every day from 540 to 720 the arrival
at 800 waits 1440 − 800 + 540 = 1180, and the arrival at 700 waits 0. -/
theorem WaitForCompanyOpen_wrap_witness :
    morningCompany.WaitForCompanyOpen 800 =
      (if morningCompany.working_time.is_everyday then
        1440 - morningCompany.foldFinish 800 +
          ((⟨540, 720⟩ : WorkingTimeInterval).minutes_from : ℚ)
      else 7 * 1440 - morningCompany.foldFinish 800 +
          ((⟨540, 720⟩ : WorkingTimeInterval).minutes_from : ℚ)) ∧
    morningCompany.foldFinish 800 = 800 ∧
    morningCompany.WaitForCompanyOpen 800 = 1180 ∧
    morningCompany.WaitForCompanyOpen 700 = 0 :=
  ⟨WaitForCompanyOpen_wrap morningCompany 800 ⟨540, 720⟩ [] rfl (by decide!),
    by decide!, by decide!, by decide!⟩

theorem foldFinish_range (c : Company) (finish : ℚ) (h0 : 0 ≤ finish)
    (h1 : finish < 7 * 1440) : 0 ≤ c.foldFinish finish ∧ c.foldFinish finish < c.period := by
  unfold Company.foldFinish Company.period
  split
  · exact fmod_range finish h0
  · exact ⟨h0, h1⟩

theorem WaitForCompanyOpen_cons (c : Company) (finish : ℚ)
    (first : WorkingTimeInterval) (rest : List WorkingTimeInterval)
    (hne : c.working_time.intervals = first :: rest) :
    c.WaitForCompanyOpen finish =
      match c.working_time.intervals[upperBound
        (fun (e : WorkingTimeInterval) =>
          decide (truncToInt (c.foldFinish finish) < e.minutes_to))
        c.working_time.intervals]? with
      | some e =>
        if c.foldFinish finish ≥ (e.minutes_from : ℚ) then 0
        else (e.minutes_from : ℚ) - c.foldFinish finish
      | none => c.period - c.foldFinish finish + (first.minutes_from : ℚ) := by
  unfold Company.WaitForCompanyOpen Company.period
  split
  · rename_i hnil
    rw [hnil] at hne
    cases hne
  · rename_i first' rest' hcons
    rw [hne] at hcons
    cases hcons
    simp only
    split
    · rfl
    · split <;> rfl

/-- When the search finds no interval, the first interval ends at or before
the truncated `finish`. -/
theorem upperBound_end_first (t : Int) (xs : List WorkingTimeInterval) (hs : SortedByTo xs)
    (first : WorkingTimeInterval) (rest : List WorkingTimeInterval) (hne : xs = first :: rest)
    (hnone : xs[upperBound (fun (e : WorkingTimeInterval) => decide (t < e.minutes_to)) xs]? =
      none) : first.minutes_to ≤ t := by
  obtain ⟨_, hlo, _⟩ := upperBound_sorted t xs hs
  have hge := List.getElem?_eq_none_iff.mp hnone
  have h0 : xs[0]? = some first := by rw [hne]; simp
  have hlen : 0 < xs.length := by rw [hne]; simp
  exact hlo 0 first (by omega) h0

/-- C18 as amended: for intervals in ascending order of `minutes_to` with
`0 ≤ minutes_from ≤ minutes_to ≤ P` (`P` a day for an everyday company, else a
week) and `finish` in `[0, 7·1440)`, `WaitForCompanyOpen(finish)` lies in the
closed range `[0, P]`, and below `P` when every interval has
`minutes_from < minutes_to`. -/
theorem WaitForCompanyOpen_range (c : Company) (finish : ℚ)
    (hsorted : SortedByTo c.working_time.intervals)
    (hbounds : ∀ e ∈ c.working_time.intervals,
      0 ≤ e.minutes_from ∧ e.minutes_from ≤ e.minutes_to ∧ (e.minutes_to : ℚ) ≤ c.period)
    (h0 : 0 ≤ finish) (h1 : finish < 7 * 1440) :
    0 ≤ c.WaitForCompanyOpen finish ∧ c.WaitForCompanyOpen finish ≤ c.period ∧
    ((∀ e ∈ c.working_time.intervals, e.minutes_from < e.minutes_to) →
      c.WaitForCompanyOpen finish < c.period) := by
  obtain ⟨hf0, hfP⟩ := foldFinish_range c finish h0 h1
  have hP : 0 < c.period := lt_of_le_of_lt hf0 hfP
  have hex : ∃ l, c.working_time.intervals = l := ⟨_, rfl⟩
  obtain ⟨l, hl⟩ := hex
  cases l with
  | nil =>
    have hw : c.WaitForCompanyOpen finish = 0 := by
      unfold Company.WaitForCompanyOpen
      rw [hl]
    rw [hw]
    exact ⟨le_refl _, hP.le, fun _ => hP⟩
  | cons first rest =>
    rw [WaitForCompanyOpen_cons c finish first rest hl]
    cases hget : c.working_time.intervals[upperBound
        (fun (e : WorkingTimeInterval) =>
          decide (truncToInt (c.foldFinish finish) < e.minutes_to))
        c.working_time.intervals]? with
    | some e =>
      have hmem : e ∈ c.working_time.intervals := List.getElem?_mem hget
      obtain ⟨hb1, hb2, hb3⟩ := hbounds e hmem
      have hb1q : (0 : ℚ) ≤ (e.minutes_from : ℚ) := by exact_mod_cast hb1
      have hb2q : (e.minutes_from : ℚ) ≤ (e.minutes_to : ℚ) := by exact_mod_cast hb2
      simp only
      split
      · exact ⟨le_refl _, hP.le, fun _ => hP⟩
      · rename_i hlt
        have hlt2 : c.foldFinish finish < (e.minutes_from : ℚ) := lt_of_not_ge hlt
        refine ⟨?_, ?_, fun hstrict => ?_⟩
        · show 0 ≤ (e.minutes_from : ℚ) - c.foldFinish finish
          linarith only [hlt2]
        · show (e.minutes_from : ℚ) - c.foldFinish finish ≤ c.period
          linarith only [hf0, hb2q, hb3]
        · have hs : (e.minutes_from : ℚ) < (e.minutes_to : ℚ) := by
            exact_mod_cast hstrict e hmem
          show (e.minutes_from : ℚ) - c.foldFinish finish < c.period
          linarith only [hf0, hs, hb3]
    | none =>
      have hfirst := upperBound_end_first _ _ hsorted first rest hl hget
      have hmem : first ∈ c.working_time.intervals := by rw [hl]; exact List.mem_cons_self _ _
      obtain ⟨hb1, hb2, hb3⟩ := hbounds first hmem
      have hb1q : (0 : ℚ) ≤ (first.minutes_from : ℚ) := by exact_mod_cast hb1
      have hb2q : (first.minutes_from : ℚ) ≤ (first.minutes_to : ℚ) := by exact_mod_cast hb2
      have hfq : (first.minutes_to : ℚ) ≤ (truncToInt (c.foldFinish finish) : ℚ) := by
        exact_mod_cast hfirst
      have htr := truncToInt_le (c.foldFinish finish) hf0
      simp only
      refine ⟨?_, ?_, fun hstrict => ?_⟩
      · show 0 ≤ c.period - c.foldFinish finish + (first.minutes_from : ℚ)
        linarith only [hfP, hb1q]
      · show c.period - c.foldFinish finish + (first.minutes_from : ℚ) ≤ c.period
        linarith only [hb2q, hfq, htr]
      · have hs : (first.minutes_from : ℚ) < (first.minutes_to : ℚ) := by
          exact_mod_cast hstrict first hmem
        show c.period - c.foldFinish finish + (first.minutes_from : ℚ) < c.period
        linarith only [hs, hfq, htr]

/-- C19 as amended: for a non-empty interval list in ascending order of
`minutes_to` and of `minutes_from` whose first `minutes_from` is not negative,
and `finish` in `[0, 7·1440)`, `WaitForCompanyOpen(finish) = 0` exactly when
`minutes_from ≤ finish < minutes_to` for some interval (`finish` folded into
the day for an everyday company). -/
theorem WaitForCompanyOpen_zero_iff (c : Company) (finish : ℚ)
    (first : WorkingTimeInterval) (rest : List WorkingTimeInterval)
    (hne : c.working_time.intervals = first :: rest)
    (hsorted : SortedByTo c.working_time.intervals)
    (hfrom : SortedByFrom c.working_time.intervals)
    (hfirst : 0 ≤ first.minutes_from)
    (h0 : 0 ≤ finish) (h1 : finish < 7 * 1440) :
    c.WaitForCompanyOpen finish = 0 ↔
      ∃ e ∈ c.working_time.intervals,
        (e.minutes_from : ℚ) ≤ c.foldFinish finish ∧ c.foldFinish finish < (e.minutes_to : ℚ) := by
  obtain ⟨hf0, hfP⟩ := foldFinish_range c finish h0 h1
  obtain ⟨hle, hlo, hhi⟩ := upperBound_sorted (truncToInt (c.foldFinish finish))
    c.working_time.intervals hsorted
  rw [WaitForCompanyOpen_cons c finish first rest hne]
  have hfirstq : (0 : ℚ) ≤ (first.minutes_from : ℚ) := by exact_mod_cast hfirst
  cases hget : c.working_time.intervals[upperBound
      (fun (e : WorkingTimeInterval) =>
        decide (truncToInt (c.foldFinish finish) < e.minutes_to))
      c.working_time.intervals]? with
  | some e =>
    have hmem : e ∈ c.working_time.intervals := List.getElem?_mem hget
    have hto : c.foldFinish finish < (e.minutes_to : ℚ) :=
      truncToInt_lt_imp _ _ (hhi _ e (le_refl _) hget)
    simp only
    constructor
    · intro hw
      split at hw
      · rename_i hge
        exact ⟨e, hmem, hge, hto⟩
      · rename_i hlt
        exfalso
        apply hlt
        have hw2 : (e.minutes_from : ℚ) - c.foldFinish finish = 0 := hw
        have : (e.minutes_from : ℚ) = c.foldFinish finish := by linarith only [hw2]
        rw [this]
    · rintro ⟨J, hJ, hJ1, hJ2⟩
      obtain ⟨j, hj⟩ := List.getElem?_of_mem hJ
      have hJt : truncToInt (c.foldFinish finish) < J.minutes_to :=
        (truncToInt_lt_iff _ hf0 _).mpr hJ2
      have hrj : upperBound
          (fun (e : WorkingTimeInterval) =>
            decide (truncToInt (c.foldFinish finish) < e.minutes_to))
          c.working_time.intervals ≤ j := by
        by_contra hcon
        have := hlo j J (by omega) hj
        omega
      have heJ : e.minutes_from ≤ J.minutes_from := by
        rcases Nat.eq_or_lt_of_le hrj with heq | hlt
        · rw [heq, hj] at hget
          cases hget
          exact le_refl _
        · obtain ⟨hil, hie⟩ := List.getElem?_eq_some_iff.mp hget
          obtain ⟨hjl, hje⟩ := List.getElem?_eq_some_iff.mp hj
          have := List.pairwise_iff_getElem.mp hfrom _ j hil hjl hlt
          rw [hie, hje] at this
          exact this
      have heJq : (e.minutes_from : ℚ) ≤ (J.minutes_from : ℚ) := by exact_mod_cast heJ
      rw [if_pos (by linarith only [heJq, hJ1])]
  | none =>
    simp only
    constructor
    · intro hw
      exfalso
      have hw2 : c.period - c.foldFinish finish + (first.minutes_from : ℚ) = 0 := hw
      linarith only [hw2, hfP, hfirstq]
    · rintro ⟨J, hJ, hJ1, hJ2⟩
      exfalso
      obtain ⟨j, hj⟩ := List.getElem?_of_mem hJ
      have hJt : truncToInt (c.foldFinish finish) < J.minutes_to :=
        (truncToInt_lt_iff _ hf0 _).mpr hJ2
      have hge := List.getElem?_eq_none_iff.mp hget
      have hjl := (List.getElem?_eq_some_iff.mp hj).1
      have := hlo j J (by omega) hj
      omega

/-- Counterexample to C18 as stated: the everyday interval from 720 to 720 is
within the bounds, and the arrival at 720 waits 1440, which is not below
1440. -/
theorem WaitForCompanyOpen_range_counterexample :
    SortedByTo instantCompany.working_time.intervals ∧
    (∀ e ∈ instantCompany.working_time.intervals,
      0 ≤ e.minutes_from ∧ e.minutes_from ≤ e.minutes_to ∧ e.minutes_to ≤ 1440) ∧
    instantCompany.working_time.is_everyday = true ∧
    instantCompany.WaitForCompanyOpen 720 = 1440 ∧
    ¬ (instantCompany.WaitForCompanyOpen 720 < 1440) :=
  ⟨by decide, by decide, rfl, by decide!, by decide!⟩

/-- Witness of C18 as amended: the company open from 540 to 720 and from 900 to
1080 and the arrival at 800, which waits 100. -/
theorem WaitForCompanyOpen_range_witness :
    SortedByTo twoShiftCompany.working_time.intervals ∧
    (0 ≤ twoShiftCompany.WaitForCompanyOpen 800 ∧
      twoShiftCompany.WaitForCompanyOpen 800 ≤ twoShiftCompany.period ∧
      ((∀ e ∈ twoShiftCompany.working_time.intervals, e.minutes_from < e.minutes_to) →
        twoShiftCompany.WaitForCompanyOpen 800 < twoShiftCompany.period)) ∧
    twoShiftCompany.period = 1440 ∧
    twoShiftCompany.WaitForCompanyOpen 800 = 100 :=
  ⟨by decide,
    WaitForCompanyOpen_range twoShiftCompany 800 (by decide) (by decide!) (by decide!)
      (by decide!),
    by decide!, by decide!⟩

/-- Counterexample to C19 as stated, three ways: the arrival at 720 lies in the
everyday interval from 540 to 720 and waits 1260; the arrival at 200 lies in
the second of the weekly intervals 500 to 600 and 100 to 700, which are in
ascending order of `minutes_to`, and waits 300; the arrival at 10000 lies in no
interval of the weekly list of the one interval −80 to −50 and waits 0. -/
theorem WaitForCompanyOpen_zero_iff_counterexample :
    (SortedByTo morningCompany.working_time.intervals ∧
      (⟨540, 720⟩ : WorkingTimeInterval) ∈ morningCompany.working_time.intervals ∧
      morningCompany.foldFinish 720 = 720 ∧ (540 : ℚ) ≤ 720 ∧ (720 : ℚ) ≤ 720 ∧
      morningCompany.WaitForCompanyOpen 720 = 1260) ∧
    (SortedByTo overlapCompany.working_time.intervals ∧
      (⟨100, 700⟩ : WorkingTimeInterval) ∈ overlapCompany.working_time.intervals ∧
      overlapCompany.foldFinish 200 = 200 ∧ (100 : ℚ) ≤ 200 ∧ (200 : ℚ) ≤ 700 ∧
      overlapCompany.WaitForCompanyOpen 200 = 300) ∧
    (SortedByTo negativeCompany.working_time.intervals ∧
      negativeCompany.foldFinish 10000 = 10000 ∧
      (¬ ∃ e ∈ negativeCompany.working_time.intervals,
        (e.minutes_from : ℚ) ≤ 10000 ∧ (10000 : ℚ) ≤ (e.minutes_to : ℚ)) ∧
      negativeCompany.WaitForCompanyOpen 10000 = 0) :=
  ⟨⟨by decide, by decide, by decide!, by decide!, by decide!, by decide!⟩,
    ⟨by decide, by decide, by decide!, by decide!, by decide!, by decide!⟩,
    ⟨by decide, by decide!, by decide!, by decide!⟩⟩

/-- Witness of C19 as amended: the company open from 540 to 720 and from 900 to
1080; the arrival at 600 lies in the first interval and waits 0. -/
theorem WaitForCompanyOpen_zero_iff_witness :
    SortedByTo twoShiftCompany.working_time.intervals ∧
    SortedByFrom twoShiftCompany.working_time.intervals ∧
    (twoShiftCompany.WaitForCompanyOpen 600 = 0 ↔
      ∃ e ∈ twoShiftCompany.working_time.intervals,
        (e.minutes_from : ℚ) ≤ twoShiftCompany.foldFinish 600 ∧
        twoShiftCompany.foldFinish 600 < (e.minutes_to : ℚ)) ∧
    twoShiftCompany.WaitForCompanyOpen 600 = 0 :=
  ⟨by decide, by decide,
    WaitForCompanyOpen_zero_iff twoShiftCompany 600 ⟨540, 720⟩ [⟨900, 1080⟩] rfl (by decide)
      (by decide) (by decide) (by decide!) (by decide!),
    by decide!⟩

/-! ## Theorems: working time intervals of the input -/

theorem dayStart_everyday : dayStart "EVERYDAY" = none := by decide

theorem parseInterval_node (uninit : WorkingTimeInterval) (b : Bool) (i : IntervalInput)
    (hday : i.start.isSome) :
    parseInterval uninit b i.node =
      .ok (if i.day = "EVERYDAY" then b else false, i.stored) := by
  have h1 : List.lookup "day" [("day", Node.string i.day), ("minutes_from", .int i.minutes_from),
      ("minutes_to", .int i.minutes_to)] = some (.string i.day) := rfl
  have h2 : List.lookup "minutes_from" [("day", Node.string i.day),
      ("minutes_from", .int i.minutes_from), ("minutes_to", .int i.minutes_to)] =
      some (.int i.minutes_from) := rfl
  have h3 : List.lookup "minutes_to" [("day", Node.string i.day),
      ("minutes_from", .int i.minutes_from), ("minutes_to", .int i.minutes_to)] =
      some (.int i.minutes_to) := rfl
  unfold parseInterval IntervalInput.node
  simp only [Node.AsMap, bind, Except.bind, h1, h2, h3, Node.AsString, Node.AsInt, pure,
    Except.pure]
  unfold IntervalInput.stored
  by_cases he : i.day = "EVERYDAY"
  · simp [he, IntervalInput.start]
  · unfold IntervalInput.start at hday ⊢
    rw [if_neg he] at hday ⊢
    obtain ⟨s, hs⟩ := Option.isSome_iff_exists.mp hday
    simp [he, hs]

theorem intervals_fold (uninit : WorkingTimeInterval) (ins : List IntervalInput)
    (hdays : ∀ i ∈ ins, i.start.isSome) (b : Bool) (acc : List WorkingTimeInterval) :
    ∃ b', (ins.map IntervalInput.node).foldlM
        (fun (acc : Bool × List WorkingTimeInterval) i => do
          let r ← parseInterval uninit acc.1 i
          pure (r.1, acc.2 ++ [r.2]))
        (b, acc) = (.ok (b', acc ++ ins.map IntervalInput.stored) :
          Except Err (Bool × List WorkingTimeInterval)) := by
  induction ins generalizing b acc with
  | nil => exact ⟨b, by simp [pure, Except.pure]⟩
  | cons i ins ih =>
    have hi := parseInterval_node uninit b i (hdays i (List.mem_cons_self _ _))
    obtain ⟨b', hb'⟩ := ih (fun j hj => hdays j (List.mem_cons_of_mem _ hj))
      (if i.day = "EVERYDAY" then b else false) (acc ++ [i.stored])
    refine ⟨b', ?_⟩
    rw [List.map_cons, List.foldlM_cons]
    simp only [hi, bind, Except.bind, pure, Except.pure]
    simp only [bind, Except.bind, pure, Except.pure] at hb'
    rw [hb']
    simp

theorem parseWorkingTime_nodes (uninit : WorkingTimeInterval)
    (company_m wt_m : List (String × Node)) (ins : List IntervalInput)
    (hwt : company_m.lookup "working_time" = some (.map wt_m))
    (hin : wt_m.lookup "intervals" = some (.array (ins.map IntervalInput.node)))
    (hdays : ∀ i ∈ ins, i.start.isSome) :
    ∃ b', parseWorkingTime uninit company_m =
      .ok { is_everyday := b', intervals := ins.map IntervalInput.stored } := by
  obtain ⟨b', hb'⟩ := intervals_fold uninit ins hdays true []
  refine ⟨b', ?_⟩
  unfold parseWorkingTime
  simp only [hwt, hin, Node.AsMap, Node.AsArray, bind, Except.bind, pure, Except.pure]
  simp only [bind, Except.bind, pure, Except.pure] at hb'
  rw [hb']
  simp

theorem foldlM_push {α β : Type} (f : α → Except Err β) (l : List α) (acc r : List β)
    (h : l.foldlM (fun (acc : List β) x => do
        let y ← f x
        pure (acc ++ [y])) acc = .ok r) :
    ∃ ys, r = acc ++ ys ∧ List.Forall₂ (fun x y => f x = .ok y) l ys := by
  induction l generalizing acc with
  | nil =>
    simp only [List.foldlM_nil, pure, Except.pure, Except.ok.injEq] at h
    exact ⟨[], by simp [h], List.Forall₂.nil⟩
  | cons x l ih =>
    rw [List.foldlM_cons] at h
    cases hx : f x with
    | error e =>
      simp only [hx, bind, Except.bind] at h
      cases h
    | ok y =>
      simp only [hx, bind, Except.bind, pure, Except.pure] at h
      obtain ⟨ys, hr, hall⟩ := ih (acc ++ [y]) h
      exact ⟨y :: ys, by simp [hr], List.Forall₂.cons hx hall⟩

theorem parseCompany_intervals (other : List (String × Node) → Except Err Company)
    (uninit : WorkingTimeInterval) (company_m wt_m : List (String × Node))
    (ins : List IntervalInput) (company : Company)
    (hwt : company_m.lookup "working_time" = some (.map wt_m))
    (hin : wt_m.lookup "intervals" = some (.array (ins.map IntervalInput.node)))
    (hdays : ∀ i ∈ ins, i.start.isSome)
    (h : parseCompany other uninit (.map company_m) = .ok company) :
    company.working_time.intervals = ins.map IntervalInput.stored := by
  obtain ⟨b', hb'⟩ := parseWorkingTime_nodes uninit company_m wt_m ins hwt hin hdays
  unfold parseCompany at h
  simp only [Node.AsMap, bind, Except.bind, hb', pure, Except.pure] at h
  cases ho : other company_m with
  | error e =>
    rw [ho] at h
    cases h
  | ok c0 =>
    rw [ho] at h
    simp only [Except.ok.injEq] at h
    rw [← h]

/-- What make-base stores: after `ParseFromJson`, then `FillCompanies`, the
catalog holds one company for every company of the input, in order, and the
`working_time.intervals` of a company are the intervals of the input in the
order of the input, each with the start of its day added; so they are in
ascending order of `minutes_to` exactly when the input lists them so. -/
theorem ParseFromJson_intervals_stored
    (rubricsBlock : List (String × Node) → Except Err (List (Nat × Rubric)))
    (other : List (String × Node) → Except Err Company) (uninit : WorkingTimeInterval)
    (request_m : List (String × Node)) (nodes : List Node) (req : YellowPagesRequest)
    (rubrics_ : List (String × Nat))
    (hparse : YellowPagesRequest.ParseFromJson rubricsBlock other uninit (.map request_m) =
      .ok req)
    (hcs : request_m.lookup "companies" = some (.array nodes)) :
    (FillCompanies rubrics_ req).2.length = nodes.length ∧
    ∀ (k : Nat) (company : Company) (company_m wt_m : List (String × Node))
      (ins : List IntervalInput),
      (FillCompanies rubrics_ req).2[k]? = some company →
      nodes[k]? = some (.map company_m) →
      company_m.lookup "working_time" = some (.map wt_m) →
      wt_m.lookup "intervals" = some (.array (ins.map IntervalInput.node)) →
      (∀ i ∈ ins, i.start.isSome) →
      company.working_time.intervals = ins.map IntervalInput.stored ∧
      (SortedByTo company.working_time.intervals ↔
        ins.Pairwise (fun x y => x.stored.minutes_to ≤ y.stored.minutes_to)) := by
  unfold YellowPagesRequest.ParseFromJson at hparse
  simp only [Node.AsMap, bind, Except.bind, hcs, Node.AsArray, pure, Except.pure] at hparse
  cases hr : rubricsBlock request_m with
  | error e =>
    rw [hr] at hparse
    cases hparse
  | ok rs =>
    rw [hr] at hparse
    simp only at hparse
    cases hf : nodes.foldlM (fun (companies_ : List Company) c => do
        let company ← parseCompany other uninit c
        pure (companies_ ++ [company])) [] with
    | error e =>
      simp only [bind, Except.bind, pure, Except.pure] at hf
      rw [hf] at hparse
      cases hparse
    | ok cs =>
      obtain ⟨ys, hys, hall⟩ := foldlM_push (parseCompany other uninit) nodes [] cs hf
      simp only [bind, Except.bind, pure, Except.pure] at hf
      rw [hf] at hparse
      simp only [Except.ok.injEq] at hparse
      have hcomp : (FillCompanies rubrics_ req).2 = ys := by
        rw [← hparse]
        simp [FillCompanies, hys]
      rw [hcomp]
      refine ⟨hall.length_eq.symm, ?_⟩
      intro k company company_m wt_m ins hk hn hwt hin hdays
      have hpc : parseCompany other uninit (.map company_m) = .ok company := by
        obtain ⟨hkl, hke⟩ := List.getElem?_eq_some_iff.mp hk
        obtain ⟨hnl, hne⟩ := List.getElem?_eq_some_iff.mp hn
        have := List.Forall₂.get hall hnl hkl
        simp only [List.get_eq_getElem] at this
        rw [hne, hke] at this
        exact this
      have hint := parseCompany_intervals other uninit company_m wt_m ins company hwt hin hdays hpc
      refine ⟨hint, ?_⟩
      rw [hint]
      unfold SortedByTo
      rw [List.pairwise_map]

/-- C20, the defect. The input lists the everyday interval from 900 to 1080
before the interval from 540 to 720.  Make-base succeeds and the company holds
them in that order, which is not ascending in `minutes_to`: nothing sorts them.
`WaitForCompanyOpen` searches the vector with `std::upper_bound` by
`minutes_to`, which needs that order: for an arrival at 600, inside the interval
from 540 to 720, it answers a wait of 300 on the stored company, and 0 on the
company with the same intervals in ascending order. -/
theorem ParseFromJson_intervals_unsorted :
    (∃ req, YellowPagesRequest.ParseFromJson noRubrics emptyOther ⟨0, 0⟩ unsortedInput = .ok req ∧
      (FillCompanies [] req).2.map (fun c => c.working_time.intervals) =
        [unsortedCompany.working_time.intervals]) ∧
    unsortedCompany.working_time.intervals = [⟨900, 1080⟩, ⟨540, 720⟩] ∧
    ¬ SortedByTo unsortedCompany.working_time.intervals ∧
    unsortedCompany.WaitForCompanyOpen 600 = 300 ∧
    SortedByTo twoShiftCompany.working_time.intervals ∧
    twoShiftCompany.WaitForCompanyOpen 600 = 0 :=
  ⟨⟨{ rubrics_ := [], companies_ := [unsortedCompany] }, rfl, by decide⟩,
    rfl, by decide, by decide!, by decide, by decide!⟩

/-! ## Theorems: escaping quotes -/

theorem quoteCount_foldl (s : List Char) (n : Nat) :
    s.foldl (fun quote_count c => quote_count + (if c = '"' then 1 else 0)) n =
      n + s.count '"' := by
  induction s generalizing n with
  | nil => simp
  | cons c s ih =>
    rw [List.foldl_cons, ih, List.count_cons]
    by_cases h : c = '"'
    · subst h
      simp
      omega
    · have h2 : ¬ (c == '"') = true := by simpa using h
      simp [h, h2]

theorem quoteCount_eq (s : List Char) : quoteCount s = s.count '"' := by
  unfold quoteCount
  rw [quoteCount_foldl]
  simp

theorem escapeQuotes_length (s : List Char) :
    (escapeQuotes s).length = s.length + s.count '"' := by
  induction s with
  | nil => rfl
  | cons c s ih =>
    unfold escapeQuotes at ih ⊢
    rw [List.flatMap_cons, List.length_append, ih, List.count_cons]
    by_cases h : c = '"'
    · subst h
      simp
      omega
    · have h2 : ¬ (c == '"') = true := by simpa using h
      simp [h, h2]
      omega

theorem set_append_replicate (done : List Char) (n : Nat) (x : Char) :
    (done ++ List.replicate (n + 1) '0').set done.length x =
      (done ++ [x]) ++ List.replicate n '0' := by
  rw [List.set_append_right _ _ (le_refl _)]
  simp [List.replicate_succ]

theorem quoteLoop_eq (rest done : List Char) :
    quoteLoop rest (done ++ List.replicate (escapeQuotes rest).length '0') done.length =
      done ++ escapeQuotes rest := by
  induction rest generalizing done with
  | nil => simp [quoteLoop, escapeQuotes]
  | cons c rest ih =>
    unfold quoteLoop
    by_cases h : c = '"'
    · subst h
      have hl : (escapeQuotes ('"' :: rest)).length = (escapeQuotes rest).length + 1 + 1 := by
        simp [escapeQuotes]
      have he : escapeQuotes ('"' :: rest) = '\\' :: '"' :: escapeQuotes rest := by
        simp [escapeQuotes]
      rw [if_pos rfl, hl, set_append_replicate]
      have h1 := set_append_replicate (done ++ ['\\']) (escapeQuotes rest).length '"'
      simp only [List.length_append, List.length_singleton] at h1
      rw [h1]
      have h2 := ih ((done ++ ['\\']) ++ ['"'])
      simp only [List.length_append, List.length_singleton] at h2
      rw [h2, he]
      simp
    · have hl : (escapeQuotes (c :: rest)).length = (escapeQuotes rest).length + 1 := by
        simp [escapeQuotes, h]
      have he : escapeQuotes (c :: rest) = c :: escapeQuotes rest := by
        simp [escapeQuotes, h]
      rw [if_neg h, hl, set_append_replicate]
      have h2 := ih (done ++ [c])
      simp only [List.length_append, List.length_singleton] at h2
      rw [h2, he]
      simp

theorem Quote_toList (s : String) : (Quote s).toList = escapeQuotes s.toList := by
  unfold Quote
  simp only
  rw [quoteCount_eq, ← escapeQuotes_length]
  have := quoteLoop_eq s.toList []
  simp only [List.nil_append, List.length_nil] at this
  rw [this]
  rfl

theorem escapeQuotes_cons (c : Char) (s : List Char) :
    escapeQuotes (c :: s) = (if c = '"' then ['\\', '"'] else [c]) ++ escapeQuotes s := by
  simp [escapeQuotes]

theorem escapeQuotes_head (s : List Char) : ∀ d rest, escapeQuotes s = d :: rest → d ≠ '"' := by
  intro d rest h
  cases s with
  | nil => simp [escapeQuotes] at h
  | cons c s =>
    rw [escapeQuotes_cons] at h
    by_cases hc : c = '"'
    · rw [if_pos hc] at h
      simp only [List.cons_append, List.nil_append, List.cons.injEq] at h
      rw [← h.1]
      decide
    · rw [if_neg hc] at h
      simp only [List.cons_append, List.nil_append, List.cons.injEq] at h
      rw [← h.1]
      exact hc

theorem dropBeforeQuote_escapeQuotes (s : List Char) :
    dropBeforeQuote (escapeQuotes s) = s := by
  induction s with
  | nil => rfl
  | cons c s ih =>
    rw [escapeQuotes_cons]
    by_cases hc : c = '"'
    · rw [if_pos hc]
      simp only [List.cons_append, List.nil_append]
      rw [dropBeforeQuote, if_pos rfl, ih, hc]
    · rw [if_neg hc]
      simp only [List.cons_append, List.nil_append]
      cases he : escapeQuotes s with
      | nil =>
        rw [he] at ih
        rw [dropBeforeQuote, ← ih]
        rfl
      | cons d rest =>
        have hd := escapeQuotes_head s d rest he
        rw [dropBeforeQuote, if_neg hd, ← he, ih]

/-- C26: `Quote(s)` is `s` with a backslash before every `"` and the other
characters in place; its length is the length of `s` plus the number of `"` in
`s`; deleting the character before each `"` of `Quote(s)` gives `s` back, so
`Quote` is injective. -/
theorem Quote_spec (s : String) :
    (Quote s).toList = escapeQuotes s.toList ∧
    (Quote s).length = s.length + s.toList.count '"' ∧
    dropBeforeQuote (Quote s).toList = s.toList ∧
    ∀ t : String, Quote s = Quote t → s = t := by
  refine ⟨Quote_toList s, ?_, ?_, ?_⟩
  · show (Quote s).toList.length = s.toList.length + s.toList.count '"'
    rw [Quote_toList, escapeQuotes_length]
  · rw [Quote_toList, dropBeforeQuote_escapeQuotes]
  · intro t h
    have h1 : dropBeforeQuote (Quote s).toList = dropBeforeQuote (Quote t).toList := by rw [h]
    rw [Quote_toList, Quote_toList, dropBeforeQuote_escapeQuotes,
      dropBeforeQuote_escapeQuotes] at h1
    exact String.ext h1


/-! ## Theorems: bus colours and the lines of the buses -/

theorem toUInt32_of_lt (n : Nat) (h : n < 4294967296) : toUInt32 n = n :=
  Nat.mod_eq_of_lt h

/-- The buses with the colour `k mod p` at position `k`, counted from `start`. -/
theorem setBusColors_fold (palette : List Svg.Color) (hp : 0 < palette.length)
    (hsz : palette.length ≤ 4294967296) (buses : List (String × Bus)) (k : Nat)
    (acc : List (String × Bus)) :
    buses.foldlM (setBusColorStep palette) (k % palette.length, acc) =
      .ok ((k + buses.length) % palette.length,
        acc ++ (buses.enumFrom k).map (fun ikb =>
          (ikb.2.1, { ikb.2.2 with color_id_ := some (ikb.1 % palette.length) }))) := by
  induction buses generalizing k acc with
  | nil => simp [pure, Except.pure]
  | cons kb buses ih =>
    have hlt : k % palette.length < 4294967296 :=
      lt_of_lt_of_le (Nat.mod_lt _ hp) hsz
    have hstep : setBusColorStep palette (k % palette.length, acc) kb =
        .ok ((k + 1) % palette.length,
          acc ++ [(kb.1, { kb.2 with color_id_ := some (k % palette.length) })]) := by
      unfold setBusColorStep Bus.SetColorId
      simp only [toUInt32_of_lt _ hlt, Nat.ne_of_gt hp, if_false, Nat.mod_add_mod]
    rw [List.foldlM_cons, hstep]
    show List.foldlM _ ((k + 1) % palette.length, _) buses = _
    rw [ih (k + 1)]
    simp only [List.enumFrom_cons, List.map_cons, List.length_cons, List.append_assoc,
      List.singleton_append]
    have hlen : k + 1 + buses.length = k + (buses.length + 1) := by omega
    rw [hlen]

/-- C27: with a non-empty palette of `p` colours `SetBusColors` gives the bus
at position `k` of the catalog, which lists the buses in ascending order of
their names, the colour `k mod p`, so every colour is an index of the palette.
The palette has at most 2^32 colours, the range of the `uint32_t` member. -/
theorem SetBusColors_spec (db : Database)
    (hp : 0 < db.map_settings_.render_settings.color_palette.length)
    (hsz : db.map_settings_.render_settings.color_palette.length ≤ 4294967296) :
    ∃ db', db.SetBusColors = .ok db' ∧
      db'.buses_.map Prod.fst = db.buses_.map Prod.fst ∧
      (∀ (k : Nat) (kb : String × Bus), db'.buses_[k]? = some kb →
        kb.2.color_id_ = some (k % db.map_settings_.render_settings.color_palette.length) ∧
        ∃ b, db.buses_[k]? = some (kb.1, b) ∧ kb.2 = { b with color_id_ := kb.2.color_id_ }) ∧
      ∀ kb ∈ db'.buses_, ∃ c, kb.2.color_id_ = some c ∧
        c < db.map_settings_.render_settings.color_palette.length := by
  have hfold := setBusColors_fold db.map_settings_.render_settings.color_palette hp hsz
    db.buses_ 0 []
  rw [Nat.zero_mod] at hfold
  have hk : ∀ (k : Nat) (kb : String × Bus),
      ((db.buses_.enumFrom 0).map (fun ikb =>
        (ikb.2.1, { ikb.2.2 with
          color_id_ := some (ikb.1 % db.map_settings_.render_settings.color_palette.length) })))[k]?
        = some kb →
      kb.2.color_id_ = some (k % db.map_settings_.render_settings.color_palette.length) ∧
        ∃ b, db.buses_[k]? = some (kb.1, b) ∧ kb.2 = { b with color_id_ := kb.2.color_id_ } := by
    intro k kb h
    rw [List.getElem?_map] at h
    cases hb : db.buses_[k]? with
    | none => simp [List.getElem?_enumFrom, hb] at h
    | some b0 =>
      simp only [List.getElem?_enumFrom, hb, Option.map_some', Option.some.injEq,
        Nat.zero_add] at h
      rw [← h]
      exact ⟨rfl, b0.2, rfl, rfl⟩
  refine ⟨{ db with buses_ := _ }, ?_, ?_, hk, ?_⟩
  · unfold Database.SetBusColors
    rw [hfold]
    simp only [bind, Except.bind, pure, Except.pure, List.nil_append]
  · show List.map Prod.fst (List.map _ (List.enumFrom 0 db.buses_)) = _
    rw [List.map_map]
    have hcomp : ∀ l : List (Nat × String × Bus),
        List.map (Prod.fst ∘ fun ikb => (ikb.2.1, ({ ikb.2.2 with
          color_id_ := some (ikb.1 % db.map_settings_.render_settings.color_palette.length) } :
            Bus))) l = List.map Prod.fst (List.map Prod.snd l) := by
      intro l
      rw [List.map_map]
      rfl
    rw [hcomp, List.enumFrom_map_snd]
  · intro kb hkb
    obtain ⟨k, hk1⟩ := List.getElem?_of_mem hkb
    exact ⟨_, (hk k kb hk1).1, Nat.mod_lt _ hp⟩

/-- Witness of C27: three buses and a palette of two colours give the colours
0, 1, 0. -/
theorem SetBusColors_spec_witness :
    ∃ db', renderDb.SetBusColors = .ok db' ∧
      db'.buses_.map Prod.fst = ["R1", "T1", "T2"] ∧
      db'.buses_.map (fun kb => kb.2.color_id_) = [some 0, some 1, some 0] := by
  obtain ⟨db', h, hn, hk, _⟩ := SetBusColors_spec renderDb (by decide) (by decide)
  refine ⟨db', h, hn, ?_⟩
  have hl : db'.buses_.length = 3 := by
    have := congrArg List.length hn
    simpa using this
  match hb : db'.buses_, hl with
  | [a, b, c], _ =>
    have h0 := (hk 0 a (by rw [hb]; rfl)).1
    have h1 := (hk 1 b (by rw [hb]; rfl)).1
    have h2 := (hk 2 c (by rw [hb]; rfl)).1
    simp only [List.map_cons, List.map_nil, h0, h1, h2]
    rfl


theorem stopPoint_of_lookup (stops_ : StopMap) (name : String) (stop : Stop)
    (h : stops_.lookup name = some stop) :
    stopPoint stops_ name = { x := stop.GetX, y := stop.GetY } := by
  unfold stopPoint
  rw [h]

theorem addStopPoint_ok (stops_ : StopMap) (line : Svg.Polyline) (name : String)
    (h : (stops_.lookup name).isSome) :
    addStopPoint stops_ line name =
      .ok { line with points_ := line.points_ ++ [stopPoint stops_ name] } := by
  obtain ⟨stop, hs⟩ := Option.isSome_iff_exists.mp h
  unfold addStopPoint
  simp only [mapAt, hs, bind, Except.bind, pure, Except.pure, Svg.Polyline.AddPoint,
    stopPoint_of_lookup stops_ name stop hs]

theorem addStopPoint_fold (stops_ : StopMap) (names : List String)
    (h : ∀ name ∈ names, (stops_.lookup name).isSome) (line : Svg.Polyline) :
    names.foldlM (addStopPoint stops_) line =
      .ok { line with points_ := line.points_ ++ names.map (stopPoint stops_) } := by
  induction names generalizing line with
  | nil => simp [pure, Except.pure]
  | cons name names ih =>
    rw [List.foldlM_cons, addStopPoint_ok stops_ line name (h name (List.mem_cons_self _ _))]
    show List.foldlM _ _ names = _
    rw [ih (fun n hn => h n (List.mem_cons_of_mem _ hn))]
    simp

theorem addStopPointAt_fold (stops_ : StopMap) (bus_stops : List String)
    (h : ∀ name ∈ bus_stops, (stops_.lookup name).isSome) (idxs : List Nat)
    (hi : ∀ i ∈ idxs, i < bus_stops.length) (line : Svg.Polyline) :
    idxs.foldlM (addStopPointAt stops_ bus_stops) line =
      .ok { line with
        points_ := line.points_ ++ idxs.map (fun i => stopPoint stops_ (bus_stops.getD i "")) } := by
  induction idxs generalizing line with
  | nil => simp [pure, Except.pure]
  | cons i idxs ih =>
    have hlt := hi i (List.mem_cons_self _ _)
    have hv : vecAt bus_stops i = .ok (bus_stops.getD i "") := by
      rw [vecAt_of_lt bus_stops i hlt]
      simp [List.getD_eq_getElem?_getD, List.getElem?_eq_getElem hlt]
    have hmem : bus_stops.getD i "" ∈ bus_stops := by
      rw [List.getD_eq_getElem?_getD, List.getElem?_eq_getElem hlt]
      exact List.getElem_mem hlt
    have hstep : addStopPointAt stops_ bus_stops line i =
        .ok { line with points_ := line.points_ ++ [stopPoint stops_ (bus_stops.getD i "")] } := by
      unfold addStopPointAt
      rw [hv]
      exact addStopPoint_ok stops_ line _ (h _ hmem)
    rw [List.foldlM_cons, hstep]
    show List.foldlM _ _ idxs = _
    rw [ih (fun j hj => hi j (List.mem_cons_of_mem _ hj))]
    simp

theorem map_getD_range (l : List String) :
    (List.range l.length).map (fun i => l.getD i "") = l := by
  apply List.ext_getElem
  · simp
  · intro i h1 h2
    simp [List.getD_eq_getElem?_getD, List.getElem?_eq_getElem h2]

theorem map_getD_range_pred (l : List String) :
    (List.range (l.length - 1)).map (fun i => l.getD i "") = l.dropLast := by
  apply List.ext_getElem
  · simp
  · intro i h1 h2
    simp only [List.length_map, List.length_range] at h1
    have hlt : i < l.length := by omega
    simp [List.getD_eq_getElem?_getD, List.getElem?_eq_getElem hlt, List.getElem_dropLast]

theorem twoway_start (n : Nat) (h : n < 2 ^ 31) :
    (toInt32 (toSizeT ((n : Int) - 2)) + 1).toNat = n - 1 := by
  unfold toInt32 toSizeT
  omega

theorem countDownFrom_eq (n : Nat) (h : n < 2 ^ 31) :
    countDownFrom n = (List.range (n - 1)).reverse := by
  unfold countDownFrom
  rw [twoway_start n h]


theorem map_point_range (stops_ : StopMap) (l : List String) :
    (List.range l.length).map (fun i => stopPoint stops_ (l.getD i "")) =
      l.map (stopPoint stops_) := by
  have h := congrArg (List.map (stopPoint stops_)) (map_getD_range l)
  rw [List.map_map] at h
  exact h

theorem map_point_range_pred (stops_ : StopMap) (l : List String) :
    (List.range (l.length - 1)).map (fun i => stopPoint stops_ (l.getD i "")) =
      l.dropLast.map (stopPoint stops_) := by
  have h := congrArg (List.map (stopPoint stops_)) (map_getD_range_pred l)
  rw [List.map_map] at h
  exact h

theorem busPoints_ok (db : Database) (bus : Bus) (line : Svg.Polyline)
    (hstops : ∀ name ∈ bus.stops_, (db.stops_.lookup name).isSome)
    (hsize : bus.stops_.length < 2 ^ 31) :
    busPoints db bus line =
      .ok { line with points_ := line.points_ ++ bus.traversal.map (stopPoint db.stops_) } := by
  unfold busPoints Bus.traversal Bus.GetType Bus.GetStops
  cases bus.type_ with
  | ROUND => exact addStopPoint_fold db.stops_ bus.stops_ hstops line
  | TWOWAY =>
    show (List.foldlM (addStopPointAt db.stops_ bus.stops_) line (List.range bus.stops_.length)
      >>= fun line => List.foldlM (addStopPointAt db.stops_ bus.stops_) line
        (countDownFrom bus.stops_.length)) = _
    rw [addStopPointAt_fold db.stops_ bus.stops_ hstops (List.range bus.stops_.length)
      (fun i hi => List.mem_range.mp hi)]
    rw [ok_bind, countDownFrom_eq _ hsize,
      addStopPointAt_fold db.stops_ bus.stops_ hstops
        (List.range (bus.stops_.length - 1)).reverse
        (fun i hi => by
          have := List.mem_range.mp (List.mem_reverse.mp hi)
          omega)]
    rw [List.map_reverse, map_point_range, map_point_range_pred]
    simp only [List.map_append, List.map_reverse, List.append_assoc]

/-- The polyline `RenderBuses` draws for a bus of the colour index `c`. -/
theorem renderBusStep_ok (db : Database) (doc : Svg.Document) (kb : String × Bus) (c : Nat)
    (color : Svg.Color)
    (hstops : ∀ name ∈ kb.2.stops_, (db.stops_.lookup name).isSome)
    (hc : kb.2.color_id_ = some c)
    (hcolor : db.map_settings_.render_settings.color_palette[c]? = some color)
    (hsize : kb.2.stops_.length < 2 ^ 31) :
    renderBusStep db doc kb =
      .ok (doc.Add (.polyline
        { stroke_color_ := color
          stroke_width_ := db.map_settings_.render_settings.line_width
          stroke_line_cap_ := some "round"
          stroke_line_join_ := some "round"
          points_ := kb.2.traversal.map (stopPoint db.stops_) })) := by
  have hcol : (kb.2.GetColorId >>= vecAt db.map_settings_.render_settings.color_palette) =
      .ok color := by
    unfold Bus.GetColorId
    rw [hc]
    show vecAt _ c = _
    unfold vecAt
    rw [hcolor]
  unfold renderBusStep
  rw [hcol, ok_bind, busPoints_ok db kb.2 _ hstops hsize, ok_bind]
  rfl


theorem renderBusStep_eq (db : Database) (doc : Svg.Document) (kb : String × Bus)
    (hstops : ∀ name ∈ kb.2.stops_, (db.stops_.lookup name).isSome)
    (hcolor : ∃ c, kb.2.color_id_ = some c ∧
      c < db.map_settings_.render_settings.color_palette.length)
    (hsize : kb.2.stops_.length < 2 ^ 31) :
    renderBusStep db doc kb = .ok (doc.Add (.polyline (busPolyline db kb.2))) := by
  obtain ⟨c, hc, hlt⟩ := hcolor
  have hget : db.map_settings_.render_settings.color_palette[c]? =
      some (db.map_settings_.render_settings.color_palette.getD c {}) := by
    rw [List.getD_eq_getElem?_getD, List.getElem?_eq_getElem hlt]
    rfl
  rw [renderBusStep_ok db doc kb c _ hstops hc hget hsize]
  unfold busPolyline
  rw [hc]
  rfl

theorem renderBuses_fold (db : Database) (buses : List (String × Bus))
    (hstops : ∀ kb ∈ buses, ∀ name ∈ kb.2.stops_, (db.stops_.lookup name).isSome)
    (hcolor : ∀ kb ∈ buses, ∃ c, kb.2.color_id_ = some c ∧
      c < db.map_settings_.render_settings.color_palette.length)
    (hsize : ∀ kb ∈ buses, kb.2.stops_.length < 2 ^ 31) (doc : Svg.Document) :
    buses.foldlM (renderBusStep db) doc =
      .ok { objects_ := doc.objects_ ++
        buses.map (fun kb => Svg.Object.polyline (busPolyline db kb.2)) } := by
  induction buses generalizing doc with
  | nil => simp [pure, Except.pure]
  | cons kb buses ih =>
    rw [List.foldlM_cons, renderBusStep_eq db doc kb (hstops kb (List.mem_cons_self _ _))
      (hcolor kb (List.mem_cons_self _ _)) (hsize kb (List.mem_cons_self _ _)), ok_bind,
      ih (fun b hb => hstops b (List.mem_cons_of_mem _ hb))
        (fun b hb => hcolor b (List.mem_cons_of_mem _ hb))
        (fun b hb => hsize b (List.mem_cons_of_mem _ hb))]
    simp [Svg.Document.Add]

theorem traversal_length (b : Bus) (hne : b.type_ = .TWOWAY → b.stops_ ≠ [])
    (hsize : b.stops_.length ≤ 2 ^ 30) :
    (b.traversal.length : Int) = (Bus.new b.name_ b.stops_ b.type_).GetNumStops := by
  unfold Bus.GetNumStops
  rw [Bus_new_num_stops]
  unfold Bus.traversal
  cases ht : b.type_ with
  | ROUND =>
    simp only
    rw [toInt32_of_lt _ (by omega)]
  | TWOWAY =>
    simp only
    rw [toInt32_toSizeT_two_mul_sub_one _ hsize]
    have hpos : 0 < b.stops_.length := List.length_pos.mpr (hne ht)
    simp only [List.length_append, List.length_reverse, List.length_dropLast]
    omega

/-- C28: `RenderBuses` adds to the document, for each bus in the order of the
catalog (ascending names), one polyline whose points are the positions of the
stops of the full traversal of the bus: the listed order for ROUND, the listed
order and back without the turnaround stop for TWOWAY; the number of points is
the stop count of the bus. Every bus lists stops of the catalog, has a colour
of the palette and at most 2^30 stops, a TWOWAY bus at least one. -/
theorem RenderBuses_spec (db : Database) (doc : Svg.Document)
    (hstops : ∀ kb ∈ db.buses_, ∀ name ∈ kb.2.stops_, (db.stops_.lookup name).isSome)
    (hcolor : ∀ kb ∈ db.buses_, ∃ c, kb.2.color_id_ = some c ∧
      c < db.map_settings_.render_settings.color_palette.length)
    (hsize : ∀ kb ∈ db.buses_, kb.2.stops_.length ≤ 2 ^ 30)
    (hne : ∀ kb ∈ db.buses_, kb.2.type_ = .TWOWAY → kb.2.stops_ ≠ []) :
    db.RenderBuses doc =
      .ok { objects_ := doc.objects_ ++
        db.buses_.map (fun kb => Svg.Object.polyline (busPolyline db kb.2)) } ∧
    ∀ kb ∈ db.buses_,
      (busPolyline db kb.2).points_ = kb.2.traversal.map (stopPoint db.stops_) ∧
      ((busPolyline db kb.2).points_.length : Int) =
        (Bus.new kb.2.name_ kb.2.stops_ kb.2.type_).GetNumStops := by
  refine ⟨renderBuses_fold db db.buses_ hstops hcolor
    (fun kb hkb => lt_of_le_of_lt (hsize kb hkb) (by norm_num)) doc, ?_⟩
  intro kb hkb
  refine ⟨rfl, ?_⟩
  show ((kb.2.traversal.map (stopPoint db.stops_)).length : Int) = _
  rw [List.length_map]
  exact traversal_length kb.2 (hne kb hkb) (hsize kb hkb)

/-- Witness of C28: the ROUND bus A, B, C, A is drawn with 4 points in this
order, the TWOWAY buses A, B, C and A, B, A with 5 points each. -/
theorem RenderBuses_spec_witness :
    colouredDb.RenderBuses {} =
      .ok { objects_ := [] ++
        colouredDb.buses_.map (fun kb => Svg.Object.polyline (busPolyline colouredDb kb.2)) } ∧
    colouredDb.buses_.map (fun kb => (busPolyline colouredDb kb.2).points_) =
      [[⟨10, 90⟩, ⟨100, 50⟩, ⟨190, 10⟩, ⟨10, 90⟩],
       [⟨10, 90⟩, ⟨100, 50⟩, ⟨190, 10⟩, ⟨100, 50⟩, ⟨10, 90⟩],
       [⟨10, 90⟩, ⟨100, 50⟩, ⟨10, 90⟩, ⟨100, 50⟩, ⟨10, 90⟩]] ∧
    colouredDb.buses_.map (fun kb => kb.2.GetNumStops) = [4, 5, 5] :=
  ⟨(RenderBuses_spec colouredDb {} (by decide) (by decide) (by decide) (by decide)).1,
    by decide!, by decide⟩


/-! ## Theorems: the labels of the buses -/

theorem RenderBusName_ok (db : Database) (stop : Stop) (bus_name : String) (c : Nat)
    (hc : c < db.map_settings_.render_settings.color_palette.length) :
    ∃ item, db.RenderBusName stop bus_name c = .ok item ∧
      item.underlayer.point_ = { x := stop.GetX, y := stop.GetY } ∧
      item.toplayer.point_ = { x := stop.GetX, y := stop.GetY } ∧
      item.underlayer.data_ = bus_name ∧ item.toplayer.data_ = bus_name := by
  have hv : vecAt db.map_settings_.render_settings.color_palette c =
      .ok (db.map_settings_.render_settings.color_palette.get ⟨c, hc⟩) := vecAt_of_lt _ _ hc
  unfold Database.RenderBusName
  dsimp only
  rw [hv, ok_bind]
  exact ⟨_, rfl, rfl, rfl, rfl, rfl⟩

theorem busLabelPair_ok (db : Database) (b : Bus) (name : String)
    (hs : (db.stops_.lookup name).isSome)
    (hcolor : ∃ c, b.color_id_ = some c ∧
      c < db.map_settings_.render_settings.color_palette.length) :
    ∃ stop item, db.stops_.lookup name = some stop ∧
      db.RenderBusName stop b.name_ (b.color_id_.getD 0) = .ok item ∧
      busLabelPair db b name = [.text item.underlayer, .text item.toplayer] ∧
      (busLabelPair db b name).map Svg.Object.textPoint =
        [stopPoint db.stops_ name, stopPoint db.stops_ name] ∧
      (busLabelPair db b name).map Svg.Object.textData = [b.name_, b.name_] := by
  obtain ⟨stop, hstop⟩ := Option.isSome_iff_exists.mp hs
  obtain ⟨c, hc, hlt⟩ := hcolor
  have hc0 : b.color_id_.getD 0 = c := by rw [hc]; rfl
  obtain ⟨item, hitem, h1, h2, h3, h4⟩ := RenderBusName_ok db stop b.name_ c hlt
  have hpair : busLabelPair db b name = [.text item.underlayer, .text item.toplayer] := by
    unfold busLabelPair
    rw [hstop]
    dsimp only
    rw [hc0, hitem]
  refine ⟨stop, item, hstop, by rw [hc0]; exact hitem, hpair, ?_, ?_⟩
  · rw [hpair, stopPoint_of_lookup _ _ _ hstop]
    simp [Svg.Object.textPoint, h1, h2]
  · rw [hpair]
    simp [Svg.Object.textData, h3, h4]

theorem renderBusNamesStep_eq (db : Database) (doc : Svg.Document) (kb : String × Bus)
    (hstops : ∀ name ∈ kb.2.stops_, (db.stops_.lookup name).isSome)
    (hcolor : ∃ c, kb.2.color_id_ = some c ∧
      c < db.map_settings_.render_settings.color_palette.length)
    (hne : kb.2.stops_ ≠ []) (hsize : kb.2.stops_.length < 2 ^ 31) :
    renderBusNamesStep db doc kb =
      .ok { objects_ := doc.objects_ ++ busLabels db kb.2 } := by
  have hpos : 0 < kb.2.stops_.length := List.length_pos.mpr hne
  have hlast : kb.2.stops_.length - 1 < kb.2.stops_.length := by omega
  have hmem0 : kb.2.stops_.getD 0 "" ∈ kb.2.stops_ := by
    rw [List.getD_eq_getElem?_getD, List.getElem?_eq_getElem hpos]
    exact List.getElem_mem hpos
  have hmem1 : kb.2.stops_.getD (kb.2.stops_.length - 1) "" ∈ kb.2.stops_ := by
    rw [List.getD_eq_getElem?_getD, List.getElem?_eq_getElem hlast]
    exact List.getElem_mem hlast
  obtain ⟨s0, i0, hs0, hi0, hp0, _, _⟩ :=
    busLabelPair_ok db kb.2 _ (hstops _ hmem0) hcolor
  obtain ⟨s1, i1, hs1, hi1, hp1, _, _⟩ :=
    busLabelPair_ok db kb.2 _ (hstops _ hmem1) hcolor
  obtain ⟨c, hc, hlt⟩ := hcolor
  have hc0 : kb.2.color_id_.getD 0 = c := by rw [hc]; rfl
  rw [hc0] at hi0 hi1
  have hv0 : vecAt kb.2.stops_ 0 = .ok (kb.2.stops_.getD 0 "") := by
    rw [vecAt_of_lt _ _ hpos]
    simp [List.getD_eq_getElem?_getD, List.getElem?_eq_getElem hpos]
  have hv1 : vecAt kb.2.stops_ (toSizeT ((kb.2.stops_.length : Int) - 1)) =
      .ok (kb.2.stops_.getD (kb.2.stops_.length - 1) "") := by
    rw [toSizeT_pred _ hpos hsize, vecAt_of_lt _ _ hlast]
    simp [List.getD_eq_getElem?_getD, List.getElem?_eq_getElem hlast]
  have hg : kb.2.GetColorId = .ok c := by
    unfold Bus.GetColorId
    rw [hc]
  unfold renderBusNamesStep busLabels
  dsimp only [Bus.GetStops, Bus.GetName, Bus.GetType]
  rw [hv0, ok_bind, mapAt_of_lookup _ _ _ hs0, ok_bind, hg, ok_bind, hi0, ok_bind, hp0]
  cases kb.2.type_ with
  | ROUND =>
    dsimp only
    simp [pure, Except.pure, Svg.Document.Add]
  | TWOWAY =>
    dsimp only
    rw [hv1, ok_bind, mapAt_of_lookup _ _ _ hs1, ok_bind, hi1, ok_bind, hp1]
    simp [pure, Except.pure, Svg.Document.Add]

theorem renderBusNames_fold (db : Database) (buses : List (String × Bus))
    (hstops : ∀ kb ∈ buses, ∀ name ∈ kb.2.stops_, (db.stops_.lookup name).isSome)
    (hcolor : ∀ kb ∈ buses, ∃ c, kb.2.color_id_ = some c ∧
      c < db.map_settings_.render_settings.color_palette.length)
    (hne : ∀ kb ∈ buses, kb.2.stops_ ≠ [])
    (hsize : ∀ kb ∈ buses, kb.2.stops_.length < 2 ^ 31) (doc : Svg.Document) :
    buses.foldlM (renderBusNamesStep db) doc =
      .ok { objects_ := doc.objects_ ++ buses.flatMap (fun kb => busLabels db kb.2) } := by
  induction buses generalizing doc with
  | nil => simp [pure, Except.pure]
  | cons kb buses ih =>
    rw [List.foldlM_cons, renderBusNamesStep_eq db doc kb (hstops kb (List.mem_cons_self _ _))
      (hcolor kb (List.mem_cons_self _ _)) (hne kb (List.mem_cons_self _ _))
      (hsize kb (List.mem_cons_self _ _)), ok_bind,
      ih (fun b hb => hstops b (List.mem_cons_of_mem _ hb))
        (fun b hb => hcolor b (List.mem_cons_of_mem _ hb))
        (fun b hb => hne b (List.mem_cons_of_mem _ hb))
        (fun b hb => hsize b (List.mem_cons_of_mem _ hb))]
    simp

/-- C29 as amended: `RenderBusNames` adds to the document, for each bus in the
order of the catalog, an underlayer and a toplayer label with the name of the
bus at its first stop and, exactly when the bus is TWOWAY, a second such pair
at its last stop, also when the last stop is the first stop. Every bus lists
at least one stop and only stops of the catalog and has a colour of the
palette. -/
theorem RenderBusNames_spec (db : Database) (doc : Svg.Document)
    (hstops : ∀ kb ∈ db.buses_, ∀ name ∈ kb.2.stops_, (db.stops_.lookup name).isSome)
    (hcolor : ∀ kb ∈ db.buses_, ∃ c, kb.2.color_id_ = some c ∧
      c < db.map_settings_.render_settings.color_palette.length)
    (hne : ∀ kb ∈ db.buses_, kb.2.stops_ ≠ [])
    (hsize : ∀ kb ∈ db.buses_, kb.2.stops_.length < 2 ^ 31) :
    db.RenderBusNames doc =
      .ok { objects_ := doc.objects_ ++ db.buses_.flatMap (fun kb => busLabels db kb.2) } ∧
    ∀ kb ∈ db.buses_,
      (busLabels db kb.2).map Svg.Object.textData =
        List.replicate (if kb.2.type_ = .TWOWAY then 4 else 2) kb.2.name_ ∧
      (busLabels db kb.2).map Svg.Object.textPoint =
        List.replicate 2 (stopPoint db.stops_ (kb.2.stops_.getD 0 "")) ++
          if kb.2.type_ = .TWOWAY then
            List.replicate 2 (stopPoint db.stops_ (kb.2.stops_.getD (kb.2.stops_.length - 1) ""))
          else [] := by
  refine ⟨renderBusNames_fold db db.buses_ hstops hcolor hne hsize doc, ?_⟩
  intro kb hkb
  have hpos : 0 < kb.2.stops_.length := List.length_pos.mpr (hne kb hkb)
  have hlast : kb.2.stops_.length - 1 < kb.2.stops_.length := by omega
  have hmem0 : kb.2.stops_.getD 0 "" ∈ kb.2.stops_ := by
    rw [List.getD_eq_getElem?_getD, List.getElem?_eq_getElem hpos]
    exact List.getElem_mem hpos
  have hmem1 : kb.2.stops_.getD (kb.2.stops_.length - 1) "" ∈ kb.2.stops_ := by
    rw [List.getD_eq_getElem?_getD, List.getElem?_eq_getElem hlast]
    exact List.getElem_mem hlast
  obtain ⟨_, _, _, _, _, hp0, hd0⟩ :=
    busLabelPair_ok db kb.2 _ (hstops kb hkb _ hmem0) (hcolor kb hkb)
  obtain ⟨_, _, _, _, _, hp1, hd1⟩ :=
    busLabelPair_ok db kb.2 _ (hstops kb hkb _ hmem1) (hcolor kb hkb)
  unfold busLabels
  cases kb.2.type_ with
  | ROUND =>
    simp only [List.append_nil, hp0, hd0]
    exact ⟨rfl, rfl⟩
  | TWOWAY =>
    simp only [List.map_append, hp0, hd0, hp1, hd1]
    exact ⟨rfl, rfl⟩

/-- Counterexample to C29 as stated: the TWOWAY bus T2 lists A, B, A, so its
last stop is its first stop, and `RenderBusNames` labels it twice: of the ten
labels of the document the last four carry the name T2 at the position of A,
where the claim has one pair for T2 and eight labels in all. -/
theorem RenderBusNames_spec_counterexample :
    colouredDb.buses_.map (fun kb => (kb.1, kb.2.type_, kb.2.stops_)) =
      [("R1", .ROUND, ["A", "B", "C", "A"]), ("T1", .TWOWAY, ["A", "B", "C"]),
       ("T2", .TWOWAY, ["A", "B", "A"])] ∧
    ∃ doc, colouredDb.RenderBusNames {} = .ok doc ∧
      doc.objects_.map Svg.Object.textData =
        ["R1", "R1", "T1", "T1", "T1", "T1", "T2", "T2", "T2", "T2"] ∧
      (doc.objects_.drop 6).map Svg.Object.textPoint =
        [⟨10, 90⟩, ⟨10, 90⟩, ⟨10, 90⟩, ⟨10, 90⟩] ∧
      (colouredDb.buses_.flatMap (fun kb => busLabelsIfDiffer colouredDb kb.2)).map
        Svg.Object.textData = ["R1", "R1", "T1", "T1", "T1", "T1", "T2", "T2"] :=
  ⟨by decide, _,
    renderBusNames_fold colouredDb colouredDb.buses_ (by decide) (by decide) (by decide)
      (by decide) {},
    by decide!, by decide!, by decide!⟩

/-- Witness of C29 as amended: in the scenario the ROUND bus gets one pair of
labels, the two TWOWAY buses two pairs each. -/
theorem RenderBusNames_spec_witness :
    colouredDb.RenderBusNames {} =
      .ok { objects_ := [] ++ colouredDb.buses_.flatMap (fun kb => busLabels colouredDb kb.2) } ∧
    colouredDb.buses_.map (fun kb => (busLabels colouredDb kb.2).length) = [2, 4, 4] :=
  ⟨(RenderBusNames_spec colouredDb {} (by decide) (by decide) (by decide) (by decide)).1,
    by decide!⟩


/-! ## Theorems: the record of a stop -/

theorem umapSet_of_not_mem {β : Type} (m : List (String × β)) (k : String) (v : β)
    (h : k ∉ m.map Prod.fst) : umapSet m k v = m ++ [(k, v)] := by
  induction m with
  | nil => rfl
  | cons kv m ih =>
    obtain ⟨k', v'⟩ := kv
    simp only [List.map_cons, List.mem_cons, not_or] at h
    unfold umapSet
    rw [if_neg (fun heq => h.1 heq.symm), ih h.2]
    rfl

theorem umapSet_fold {β : Type} (l acc : List (String × β))
    (h : (acc.map Prod.fst ++ l.map Prod.fst).Nodup) :
    l.foldl (fun dist_map nd => umapSet dist_map nd.1 nd.2) acc = acc ++ l := by
  induction l generalizing acc with
  | nil => simp
  | cons nd l ih =>
    have hnot : nd.1 ∉ acc.map Prod.fst := by
      intro hmem
      rw [List.nodup_append] at h
      exact h.2.2 hmem (by simp)
    rw [List.foldl_cons, umapSet_of_not_mem acc nd.1 nd.2 hnot, ih]
    · simp
    · simpa [List.map_append, List.append_assoc] using h

/-- C30 as amended: a stop rebuilt by `GetStopFromTCStop` from the record
`SerializeStops` writes for it has the name, the geo coordinates, the display
coordinates, the position and the distance table of the original, and is not
marked as a base stop, whatever the original was. The keys of the distance
table are distinct: it is a map. -/
theorem GetStopFromTCStop_serializeStop (stop : Stop)
    (hkeys : (stop.distances_.map Prod.fst).Nodup) :
    (GetStopFromTCStop (serializeStop stop)).name_ = stop.name_ ∧
    (GetStopFromTCStop (serializeStop stop)).real_latitude_ = stop.real_latitude_ ∧
    (GetStopFromTCStop (serializeStop stop)).real_longitude_ = stop.real_longitude_ ∧
    (GetStopFromTCStop (serializeStop stop)).latitude_ = stop.latitude_ ∧
    (GetStopFromTCStop (serializeStop stop)).longitude_ = stop.longitude_ ∧
    (GetStopFromTCStop (serializeStop stop)).x_ = stop.x_ ∧
    (GetStopFromTCStop (serializeStop stop)).y_ = stop.y_ ∧
    (GetStopFromTCStop (serializeStop stop)).distances_ = stop.distances_ ∧
    (GetStopFromTCStop (serializeStop stop)).is_base_ = false ∧
    ∀ (tc_stops : List TCStop) (stops : StopMap),
      SerializeStops tc_stops stops = tc_stops ++ stops.map (fun kv => serializeStop kv.2) := by
  have h1 : (serializeStop stop).distances = stop.distances_ := by
    unfold serializeStop Stop.GetDistances
    dsimp only
    rw [umapSet_fold _ _ (by simpa using hkeys)]
    rfl
  have h2 : (GetStopFromTCStop (serializeStop stop)).distances_ = stop.distances_ := by
    unfold GetStopFromTCStop Stop.restore
    dsimp only
    rw [h1, umapSet_fold _ _ (by simpa using hkeys)]
    rfl
  refine ⟨rfl, rfl, rfl, rfl, rfl, rfl, rfl, h2, rfl, ?_⟩
  intro tc_stops stops
  unfold SerializeStops
  induction stops generalizing tc_stops with
  | nil => simp
  | cons kv stops ih =>
    rw [List.foldl_cons, ih]
    simp

/-- Counterexample to C30 as stated: the stop A is a base stop, and the stop
rebuilt from its record is not: the record has no field for the mark and the
constructor used for deserializing leaves `is_base_` at `false`. -/
theorem GetStopFromTCStop_serializeStop_counterexample :
    baseStop.is_base_ = true ∧
    (GetStopFromTCStop (serializeStop baseStop)).is_base_ = false ∧
    GetStopFromTCStop (serializeStop baseStop) ≠ baseStop :=
  ⟨rfl, rfl, by decide⟩

/-- Witness of C30 as amended on the stop A of the scenario. -/
theorem GetStopFromTCStop_serializeStop_witness :
    (baseStop.distances_.map Prod.fst).Nodup ∧
    GetStopFromTCStop (serializeStop baseStop) = { baseStop with is_base_ := false } ∧
    (GetStopFromTCStop (serializeStop baseStop)).distances_ = [("B", 500), ("C", 700)] :=
  ⟨by decide, by decide,
    (GetStopFromTCStop_serializeStop baseStop (by decide)).2.2.2.2.2.2.2.1⟩


/-! ## Theorems: the closest company -/

theorem umapIndex_fst (m : List (String × Nat)) (k : String) :
    (umapIndex m k).1 = vertexOf m k := by
  unfold umapIndex vertexOf
  cases m.lookup k <;> rfl

theorem vertexOf_umapIndex_snd (m : List (String × Nat)) (k k' : String) :
    vertexOf (umapIndex m k).2 k' = vertexOf m k' := by
  unfold umapIndex vertexOf
  cases hl : m.lookup k with
  | some v => rfl
  | none =>
    simp only [List.lookup_append]
    cases hl' : m.lookup k' with
    | some v => rfl
    | none =>
      by_cases hk : k' = k
      · subst hk; simp [List.lookup]
      · have : (k' == k) = false := by simpa using hk
        simp [List.lookup, this]

theorem routeStep_with (tr : TransportRouter) (m : List (String × Nat)) :
    routeStep { tr with stop_to_id := m } = routeStep tr := rfl

theorem BuildRoute_view (engine : Nat → Nat → Option RouterRoute) (tr : TransportRouter)
    (m : List (String × Nat)) (from_ to_ : String)
    (hm : ∀ k, vertexOf m k = vertexOf tr.stop_to_id k)
    (r : Option RouteInfo) (tr' : TransportRouter)
    (h : tr.BuildRoute engine from_ to_ = .ok (r, tr')) :
    ∃ m', (∀ k, vertexOf m' k = vertexOf tr.stop_to_id k) ∧
      TransportRouter.BuildRoute engine { tr with stop_to_id := m } from_ to_ =
        .ok (r, { tr with stop_to_id := m' }) := by
  have h1 : (umapIndex m from_).1 = (umapIndex tr.stop_to_id from_).1 := by
    rw [umapIndex_fst, umapIndex_fst, hm]
  have h2 : (umapIndex (umapIndex m from_).2 to_).1 =
      (umapIndex (umapIndex tr.stop_to_id from_).2 to_).1 := by
    rw [umapIndex_fst, umapIndex_fst, vertexOf_umapIndex_snd, vertexOf_umapIndex_snd, hm]
  refine ⟨(umapIndex (umapIndex m from_).2 to_).2, ?_, ?_⟩
  · intro k
    rw [vertexOf_umapIndex_snd, vertexOf_umapIndex_snd, hm]
  · unfold TransportRouter.BuildRoute at h ⊢
    dsimp only at h ⊢
    rw [h1, h2]
    cases he : engine (umapIndex tr.stop_to_id from_).1
        (umapIndex (umapIndex tr.stop_to_id from_).2 to_).1 with
    | none =>
      rw [he] at h
      cases h
      rfl
    | some route =>
      rw [he] at h
      dsimp only at h ⊢
      rw [routeStep_with] at h ⊢
      cases hf : List.foldlM (routeStep tr) [] route.edges with
      | error e => rw [hf] at h; cases h
      | ok items =>
        rw [hf] at h
        cases h
        rfl


theorem BuildRouteToCompany_view (engine : Nat → Nat → Option RouterRoute)
    (tr : TransportRouter) (m : List (String × Nat)) (from_ : String) (stop : NearbyStop)
    (hm : ∀ k, vertexOf m k = vertexOf tr.stop_to_id k)
    (r : Option RouteInfo) (tr' : TransportRouter)
    (h : tr.BuildRouteToCompany engine from_ stop = .ok (r, tr')) :
    ∃ m', (∀ k, vertexOf m' k = vertexOf tr.stop_to_id k) ∧
      TransportRouter.BuildRouteToCompany engine { tr with stop_to_id := m } from_ stop =
        .ok (r, { tr with stop_to_id := m' }) := by
  unfold TransportRouter.BuildRouteToCompany at h ⊢
  by_cases hne : from_ ≠ stop.name
  · rw [if_pos hne] at h ⊢
    cases hb : tr.BuildRoute engine from_ stop.name with
    | error e => rw [hb] at h; cases h
    | ok rt =>
      obtain ⟨r0, tr0⟩ := rt
      obtain ⟨m', hm', hv⟩ := BuildRoute_view engine tr m from_ stop.name hm r0 tr0 hb
      refine ⟨m', hm', ?_⟩
      rw [hb] at h
      rw [hv]
      cases r0 with
      | none => cases h; rfl
      | some info =>
        have hf := BuildRoute_frame engine tr from_ stop.name _ tr0 hb
        subst hf
        cases h
        rfl
  · rw [if_neg hne] at h ⊢
    refine ⟨m, hm, ?_⟩
    cases h
    rfl

theorem addWait_total (start : ℚ) (company : Company) (route : RouteInfo) :
    (addWait start company route).total_time = finalTime start company route := by
  unfold addWait finalTime pairWait
  have h7 : (60 * 24 * 7 : ℚ) = 7 * 1440 := by norm_num
  dsimp only
  rw [h7]
  split <;> rfl

theorem addWait_items (start : ℚ) (company : Company) (route : RouteInfo) :
    (addWait start company route).items =
      route.items ++ (if pairWait start company route > 0
        then [RouteItem.WaitItem (pairWait start company route)] else []) := by
  unfold addWait pairWait
  have h7 : (60 * 24 * 7 : ℚ) = 7 * 1440 := by norm_num
  dsimp only
  rw [h7]
  split
  · rfl
  · simp

theorem finalTime_ge (start : ℚ) (company : Company) (route : RouteInfo) :
    route.total_time ≤ finalTime start company route := by
  unfold finalTime
  split
  · linarith
  · exact le_refl _

theorem finalTime_of_nonneg (start : ℚ) (company : Company) (route : RouteInfo)
    (h : 0 ≤ pairWait start company route) :
    finalTime start company route = route.total_time + pairWait start company route := by
  unfold finalTime
  split
  · rfl
  · have : pairWait start company route = 0 := le_antisymm (not_lt.mp ‹_›) h
    rw [this, add_zero]

theorem closestStep_eq (engine : Nat → Nat → Option RouterRoute) (tr : TransportRouter)
    (m : List (String × Nat)) (from_ : String) (start : ℚ) (company : Company)
    (best : Option RouteInfo) (stop : NearbyStop)
    (hm : ∀ k, vertexOf m k = vertexOf tr.stop_to_id k)
    (hok : (tr.BuildRouteToCompany engine from_ stop).isOk = true) :
    ∃ m', (∀ k, vertexOf m' k = vertexOf tr.stop_to_id k) ∧
      closestStep engine from_ start company (best, { tr with stop_to_id := m }) stop =
        .ok (pickBetter best (pairCandidate engine tr from_ start (company, stop)),
          { tr with stop_to_id := m' }) := by
  cases hb : tr.BuildRouteToCompany engine from_ stop with
  | error e => rw [hb] at hok; cases hok
  | ok rt =>
    obtain ⟨r, tr'⟩ := rt
    obtain ⟨m', hm', hv⟩ := BuildRouteToCompany_view engine tr m from_ stop hm r tr' hb
    refine ⟨m', hm', ?_⟩
    unfold closestStep pairCandidate pairRoute
    dsimp only
    rw [hv, hb, ok_bind]
    cases r with
    | none => rfl
    | some route =>
      cases best with
      | none => rfl
      | some b =>
        dsimp only [Option.map, pickBetter]
        by_cases hgt : route.total_time > b.total_time
        · rw [if_pos hgt]
          have hge := finalTime_ge start company route
          rw [← addWait_total] at hge
          have hnot : ¬ (addWait start company route).total_time < b.total_time := by
            intro hlt
            exact absurd (lt_of_le_of_lt hge hlt) (not_lt.mpr (le_of_lt hgt))
          rw [if_neg hnot]
          rfl
        · rw [if_neg hgt]
          by_cases hlt : (addWait start company route).total_time < b.total_time
          · rw [if_pos hlt, if_pos hlt]
            rfl
          · rw [if_neg hlt, if_neg hlt]
            rfl

theorem closest_inner_fold (engine : Nat → Nat → Option RouterRoute) (tr : TransportRouter)
    (from_ : String) (start : ℚ) (company : Company) (stops : List NearbyStop) :
    ∀ (best : Option RouteInfo) (m : List (String × Nat)),
    (∀ k, vertexOf m k = vertexOf tr.stop_to_id k) →
    (∀ stop ∈ stops, (tr.BuildRouteToCompany engine from_ stop).isOk = true) →
    ∃ m', (∀ k, vertexOf m' k = vertexOf tr.stop_to_id k) ∧
      stops.foldlM (closestStep engine from_ start company) (best, { tr with stop_to_id := m }) =
        .ok ((stops.map (fun stop => pairCandidate engine tr from_ start (company, stop))).foldl
            pickBetter best, { tr with stop_to_id := m' }) := by
  induction stops with
  | nil => intro best m hm _; exact ⟨m, hm, rfl⟩
  | cons stop stops ih =>
    intro best m hm hok
    obtain ⟨m1, hm1, h1⟩ := closestStep_eq engine tr m from_ start company best stop hm
      (hok stop (List.mem_cons_self _ _))
    obtain ⟨m2, hm2, h2⟩ := ih (pickBetter best (pairCandidate engine tr from_ start (company, stop)))
      m1 hm1 (fun s hs => hok s (List.mem_cons_of_mem _ hs))
    refine ⟨m2, hm2, ?_⟩
    rw [List.foldlM_cons, h1, ok_bind, h2]
    rfl

theorem closest_outer_fold (engine : Nat → Nat → Option RouterRoute) (tr : TransportRouter)
    (from_ : String) (start : ℚ) (candidates : List Company) :
    ∀ (best : Option RouteInfo) (m : List (String × Nat)),
    (∀ k, vertexOf m k = vertexOf tr.stop_to_id k) →
    (∀ c ∈ candidates, ∀ stop ∈ c.nearby_stops,
      (tr.BuildRouteToCompany engine from_ stop).isOk = true) →
    ∃ m', (∀ k, vertexOf m' k = vertexOf tr.stop_to_id k) ∧
      candidates.foldlM
          (fun s company =>
            company.nearby_stops.foldlM (closestStep engine from_ start company) s)
          (best, { tr with stop_to_id := m }) =
        .ok (((candidatePairs candidates).map (pairCandidate engine tr from_ start)).foldl
            pickBetter best, { tr with stop_to_id := m' }) := by
  induction candidates with
  | nil => intro best m hm _; exact ⟨m, hm, rfl⟩
  | cons c candidates ih =>
    intro best m hm hok
    obtain ⟨m1, hm1, h1⟩ := closest_inner_fold engine tr from_ start c c.nearby_stops best m hm
      (hok c (List.mem_cons_self _ _))
    obtain ⟨m2, hm2, h2⟩ := ih _ m1 hm1 (fun c' hc' => hok c' (List.mem_cons_of_mem _ hc'))
    refine ⟨m2, hm2, ?_⟩
    rw [List.foldlM_cons, h1, ok_bind, h2]
    unfold candidatePairs
    rw [List.flatMap_cons, List.map_append, List.foldl_append, List.map_map]
    rfl

theorem closest_eq (engine : Nat → Nat → Option RouterRoute) (tr : TransportRouter)
    (from_ : String) (start : ℚ) (candidates : List Company)
    (hok : ∀ c ∈ candidates, ∀ stop ∈ c.nearby_stops,
      (tr.BuildRouteToCompany engine from_ stop).isOk = true) :
    ∃ tr', BuildRouteToClosestCompany engine tr from_ start candidates =
      .ok (((candidatePairs candidates).map (pairCandidate engine tr from_ start)).foldl
          pickBetter none, tr') := by
  obtain ⟨m', _, h⟩ := closest_outer_fold engine tr from_ start candidates none tr.stop_to_id
    (fun _ => rfl) hok
  exact ⟨_, h⟩

theorem pickBetter_foldl (l : List (Option RouteInfo)) :
    (l.foldl pickBetter none = none ↔ ∀ c ∈ l, c = none) ∧
    ∀ b, l.foldl pickBetter none = some b →
      ∃ i : Nat, l[i]? = some (some b) ∧
        ∀ (j : Nat) (x : RouteInfo), l[j]? = some (some x) →
          b.total_time ≤ x.total_time ∧ (j < i → b.total_time < x.total_time) := by
  induction l using List.reverseRecOn with
  | nil =>
    refine ⟨by simp, ?_⟩
    intro b hb
    cases hb
  | append_singleton l c ih =>
    obtain ⟨ih1, ih2⟩ := ih
    rw [List.foldl_append, List.foldl_cons, List.foldl_nil]
    have hlast : ∀ j x, (l ++ [c])[j]? = some (some x) →
        l[j]? = some (some x) ∨ (j = l.length ∧ c = some x) := by
      intro j x hj
      by_cases hlt : j < l.length
      · left; rwa [List.getElem?_append_left hlt] at hj
      · right
        rw [List.getElem?_append_right (not_lt.mp hlt)] at hj
        by_cases h0 : j - l.length = 0
        · rw [h0] at hj
          simp only [List.getElem?_cons_zero, Option.some.injEq] at hj
          exact ⟨by omega, hj⟩
        · obtain ⟨n, hn⟩ := Nat.exists_eq_succ_of_ne_zero h0
          rw [hn] at hj
          simp at hj
    cases c with
    | none =>
      refine ⟨?_, ?_⟩
      · show l.foldl pickBetter none = none ↔ _
        rw [ih1]
        constructor
        · intro h c hc
          rw [List.mem_append, List.mem_singleton] at hc
          rcases hc with hc | hc
          · exact h c hc
          · exact hc
        · intro h c hc
          exact h c (List.mem_append_left _ hc)
      · intro b hb
        obtain ⟨i, hi, hmin⟩ := ih2 b hb
        have hil : i < l.length := by
          by_contra hcon
          rw [List.getElem?_eq_none (not_lt.mp hcon)] at hi
          cases hi
        refine ⟨i, by rw [List.getElem?_append_left hil]; exact hi, ?_⟩
        intro j x hj
        rcases hlast j x hj with h | ⟨_, h⟩
        · exact hmin j x h
        · cases h
    | some x =>
      cases hres : l.foldl pickBetter none with
      | none =>
        have hall := ih1.mp hres
        refine ⟨?_, ?_⟩
        · constructor
          · intro h; cases h
          · intro h
            have := h (some x) (by simp)
            cases this
        · intro b hb
          have hbx : x = b := by
            have : pickBetter none (some x) = some x := rfl
            rw [this] at hb
            exact Option.some.inj hb
          subst hbx
          refine ⟨l.length, by simp, ?_⟩
          intro j y hj
          rcases hlast j y hj with h | ⟨hjl, h⟩
          · have := hall (some y) (List.getElem?_mem h)
            cases this
          · cases h
            exact ⟨le_refl _, fun hlt => absurd hlt (by omega)⟩
      | some b0 =>
        obtain ⟨i, hi, hmin⟩ := ih2 b0 hres
        have hil : i < l.length := by
          by_contra hcon
          rw [List.getElem?_eq_none (not_lt.mp hcon)] at hi
          cases hi
        refine ⟨?_, ?_⟩
        · constructor
          · intro h
            unfold pickBetter at h
            dsimp only at h
            split at h <;> cases h
          · intro h
            have := h (some x) (by simp)
            cases this
        · intro b hb
          unfold pickBetter at hb
          dsimp only at hb
          by_cases hlt : x.total_time < b0.total_time
          · rw [if_pos hlt] at hb
            have hbx : x = b := Option.some.inj hb
            subst hbx
            refine ⟨l.length, by simp, ?_⟩
            intro j y hj
            rcases hlast j y hj with h | ⟨hjl, h⟩
            · have := (hmin j y h).1
              exact ⟨le_of_lt (lt_of_lt_of_le hlt this), fun _ => lt_of_lt_of_le hlt this⟩
            · cases h
              exact ⟨le_refl _, fun hl => absurd hl (by omega)⟩
          · rw [if_neg hlt] at hb
            have hbx : b0 = b := Option.some.inj hb
            subst hbx
            refine ⟨i, by rw [List.getElem?_append_left hil]; exact hi, ?_⟩
            intro j y hj
            rcases hlast j y hj with h | ⟨hjl, h⟩
            · exact hmin j y h
            · cases h
              exact ⟨not_lt.mp hlt, fun hl => absurd hl (by omega)⟩

theorem pairCandidate_some (engine : Nat → Nat → Option RouterRoute) (tr : TransportRouter)
    (from_ : String) (start : ℚ) (p : Company × NearbyStop) (r : RouteInfo)
    (h : pairRoute engine tr from_ p.2 = some r) :
    pairCandidate engine tr from_ start p = some { addWait start p.1 r with company := some p.1 } := by
  unfold pairCandidate
  rw [h]
  rfl

theorem pairCandidate_inv (engine : Nat → Nat → Option RouterRoute) (tr : TransportRouter)
    (from_ : String) (start : ℚ) (p : Company × NearbyStop) (b : RouteInfo)
    (h : pairCandidate engine tr from_ start p = some b) :
    ∃ r, pairRoute engine tr from_ p.2 = some r ∧
      b = { addWait start p.1 r with company := some p.1 } := by
  unfold pairCandidate at h
  cases hr : pairRoute engine tr from_ p.2 with
  | none => rw [hr] at h; cases h
  | some r =>
    rw [hr] at h
    exact ⟨r, rfl, (Option.some.inj h).symm⟩

theorem pairRoute_last (engine : Nat → Nat → Option RouterRoute) (tr : TransportRouter)
    (from_ : String) (stop : NearbyStop) (r : RouteInfo)
    (h : pairRoute engine tr from_ stop = some r) :
    ∃ t, r.items.getLast? = some (RouteItem.WalkItem stop.name t) := by
  unfold pairRoute TransportRouter.BuildRouteToCompany at h
  by_cases hne : from_ ≠ stop.name
  · rw [if_pos hne] at h
    cases hb : tr.BuildRoute engine from_ stop.name with
    | error e => rw [hb] at h; cases h
    | ok rt =>
      obtain ⟨r0, tr0⟩ := rt
      rw [hb] at h
      cases r0 with
      | none => cases h
      | some info =>
        have hr : r = { info with
            total_time := info.total_time + (stop.meters : ℚ) / tr0.pedestrian_velocity_
            items := info.items ++ [RouteItem.WalkItem stop.name
              ((stop.meters : ℚ) / tr0.pedestrian_velocity_)] } := (Option.some.inj h).symm
        refine ⟨(stop.meters : ℚ) / tr0.pedestrian_velocity_, ?_⟩
        rw [hr]
        simp
  · rw [if_neg hne] at h
    have hr : r = { ({} : RouteInfo) with
        total_time := 0 + (stop.meters : ℚ) / tr.pedestrian_velocity_
        items := [] ++ [RouteItem.WalkItem stop.name
          ((stop.meters : ℚ) / tr.pedestrian_velocity_)] } := (Option.some.inj h).symm
    refine ⟨(stop.meters : ℚ) / tr.pedestrian_velocity_, ?_⟩
    rw [hr]
    simp

/-- C21: when `BuildRouteToCompany` returns for every pair of a candidate and
one of its nearby stops, `BuildRouteToClosestCompany(from, start, candidates)`
returns; it returns no route iff no pair has a route; and, the wait of every
pair with a route being non-negative, the total time of the returned route is
`T + WaitForCompanyOpen((start + T) mod 7·1440)` for one of the pairs, `T` the
total time of its route, and is at most this sum for every pair. -/
theorem BuildRouteToClosestCompany_min (engine : Nat → Nat → Option RouterRoute)
    (tr : TransportRouter) (from_ : String) (start : ℚ) (candidates : List Company)
    (hok : ∀ c ∈ candidates, ∀ stop ∈ c.nearby_stops,
      (tr.BuildRouteToCompany engine from_ stop).isOk = true)
    (hwait : ∀ p ∈ candidatePairs candidates, ∀ r, pairRoute engine tr from_ p.2 = some r →
      0 ≤ p.1.WaitForCompanyOpen (fmod (start + r.total_time) (7 * 1440))) :
    ∃ best tr', BuildRouteToClosestCompany engine tr from_ start candidates = .ok (best, tr') ∧
      (best = none ↔ ∀ p ∈ candidatePairs candidates, pairRoute engine tr from_ p.2 = none) ∧
      ∀ b, best = some b →
        (∃ p ∈ candidatePairs candidates, ∃ r, pairRoute engine tr from_ p.2 = some r ∧
          b.total_time = r.total_time +
            p.1.WaitForCompanyOpen (fmod (start + r.total_time) (7 * 1440))) ∧
        ∀ p ∈ candidatePairs candidates, ∀ r, pairRoute engine tr from_ p.2 = some r →
          b.total_time ≤ r.total_time +
            p.1.WaitForCompanyOpen (fmod (start + r.total_time) (7 * 1440)) := by
  obtain ⟨tr', heq⟩ := closest_eq engine tr from_ start candidates hok
  obtain ⟨hnone, hsome⟩ :=
    pickBetter_foldl ((candidatePairs candidates).map (pairCandidate engine tr from_ start))
  refine ⟨_, tr', heq, ?_, ?_⟩
  · rw [hnone]
    constructor
    · intro h p hp
      have := h _ (List.mem_map_of_mem _ hp)
      unfold pairCandidate at this
      cases hr : pairRoute engine tr from_ p.2 with
      | none => rfl
      | some r => rw [hr] at this; cases this
    · intro h c hc
      obtain ⟨p, hp, rfl⟩ := List.mem_map.mp hc
      unfold pairCandidate
      rw [h p hp]
      rfl
  · intro b hb
    obtain ⟨i, hi, hmin⟩ := hsome b hb
    rw [List.getElem?_map] at hi
    cases hpi : (candidatePairs candidates)[i]? with
    | none => rw [hpi] at hi; cases hi
    | some p =>
      rw [hpi] at hi
      have hcand : pairCandidate engine tr from_ start p = some b := Option.some.inj hi
      obtain ⟨r, hr, hbr⟩ := pairCandidate_inv engine tr from_ start p b hcand
      have hpm : p ∈ candidatePairs candidates := List.getElem?_mem hpi
      have htot : b.total_time = finalTime start p.1 r := by
        rw [hbr]; exact addWait_total start p.1 r
      refine ⟨⟨p, hpm, r, hr, ?_⟩, ?_⟩
      · rw [htot]
        exact finalTime_of_nonneg start p.1 r (hwait p hpm r hr)
      · intro p' hp' r' hr'
        obtain ⟨j, hj⟩ := List.getElem?_of_mem hp'
        have hj' : ((candidatePairs candidates).map (pairCandidate engine tr from_ start))[j]? =
            some (some { addWait start p'.1 r' with company := some p'.1 }) := by
          rw [List.getElem?_map, hj]
          show some (pairCandidate engine tr from_ start p') = _
          rw [pairCandidate_some engine tr from_ start p' r' hr']
        have hle := (hmin j _ hj').1
        have ht' : ({ addWait start p'.1 r' with company := some p'.1 } : RouteInfo).total_time =
            finalTime start p'.1 r' := addWait_total start p'.1 r'
        rw [ht', finalTime_of_nonneg start p'.1 r' (hwait p' hp' r' hr')] at hle
        exact hle

/-- C22: when `BuildRouteToCompany` returns for every pair of a candidate and
one of its nearby stops, the route `BuildRouteToClosestCompany` returns is
that of the first pair, candidates in the given order and the nearby stops of
each in the listed order, whose final total time (the wait added when it is
positive) is minimal: its company is the candidate of the pair, its items are
those of the route of the pair followed by a `WaitItem` of the wait when the
wait is positive, and its last item is this `WaitItem` iff the wait is
positive. -/
theorem BuildRouteToClosestCompany_first (engine : Nat → Nat → Option RouterRoute)
    (tr : TransportRouter) (from_ : String) (start : ℚ) (candidates : List Company)
    (hok : ∀ c ∈ candidates, ∀ stop ∈ c.nearby_stops,
      (tr.BuildRouteToCompany engine from_ stop).isOk = true) :
    ∃ best tr', BuildRouteToClosestCompany engine tr from_ start candidates = .ok (best, tr') ∧
      ∀ b, best = some b →
        ∃ (i : Nat) (c : Company) (stop : NearbyStop) (r : RouteInfo),
          (candidatePairs candidates)[i]? = some (c, stop) ∧
          pairRoute engine tr from_ stop = some r ∧
          (∀ (j : Nat) (p : Company × NearbyStop) (r' : RouteInfo),
            (candidatePairs candidates)[j]? = some p → pairRoute engine tr from_ p.2 = some r' →
            finalTime start c r ≤ finalTime start p.1 r' ∧
            (j < i → finalTime start c r < finalTime start p.1 r')) ∧
          b.company = some c ∧
          b.total_time = finalTime start c r ∧
          b.items = r.items ++ (if pairWait start c r > 0
            then [RouteItem.WaitItem (pairWait start c r)] else []) ∧
          (b.items.getLast? = some (RouteItem.WaitItem (pairWait start c r)) ↔
            pairWait start c r > 0) := by
  obtain ⟨tr', heq⟩ := closest_eq engine tr from_ start candidates hok
  obtain ⟨_, hsome⟩ :=
    pickBetter_foldl ((candidatePairs candidates).map (pairCandidate engine tr from_ start))
  refine ⟨_, tr', heq, ?_⟩
  intro b hb
  obtain ⟨i, hi, hmin⟩ := hsome b hb
  rw [List.getElem?_map] at hi
  cases hpi : (candidatePairs candidates)[i]? with
  | none => rw [hpi] at hi; cases hi
  | some p =>
    rw [hpi] at hi
    obtain ⟨c, stop⟩ := p
    have hcand : pairCandidate engine tr from_ start (c, stop) = some b := Option.some.inj hi
    obtain ⟨r, hr, hbr⟩ := pairCandidate_inv engine tr from_ start (c, stop) b hcand
    have htot : b.total_time = finalTime start c r := by
      rw [hbr]; exact addWait_total start c r
    have hitems : b.items = r.items ++ (if pairWait start c r > 0
        then [RouteItem.WaitItem (pairWait start c r)] else []) := by
      rw [hbr]; exact addWait_items start c r
    refine ⟨i, c, stop, r, hpi, hr, ?_, by rw [hbr], htot, hitems, ?_⟩
    · intro j p' r' hj hr'
      have hj' : ((candidatePairs candidates).map (pairCandidate engine tr from_ start))[j]? =
          some (some { addWait start p'.1 r' with company := some p'.1 }) := by
        rw [List.getElem?_map, hj]
        show some (pairCandidate engine tr from_ start p') = _
        rw [pairCandidate_some engine tr from_ start p' r' hr']
      have hle := hmin j _ hj'
      have ht' : ({ addWait start p'.1 r' with company := some p'.1 } : RouteInfo).total_time =
          finalTime start p'.1 r' := addWait_total start p'.1 r'
      rw [ht', htot] at hle
      exact hle
    · rw [hitems]
      by_cases hw : pairWait start c r > 0
      · rw [if_pos hw]
        simp [hw]
      · rw [if_neg hw, List.append_nil]
        obtain ⟨t, ht⟩ := pairRoute_last engine tr from_ stop r hr
        rw [ht]
        simp [hw]


theorem abc_company_routes :
    ∀ c ∈ [nearCompany, lateCompany], ∀ stop ∈ c.nearby_stops,
      (abcRouter.BuildRouteToCompany (Router.BuildRoute abcRouter.graph_) "A" stop).isOk = true := by
  decide!

theorem closest_routes :
    ∀ c ∈ [lateCompany, nearCompany, farCompany], ∀ stop ∈ c.nearby_stops,
      (abcRouter.BuildRouteToCompany (Router.BuildRoute abcRouter.graph_) "A" stop).isOk = true := by
  decide!

theorem closest_waits :
    ∀ p ∈ candidatePairs [lateCompany, nearCompany, farCompany],
      ∀ r ∈ pairRoute (Router.BuildRoute abcRouter.graph_) abcRouter "A" p.2,
        0 ≤ p.1.WaitForCompanyOpen (fmod (600 + r.total_time) (7 * 1440)) := by
  decide!

/-- Witness of C21: from A at minute 600, three candidates with five pairs, the
routes to C and to B asked of the shortest path engine.  The pair (late, A)
gives 1 + 299 = 300 and is the first best; (near, C) gives 6 and replaces it;
(near, A) gives 6 too and is passed over; the route of (far, C) takes 53, more
than the best, and is dropped by the early `continue`; (far, B) gives 9/2 and
is returned, the minimum of 300, 6, 6, 53 and 9/2. -/
theorem BuildRouteToClosestCompany_min_witness :
    (∀ c ∈ [lateCompany, nearCompany, farCompany], ∀ stop ∈ c.nearby_stops,
      (abcRouter.BuildRouteToCompany (Router.BuildRoute abcRouter.graph_) "A" stop).isOk = true) ∧
    (∀ p ∈ candidatePairs [lateCompany, nearCompany, farCompany],
      ∀ r, pairRoute (Router.BuildRoute abcRouter.graph_) abcRouter "A" p.2 = some r →
        0 ≤ p.1.WaitForCompanyOpen (fmod (600 + r.total_time) (7 * 1440))) ∧
    ((candidatePairs [lateCompany, nearCompany, farCompany]).map (fun p =>
      (p.2.name, (pairRoute (Router.BuildRoute abcRouter.graph_) abcRouter "A" p.2).map
        (fun r => (r.total_time, pairWait 600 p.1 r))))) =
      [("A", some (1, 299)), ("C", some (6, 0)), ("A", some (6, 0)), ("C", some (53, 0)),
        ("B", some (9 / 2, 0))] ∧
    routeOfResult (BuildRouteToClosestCompany (Router.BuildRoute abcRouter.graph_) abcRouter
        "A" 600 [lateCompany, nearCompany, farCompany]) =
      some { total_time := 9 / 2, company := some farCompany,
             items := [RouteItem.StopItem "A" 2, RouteItem.BusItem "B1" "A" "B" 1 (1 / 2),
               RouteItem.WalkItem "B" 2] } ∧
    ∃ best tr', BuildRouteToClosestCompany (Router.BuildRoute abcRouter.graph_) abcRouter
        "A" 600 [lateCompany, nearCompany, farCompany] = .ok (best, tr') ∧
      (best = none ↔ ∀ p ∈ candidatePairs [lateCompany, nearCompany, farCompany],
        pairRoute (Router.BuildRoute abcRouter.graph_) abcRouter "A" p.2 = none) ∧
      ∀ b, best = some b →
        (∃ p ∈ candidatePairs [lateCompany, nearCompany, farCompany], ∃ r,
          pairRoute (Router.BuildRoute abcRouter.graph_) abcRouter "A" p.2 = some r ∧
          b.total_time = r.total_time +
            p.1.WaitForCompanyOpen (fmod (600 + r.total_time) (7 * 1440))) ∧
        ∀ p ∈ candidatePairs [lateCompany, nearCompany, farCompany], ∀ r,
          pairRoute (Router.BuildRoute abcRouter.graph_) abcRouter "A" p.2 = some r →
          b.total_time ≤ r.total_time +
            p.1.WaitForCompanyOpen (fmod (600 + r.total_time) (7 * 1440)) :=
  ⟨closest_routes, closest_waits, by decide!, by decide!,
    BuildRouteToClosestCompany_min (Router.BuildRoute abcRouter.graph_) abcRouter "A" 600
      [lateCompany, nearCompany, farCompany] closest_routes closest_waits⟩

/-- Witness of C22: the company 300 m from C and 600 m from A is reached in 6
minutes by either stop, the company 100 m from A in 300 minutes with the wait;
the route by the stop C, the first of the two, is returned, with no wait. -/
theorem BuildRouteToClosestCompany_first_witness :
    routeOfResult (BuildRouteToClosestCompany (Router.BuildRoute abcRouter.graph_) abcRouter
        "A" 600 [nearCompany, lateCompany]) =
      some { total_time := 6, company := some nearCompany,
             items := [RouteItem.StopItem "A" 2, RouteItem.BusItem "B1" "A" "C" 2 1,
               RouteItem.WalkItem "C" 3] } ∧
    ((candidatePairs [nearCompany, lateCompany]).map (fun p =>
      (pairRoute (Router.BuildRoute abcRouter.graph_) abcRouter "A" p.2).map
        (finalTime 600 p.1))) = [some 6, some 6, some 300] ∧
    ∃ best tr', BuildRouteToClosestCompany (Router.BuildRoute abcRouter.graph_) abcRouter
        "A" 600 [nearCompany, lateCompany] = .ok (best, tr') ∧
      ∀ b, best = some b →
        ∃ (i : Nat) (c : Company) (stop : NearbyStop) (r : RouteInfo),
          (candidatePairs [nearCompany, lateCompany])[i]? = some (c, stop) ∧
          pairRoute (Router.BuildRoute abcRouter.graph_) abcRouter "A" stop = some r ∧
          (∀ (j : Nat) (p : Company × NearbyStop) (r' : RouteInfo),
            (candidatePairs [nearCompany, lateCompany])[j]? = some p →
            pairRoute (Router.BuildRoute abcRouter.graph_) abcRouter "A" p.2 = some r' →
            finalTime 600 c r ≤ finalTime 600 p.1 r' ∧
            (j < i → finalTime 600 c r < finalTime 600 p.1 r')) ∧
          b.company = some c ∧
          b.total_time = finalTime 600 c r ∧
          b.items = r.items ++ (if pairWait 600 c r > 0
            then [RouteItem.WaitItem (pairWait 600 c r)] else []) ∧
          (b.items.getLast? = some (RouteItem.WaitItem (pairWait 600 c r)) ↔
            pairWait 600 c r > 0) :=
  ⟨by decide!, by decide!,
    BuildRouteToClosestCompany_first (Router.BuildRoute abcRouter.graph_) abcRouter "A" 600
      [nearCompany, lateCompany] abc_company_routes⟩


/-! ## Theorems: the Stop query -/

theorem mem_setInsert (s : List String) (x z : String) :
    z ∈ setInsert s x ↔ z = x ∨ z ∈ s := by
  induction s with
  | nil => simp [setInsert]
  | cons y rest ih =>
    unfold setInsert
    by_cases h1 : strLess x y = true
    · rw [if_pos h1]; simp
    · rw [if_neg h1]
      by_cases h2 : strLess y x = true
      · rw [if_pos h2]
        simp only [List.mem_cons, ih]
        tauto
      · rw [if_neg h2]
        have hxy : x = y := by
          rw [strLess_iff] at h1 h2
          exact le_antisymm (not_lt.mp h2) (not_lt.mp h1)
        subst hxy
        simp

theorem pairwise_setInsert (s : List String) (x : String)
    (hs : s.Pairwise (fun a b => a < b)) : (setInsert s x).Pairwise (fun a b => a < b) := by
  induction s with
  | nil => simp [setInsert]
  | cons y rest ih =>
    rw [List.pairwise_cons] at hs
    unfold setInsert
    by_cases h1 : strLess x y = true
    · rw [if_pos h1]
      rw [strLess_iff] at h1
      refine List.Pairwise.cons ?_ (List.Pairwise.cons hs.1 hs.2)
      intro z hz
      rcases List.mem_cons.mp hz with hz | hz
      · rw [hz]; exact h1
      · exact lt_trans h1 (hs.1 z hz)
    · rw [if_neg h1]
      by_cases h2 : strLess y x = true
      · rw [if_pos h2]
        rw [strLess_iff] at h2
        refine List.Pairwise.cons ?_ (ih hs.2)
        intro z hz
        rcases (mem_setInsert rest x z).mp hz with hz | hz
        · rw [hz]; exact h2
        · exact hs.1 z hz
      · rw [if_neg h2]
        exact List.Pairwise.cons hs.1 hs.2

theorem lookup_umapSet {β : Type} (m : List (String × β)) (k k' : String) (v : β) :
    (umapSet m k v).lookup k' = if k' = k then some v else m.lookup k' := by
  induction m with
  | nil =>
    unfold umapSet
    by_cases h : k' = k
    · subst h; simp [List.lookup]
    · have : (k' == k) = false := by simpa using h
      simp [List.lookup, this, h]
  | cons kv m ih =>
    obtain ⟨k0, v0⟩ := kv
    unfold umapSet
    by_cases h0 : k0 = k
    · rw [if_pos h0]
      subst h0
      by_cases h : k' = k0
      · subst h; simp [List.lookup]
      · have : (k' == k0) = false := by simpa using h
        simp [List.lookup, this, h]
    · rw [if_neg h0]
      by_cases h : k' = k
      · subst h
        have : (k' == k0) = false := by simpa using (fun e => h0 e.symm)
        rw [List.lookup, this, ih, if_pos rfl, if_pos rfl]
      · rw [if_neg h]
        rw [if_neg h] at ih
        by_cases hk : k' = k0
        · subst hk; simp [List.lookup]
        · have : (k' == k0) = false := by simpa using hk
          rw [List.lookup, this, ih, List.lookup, this]

theorem mem_mapInsert {β : Type} (m : List (String × β)) (k : String) (v : β)
    (kv : String × β) (h : kv ∈ mapInsert m k v) : kv ∈ m ∨ kv = (k, v) := by
  induction m with
  | nil => right; simpa [mapInsert] using h
  | cons e m ih =>
    obtain ⟨k0, v0⟩ := e
    unfold mapInsert at h
    by_cases h1 : strLess k k0 = true
    · rw [if_pos h1] at h
      rcases List.mem_cons.mp h with h | h
      · right; exact h
      · left; exact h
    · rw [if_neg h1] at h
      by_cases h2 : strLess k0 k = true
      · rw [if_pos h2] at h
        rcases List.mem_cons.mp h with h | h
        · left; rw [h]; exact List.mem_cons_self _ _
        · rcases ih h with h | h
          · left; exact List.mem_cons_of_mem _ h
          · right; exact h
      · rw [if_neg h2] at h
        left; exact h

theorem mem_mapInsert_of_mem {β : Type} (m : List (String × β)) (k : String) (v : β)
    (kv : String × β) (h : kv ∈ m) : kv ∈ mapInsert m k v := by
  induction m with
  | nil => cases h
  | cons e m ih =>
    obtain ⟨k0, v0⟩ := e
    unfold mapInsert
    by_cases h1 : strLess k k0 = true
    · rw [if_pos h1]; exact List.mem_cons_of_mem _ h
    · rw [if_neg h1]
      by_cases h2 : strLess k0 k = true
      · rw [if_pos h2]
        rcases List.mem_cons.mp h with h | h
        · rw [h]; exact List.mem_cons_self _ _
        · exact List.mem_cons_of_mem _ (ih h)
      · rw [if_neg h2]; exact h

theorem mem_mapInsert_new {β : Type} (m : List (String × β)) (k : String) (v : β)
    (h : ∀ v0, (k, v0) ∉ m) : (k, v) ∈ mapInsert m k v := by
  induction m with
  | nil => simp [mapInsert]
  | cons e m ih =>
    obtain ⟨k0, v0⟩ := e
    unfold mapInsert
    by_cases h1 : strLess k k0 = true
    · rw [if_pos h1]; exact List.mem_cons_self _ _
    · rw [if_neg h1]
      by_cases h2 : strLess k0 k = true
      · rw [if_pos h2]
        exact List.mem_cons_of_mem _ (ih (fun v1 hv => h v1 (List.mem_cons_of_mem _ hv)))
      · exfalso
        have hk : k = k0 := by
          rw [strLess_iff] at h1 h2
          exact le_antisymm (not_lt.mp h2) (not_lt.mp h1)
        subst hk
        exact h v0 (List.mem_cons_self _ _)

theorem tableFor_congr (m : List (String × List String)) (K K' : String → Prop)
    (R R' : String → String → Prop) (h : TableFor m K R)
    (hK : ∀ s, K s ↔ K' s) (hR : ∀ n s, R n s ↔ R' n s) : TableFor m K' R' := by
  intro s
  obtain ⟨h1, h2⟩ := h s
  refine ⟨by rw [h1, hK], ?_⟩
  intro names hn
  obtain ⟨hp, hm⟩ := h2 names hn
  exact ⟨hp, fun n => by rw [hm, hR]⟩

theorem tableFor_insert (m m' : List (String × List String)) (K : String → Prop)
    (R : String → String → Prop) (stop name : String)
    (hlook : ∀ k', m'.lookup k' =
      if k' = stop then some (setInsert ((m.lookup stop).getD []) name) else m.lookup k')
    (h : TableFor m K R) (hRK : ∀ n s, R n s → K s) :
    TableFor m' (fun s => K s ∨ s = stop) (fun n s => R n s ∨ (n = name ∧ s = stop)) := by
  intro s
  obtain ⟨h1, h2⟩ := h s
  rw [hlook]
  by_cases hs : s = stop
  · subst hs
    rw [if_pos rfl]
    refine ⟨by simp, ?_⟩
    intro names hn
    have hn' : names = setInsert ((m.lookup s).getD []) name := (Option.some.inj hn).symm
    subst hn'
    cases hl : m.lookup s with
    | none =>
      have hnk : ¬ K s := h1.mp hl
      refine ⟨pairwise_setInsert _ _ (by simp), ?_⟩
      intro n
      rw [mem_setInsert]
      simp only [Option.getD_none, List.not_mem_nil, or_false, and_true]
      constructor
      · intro hn; right; exact hn
      · intro hn
        rcases hn with hn | hn
        · exact absurd (hRK n s hn) hnk
        · exact hn
    | some X =>
      obtain ⟨hp, hm⟩ := h2 X hl
      refine ⟨pairwise_setInsert _ _ hp, ?_⟩
      intro n
      rw [mem_setInsert]
      simp only [Option.getD_some, and_true]
      rw [hm]
      tauto
  · rw [if_neg hs]
    refine ⟨by rw [h1]; simp [hs], ?_⟩
    intro names hn
    obtain ⟨hp, hm⟩ := h2 names hn
    refine ⟨hp, fun n => ?_⟩
    rw [hm]
    simp [hs]

theorem tableFor_add (m : List (String × List String)) (K : String → Prop)
    (R : String → String → Prop) (stop name : String)
    (h : TableFor m K R) (hRK : ∀ n s, R n s → K s) :
    TableFor (stopsToBusesAdd m stop name) (fun s => K s ∨ s = stop)
      (fun n s => R n s ∨ (n = name ∧ s = stop)) :=
  tableFor_insert m _ K R stop name (fun k' => lookup_umapSet m stop k' _) h hRK

theorem tableFor_add_fold (name : String) (l : List String) :
    ∀ (m : List (String × List String)) (K : String → Prop) (R : String → String → Prop),
    TableFor m K R → (∀ n s, R n s → K s) →
    TableFor (l.foldl (fun m stop => stopsToBusesAdd m stop name) m)
      (fun s => K s ∨ s ∈ l) (fun n s => R n s ∨ (n = name ∧ s ∈ l)) := by
  induction l with
  | nil =>
    intro m K R h _
    exact tableFor_congr m K _ R _ h (by simp) (by simp)
  | cons stop l ih =>
    intro m K R h hRK
    rw [List.foldl_cons]
    have h1 := tableFor_add m K R stop name h hRK
    have h2 := ih _ _ _ h1 (by
      intro n s hr
      rcases hr with hr | ⟨_, hr⟩
      · left; exact hRK n s hr
      · right; exact hr)
    refine tableFor_congr _ _ _ _ _ h2 ?_ ?_
    · intro s
      simp only [List.mem_cons]
      tauto
    · intro n s
      simp only [List.mem_cons]
      tauto

theorem tableFor_declare (m : List (String × List String)) (K : String → Prop)
    (R : String → String → Prop) (stop : String)
    (h : TableFor m K R) (hRK : ∀ n s, R n s → K s) :
    TableFor (if (m.lookup stop).isNone then umapSet m stop [] else m)
      (fun s => K s ∨ s = stop) R := by
  intro s
  obtain ⟨h1, h2⟩ := h s
  cases hl : m.lookup stop with
  | none =>
    have hnk : ¬ K stop := ((h stop).1).mp hl
    rw [Option.isNone_none, if_pos rfl, lookup_umapSet]
    by_cases hs : s = stop
    · subst hs
      rw [if_pos rfl]
      refine ⟨by simp, ?_⟩
      intro names hn
      have hn' : names = [] := (Option.some.inj hn).symm
      subst hn'
      refine ⟨by simp, fun n => ?_⟩
      simp only [List.not_mem_nil, false_iff]
      exact fun hr => hnk (hRK n s hr)
    · rw [if_neg hs]
      exact ⟨by rw [h1]; simp [hs], h2⟩
  | some X =>
    rw [Option.isNone_some, if_neg (by simp)]
    refine ⟨?_, h2⟩
    rw [h1]
    by_cases hs : s = stop
    · subst hs
      have hk : K s := by
        by_contra hk
        have := ((h s).1).mpr hk
        rw [hl] at this
        cases this
      simp [hk]
    · simp [hs]

theorem listed_known (requests : List UpdateRequest) (n s : String)
    (h : Listed requests n s) : Declared requests s ∨ ∃ n, Listed requests n s :=
  Or.inr ⟨n, h⟩

theorem busNames_append (a b : List UpdateRequest) :
    busNames (a ++ b) = busNames a ++ busNames b := by
  unfold busNames
  rw [List.filterMap_append]

theorem mem_busNames (requests : List UpdateRequest) (n : String) (stops : List String)
    (type_ : RouteType) (h : UpdateRequest.bus n stops type_ ∈ requests) :
    n ∈ busNames requests := by
  unfold busNames
  rw [List.mem_filterMap]
  exact ⟨_, h, rfl⟩

theorem updateStep_bus (db : Database) (hist : List UpdateRequest) (name : String)
    (stops : List String) (type_ : RouteType)
    (ht : TableFor db.stops_to_buses_ (fun s => Declared hist s ∨ ∃ n, Listed hist n s)
      (Listed hist))
    (hb : BusesFrom db.buses_ hist) :
    ∃ db', updateStep db (.bus name stops type_) = .ok db' ∧
      TableFor db'.stops_to_buses_
        (fun s => Declared (hist ++ [.bus name stops type_]) s ∨
          ∃ n, Listed (hist ++ [.bus name stops type_]) n s)
        (Listed (hist ++ [.bus name stops type_])) ∧
      BusesFrom db'.buses_ (hist ++ [.bus name stops type_]) := by
  refine ⟨_, rfl, ?_, ?_⟩
  · have h := tableFor_add_fold name stops db.stops_to_buses_ _ _ ht (listed_known hist)
    have hL : ∀ n s, (Listed hist n s ∨ (n = name ∧ s ∈ stops)) ↔
        Listed (hist ++ [.bus name stops type_]) n s := by
      intro n s
      unfold Listed
      constructor
      · rintro (⟨st, ty, hm, hs⟩ | ⟨rfl, hs⟩)
        · exact ⟨st, ty, List.mem_append_left _ hm, hs⟩
        · exact ⟨stops, type_, by simp, hs⟩
      · rintro ⟨st, ty, hm, hs⟩
        rcases List.mem_append.mp hm with hm | hm
        · left; exact ⟨st, ty, hm, hs⟩
        · right
          rw [List.mem_singleton] at hm
          cases hm
          exact ⟨rfl, hs⟩
    refine tableFor_congr _ _ _ _ _ h ?_ hL
    intro s
    have hD : Declared (hist ++ [.bus name stops type_]) s ↔ Declared hist s := by
      unfold Declared
      constructor
      · rintro ⟨lat, lon, d, hm⟩
        rcases List.mem_append.mp hm with hm | hm
        · exact ⟨lat, lon, d, hm⟩
        · rw [List.mem_singleton] at hm; cases hm
      · rintro ⟨lat, lon, d, hm⟩
        exact ⟨lat, lon, d, List.mem_append_left _ hm⟩
    rw [hD]
    constructor
    · rintro ((hd | ⟨n, hl⟩) | hs)
      · left; exact hd
      · right; exact ⟨n, (hL n s).mp (Or.inl hl)⟩
      · right; exact ⟨name, (hL name s).mp (Or.inr ⟨rfl, hs⟩)⟩
    · rintro (hd | ⟨n, hl⟩)
      · left; left; exact hd
      · rcases (hL n s).mpr hl with hl | ⟨_, hs⟩
        · left; right; exact ⟨n, hl⟩
        · right; exact hs
  · obtain ⟨hb1, hb2⟩ := hb
    constructor
    · intro n bus hm
      rcases mem_mapInsert _ _ _ _ hm with hm | hm
      · obtain ⟨st, ty, hr, he⟩ := hb1 n bus hm
        exact ⟨st, ty, List.mem_append_left _ hr, he⟩
      · cases hm
        exact ⟨stops, type_, by simp, rfl⟩
    · intro hnd n st ty hm
      rw [busNames_append, List.nodup_append] at hnd
      obtain ⟨hnd1, _, hdisj⟩ := hnd
      rcases List.mem_append.mp hm with hm | hm
      · exact mem_mapInsert_of_mem _ _ _ _ (hb2 hnd1 n st ty hm)
      · rw [List.mem_singleton] at hm
        cases hm
        apply mem_mapInsert_new
        intro v0 hv0
        obtain ⟨st', ty', hr, _⟩ := hb1 name v0 hv0
        exact hdisj (mem_busNames hist name st' ty' hr) (by simp [busNames])

theorem updateStep_stop (db : Database) (hist : List UpdateRequest) (name : String)
    (lat lon : ℚ) (d : List (String × Int))
    (ht : TableFor db.stops_to_buses_ (fun s => Declared hist s ∨ ∃ n, Listed hist n s)
      (Listed hist))
    (hb : BusesFrom db.buses_ hist) :
    ∃ db', updateStep db (.stop name lat lon d) = .ok db' ∧
      TableFor db'.stops_to_buses_
        (fun s => Declared (hist ++ [.stop name lat lon d]) s ∨
          ∃ n, Listed (hist ++ [.stop name lat lon d]) n s)
        (Listed (hist ++ [.stop name lat lon d])) ∧
      BusesFrom db'.buses_ (hist ++ [.stop name lat lon d]) := by
  have hL : ∀ n s, Listed hist n s ↔ Listed (hist ++ [.stop name lat lon d]) n s := by
    intro n s
    unfold Listed
    constructor
    · rintro ⟨st, ty, hm, hs⟩
      exact ⟨st, ty, List.mem_append_left _ hm, hs⟩
    · rintro ⟨st, ty, hm, hs⟩
      rcases List.mem_append.mp hm with hm | hm
      · exact ⟨st, ty, hm, hs⟩
      · rw [List.mem_singleton] at hm; cases hm
  refine ⟨_, rfl, ?_, ?_⟩
  · have h := tableFor_declare db.stops_to_buses_ _ _ name ht (listed_known hist)
    refine tableFor_congr _ _ _ _ _ h ?_ hL
    intro s
    have hD : Declared (hist ++ [.stop name lat lon d]) s ↔ (Declared hist s ∨ s = name) := by
      unfold Declared
      constructor
      · rintro ⟨lat', lon', d', hm⟩
        rcases List.mem_append.mp hm with hm | hm
        · left; exact ⟨lat', lon', d', hm⟩
        · rw [List.mem_singleton] at hm; cases hm; right; rfl
      · rintro (⟨lat', lon', d', hm⟩ | rfl)
        · exact ⟨lat', lon', d', List.mem_append_left _ hm⟩
        · exact ⟨lat, lon, d, by simp⟩
    rw [hD]
    constructor
    · rintro ((hd | ⟨n, hl⟩) | hs)
      · left; left; exact hd
      · right; exact ⟨n, (hL n s).mp hl⟩
      · left; right; exact hs
    · rintro ((hd | hs) | ⟨n, hl⟩)
      · left; left; exact hd
      · right; exact hs
      · left; right; exact ⟨n, (hL n s).mpr hl⟩
  · obtain ⟨hb1, hb2⟩ := hb
    have hbn : busNames (hist ++ [.stop name lat lon d]) = busNames hist := by
      rw [busNames_append]
      simp [busNames]
    constructor
    · intro n bus hm
      obtain ⟨st, ty, hr, he⟩ := hb1 n bus hm
      exact ⟨st, ty, List.mem_append_left _ hr, he⟩
    · intro hnd n st ty hm
      rw [hbn] at hnd
      rcases List.mem_append.mp hm with hm | hm
      · exact hb2 hnd n st ty hm
      · rw [List.mem_singleton] at hm; cases hm

theorem updateDatabase_fold (requests : List UpdateRequest) :
    ∀ (db : Database) (hist : List UpdateRequest),
    UpdateRequest.other ∉ requests →
    TableFor db.stops_to_buses_ (fun s => Declared hist s ∨ ∃ n, Listed hist n s)
      (Listed hist) →
    BusesFrom db.buses_ hist →
    ∃ db', db.UpdateDatabase requests = .ok db' ∧
      TableFor db'.stops_to_buses_
        (fun s => Declared (hist ++ requests) s ∨ ∃ n, Listed (hist ++ requests) n s)
        (Listed (hist ++ requests)) ∧
      BusesFrom db'.buses_ (hist ++ requests) := by
  induction requests with
  | nil =>
    intro db hist _ ht hb
    rw [List.append_nil]
    exact ⟨db, rfl, ht, hb⟩
  | cons r requests ih =>
    intro db hist hno ht hb
    have hno' : UpdateRequest.other ∉ requests := fun h => hno (List.mem_cons_of_mem _ h)
    have hstep : ∃ db', updateStep db r = .ok db' ∧
        TableFor db'.stops_to_buses_
          (fun s => Declared (hist ++ [r]) s ∨ ∃ n, Listed (hist ++ [r]) n s)
          (Listed (hist ++ [r])) ∧
        BusesFrom db'.buses_ (hist ++ [r]) := by
      cases r with
      | bus name stops type_ => exact updateStep_bus db hist name stops type_ ht hb
      | stop name lat lon d => exact updateStep_stop db hist name lat lon d ht hb
      | other => exact absurd (List.mem_cons_self _ _) hno
    obtain ⟨db1, h1, ht1, hb1⟩ := hstep
    obtain ⟨db2, h2, ht2, hb2⟩ := ih db1 (hist ++ [r]) hno' ht1 hb1
    rw [List.append_assoc, List.singleton_append] at ht2 hb2
    refine ⟨db2, ?_, ht2, hb2⟩
    unfold Database.UpdateDatabase at h2 ⊢
    rw [List.foldlM_cons, h1, ok_bind, h2]

theorem foldl_push_string (s : List String) (acc : List Node) :
    s.foldl (fun buses b => buses ++ [Node.string b]) acc = acc ++ s.map Node.string := by
  induction s generalizing acc with
  | nil => simp
  | cons b s ih => rw [List.foldl_cons, ih]; simp

theorem processStopQuery_none (db : Database) (request_id : Int) (name : String)
    (h : db.stops_to_buses_.lookup name = none) :
    db.ProcessStopQuery request_id name =
      [("error_message", Node.string "not found"), ("request_id", Node.int request_id)] := by
  unfold Database.ProcessStopQuery
  rw [h]
  have h1 : strLess "error_message" "request_id" = true := by decide!
  simp only [mapAssign, h1, if_true]

theorem processStopQuery_some (db : Database) (request_id : Int) (name : String)
    (names : List String) (h : db.stops_to_buses_.lookup name = some names) :
    db.ProcessStopQuery request_id name =
      [("buses", Node.array (names.map Node.string)), ("request_id", Node.int request_id)] := by
  unfold Database.ProcessStopQuery
  rw [h]
  have h1 : strLess "buses" "request_id" = true := by decide!
  cases names with
  | nil => simp only [mapAssign, h1, if_true, List.isEmpty_nil, List.map_nil]
  | cons n names =>
    simp only [mapAssign, h1, if_true, List.isEmpty_cons, foldl_push_string, List.nil_append]
    simp

/-- C25: after the updates (Bus and Stop requests, into a database with no
entries), the response to a Stop query on `s` is the error "not found" when no
Stop request declares `s` and no Bus request lists it; otherwise its `buses`
array holds, in strictly ascending order and so each once, exactly the names of
the Bus requests whose stop list contains `s` (none when there is no such
request); when the Bus requests have distinct names these are the names of the
buses of the catalog whose stop list contains `s`. -/
theorem ProcessStopQuery_spec (db0 : Database) (requests : List UpdateRequest)
    (hempty : db0.stops_to_buses_ = []) (hbuses : db0.buses_ = [])
    (hreq : UpdateRequest.other ∉ requests) :
    ∃ db, db0.UpdateDatabase requests = .ok db ∧
      ∀ (request_id : Int) (s : String),
        ((¬ Declared requests s ∧ ¬ ∃ n, Listed requests n s) →
          db.ProcessStopQuery request_id s =
            [("error_message", Node.string "not found"), ("request_id", Node.int request_id)]) ∧
        ((Declared requests s ∨ ∃ n, Listed requests n s) →
          ∃ names : List String,
            db.ProcessStopQuery request_id s =
              [("buses", Node.array (names.map Node.string)),
               ("request_id", Node.int request_id)] ∧
            names.Pairwise (fun a b => a < b) ∧ names.Nodup ∧
            (∀ n, n ∈ names ↔ Listed requests n s) ∧
            ((¬ ∃ n, Listed requests n s) → names = []) ∧
            ((busNames requests).Nodup →
              ∀ n, n ∈ names ↔ ∃ bus, (n, bus) ∈ db.buses_ ∧ s ∈ bus.GetStops)) := by
  have ht0 : TableFor db0.stops_to_buses_
      (fun s => Declared [] s ∨ ∃ n, Listed [] n s) (Listed []) := by
    intro s
    rw [hempty]
    refine ⟨?_, fun names h => by cases h⟩
    simp [Declared, Listed]
  have hb0 : BusesFrom db0.buses_ [] := by
    rw [hbuses]
    exact ⟨fun n bus h => (by cases h), fun _ n st ty h => (by cases h)⟩
  obtain ⟨db, hdb, ht, hb1, hb2⟩ := updateDatabase_fold requests db0 [] hreq ht0 hb0
  rw [List.nil_append] at ht hb1 hb2
  refine ⟨db, hdb, ?_⟩
  intro request_id s
  obtain ⟨hnone, hsome⟩ := ht s
  constructor
  · rintro ⟨hd, hl⟩
    apply processStopQuery_none
    rw [hnone]
    rintro (h | h)
    · exact hd h
    · exact hl h
  · intro hk
    cases hlook : db.stops_to_buses_.lookup s with
    | none => exact absurd hk (hnone.mp hlook)
    | some names =>
      obtain ⟨hp, hm⟩ := hsome names hlook
      refine ⟨names, processStopQuery_some db request_id s names hlook, hp, ?_, hm, ?_, ?_⟩
      · exact hp.imp (fun h => ne_of_lt h)
      · intro hno
        rw [List.eq_nil_iff_forall_not_mem]
        intro n hn
        exact hno ⟨n, (hm n).mp hn⟩
      · intro hnd n
        rw [hm]
        constructor
        · rintro ⟨st, ty, hr, hs⟩
          exact ⟨Bus.new n st ty, hb2 hnd n st ty hr, hs⟩
        · rintro ⟨bus, hmem, hs⟩
          obtain ⟨st, ty, hr, he⟩ := hb1 n bus hmem
          rw [he] at hs
          exact ⟨st, ty, hr, hs⟩

/-- Witness of C25: the stop D is declared and on no bus, the buses `9` and
`10` stop at A, and Z is unknown: the responses list no bus for D, `10` before
`9` for A, and "not found" for Z. -/
theorem ProcessStopQuery_spec_witness :
    emptyDb.stops_to_buses_ = [] ∧ emptyDb.buses_ = [] ∧ UpdateRequest.other ∉ stopUpdates ∧
    stopQueryAfter emptyDb stopUpdates 1 "D" =
      [("buses", Node.array []), ("request_id", Node.int 1)] ∧
    stopQueryAfter emptyDb stopUpdates 2 "A" =
      [("buses", Node.array [Node.string "10", Node.string "9"]), ("request_id", Node.int 2)] ∧
    stopQueryAfter emptyDb stopUpdates 3 "Z" =
      [("error_message", Node.string "not found"), ("request_id", Node.int 3)] ∧
    ∃ db, emptyDb.UpdateDatabase stopUpdates = .ok db ∧
      ∀ (request_id : Int) (s : String),
        ((¬ Declared stopUpdates s ∧ ¬ ∃ n, Listed stopUpdates n s) →
          db.ProcessStopQuery request_id s =
            [("error_message", Node.string "not found"), ("request_id", Node.int request_id)]) ∧
        ((Declared stopUpdates s ∨ ∃ n, Listed stopUpdates n s) →
          ∃ names : List String,
            db.ProcessStopQuery request_id s =
              [("buses", Node.array (names.map Node.string)),
               ("request_id", Node.int request_id)] ∧
            names.Pairwise (fun a b => a < b) ∧ names.Nodup ∧
            (∀ n, n ∈ names ↔ Listed stopUpdates n s) ∧
            ((¬ ∃ n, Listed stopUpdates n s) → names = []) ∧
            ((busNames stopUpdates).Nodup →
              ∀ n, n ∈ names ↔ ∃ bus, (n, bus) ∈ db.buses_ ∧ s ∈ bus.GetStops)) :=
  ⟨rfl, rfl, by decide, by rfl, by rfl, by rfl,
    ProcessStopQuery_spec emptyDb stopUpdates rfl rfl (by decide)⟩


/-! ## Theorems: the ranks of the layout -/

theorem areNeighbours_noId (db : Database) (a b : MapItem) :
    db.AreNeighbours a.noId b.noId = db.AreNeighbours a b := rfl

theorem areNeighbours_ok (db : Database) (a b : MapItem) (ha : ItemOk db a) (hb : ItemOk db b) :
    ∃ r, db.AreNeighbours a b = .ok r := by
  have hat : ∀ c, c < db.companies_.length → ∃ company, vecAt db.companies_ c = .ok company := by
    intro c hc
    refine ⟨db.companies_[c], ?_⟩
    unfold vecAt
    rw [List.getElem?_eq_getElem hc]
  unfold Database.AreNeighbours
  cases hls : a.stop_ptr with
  | some lname =>
    cases hrs : b.stop_ptr with
    | some rname =>
      obtain ⟨s, hs⟩ := Option.isSome_iff_exists.mp (ha.1 lname hls)
      refine ⟨decide (s.count rname ≠ 0), ?_⟩
      simp only [mapAt, hs]
      rfl
    | none =>
      cases hlc : a.company_ptr with
      | some lc =>
        cases hrc : b.company_ptr with
        | some rc =>
          obtain ⟨company, hc⟩ := hat rc (hb.2 rc hrc)
          exact ⟨_, by simp only [hc]; rfl⟩
        | none => exact ⟨false, rfl⟩
      | none =>
        cases hrc : b.company_ptr with
        | some rc =>
          obtain ⟨company, hc⟩ := hat rc (hb.2 rc hrc)
          exact ⟨_, by simp only [hc]; rfl⟩
        | none => exact ⟨false, rfl⟩
  | none =>
    cases hrs : b.stop_ptr with
    | some rname =>
      cases hlc : a.company_ptr with
      | some lc =>
        obtain ⟨company, hc⟩ := hat lc (ha.2 lc hlc)
        exact ⟨_, by simp only [hc]; rfl⟩
      | none => exact ⟨false, rfl⟩
    | none =>
      cases hlc : a.company_ptr with
      | some lc => exact ⟨false, rfl⟩
      | none => exact ⟨false, rfl⟩

theorem vecAt_of_getElem? {α : Type} (v : List α) (i : Nat) (a : α) (h : v[i]? = some a) :
    vecAt v i = .ok a := by
  unfold vecAt
  rw [h]

theorem rankInnerStep_eq (db : Database) (ys : List MapItem) (i j : Nat) (xi xj : MapItem)
    (r : Bool) (s : Int × Int) (hi : ys[i]? = some xi) (hj : ys[j]? = some xj)
    (hr : db.AreNeighbours xi xj = .ok r) :
    rankInnerStep db ys i s j =
      .ok (if r then (max s.1 (xj.id + 1), max s.2 (max s.1 (xj.id + 1))) else s) := by
  unfold rankInnerStep
  rw [vecAt_of_getElem? ys i xi hi, ok_bind, vecAt_of_getElem? ys j xj hj, ok_bind, hr, ok_bind]
  cases r <;> rfl

theorem rankInner_fold (db : Database) (ys : List MapItem) (i : Nat) (hi : i < ys.length)
    (hok : ∀ a ∈ ys, ItemOk db a) (M : Int) (hM : 0 ≤ M) :
    ∀ k, k ≤ i →
    ∃ (id M' : Int), (List.range k).foldlM (rankInnerStep db ys i) (0, M) = .ok (id, M') ∧
      0 ≤ id ∧ id ≤ M' ∧ M ≤ M' ∧
      ∀ (j : Nat) (xi xj : MapItem), j < k → ys[i]? = some xi → ys[j]? = some xj →
        db.AreNeighbours xi xj = .ok true → xj.id + 1 ≤ id := by
  intro k
  induction k with
  | zero =>
    intro _
    exact ⟨0, M, rfl, le_refl _, hM, le_refl _, fun j _ _ hj => absurd hj (Nat.not_lt_zero _)⟩
  | succ k ih =>
    intro hk
    obtain ⟨id, M', hfold, h0, hle, hM', hnb⟩ := ih (by omega)
    have hxi : ys[i]? = some ys[i] := List.getElem?_eq_getElem hi
    have hkl : k < ys.length := by omega
    have hxk : ys[k]? = some ys[k] := List.getElem?_eq_getElem hkl
    obtain ⟨r, hr⟩ := areNeighbours_ok db ys[i] ys[k] (hok _ (List.getElem_mem _))
      (hok _ (List.getElem_mem _))
    have hstep := rankInnerStep_eq db ys i k ys[i] ys[k] r (id, M') hxi hxk hr
    rw [List.range_succ, List.foldlM_append, hfold, ok_bind, List.foldlM_cons, hstep, ok_bind,
      List.foldlM_nil]
    cases r with
    | false =>
      refine ⟨id, M', rfl, h0, hle, hM', ?_⟩
      intro j xi xj hj hi' hj' hn
      by_cases hjk : j = k
      · subst hjk
        rw [hxi] at hi'
        rw [hxk] at hj'
        cases hi'
        cases hj'
        rw [hr] at hn
        cases hn
      · exact hnb j xi xj (by omega) hi' hj' hn
    | true =>
      refine ⟨max id (ys[k].id + 1), max M' (max id (ys[k].id + 1)), rfl,
        le_trans h0 (le_max_left _ _), le_max_right _ _, le_trans hM' (le_max_left _ _), ?_⟩
      intro j xi xj hj hi' hj' hn
      by_cases hjk : j = k
      · subst hjk
        rw [hxk] at hj'
        cases hj'
        exact le_max_right _ _
      · exact le_trans (hnb j xi xj (by omega) hi' hj' hn) (le_max_left _ _)

/-- The state of the rank assignment after the rounds `1 .. c`: the items keep
their coordinate and pointers, every rank lies in `[0, M]`, and among the
positions up to `c` a later neighbour has the greater rank. -/
theorem rankOuter_fold (db : Database) (xs : List MapItem)
    (hok : ∀ a ∈ xs, ItemOk db a) (hid : ∀ a ∈ xs, a.id = 0) :
    ∀ c, c ≤ xs.length - 1 →
    ∃ (ys : List MapItem) (M : Int),
      (List.range' 1 c).foldlM (rankOuterStep db) (xs, 0) = .ok (ys, M) ∧
      ys.map MapItem.noId = xs.map MapItem.noId ∧
      (∀ a ∈ ys, 0 ≤ a.id ∧ a.id ≤ M) ∧
      ∀ (i j : Nat) (a b : MapItem), j < i → i ≤ c → ys[i]? = some a → ys[j]? = some b →
        db.AreNeighbours a b = .ok true → b.id < a.id := by
  intro c
  induction c with
  | zero =>
    intro _
    refine ⟨xs, 0, rfl, rfl, ?_, ?_⟩
    · intro a ha
      rw [hid a ha]
      exact ⟨le_refl _, le_refl _⟩
    · intro i j a b hji hi0
      omega
  | succ c ih =>
    intro hc
    obtain ⟨ys, M, hfold, hsame, hrange, hnb⟩ := ih (by omega)
    have hlen : ys.length = xs.length := by
      have := congrArg List.length hsame
      simpa using this
    have hil : c + 1 < ys.length := by omega
    have hoky : ∀ a ∈ ys, ItemOk db a := by
      intro a ha
      have hmem : a.noId ∈ xs.map MapItem.noId := by
        rw [← hsame]
        exact List.mem_map_of_mem _ ha
      obtain ⟨b, hb, hab⟩ := List.mem_map.mp hmem
      have h1 : b.noId.stop_ptr = a.noId.stop_ptr := congrArg (fun x : MapItem => x.stop_ptr) hab
      have h2 : b.noId.company_ptr = a.noId.company_ptr :=
        congrArg (fun x : MapItem => x.company_ptr) hab
      obtain ⟨hb1, hb2⟩ := hok b hb
      exact ⟨fun l hl => hb1 l (h1.trans hl), fun k hk => hb2 k (h2.trans hk)⟩
    have hM : 0 ≤ M := by
      obtain ⟨h1, h2⟩ := hrange ys[c + 1] (List.getElem_mem _)
      exact le_trans h1 h2
    obtain ⟨id, M', hin, h0, hle, hMM, hnew⟩ :=
      rankInner_fold db ys (c + 1) hil hoky M hM (c + 1) (le_refl _)
    have hxi : ys[c + 1]? = some ys[c + 1] := List.getElem?_eq_getElem hil
    have hstep : rankOuterStep db (ys, M) (c + 1) =
        .ok (ys.set (c + 1) { ys[c + 1] with id := id }, M') := by
      unfold rankOuterStep
      dsimp only
      rw [hin, ok_bind, vecAt_of_getElem? ys (c + 1) _ hxi, ok_bind]
      rfl
    have h1c : 1 + c = c + 1 := by omega
    refine ⟨ys.set (c + 1) { ys[c + 1] with id := id }, M', ?_, ?_, ?_, ?_⟩
    · rw [List.range'_concat, List.foldlM_append, hfold, ok_bind, List.foldlM_cons, Nat.one_mul,
        h1c, hstep, ok_bind, List.foldlM_nil]
      rfl
    · rw [← hsame]
      apply List.ext_getElem?
      intro t
      rw [List.getElem?_map, List.getElem?_map]
      by_cases ht : c + 1 = t
      · subst ht
        rw [List.getElem?_set_self hil, hxi]
        rfl
      · rw [List.getElem?_set_ne ht]
    · intro a ha
      rcases List.mem_or_eq_of_mem_set ha with ha | ha
      · obtain ⟨h1, h2⟩ := hrange a ha
        exact ⟨h1, le_trans h2 hMM⟩
      · rw [ha]
        exact ⟨h0, hle⟩
    · intro i j a b hji hic hi hj hn
      have hjne : c + 1 ≠ j := by omega
      rw [List.getElem?_set_ne hjne] at hj
      by_cases hi1 : c + 1 = i
      · subst hi1
        rw [List.getElem?_set_self hil] at hi
        cases hi
        have := hnew j ys[c + 1] b hji hxi hj hn
        show b.id < id
        omega
      · rw [List.getElem?_set_ne hi1] at hi
        exact hnb i j a b hji (by omega) hi hj hn

theorem lookup_mapAssign {β : Type} (m : List (String × β)) (k k' : String) (v : β) :
    (mapAssign m k v).lookup k' = if k' = k then some v else m.lookup k' := by
  induction m with
  | nil =>
    unfold mapAssign
    by_cases h : k' = k
    · subst h; simp [List.lookup]
    · have : (k' == k) = false := by simpa using h
      simp [List.lookup, this, h]
  | cons kv m ih =>
    obtain ⟨k0, v0⟩ := kv
    unfold mapAssign
    by_cases h1 : strLess k k0 = true
    · rw [if_pos h1]
      by_cases h : k' = k
      · subst h; simp [List.lookup]
      · have : (k' == k) = false := by simpa using h
        rw [if_neg h, List.lookup, this]
    · rw [if_neg h1]
      by_cases h2 : strLess k0 k = true
      · rw [if_pos h2]
        have hne : k0 ≠ k := by
          rw [strLess_iff] at h2
          exact ne_of_lt h2
        by_cases h : k' = k
        · subst h
          have : (k' == k0) = false := by simpa using (fun e => hne e.symm)
          rw [List.lookup, this, ih, if_pos rfl, if_pos rfl]
        · rw [if_neg h]
          rw [if_neg h] at ih
          by_cases hk : k' = k0
          · subst hk; simp [List.lookup]
          · have : (k' == k0) = false := by simpa using hk
            rw [List.lookup, this, ih, List.lookup, this]
      · rw [if_neg h2]
        have hk : k = k0 := by
          rw [strLess_iff] at h1 h2
          exact le_antisymm (not_lt.mp h2) (not_lt.mp h1)
        subst hk
        by_cases h : k' = k
        · subst h; simp [List.lookup]
        · have : (k' == k) = false := by simpa using h
          rw [if_neg h, List.lookup, this, List.lookup, this]

/-- One insertion into `stops_neighbours_` against a relation `R` ("`n` is in
the set of `s`"). -/
theorem tableFor_neighboursAdd (m : List (String × List String))
    (R : String → String → Prop) (a b : String)
    (h : TableFor m (fun s => ∃ n, R n s) R) :
    TableFor (neighboursAdd m a b) (fun s => ∃ n, R n s ∨ (n = b ∧ s = a))
      (fun n s => R n s ∨ (n = b ∧ s = a)) := by
  have h' := tableFor_insert m (neighboursAdd m a b) _ R a b
    (fun k' => lookup_mapAssign m a k' _) h (fun n s hr => ⟨n, hr⟩)
  refine tableFor_congr _ _ _ _ _ h' ?_ (fun _ _ => Iff.rfl)
  intro s
  constructor
  · rintro (⟨n, hn⟩ | hs)
    · exact ⟨n, Or.inl hn⟩
    · exact ⟨b, Or.inr ⟨rfl, hs⟩⟩
  · rintro ⟨n, hn | ⟨_, hs⟩⟩
    · exact Or.inl ⟨n, hn⟩
    · exact Or.inr hs

theorem toSizeT_pred_le (n : Nat) (h1 : 1 ≤ n) (h2 : n < 2 ^ 31) :
    toSizeT ((n : Int) - 1) = n - 1 := toSizeT_pred n h1 h2

theorem fillNeighbours_bus_fold (stops : List String) (m : List (String × List String))
    (R : String → String → Prop) (h : TableFor m (fun s => ∃ n, R n s) R) :
    ∀ k, k ≤ stops.length - 1 →
    ∃ m', (List.range k).foldlM (fillNeighboursStep stops) m = .ok m' ∧
      TableFor m' (fun s => ∃ n, R n s ∨ AdjacentIn stops k s n)
        (fun n s => R n s ∨ AdjacentIn stops k s n) := by
  intro k
  induction k with
  | zero =>
    intro _
    refine ⟨m, rfl, tableFor_congr _ _ _ _ _ h ?_ ?_⟩
    · intro s
      constructor
      · rintro ⟨n, hn⟩; exact ⟨n, Or.inl hn⟩
      · rintro ⟨n, hn | ⟨i, hi, _⟩⟩
        · exact ⟨n, hn⟩
        · exact absurd hi (Nat.not_lt_zero _)
    · intro n s
      constructor
      · intro hn; exact Or.inl hn
      · rintro (hn | ⟨i, hi, _⟩)
        · exact hn
        · exact absurd hi (Nat.not_lt_zero _)
  | succ k ih =>
    intro hk
    obtain ⟨m1, hfold, ht⟩ := ih (by omega)
    have hk0 : k < stops.length := by omega
    have hk1 : k + 1 < stops.length := by omega
    have ha : stops[k]? = some stops[k] := List.getElem?_eq_getElem hk0
    have hb : stops[k + 1]? = some stops[k + 1] := List.getElem?_eq_getElem hk1
    have hstep : fillNeighboursStep stops m1 k =
        .ok (neighboursAdd (neighboursAdd m1 stops[k] stops[k + 1]) stops[k + 1] stops[k]) := by
      unfold fillNeighboursStep
      rw [vecAt_of_getElem? stops k _ ha, ok_bind, vecAt_of_getElem? stops (k + 1) _ hb, ok_bind]
      rfl
    refine ⟨_, by rw [List.range_succ, List.foldlM_append, hfold, ok_bind, List.foldlM_cons, hstep,
      ok_bind, List.foldlM_nil]; rfl, ?_⟩
    have h1 := tableFor_neighboursAdd m1 _ stops[k] stops[k + 1] ht
    have h2 := tableFor_neighboursAdd _ _ stops[k + 1] stops[k] h1
    have hrel : ∀ n s,
        ((R n s ∨ AdjacentIn stops k s n) ∨ (n = stops[k + 1] ∧ s = stops[k])) ∨
          (n = stops[k] ∧ s = stops[k + 1]) ↔
        (R n s ∨ AdjacentIn stops (k + 1) s n) := by
      intro n s
      constructor
      · rintro (((hr | ⟨i, hi, hadj⟩) | ⟨hn, hs⟩) | ⟨hn, hs⟩)
        · exact Or.inl hr
        · exact Or.inr ⟨i, by omega, hadj⟩
        · exact Or.inr ⟨k, by omega, Or.inl ⟨by rw [hs]; exact ha, by rw [hn]; exact hb⟩⟩
        · exact Or.inr ⟨k, by omega, Or.inr ⟨by rw [hn]; exact ha, by rw [hs]; exact hb⟩⟩
      · rintro (hr | ⟨i, hi, hadj⟩)
        · exact Or.inl (Or.inl (Or.inl hr))
        · by_cases hik : i = k
          · subst hik
            rcases hadj with ⟨h1', h2'⟩ | ⟨h1', h2'⟩
            · rw [ha] at h1'
              rw [hb] at h2'
              exact Or.inl (Or.inr ⟨(Option.some.inj h2').symm, (Option.some.inj h1').symm⟩)
            · rw [ha] at h1'
              rw [hb] at h2'
              exact Or.inr ⟨(Option.some.inj h1').symm, (Option.some.inj h2').symm⟩
          · exact Or.inl (Or.inl (Or.inr ⟨i, by omega, hadj⟩))
    refine tableFor_congr _ _ _ _ _ h2 ?_ hrel
    intro s
    constructor
    · rintro ⟨n, hn⟩
      exact ⟨n, (hrel n s).mp hn⟩
    · rintro ⟨n, hn⟩
      exact ⟨n, (hrel n s).mpr hn⟩

theorem adjacentIn_full (stops : List String) (a b : String) :
    AdjacentIn stops (stops.length - 1) a b ↔
      ∃ i : Nat, (stops[i]? = some a ∧ stops[i + 1]? = some b) ∨
        (stops[i]? = some b ∧ stops[i + 1]? = some a) := by
  constructor
  · rintro ⟨i, _, h⟩
    exact ⟨i, h⟩
  · rintro ⟨i, h⟩
    refine ⟨i, ?_, h⟩
    have hlt : i + 1 < stops.length := by
      rcases h with ⟨_, h⟩ | ⟨_, h⟩
      · by_contra hcon
        rw [List.getElem?_eq_none (not_lt.mp hcon)] at h
        cases h
      · by_contra hcon
        rw [List.getElem?_eq_none (not_lt.mp hcon)] at h
        cases h
    omega

theorem fillNeighbours_fold (buses : List (String × Bus))
    (hb : ∀ kb ∈ buses, kb.2.GetStops ≠ [] ∧ kb.2.GetStops.length < 2 ^ 31) :
    ∀ (m : List (String × List String)) (R : String → String → Prop),
    TableFor m (fun s => ∃ n, R n s) R →
    ∃ m', buses.foldlM
        (fun m kb =>
          (List.range (toSizeT ((kb.2.GetStops.length : Int) - 1))).foldlM
            (fillNeighboursStep kb.2.GetStops) m) m = .ok m' ∧
      TableFor m' (fun s => ∃ n, R n s ∨ Adjacent buses s n)
        (fun n s => R n s ∨ Adjacent buses s n) := by
  induction buses with
  | nil =>
    intro m R h
    refine ⟨m, rfl, tableFor_congr _ _ _ _ _ h ?_ ?_⟩
    · intro s
      constructor
      · rintro ⟨n, hn⟩; exact ⟨n, Or.inl hn⟩
      · rintro ⟨n, hn | ⟨kb, hkb, _⟩⟩
        · exact ⟨n, hn⟩
        · cases hkb
    · intro n s
      constructor
      · intro hn; exact Or.inl hn
      · rintro (hn | ⟨kb, hkb, _⟩)
        · exact hn
        · cases hkb
  | cons kb buses ih =>
    intro m R h
    obtain ⟨hne, hlt⟩ := hb kb (List.mem_cons_self _ _)
    have hpos : 1 ≤ kb.2.GetStops.length := by
      cases hs : kb.2.GetStops with
      | nil => exact absurd hs hne
      | cons a l => simp
    obtain ⟨m1, hfold, ht⟩ :=
      fillNeighbours_bus_fold kb.2.GetStops m R h (kb.2.GetStops.length - 1) (le_refl _)
    obtain ⟨m2, hfold2, ht2⟩ := ih (fun kb' hkb' => hb kb' (List.mem_cons_of_mem _ hkb')) m1 _ ht
    refine ⟨m2, ?_, ?_⟩
    · rw [List.foldlM_cons, toSizeT_pred_le _ hpos hlt, hfold, ok_bind, hfold2]
    · have hrel : ∀ n s,
          ((R n s ∨ AdjacentIn kb.2.GetStops (kb.2.GetStops.length - 1) s n) ∨
            Adjacent buses s n) ↔ (R n s ∨ Adjacent (kb :: buses) s n) := by
        intro n s
        rw [adjacentIn_full]
        constructor
        · rintro ((hr | hadj) | ⟨kb', hkb', hadj⟩)
          · exact Or.inl hr
          · exact Or.inr ⟨kb, List.mem_cons_self _ _, hadj⟩
          · exact Or.inr ⟨kb', List.mem_cons_of_mem _ hkb', hadj⟩
        · rintro (hr | ⟨kb', hkb', hadj⟩)
          · exact Or.inl (Or.inl hr)
          · rcases List.mem_cons.mp hkb' with hkb' | hkb'
            · subst hkb'
              exact Or.inl (Or.inr hadj)
            · exact Or.inr ⟨kb', hkb', hadj⟩
      refine tableFor_congr _ _ _ _ _ ht2 ?_ hrel
      intro s
      constructor
      · rintro ⟨n, hn⟩
        exact ⟨n, (hrel n s).mp hn⟩
      · rintro ⟨n, hn⟩
        exact ⟨n, (hrel n s).mpr hn⟩

/-- `FillStopsNeighbours` on an empty table, every bus with a stop: the entry
of a stop is the set of the stops adjacent to it on some bus, and the stops
with an entry are those adjacent to some stop. -/
theorem fillStopsNeighbours_table (db0 : Database) (h0 : db0.stops_neighbours_ = [])
    (hb : ∀ kb ∈ db0.buses_, kb.2.GetStops ≠ [] ∧ kb.2.GetStops.length < 2 ^ 31) :
    ∃ m, db0.FillStopsNeighbours = .ok { db0 with stops_neighbours_ := m } ∧
      TableFor m (fun s => ∃ n, Adjacent db0.buses_ s n) (fun n s => Adjacent db0.buses_ s n) := by
  have hinit : TableFor db0.stops_neighbours_
      (fun s => ∃ n, (fun (_ _ : String) => False) n s) (fun (_ _ : String) => False) := by
    intro s
    rw [h0]
    refine ⟨by simp, fun names h => by cases h⟩
  obtain ⟨m, hfold, ht⟩ := fillNeighbours_fold db0.buses_ hb db0.stops_neighbours_ _ hinit
  refine ⟨m, ?_, tableFor_congr _ _ _ _ _ ht ?_ ?_⟩
  · unfold Database.FillStopsNeighbours
    rw [hfold]
    rfl
  · intro s
    simp
  · intro n s
    simp

theorem foldlM_concat_ok {α β : Type} (f : β → α → Except Err β) (l : List α) (x : α)
    (s r : β) (h : (l ++ [x]).foldlM f s = .ok r) :
    ∃ s', l.foldlM f s = .ok s' ∧ f s' x = .ok r := by
  rw [List.foldlM_append] at h
  cases hl : l.foldlM f s with
  | error e => rw [hl] at h; cases h
  | ok s' =>
    rw [hl, ok_bind, List.foldlM_cons] at h
    cases hf : f s' x with
    | error e => rw [hf] at h; cases h
    | ok r' =>
      rw [hf, ok_bind, List.foldlM_nil] at h
      cases h
      exact ⟨s', rfl, hf⟩

theorem vecAt_ok {α : Type} (v : List α) (i : Nat) (a : α) (h : vecAt v i = .ok a) :
    v[i]? = some a := by
  unfold vecAt at h
  cases hv : v[i]? with
  | none => rw [hv] at h; cases h
  | some x => rw [hv] at h; cases h; rfl

theorem rankInnerStep_inv (db : Database) (ys : List MapItem) (i j : Nat) (s s' : Int × Int)
    (h : rankInnerStep db ys i s j = .ok s') :
    ∃ (xi xj : MapItem) (r : Bool), ys[i]? = some xi ∧ ys[j]? = some xj ∧
      db.AreNeighbours xi xj = .ok r ∧
      s' = if r then (max s.1 (xj.id + 1), max s.2 (max s.1 (xj.id + 1))) else s := by
  unfold rankInnerStep at h
  cases h1 : vecAt ys i with
  | error e => rw [h1] at h; cases h
  | ok xi =>
    rw [h1, ok_bind] at h
    cases h2 : vecAt ys j with
    | error e => rw [h2] at h; cases h
    | ok xj =>
      rw [h2, ok_bind] at h
      cases h3 : db.AreNeighbours xi xj with
      | error e => rw [h3] at h; cases h
      | ok r =>
        rw [h3, ok_bind] at h
        refine ⟨xi, xj, r, vecAt_ok _ _ _ h1, vecAt_ok _ _ _ h2, h3, ?_⟩
        cases r
        · cases h; rfl
        · cases h; rfl

theorem rankInner_inv (db : Database) (ys : List MapItem) (i : Nat) (M : Int) (hM : 0 ≤ M) :
    ∀ (k : Nat) (id M' : Int),
    (List.range k).foldlM (rankInnerStep db ys i) (0, M) = .ok (id, M') →
    0 ≤ id ∧ id ≤ M' ∧ M ≤ M' ∧
      ∀ j : Nat, j < k → ∃ (xi xj : MapItem) (r : Bool), ys[i]? = some xi ∧ ys[j]? = some xj ∧
        db.AreNeighbours xi xj = .ok r ∧ (r = true → xj.id + 1 ≤ id) := by
  intro k
  induction k with
  | zero =>
    intro id M' h
    cases h
    exact ⟨le_refl _, hM, le_refl _, fun j hj => absurd hj (Nat.not_lt_zero _)⟩
  | succ k ih =>
    intro id M' h
    rw [List.range_succ] at h
    obtain ⟨⟨id0, M0⟩, hfold, hstep⟩ := foldlM_concat_ok _ _ _ _ _ h
    obtain ⟨h0, hle, hMM, hnb⟩ := ih id0 M0 hfold
    obtain ⟨xi, xk, r, hxi, hxk, hr, hs⟩ := rankInnerStep_inv db ys i k _ _ hstep
    cases r with
    | false =>
      have hs' : (id, M') = (id0, M0) := hs
      cases hs'
      refine ⟨h0, hle, hMM, ?_⟩
      intro j hj
      by_cases hjk : j = k
      · subst hjk
        exact ⟨xi, xk, false, hxi, hxk, hr, fun hf => by cases hf⟩
      · exact hnb j (by omega)
    | true =>
      have hs' : (id, M') = (max id0 (xk.id + 1), max M0 (max id0 (xk.id + 1))) := hs
      cases hs'
      refine ⟨le_trans h0 (le_max_left _ _), le_max_right _ _, le_trans hMM (le_max_left _ _), ?_⟩
      intro j hj
      by_cases hjk : j = k
      · subst hjk
        exact ⟨xi, xk, true, hxi, hxk, hr, fun _ => le_max_right _ _⟩
      · obtain ⟨xi', xj, r, h1, h2, h3, h4⟩ := hnb j (by omega)
        exact ⟨xi', xj, r, h1, h2, h3, fun hr' => le_trans (h4 hr') (le_max_left _ _)⟩

theorem areNeighbours_with_id (db : Database) (a b : MapItem) (x : Int) :
    db.AreNeighbours { a with id := x } b = db.AreNeighbours a b := rfl

theorem rankOuterStep_inv (db : Database) (ys ys' : List MapItem) (M M' : Int) (i : Nat)
    (h : rankOuterStep db (ys, M) i = .ok (ys', M')) :
    ∃ (id : Int) (xi : MapItem),
      (List.range i).foldlM (rankInnerStep db ys i) (0, M) = .ok (id, M') ∧
      ys[i]? = some xi ∧ ys' = ys.set i { xi with id := id } := by
  unfold rankOuterStep at h
  dsimp only at h
  cases h1 : (List.range i).foldlM (rankInnerStep db ys i) (0, M) with
  | error e => rw [h1] at h; cases h
  | ok r =>
    obtain ⟨id, M1⟩ := r
    rw [h1, ok_bind] at h
    cases h2 : vecAt ys i with
    | error e => rw [h2] at h; cases h
    | ok xi =>
      rw [h2, ok_bind] at h
      cases h
      exact ⟨id, xi, rfl, vecAt_ok _ _ _ h2, rfl⟩

/-- Whenever the rounds `1 .. c` of the rank assignment return: the items keep
their coordinate and pointers, every rank lies in `[0, M]`, every comparison
of a position up to `c` with an earlier one returned, and where it returned
`true` the later item has the greater rank. -/
theorem rankOuter_inv (db : Database) (xs : List MapItem) (hid : ∀ a ∈ xs, a.id = 0) :
    ∀ (c : Nat) (ys : List MapItem) (M : Int),
    (List.range' 1 c).foldlM (rankOuterStep db) (xs, 0) = .ok (ys, M) →
      ys.map MapItem.noId = xs.map MapItem.noId ∧
      (∀ a ∈ ys, 0 ≤ a.id ∧ a.id ≤ M) ∧
      ∀ (i j : Nat), j < i → i ≤ c → ∃ (a b : MapItem) (r : Bool),
        ys[i]? = some a ∧ ys[j]? = some b ∧ db.AreNeighbours a b = .ok r ∧
        (r = true → b.id < a.id) := by
  intro c
  induction c with
  | zero =>
    intro ys M h
    cases h
    refine ⟨rfl, ?_, ?_⟩
    · intro a ha
      rw [hid a ha]
      exact ⟨le_refl _, le_refl _⟩
    · intro i j hji hi0
      omega
  | succ c ih =>
    intro ys' M' h
    rw [List.range'_concat, Nat.one_mul] at h
    obtain ⟨⟨ys, M⟩, hfold, hstep⟩ := foldlM_concat_ok _ _ _ _ _ h
    obtain ⟨hsame, hrange, hnb⟩ := ih ys M hfold
    have h1c : 1 + c = c + 1 := by omega
    rw [h1c] at hstep
    obtain ⟨id, xi, hin, hxi, hys'⟩ := rankOuterStep_inv db ys ys' M M' (c + 1) hstep
    have hil : c + 1 < ys.length := by
      by_contra hcon
      rw [List.getElem?_eq_none (not_lt.mp hcon)] at hxi
      cases hxi
    have hM : 0 ≤ M := by
      obtain ⟨h1, h2⟩ := hrange ys[c + 1] (List.getElem_mem _)
      exact le_trans h1 h2
    obtain ⟨h0, hle, hMM, hnew⟩ := rankInner_inv db ys (c + 1) M hM (c + 1) id M' hin
    subst hys'
    refine ⟨?_, ?_, ?_⟩
    · rw [← hsame]
      apply List.ext_getElem?
      intro t
      rw [List.getElem?_map, List.getElem?_map]
      by_cases ht : c + 1 = t
      · subst ht
        rw [List.getElem?_set_self hil, hxi]
        rfl
      · rw [List.getElem?_set_ne ht]
    · intro a ha
      rcases List.mem_or_eq_of_mem_set ha with ha | ha
      · obtain ⟨h1, h2⟩ := hrange a ha
        exact ⟨h1, le_trans h2 hMM⟩
      · rw [ha]
        exact ⟨h0, hle⟩
    · intro i j hji hic
      have hjne : c + 1 ≠ j := by omega
      by_cases hi1 : c + 1 = i
      · subst hi1
        obtain ⟨xi', xj, r, h1, h2, h3, h4⟩ := hnew j hji
        rw [hxi] at h1
        cases h1
        refine ⟨{ xi with id := id }, xj, r, List.getElem?_set_self hil, ?_, ?_, ?_⟩
        · rw [List.getElem?_set_ne hjne]; exact h2
        · rw [areNeighbours_with_id]; exact h3
        · intro hr
          have := h4 hr
          show xj.id < id
          omega
      · obtain ⟨a, b, r, h1, h2, h3, h4⟩ := hnb i j hji (by omega)
        refine ⟨a, b, r, ?_, ?_, h3, h4⟩
        · rw [List.getElem?_set_ne hi1]; exact h1
        · rw [List.getElem?_set_ne hjne]; exact h2

theorem assignRanks_inv (db : Database) (xs ys : List MapItem) (M : Int)
    (hid : ∀ a ∈ xs, a.id = 0) (h : db.assignRanks xs = .ok (ys, M)) :
    ys.map MapItem.noId = xs.map MapItem.noId ∧
    (∀ a ∈ ys, 0 ≤ a.id ∧ a.id ≤ M) ∧
    ∀ (i j : Nat) (a b : MapItem), j < i → ys[i]? = some a → ys[j]? = some b →
      ∃ r : Bool, db.AreNeighbours a b = .ok r ∧ (r = true → b.id < a.id) := by
  obtain ⟨hsame, hrange, hnb⟩ := rankOuter_inv db xs hid (xs.length - 1) ys M h
  refine ⟨hsame, hrange, ?_⟩
  intro i j a b hji hi hj
  have hlen : ys.length = xs.length := by
    have := congrArg List.length hsame
    simpa using this
  have hil : i < ys.length := by
    by_contra hcon
    rw [List.getElem?_eq_none (not_lt.mp hcon)] at hi
    cases hi
  obtain ⟨a', b', r, h1, h2, h3, h4⟩ := hnb i j hji (by omega)
  rw [hi] at h1
  rw [hj] at h2
  cases h1
  cases h2
  exact ⟨r, h3, h4⟩

theorem assignRanks_ok (db : Database) (xs : List MapItem)
    (hok : ∀ a ∈ xs, ItemOk db a) (hid : ∀ a ∈ xs, a.id = 0) :
    ∃ (ys : List MapItem) (M : Int), db.assignRanks xs = .ok (ys, M) := by
  obtain ⟨ys, M, h, _⟩ := rankOuter_fold db xs hok hid (xs.length - 1) (le_refl _)
  exact ⟨ys, M, h⟩

theorem areNeighbours_of_neighbourItems (db : Database) (K : String → Prop)
    (ht : TableFor db.stops_neighbours_ K (fun n s => Adjacent db.buses_ s n))
    (a b : MapItem) (r : Bool) (hr : db.AreNeighbours a b = .ok r)
    (hn : NeighbourItems db a b) : r = true := by
  unfold Database.AreNeighbours at hr
  rcases hn with ⟨l, r', ⟨ha, _⟩, ⟨hb, _⟩, hadj⟩ | ⟨c, r', ⟨ha1, ha2⟩, ⟨hb, _⟩, hnear⟩ |
    ⟨l, c, ⟨ha1, ha2⟩, ⟨hb1, hb2⟩, hnear⟩
  · rw [ha, hb] at hr
    dsimp only at hr
    unfold mapAt at hr
    cases hl : db.stops_neighbours_.lookup l with
    | none => rw [hl] at hr; cases hr
    | some s =>
      rw [hl] at hr
      have hmem : r' ∈ s := ((ht l).2 s hl).2 r' |>.mpr hadj
      have hc : s.count r' ≠ 0 := by
        have := List.count_pos_iff.mpr hmem
        omega
      have hr' : decide (s.count r' ≠ 0) = r := by
        cases hr
        rfl
      rw [← hr']
      exact decide_eq_true hc
  · obtain ⟨company, hcomp, stop, hstop, hname⟩ := hnear
    rw [ha1, ha2, hb] at hr
    dsimp only at hr
    rw [vecAt_of_getElem? _ _ _ hcomp] at hr
    have hr' : company.nearby_stops.any (fun stop => decide (stop.name = r')) = r := by
      cases hr
      rfl
    rw [← hr', List.any_eq_true]
    exact ⟨stop, hstop, decide_eq_true hname⟩
  · obtain ⟨company, hcomp, stop, hstop, hname⟩ := hnear
    rw [ha1, ha2, hb1, hb2] at hr
    dsimp only at hr
    rw [vecAt_of_getElem? _ _ _ hcomp] at hr
    have hr' : company.nearby_stops.any (fun stop => decide (stop.name = l)) = r := by
      cases hr
      rfl
    rw [← hr', List.any_eq_true]
    exact ⟨stop, hstop, decide_eq_true hname⟩

/-- C24: `FillStopsNeighbours` returns on a catalog whose buses have a stop;
with the table it builds, whenever the rank assignment of
`CompressCoordinates` returns on a vector of items that enter with the rank 0
(the vector of either axis after its sort), the items are those of the vector
with new ranks, and of two items that are neighbours (two stops adjacent on
some bus, or a company and one of its nearby stops) the one later in the
vector has the strictly greater rank.  The assignment returns when every stop
of the vector is adjacent to some stop and every company is one of
`companies_`. -/
theorem assignRanks_neighbours (db0 : Database) (h0 : db0.stops_neighbours_ = [])
    (hb : ∀ kb ∈ db0.buses_, kb.2.GetStops ≠ [] ∧ kb.2.GetStops.length < 2 ^ 31) :
    ∃ db, db0.FillStopsNeighbours = .ok db ∧
      ∀ xs : List MapItem, (∀ a ∈ xs, a.id = 0) →
        (∀ (ys : List MapItem) (M : Int), db.assignRanks xs = .ok (ys, M) →
          ys.map MapItem.noId = xs.map MapItem.noId ∧
          ∀ (i j : Nat) (a b : MapItem), j < i → ys[i]? = some a → ys[j]? = some b →
            NeighbourItems db a b → b.id < a.id ∧ a.id ≠ b.id) ∧
        ((∀ a ∈ xs, (∀ l, a.stop_ptr = some l → ∃ n, Adjacent db.buses_ l n) ∧
            (∀ c, a.company_ptr = some c → c < db.companies_.length)) →
          ∃ (ys : List MapItem) (M : Int), db.assignRanks xs = .ok (ys, M)) := by
  obtain ⟨m, hfill, ht⟩ := fillStopsNeighbours_table db0 h0 hb
  refine ⟨_, hfill, ?_⟩
  intro xs hid
  constructor
  · intro ys M hres
    obtain ⟨hsame, _, hnb⟩ := assignRanks_inv _ xs ys M hid hres
    refine ⟨hsame, ?_⟩
    intro i j a b hji hi hj hn
    obtain ⟨r, hr, hlt⟩ := hnb i j a b hji hi hj
    have hrt := areNeighbours_of_neighbourItems _ _ ht a b r hr hn
    have := hlt hrt
    exact ⟨this, fun he => by rw [he] at this; exact lt_irrefl _ this⟩
  · intro hitems
    apply assignRanks_ok _ xs _ hid
    intro a ha
    obtain ⟨h1, h2⟩ := hitems a ha
    refine ⟨?_, h2⟩
    intro l hl
    have hk := h1 l hl
    cases hlook : m.lookup l with
    | none => exact absurd hk ((ht l).1.mp hlook)
    | some s => rfl

/-- Witness of C24: on the catalog of the bus from A by B to C and the company
near C, the vector of the items of A, B, C and the company, in this order,
gets the ranks 0, 1, 2, 3. -/
theorem assignRanks_neighbours_witness :
    layoutDb.stops_neighbours_ = [] ∧
    (∀ kb ∈ layoutDb.buses_, kb.2.GetStops ≠ [] ∧ kb.2.GetStops.length < 2 ^ 31) ∧
    (sortAscending layoutDb.xItems).map (fun a => (a.stop_ptr, a.company_ptr)) =
      [(some "A", none), (some "B", none), (some "C", none), (none, some 0)] ∧
    ranksAfterFill layoutDb (sortAscending layoutDb.xItems) = [0, 1, 2, 3] ∧
    ∃ db, layoutDb.FillStopsNeighbours = .ok db ∧
      ∀ xs : List MapItem, (∀ a ∈ xs, a.id = 0) →
        (∀ (ys : List MapItem) (M : Int), db.assignRanks xs = .ok (ys, M) →
          ys.map MapItem.noId = xs.map MapItem.noId ∧
          ∀ (i j : Nat) (a b : MapItem), j < i → ys[i]? = some a → ys[j]? = some b →
            NeighbourItems db a b → b.id < a.id ∧ a.id ≠ b.id) ∧
        ((∀ a ∈ xs, (∀ l, a.stop_ptr = some l → ∃ n, Adjacent db.buses_ l n) ∧
            (∀ c, a.company_ptr = some c → c < db.companies_.length)) →
          ∃ (ys : List MapItem) (M : Int), db.assignRanks xs = .ok (ys, M)) :=
  ⟨rfl, by decide, by decide!, by decide!, assignRanks_neighbours layoutDb rfl (by decide)⟩


/-! ## Theorems: the compressed coordinates -/

theorem foldlM_invariant {α β : Type} (f : β → α → Except Err β) (P : β → Prop)
    (hstep : ∀ s x s', f s x = .ok s' → P s → P s') :
    ∀ (l : List α) (s r : β), l.foldlM f s = .ok r → P s → P r := by
  intro l
  induction l with
  | nil =>
    intro s r h hs
    cases h
    exact hs
  | cons x l ih =>
    intro s r h hs
    rw [List.foldlM_cons] at h
    cases hf : f s x with
    | error e => rw [hf] at h; cases h
    | ok s' =>
      rw [hf, ok_bind] at h
      exact ih s' r h (hstep s x s' hf hs)

theorem stopsModify_inv (m m' : StopMap) (name : String) (f : Stop → Stop)
    (h : stopsModify m name f = .ok m') :
    m' = m.map (fun kv => if kv.1 = name then (kv.1, f kv.2) else kv) ∧
      (m.lookup name).isSome := by
  unfold stopsModify at h
  cases hl : m.lookup name with
  | none => rw [hl] at h; cases h
  | some x =>
    rw [hl] at h
    cases h
    exact ⟨rfl, rfl⟩

theorem stopsModify_skeleton (m m' : StopMap) (name : String) (f : Stop → Stop)
    (h : stopsModify m name f = .ok m') (hf : ∀ s, (f s).name_ = s.name_) :
    stopsSkeleton m' = stopsSkeleton m := by
  obtain ⟨hm, _⟩ := stopsModify_inv m m' name f h
  subst hm
  unfold stopsSkeleton
  rw [List.map_map]
  apply List.map_congr_left
  intro kv _
  show ((if kv.1 = name then (kv.1, f kv.2) else kv).1,
    (if kv.1 = name then (kv.1, f kv.2) else kv).2.name_) = (kv.1, kv.2.name_)
  split
  · rw [hf]
  · rfl

theorem markCountStep_skeleton (bus : Bus) (m m' : StopMap) (nc : String × Int)
    (h : markCountStep bus m nc = .ok m') : stopsSkeleton m' = stopsSkeleton m := by
  unfold markCountStep at h
  cases ht : bus.GetType with
  | ROUND =>
    rw [ht] at h
    dsimp only at h
    split at h
    · exact stopsModify_skeleton _ _ _ _ h (fun _ => rfl)
    · cases h; rfl
  | TWOWAY =>
    rw [ht] at h
    dsimp only at h
    split at h
    · exact stopsModify_skeleton _ _ _ _ h (fun _ => rfl)
    · cases h; rfl

theorem markBusStep_skeleton (m m' : StopMap) (kb : String × Bus)
    (h : markBusStep m kb = .ok m') : stopsSkeleton m' = stopsSkeleton m := by
  unfold markBusStep at h
  dsimp only at h
  cases h1 : vecAt kb.2.GetStops 0 with
  | error e => rw [h1] at h; cases h
  | ok front =>
    rw [h1, ok_bind] at h
    cases h2 : stopsModify m front (fun s => s.SetIsBase true) with
    | error e => rw [h2] at h; cases h
    | ok m1 =>
      rw [h2, ok_bind] at h
      cases h3 : vecAt kb.2.GetStops (kb.2.GetStops.length - 1) with
      | error e => rw [h3] at h; cases h
      | ok back =>
        rw [h3, ok_bind] at h
        cases h4 : stopsModify m1 back (fun s => s.SetIsBase true) with
        | error e => rw [h4] at h; cases h
        | ok m2 =>
          rw [h4, ok_bind] at h
          have e1 := stopsModify_skeleton _ _ _ _ h2 (fun _ => rfl)
          have e2 := stopsModify_skeleton _ _ _ _ h4 (fun _ => rfl)
          have e3 := foldlM_invariant (markCountStep kb.2)
            (fun x => stopsSkeleton x = stopsSkeleton m2)
            (fun s x s' hs hp => (markCountStep_skeleton kb.2 s s' x hs).trans hp)
            _ m2 m' h rfl
          rw [e3, e2, e1]

theorem markStep_skeleton (t : List (String × List String)) (m : StopMap) :
    stopsSkeleton (m.map (markStep t)) = stopsSkeleton m := by
  unfold stopsSkeleton
  rw [List.map_map]
  apply List.map_congr_left
  intro kv _
  show ((markStep t kv).1, (markStep t kv).2.name_) = (kv.1, kv.2.name_)
  unfold markStep
  split
  · rfl
  · split
    · rfl
    · split <;> rfl

theorem markBaseStops_frame (db db' : Database) (h : db.MarkBaseStops = .ok db') :
    stopsSkeleton db'.stops_ = stopsSkeleton db.stops_ ∧
    db'.map_settings_ = db.map_settings_ := by
  unfold Database.MarkBaseStops at h
  dsimp only at h
  cases hf : db.buses_.foldlM markBusStep (db.stops_.map (markStep db.stops_to_buses_)) with
  | error e => rw [hf] at h; cases h
  | ok m =>
    rw [hf, ok_bind] at h
    cases h
    have e := foldlM_invariant markBusStep
      (fun x => stopsSkeleton x = stopsSkeleton db.stops_)
      (fun s x s' hs hp => (markBusStep_skeleton s s' x hs).trans hp)
      _ _ m hf (markStep_skeleton _ _)
    exact ⟨e, rfl⟩

theorem moveStep_skeleton (stops : List String) (i : Nat) (a b c d : ℚ) (m m' : StopMap)
    (k : Nat) (h : moveStep stops i a b c d m k = .ok m') :
    stopsSkeleton m' = stopsSkeleton m := by
  unfold moveStep at h
  cases h1 : vecAt stops k with
  | error e => rw [h1] at h; cases h
  | ok name =>
    rw [h1, ok_bind] at h
    cases h2 : stopsModify m name (fun s => s.SetLatitude (a + c * ((k - i : Nat) : ℚ))) with
    | error e => rw [h2] at h; cases h
    | ok m1 =>
      rw [h2, ok_bind] at h
      have e1 := stopsModify_skeleton _ _ _ _ h2 (fun _ => rfl)
      have e2 := stopsModify_skeleton _ _ _ _ h (fun _ => rfl)
      rw [e2, e1]

theorem moveLoop_skeleton (stops : List String) (bound : Nat) :
    ∀ (fuel i : Nat) (m m' : StopMap), moveLoop stops bound fuel i m = .ok m' →
      stopsSkeleton m' = stopsSkeleton m := by
  intro fuel
  induction fuel with
  | zero =>
    intro i m m' h
    unfold moveLoop at h
    cases h
    rfl
  | succ fuel ih =>
    intro i m m' h
    unfold moveLoop at h
    split at h
    · cases h1 : vecAt stops i with
      | error e => rw [h1] at h; cases h
      | ok name_i =>
        rw [h1, ok_bind] at h
        cases h2 : mapAt m name_i with
        | error e => rw [h2] at h; cases h
        | ok stop_i =>
          rw [h2, ok_bind] at h
          dsimp only at h
          cases h3 : (List.range' (i + 1) (stops.length - (i + 1))).foldlM
              (findBaseStep stops m) none with
          | error e => rw [h3] at h; cases h
          | ok found =>
            rw [h3, ok_bind] at h
            cases found with
            | none => exact ih _ _ _ h
            | some j =>
              dsimp only at h
              cases h4 : vecAt stops j with
              | error e => rw [h4] at h; cases h
              | ok name_j =>
                rw [h4, ok_bind] at h
                cases h5 : mapAt m name_j with
                | error e => rw [h5] at h; cases h
                | ok stop_j =>
                  rw [h5, ok_bind] at h
                  cases h6 : (List.range' i (j - i + 1)).foldlM
                      (moveStep stops i stop_i.GetLatitude stop_i.GetLongitude
                        ((stop_j.GetLatitude - stop_i.GetLatitude) / ((j - i : Nat) : ℚ))
                        ((stop_j.GetLongitude - stop_i.GetLongitude) / ((j - i : Nat) : ℚ))) m with
                  | error e => rw [h6] at h; cases h
                  | ok m1 =>
                    rw [h6, ok_bind] at h
                    have e1 := foldlM_invariant _ (fun x => stopsSkeleton x = stopsSkeleton m)
                      (fun s x s' hs hp => (moveStep_skeleton _ _ _ _ _ _ s s' x hs).trans hp)
                      _ m m1 h6 rfl
                    rw [ih _ _ _ h, e1]
    · cases h
      rfl

theorem moveIntermediateStops_frame (db db' : Database)
    (h : db.MoveIntermediateStops = .ok db') :
    stopsSkeleton db'.stops_ = stopsSkeleton db.stops_ ∧
    db'.map_settings_ = db.map_settings_ := by
  unfold Database.MoveIntermediateStops at h
  cases hf : db.buses_.foldlM
      (fun stops_ kb =>
        moveLoop kb.2.GetStops (toSizeT ((kb.2.GetStops.length : Int) - 1))
          (kb.2.GetStops.length + 1) 0 stops_) db.stops_ with
  | error e => rw [hf] at h; cases h
  | ok m =>
    rw [hf, ok_bind] at h
    cases h
    have e := foldlM_invariant _
      (fun x => stopsSkeleton x = stopsSkeleton db.stops_)
      (fun s kb s' hs hp => (moveLoop_skeleton _ _ _ _ s s' hs).trans hp)
      _ _ m hf rfl
    exact ⟨e, rfl⟩

theorem prepareLayout_frame (db db' : Database) (h : db.prepareLayout = .ok db') :
    stopsSkeleton db'.stops_ = stopsSkeleton db.stops_ ∧
    db'.map_settings_.render_settings = db.map_settings_.render_settings := by
  unfold Database.prepareLayout at h
  cases h1 : db.MarkBaseStops with
  | error e => rw [h1] at h; cases h
  | ok db1 =>
    rw [h1, ok_bind] at h
    cases h2 : db1.MoveIntermediateStops with
    | error e => rw [h2] at h; cases h
    | ok db2 =>
      rw [h2, ok_bind] at h
      cases h
      obtain ⟨e1, s1⟩ := markBaseStops_frame db db1 h1
      obtain ⟨e2, s2⟩ := moveIntermediateStops_frame db1 db2 h2
      refine ⟨?_, ?_⟩
      · show stopsSkeleton db2.stops_ = _
        rw [e2, e1]
      · show db2.map_settings_.render_settings = _
        rw [s2, s1]

theorem writeStep_inv (setStop : Stop → ℚ → Stop) (setCompany : Company → ℚ → Company)
    (value : MapItem → ℚ) (m m' : StopMap) (cs cs' : List Company) (item : MapItem)
    (h : writeStep setStop setCompany value (m, cs) item = .ok (m', cs')) :
    (∃ name, item.stop_ptr = some name ∧
      m' = m.map (fun kv => if kv.1 = name then (kv.1, setStop kv.2 (value item)) else kv)) ∨
    (item.stop_ptr = none ∧ m' = m) := by
  unfold writeStep at h
  cases hs : item.stop_ptr with
  | some name =>
    left
    rw [hs] at h
    dsimp only at h
    cases h1 : stopsModify m name (fun stop => setStop stop (value item)) with
    | error e => rw [h1] at h; cases h
    | ok m1 =>
      rw [h1, ok_bind] at h
      cases h
      exact ⟨name, rfl, (stopsModify_inv _ _ _ _ h1).1⟩
  | none =>
    right
    rw [hs] at h
    dsimp only at h
    cases hc : item.company_ptr with
    | none => rw [hc] at h; cases h
    | some c =>
      rw [hc] at h
      dsimp only at h
      cases h1 : vecAt cs c with
      | error e => rw [h1] at h; cases h
      | ok company =>
        rw [h1, ok_bind] at h
        cases h
        exact ⟨rfl, rfl⟩

theorem write_fold (setStop : Stop → ℚ → Stop) (setCompany : Company → ℚ → Company)
    (value : MapItem → ℚ) (P Q : Stop → Prop)
    (hname : ∀ s v, (setStop s v).name_ = s.name_)
    (hQ : ∀ s v, Q s → Q (setStop s v)) :
    ∀ (items : List MapItem) (m m' : StopMap) (cs cs' : List Company),
    (∀ item ∈ items, ∀ s, P (setStop s (value item))) →
    items.foldlM (writeStep setStop setCompany value) (m, cs) = .ok (m', cs') →
    (∀ kv ∈ m, Q kv.2) →
    (∀ kv ∈ m, P kv.2 ∨ kv.1 ∈ items.filterMap (fun a => a.stop_ptr)) →
    stopsSkeleton m' = stopsSkeleton m ∧ (∀ kv ∈ m', Q kv.2) ∧ (∀ kv ∈ m', P kv.2) := by
  intro items
  induction items with
  | nil =>
    intro m m' cs cs' _ h hq hp
    cases h
    refine ⟨rfl, hq, ?_⟩
    intro kv hkv
    rcases hp kv hkv with h | h
    · exact h
    · cases h
  | cons item items ih =>
    intro m m' cs cs' hP h hq hp
    rw [List.foldlM_cons] at h
    cases hs : writeStep setStop setCompany value (m, cs) item with
    | error e => rw [hs] at h; cases h
    | ok s1 =>
      obtain ⟨m1, cs1⟩ := s1
      rw [hs, ok_bind] at h
      have hP' : ∀ it ∈ items, ∀ s, P (setStop s (value it)) :=
        fun it hit => hP it (List.mem_cons_of_mem _ hit)
      rcases writeStep_inv _ _ _ _ _ _ _ _ hs with ⟨name, hptr, hm1⟩ | ⟨hptr, hm1⟩
      · subst hm1
        have hsk : stopsSkeleton (m.map (fun kv =>
            if kv.1 = name then (kv.1, setStop kv.2 (value item)) else kv)) = stopsSkeleton m := by
          unfold stopsSkeleton
          rw [List.map_map]
          apply List.map_congr_left
          intro kv _
          show ((if kv.1 = name then (kv.1, setStop kv.2 (value item)) else kv).1,
            (if kv.1 = name then (kv.1, setStop kv.2 (value item)) else kv).2.name_) =
              (kv.1, kv.2.name_)
          split
          · rw [hname]
          · rfl
        obtain ⟨e, hq', hp'⟩ := ih _ m' cs1 cs' hP' h
          (by
            intro kv hkv
            obtain ⟨kv0, hkv0, rfl⟩ := List.mem_map.mp hkv
            split
            · exact hQ _ _ (hq kv0 hkv0)
            · exact hq kv0 hkv0)
          (by
            intro kv hkv
            obtain ⟨kv0, hkv0, rfl⟩ := List.mem_map.mp hkv
            by_cases hk : kv0.1 = name
            · left
              rw [if_pos hk]
              exact hP item (List.mem_cons_self _ _) _
            · rw [if_neg hk]
              rcases hp kv0 hkv0 with h0 | h0
              · left; exact h0
              · right
                rw [List.filterMap_cons, hptr] at h0
                rcases List.mem_cons.mp h0 with h0 | h0
                · exact absurd h0 hk
                · exact h0)
        exact ⟨e.trans hsk, hq', hp'⟩
      · subst hm1
        exact ih _ m' cs1 cs' hP' h hq
          (by
            intro kv hkv
            rcases hp kv hkv with h0 | h0
            · left; exact h0
            · right
              rw [List.filterMap_cons, hptr] at h0
              exact h0)

theorem names_of_skeleton (m m' : StopMap) (h : stopsSkeleton m' = stopsSkeleton m)
    (hn : ∀ kv ∈ m, kv.2.GetName = kv.1) : ∀ kv ∈ m', kv.2.GetName = kv.1 := by
  intro kv hkv
  have hmem : (kv.1, kv.2.name_) ∈ stopsSkeleton m' :=
    List.mem_map.mpr ⟨kv, hkv, rfl⟩
  rw [h] at hmem
  obtain ⟨kv0, hkv0, he⟩ := List.mem_map.mp hmem
  have h1 : kv0.1 = kv.1 := (Prod.mk.inj he).1
  have h2 : kv0.2.name_ = kv.2.name_ := (Prod.mk.inj he).2
  show kv.2.name_ = kv.1
  rw [← h1, ← h2]
  exact hn kv0 hkv0

theorem stop_covered (xs ys : List MapItem) (sort : List MapItem → List MapItem)
    (hperm : ∀ l, (sort l).Perm l) (hsame : ys.map MapItem.noId = (sort xs).map MapItem.noId)
    (a : MapItem) (ha : a ∈ xs) (name : String) (hptr : a.stop_ptr = some name) :
    name ∈ ys.filterMap (fun a => a.stop_ptr) := by
  have h1 : a ∈ sort xs := (hperm xs).mem_iff.mpr ha
  have h2 : a.noId ∈ ys.map MapItem.noId := by
    rw [hsame]
    exact List.mem_map_of_mem _ h1
  obtain ⟨y, hy, hya⟩ := List.mem_map.mp h2
  have h3 : y.noId.stop_ptr = a.noId.stop_ptr := congrArg (fun x : MapItem => x.stop_ptr) hya
  rw [List.mem_filterMap]
  exact ⟨y, hy, h3.trans hptr⟩

theorem sorted_ids_zero (xs : List MapItem) (sort : List MapItem → List MapItem)
    (hperm : ∀ l, (sort l).Perm l) (h : ∀ a ∈ xs, a.id = 0) : ∀ a ∈ sort xs, a.id = 0 :=
  fun a ha => h a ((hperm xs).mem_iff.mp ha)

theorem xItems_ids (db : Database) : ∀ a ∈ db.xItems, a.id = 0 := by
  intro a ha
  unfold Database.xItems at ha
  rcases List.mem_append.mp ha with ha | ha
  · obtain ⟨kv, _, rfl⟩ := List.mem_map.mp ha
    rfl
  · obtain ⟨ic, _, rfl⟩ := List.mem_map.mp ha
    rfl

theorem yItems_ids (db : Database) : ∀ a ∈ db.yItems, a.id = 0 := by
  intro a ha
  unfold Database.yItems at ha
  rcases List.mem_append.mp ha with ha | ha
  · obtain ⟨kv, _, rfl⟩ := List.mem_map.mp ha
    rfl
  · obtain ⟨ic, _, rfl⟩ := List.mem_map.mp ha
    rfl

theorem rank_value_bounds (span : ℚ) (id M : Int) (hspan : 0 ≤ span) (hM : 0 < M)
    (h0 : 0 ≤ id) (hle : id ≤ M) :
    0 ≤ (id : ℚ) * (span / (M : ℚ)) ∧ (id : ℚ) * (span / (M : ℚ)) ≤ span := by
  have hMq : (0 : ℚ) < (M : ℚ) := by exact_mod_cast hM
  have hidq : (0 : ℚ) ≤ (id : ℚ) := by exact_mod_cast h0
  have hleq : (id : ℚ) ≤ (M : ℚ) := by exact_mod_cast hle
  have hstep : 0 ≤ span / (M : ℚ) := div_nonneg hspan (le_of_lt hMq)
  refine ⟨mul_nonneg hidq hstep, ?_⟩
  calc (id : ℚ) * (span / (M : ℚ)) ≤ (M : ℚ) * (span / (M : ℚ)) :=
        mul_le_mul_of_nonneg_right hleq hstep
    _ = span := by field_simp

theorem compressX_inv (sortX : List MapItem → List MapItem) (hperm : ∀ l, (sortX l).Perm l)
    (db db' : Database) (h : db.compressX sortX = .ok db')
    (hnames : ∀ kv ∈ db.stops_, kv.2.GetName = kv.1)
    (hw : 2 * db.map_settings_.render_settings.padding ≤ db.map_settings_.render_settings.width) :
    stopsSkeleton db'.stops_ = stopsSkeleton db.stops_ ∧
    db'.map_settings_ = db.map_settings_ ∧
    ∀ kv ∈ db'.stops_, db.map_settings_.render_settings.padding ≤ kv.2.x_ ∧
      kv.2.x_ ≤ db.map_settings_.render_settings.width -
        db.map_settings_.render_settings.padding := by
  unfold Database.compressX at h
  dsimp only at h
  cases hr : db.assignRanks (sortX db.xItems) with
  | error e => rw [hr] at h; cases h
  | ok r =>
    obtain ⟨ys, M⟩ := r
    rw [hr, ok_bind] at h
    obtain ⟨hsame, hrange, _⟩ := assignRanks_inv db _ ys M
      (sorted_ids_zero _ sortX hperm (xItems_ids db)) hr
    have hcover : ∀ kv ∈ db.stops_,
        (db.map_settings_.render_settings.padding ≤ kv.2.x_ ∧
          kv.2.x_ ≤ db.map_settings_.render_settings.width -
            db.map_settings_.render_settings.padding) ∨
        kv.1 ∈ ys.filterMap (fun a => a.stop_ptr) := by
      intro kv hkv
      right
      apply stop_covered db.xItems ys sortX hperm hsame
        { coord := db.GetXOnMap kv.2.GetLongitude, stop_ptr := some kv.2.GetName,
          company_ptr := none, id := 0 }
      · unfold Database.xItems
        exact List.mem_append_left _ (List.mem_map.mpr ⟨kv, hkv, rfl⟩)
      · show some kv.2.GetName = some kv.1
        rw [hnames kv hkv]
    dsimp only at h
    split at h
    · rename_i hM
      cases hf : ys.foldlM (writeStep Stop.SetX Company.SetLon (fun item =>
          db.map_settings_.render_settings.padding + (item.id : ℚ) *
            ((db.map_settings_.render_settings.width -
              2 * db.map_settings_.render_settings.padding) / (M : ℚ))))
          (db.stops_, db.companies_) with
      | error e => rw [hf] at h; cases h
      | ok s =>
        obtain ⟨m', cs'⟩ := s
        rw [hf, ok_bind] at h
        cases h
        obtain ⟨e, _, hp⟩ := write_fold Stop.SetX Company.SetLon _
          (fun s => db.map_settings_.render_settings.padding ≤ s.x_ ∧
            s.x_ ≤ db.map_settings_.render_settings.width -
              db.map_settings_.render_settings.padding)
          (fun _ => True) (fun _ _ => rfl) (fun _ _ _ => trivial) ys db.stops_ m'
          db.companies_ cs'
          (by
            intro item hitem s
            obtain ⟨h0, hle⟩ := hrange item hitem
            obtain ⟨b1, b2⟩ := rank_value_bounds
              (db.map_settings_.render_settings.width -
                2 * db.map_settings_.render_settings.padding) item.id M (by linarith) hM h0 hle
            show db.map_settings_.render_settings.padding ≤
                db.map_settings_.render_settings.padding + (item.id : ℚ) *
                  ((db.map_settings_.render_settings.width -
                    2 * db.map_settings_.render_settings.padding) / (M : ℚ)) ∧
              db.map_settings_.render_settings.padding + (item.id : ℚ) *
                  ((db.map_settings_.render_settings.width -
                    2 * db.map_settings_.render_settings.padding) / (M : ℚ)) ≤
                db.map_settings_.render_settings.width -
                  db.map_settings_.render_settings.padding
            constructor <;> linarith)
          hf (fun _ _ => trivial) hcover
        exact ⟨e, rfl, hp⟩
    · cases hf : ys.foldlM (writeStep Stop.SetX Company.SetLon (fun _ =>
          db.map_settings_.render_settings.padding)) (db.stops_, db.companies_) with
      | error e => rw [hf] at h; cases h
      | ok s =>
        obtain ⟨m', cs'⟩ := s
        rw [hf, ok_bind] at h
        cases h
        obtain ⟨e, _, hp⟩ := write_fold Stop.SetX Company.SetLon _
          (fun s => db.map_settings_.render_settings.padding ≤ s.x_ ∧
            s.x_ ≤ db.map_settings_.render_settings.width -
              db.map_settings_.render_settings.padding)
          (fun _ => True) (fun _ _ => rfl) (fun _ _ _ => trivial) ys db.stops_ m'
          db.companies_ cs'
          (by
            intro item hitem s
            show db.map_settings_.render_settings.padding ≤
                db.map_settings_.render_settings.padding ∧
              db.map_settings_.render_settings.padding ≤
                db.map_settings_.render_settings.width -
                  db.map_settings_.render_settings.padding
            constructor <;> linarith)
          hf (fun _ _ => trivial) hcover
        exact ⟨e, rfl, hp⟩

theorem compressY_inv (sortY : List MapItem → List MapItem) (hperm : ∀ l, (sortY l).Perm l)
    (db db' : Database) (h : db.compressY sortY = .ok db')
    (hnames : ∀ kv ∈ db.stops_, kv.2.GetName = kv.1)
    (hh : 2 * db.map_settings_.render_settings.padding ≤ db.map_settings_.render_settings.height)
    (Q : Stop → Prop) (hQ : ∀ s v, Q s → Q (s.SetY v)) (hQ0 : ∀ kv ∈ db.stops_, Q kv.2) :
    stopsSkeleton db'.stops_ = stopsSkeleton db.stops_ ∧
    db'.map_settings_ = db.map_settings_ ∧
    (∀ kv ∈ db'.stops_, Q kv.2) ∧
    ∀ kv ∈ db'.stops_, db.map_settings_.render_settings.padding ≤ kv.2.y_ ∧
      kv.2.y_ ≤ db.map_settings_.render_settings.height -
        db.map_settings_.render_settings.padding := by
  unfold Database.compressY at h
  dsimp only at h
  cases hr : db.assignRanks (sortY db.yItems) with
  | error e => rw [hr] at h; cases h
  | ok r =>
    obtain ⟨ys, M⟩ := r
    rw [hr, ok_bind] at h
    obtain ⟨hsame, hrange, _⟩ := assignRanks_inv db _ ys M
      (sorted_ids_zero _ sortY hperm (yItems_ids db)) hr
    have hcover : ∀ kv ∈ db.stops_,
        (db.map_settings_.render_settings.padding ≤ kv.2.y_ ∧
          kv.2.y_ ≤ db.map_settings_.render_settings.height -
            db.map_settings_.render_settings.padding) ∨
        kv.1 ∈ ys.filterMap (fun a => a.stop_ptr) := by
      intro kv hkv
      right
      apply stop_covered db.yItems ys sortY hperm hsame
        { coord := db.GetYOnMap kv.2.GetLatitude, stop_ptr := some kv.2.GetName,
          company_ptr := none, id := 0 }
      · unfold Database.yItems
        exact List.mem_append_left _ (List.mem_map.mpr ⟨kv, hkv, rfl⟩)
      · show some kv.2.GetName = some kv.1
        rw [hnames kv hkv]
    dsimp only at h
    split at h
    · rename_i hM
      cases hf : ys.foldlM (writeStep Stop.SetY Company.SetLat (fun item =>
          db.map_settings_.render_settings.height - db.map_settings_.render_settings.padding -
            (item.id : ℚ) *
            ((db.map_settings_.render_settings.height -
              2 * db.map_settings_.render_settings.padding) / (M : ℚ))))
          (db.stops_, db.companies_) with
      | error e => rw [hf] at h; cases h
      | ok s =>
        obtain ⟨m', cs'⟩ := s
        rw [hf, ok_bind] at h
        cases h
        obtain ⟨e, hq, hp⟩ := write_fold Stop.SetY Company.SetLat _
          (fun s => db.map_settings_.render_settings.padding ≤ s.y_ ∧
            s.y_ ≤ db.map_settings_.render_settings.height -
              db.map_settings_.render_settings.padding)
          Q (fun _ _ => rfl) hQ ys db.stops_ m' db.companies_ cs'
          (by
            intro item hitem s
            obtain ⟨h0, hle⟩ := hrange item hitem
            obtain ⟨b1, b2⟩ := rank_value_bounds
              (db.map_settings_.render_settings.height -
                2 * db.map_settings_.render_settings.padding) item.id M (by linarith) hM h0 hle
            show db.map_settings_.render_settings.padding ≤
                db.map_settings_.render_settings.height -
                  db.map_settings_.render_settings.padding - (item.id : ℚ) *
                  ((db.map_settings_.render_settings.height -
                    2 * db.map_settings_.render_settings.padding) / (M : ℚ)) ∧
              db.map_settings_.render_settings.height -
                  db.map_settings_.render_settings.padding - (item.id : ℚ) *
                  ((db.map_settings_.render_settings.height -
                    2 * db.map_settings_.render_settings.padding) / (M : ℚ)) ≤
                db.map_settings_.render_settings.height -
                  db.map_settings_.render_settings.padding
            constructor <;> linarith)
          hf hQ0 hcover
        exact ⟨e, rfl, hq, hp⟩
    · cases hf : ys.foldlM (writeStep Stop.SetY Company.SetLat (fun _ =>
          db.map_settings_.render_settings.height - db.map_settings_.render_settings.padding))
          (db.stops_, db.companies_) with
      | error e => rw [hf] at h; cases h
      | ok s =>
        obtain ⟨m', cs'⟩ := s
        rw [hf, ok_bind] at h
        cases h
        obtain ⟨e, hq, hp⟩ := write_fold Stop.SetY Company.SetLat _
          (fun s => db.map_settings_.render_settings.padding ≤ s.y_ ∧
            s.y_ ≤ db.map_settings_.render_settings.height -
              db.map_settings_.render_settings.padding)
          Q (fun _ _ => rfl) hQ ys db.stops_ m' db.companies_ cs'
          (by
            intro item hitem s
            show db.map_settings_.render_settings.padding ≤
                db.map_settings_.render_settings.height -
                  db.map_settings_.render_settings.padding ∧
              db.map_settings_.render_settings.height -
                  db.map_settings_.render_settings.padding ≤
                db.map_settings_.render_settings.height -
                  db.map_settings_.render_settings.padding
            constructor <;> linarith)
          hf hQ0 hcover
        exact ⟨e, rfl, hq, hp⟩

theorem databaseOr_ok (r : Except Err Database) (db : Database) (h : r.isOk = true) :
    r = .ok (databaseOr r db) := by
  cases r with
  | error e => cases h
  | ok d => rfl

theorem sortAscending_perm (l : List MapItem) : (sortAscending l).Perm l :=
  List.perm_insertionSort _ l

theorem sortDescending_perm (l : List MapItem) : (sortDescending l).Perm l :=
  List.perm_insertionSort _ l

/-- C23 as amended: on render settings with `2·padding ≤ width` and
`2·padding ≤ height`, in a catalog whose stops are filed under their names,
whenever `CompressCoordinates` returns (the two sorts returning a
rearrangement of their vector), the render settings and the keys of the stops
are those of before and every stop has `padding ≤ x ≤ width − padding` and
`padding ≤ y ≤ height − padding`. -/
theorem CompressCoordinates_bounds (sortX sortY : List MapItem → List MapItem)
    (db db' : Database)
    (hX : ∀ l, (sortX l).Perm l) (hY : ∀ l, (sortY l).Perm l)
    (hnames : ∀ kv ∈ db.stops_, kv.2.GetName = kv.1)
    (hw : 2 * db.map_settings_.render_settings.padding ≤ db.map_settings_.render_settings.width)
    (hh : 2 * db.map_settings_.render_settings.padding ≤ db.map_settings_.render_settings.height)
    (h : db.CompressCoordinates sortX sortY = .ok db') :
    db'.map_settings_.render_settings = db.map_settings_.render_settings ∧
    db'.stops_.map Prod.fst = db.stops_.map Prod.fst ∧
    ∀ kv ∈ db'.stops_,
      db.map_settings_.render_settings.padding ≤ kv.2.x_ ∧
      kv.2.x_ ≤ db.map_settings_.render_settings.width -
        db.map_settings_.render_settings.padding ∧
      db.map_settings_.render_settings.padding ≤ kv.2.y_ ∧
      kv.2.y_ ≤ db.map_settings_.render_settings.height -
        db.map_settings_.render_settings.padding := by
  unfold Database.CompressCoordinates at h
  cases h1 : db.prepareLayout with
  | error e => rw [h1] at h; cases h
  | ok db1 =>
    rw [h1, ok_bind] at h
    cases h2 : db1.compressX sortX with
    | error e => rw [h2] at h; cases h
    | ok db2 =>
      rw [h2, ok_bind] at h
      obtain ⟨e1, s1⟩ := prepareLayout_frame db db1 h1
      have hn1 := names_of_skeleton db.stops_ db1.stops_ e1 hnames
      obtain ⟨e2, s2, hx⟩ := compressX_inv sortX hX db1 db2 h2 hn1 (by rw [s1]; exact hw)
      have hn2 := names_of_skeleton db1.stops_ db2.stops_ e2 hn1
      have s2' : db2.map_settings_.render_settings = db.map_settings_.render_settings := by
        rw [s2, s1]
      obtain ⟨e3, s3, hx', hy⟩ := compressY_inv sortY hY db2 db' h hn2
        (by rw [s2']; exact hh)
        (fun s => db.map_settings_.render_settings.padding ≤ s.x_ ∧
          s.x_ ≤ db.map_settings_.render_settings.width -
            db.map_settings_.render_settings.padding)
        (fun _ _ hq => hq)
        (by
          intro kv hkv
          have := hx kv hkv
          rw [s1] at this
          exact this)
      refine ⟨by rw [s3, s2'], ?_, ?_⟩
      · have hsk : stopsSkeleton db'.stops_ = stopsSkeleton db.stops_ := by
          rw [e3, e2, e1]
        have := congrArg (List.map Prod.fst) hsk
        unfold stopsSkeleton at this
        rw [List.map_map, List.map_map] at this
        exact this
      · intro kv hkv
        have hyk := hy kv hkv
        rw [s2'] at hyk
        exact ⟨(hx' kv hkv).1, (hx' kv hkv).2, hyk.1, hyk.2⟩

/-- Counterexample to C23 as stated: one stop on a map of 100 by 100 with the
padding 60.  `CompressCoordinates` puts the stop at x = 60, above
`width − padding = 40`, and at y = 40, below the padding. -/
theorem CompressCoordinates_bounds_counterexample :
    positionsAfterLayout sortAscending sortDescending narrowDb = [("A", 60, 40)] ∧
    narrowDb.map_settings_.render_settings.width -
      narrowDb.map_settings_.render_settings.padding = 40 ∧
    ¬ ((60 : ℚ) ≤ narrowDb.map_settings_.render_settings.width -
      narrowDb.map_settings_.render_settings.padding) ∧
    ¬ (narrowDb.map_settings_.render_settings.padding ≤ (40 : ℚ)) := by
  refine ⟨by decide!, by decide!, by decide!, by decide!⟩

/-- Witness of C23 as amended: the catalog of the bus from A by B to C and the
company near C on a map of 200 by 100 with the padding 10: the stops are put
at x = 10, 70, 130 and y = 90, 90 − 80/3, 90 − 160/3. -/
theorem CompressCoordinates_bounds_witness :
    positionsAfterLayout sortAscending sortDescending layoutDb =
      [("A", 10, 90), ("B", 70, 90 - 80 / 3), ("C", 130, 90 - 160 / 3)] ∧
    (databaseOr (filledLayoutDb.CompressCoordinates sortAscending sortDescending)
        filledLayoutDb).map_settings_.render_settings =
      filledLayoutDb.map_settings_.render_settings ∧
    (databaseOr (filledLayoutDb.CompressCoordinates sortAscending sortDescending)
        filledLayoutDb).stops_.map Prod.fst = filledLayoutDb.stops_.map Prod.fst ∧
    ∀ kv ∈ (databaseOr (filledLayoutDb.CompressCoordinates sortAscending sortDescending)
        filledLayoutDb).stops_,
      filledLayoutDb.map_settings_.render_settings.padding ≤ kv.2.x_ ∧
      kv.2.x_ ≤ filledLayoutDb.map_settings_.render_settings.width -
        filledLayoutDb.map_settings_.render_settings.padding ∧
      filledLayoutDb.map_settings_.render_settings.padding ≤ kv.2.y_ ∧
      kv.2.y_ ≤ filledLayoutDb.map_settings_.render_settings.height -
        filledLayoutDb.map_settings_.render_settings.padding :=
  ⟨by decide!,
    CompressCoordinates_bounds sortAscending sortDescending filledLayoutDb _
      sortAscending_perm sortDescending_perm (by decide!) (by decide!) (by decide!)
      (databaseOr_ok _ filledLayoutDb (by decide!))⟩


/-! ## Theorems: queries with unknown rubrics -/

theorem BuildRubricsNum_fold_unknown (um : List (String × Nat)) (l : List String)
    (hunknown : ∃ q ∈ l, um.lookup q = none) (acc : List Nat) :
    l.foldlM (fun rubrics_num rubric => do
        let num ← mapAt um rubric
        pure (rubrics_num ++ [num])) acc =
      (.error .out_of_range : Except Err (List Nat)) := by
  induction l generalizing acc with
  | nil =>
    obtain ⟨q, hq, _⟩ := hunknown
    cases hq
  | cons q l ih =>
    rw [List.foldlM_cons]
    cases hl : um.lookup q with
    | none =>
      have hstep : mapAt um q = .error .out_of_range := by simp only [mapAt, hl]
      rw [hstep]
      rfl
    | some v =>
      have hstep : mapAt um q = .ok v := by simp only [mapAt, hl]
      rw [hstep]
      show List.foldlM _ (acc ++ [v]) l = _
      apply ih
      obtain ⟨q', hq', hn⟩ := hunknown
      rcases List.mem_cons.mp hq' with h | h
      · subst h
        rw [hl] at hn
        cases hn
      · exact ⟨q', h, hn⟩

/-- C39: `FilterCompaniesByRequest` throws (`std::out_of_range`, from
`um.at(rubric)` in `BuildRubricsNum`) iff some rubric name of the query is not
a key of the dictionary `rubrics_`; it throws whatever the companies are, the
dictionary being read before the loop over the companies; so it returns no
list, in particular not the empty one, on such a query, and it returns a list
on every other query. -/
theorem FilterCompaniesByRequest_unknown_rubric (rubrics_ : List (String × Nat))
    (companies_ : List Company) (req : QueryCompanyRequestBase) :
    ((∃ q ∈ req.rubrics_, rubrics_.lookup q = none) ↔
      FilterCompaniesByRequest rubrics_ companies_ req = .error .out_of_range) ∧
    ((∃ q ∈ req.rubrics_, rubrics_.lookup q = none) ↔
      ∀ other : List Company,
        FilterCompaniesByRequest rubrics_ other req = .error .out_of_range) ∧
    ((∃ q ∈ req.rubrics_, rubrics_.lookup q = none) ↔
      ∀ res, FilterCompaniesByRequest rubrics_ companies_ req ≠ .ok res) ∧
    ((¬ ∃ q ∈ req.rubrics_, rubrics_.lookup q = none) ↔
      ∃ res, FilterCompaniesByRequest rubrics_ companies_ req = .ok res) := by
  have hthrow : (∃ q ∈ req.rubrics_, rubrics_.lookup q = none) →
      ∀ other : List Company,
        FilterCompaniesByRequest rubrics_ other req = .error .out_of_range := by
    intro h other
    unfold FilterCompaniesByRequest QueryCompanyRequestBase.BuildRubricsNum
    rw [BuildRubricsNum_fold_unknown rubrics_ req.rubrics_ h []]
    rfl
  have hret : (¬ ∃ q ∈ req.rubrics_, rubrics_.lookup q = none) →
      ∀ other : List Company, ∃ res, FilterCompaniesByRequest rubrics_ other req = .ok res := by
    intro h other
    have hknown : ∀ q ∈ req.rubrics_, (rubrics_.lookup q).isSome := by
      intro q hq
      cases hl : rubrics_.lookup q with
      | none => exact absurd ⟨q, hq, hl⟩ h
      | some v => rfl
    unfold FilterCompaniesByRequest
    rw [BuildRubricsNum_known req rubrics_ hknown, ok_bind]
    exact ⟨_, rfl⟩
  refine ⟨⟨fun h => hthrow h companies_, ?_⟩, ⟨hthrow, ?_⟩, ⟨?_, ?_⟩, ⟨fun h => hret h companies_, ?_⟩⟩
  · intro he
    by_contra hno
    obtain ⟨res, hres⟩ := hret hno companies_
    rw [hres] at he
    cases he
  · intro he
    by_contra hno
    obtain ⟨res, hres⟩ := hret hno companies_
    have he' := he companies_
    rw [hres] at he'
    cases he'
  · intro h res hres
    rw [hthrow h companies_] at hres
    cases hres
  · intro hne
    by_contra hno
    obtain ⟨res, hres⟩ := hret hno companies_
    exact hne res hres
  · rintro ⟨res, hres⟩ h
    rw [hthrow h companies_] at hres
    cases hres


/-! ## Theorems: the render settings -/

/-- C34, the code at the failing input: with the two stops at the latitudes
−10 and −30 and the longitudes −20 and −40, `UpdateRenderSettings` stores the
minimum longitude −40 but, as `max_lat`, the initial value
`std::numeric_limits<double>::min()` of the running maximum, a positive
number, where the greatest latitude is −10; the zoom it stores is computed
from that value and from the same value as greatest longitude, and is not the
zoom 4 of the spans 20 and 20. -/
theorem UpdateRenderSettings_negative :
    southDb.displayLats = [-10, -30] ∧ southDb.displayLons = [-20, -40] ∧
    southDb.UpdateRenderSettings.map_settings_.min_lon = -40 ∧
    southDb.UpdateRenderSettings.map_settings_.max_lat = doubleMin ∧
    (0 : ℚ) < doubleMin ∧
    southDb.UpdateRenderSettings.map_settings_.max_lat ≠ -10 ∧
    zoomOf southDb.map_settings_.render_settings (-30) (-10) (-40) (-20) = 4 ∧
    southDb.UpdateRenderSettings.map_settings_.zoom_coef =
      min (180 / (doubleMin + 40)) (80 / (doubleMin + 30)) ∧
    southDb.UpdateRenderSettings.map_settings_.zoom_coef ≠ 4 := by
  refine ⟨by decide!, by decide!, by decide!, by decide!, by decide!, by decide!, by decide!,
    by decide!, by decide!⟩

theorem marked_refl (m : StopMap) : Marked (fun _ => False) m m := by
  unfold Marked
  induction m with
  | nil => exact List.Forall₂.nil
  | cons kv m ih =>
    refine List.Forall₂.cons ⟨rfl, rfl, ?_⟩ ih
    simp

theorem marked_congr (S S' : String → Prop) (m0 m : StopMap) (h : Marked S m0 m)
    (hS : ∀ k, S k ↔ S' k) : Marked S' m0 m := by
  unfold Marked at h ⊢
  refine List.Forall₂.imp ?_ h
  intro kv0 kv ⟨h1, h2, h3⟩
  exact ⟨h1, h2, by rw [h3, hS]⟩

theorem marked_keys (S : String → Prop) (m0 m : StopMap) (h : Marked S m0 m) :
    m.map Prod.fst = m0.map Prod.fst := by
  unfold Marked at h
  induction h with
  | nil => rfl
  | cons hr _ ih =>
    rw [List.map_cons, List.map_cons, ih, hr.1]

theorem lookup_isSome_iff {β : Type} (m : List (String × β)) (k : String) :
    (m.lookup k).isSome = true ↔ k ∈ m.map Prod.fst := by
  induction m with
  | nil => simp
  | cons kv m ih =>
    obtain ⟨k0, v0⟩ := kv
    by_cases hk : k = k0
    · subst hk
      simp [List.lookup]
    · have hb : (k == k0) = false := by simpa using hk
      rw [List.lookup, hb, List.map_cons, List.mem_cons]
      simp only [hk, false_or]
      exact ih

theorem marked_lookup_isSome (S : String → Prop) (m0 m : StopMap) (h : Marked S m0 m)
    (k : String) (hk : (m0.lookup k).isSome = true) : (m.lookup k).isSome = true := by
  rw [lookup_isSome_iff, marked_keys S m0 m h, ← lookup_isSome_iff]
  exact hk

theorem stopsModify_ok (m : StopMap) (name : String) (f : Stop → Stop)
    (h : (m.lookup name).isSome = true) :
    stopsModify m name f =
      .ok (m.map (fun kv => if kv.1 = name then (kv.1, f kv.2) else kv)) := by
  unfold stopsModify
  obtain ⟨x, hx⟩ := Option.isSome_iff_exists.mp h
  rw [hx]

theorem marked_modify (S : String → Prop) (m0 m : StopMap) (name : String)
    (h : Marked S m0 m) (hk : (m0.lookup name).isSome = true) :
    ∃ m', stopsModify m name (fun s => s.SetIsBase true) = .ok m' ∧
      Marked (fun k => S k ∨ k = name) m0 m' := by
  refine ⟨_, stopsModify_ok m name _ (marked_lookup_isSome S m0 m h name hk), ?_⟩
  unfold Marked at h ⊢
  rw [List.forall₂_map_right_iff]
  refine List.Forall₂.imp ?_ h
  intro kv0 kv ⟨h1, h2, h3⟩
  by_cases hn : kv.1 = name
  · rw [if_pos hn]
    refine ⟨h1, ?_, ?_⟩
    · show kv.2.SetIsBase true = _
      rw [h2]
      rfl
    · show true = true ↔ _
      have : kv0.1 = name := by rw [← h1]; exact hn
      simp [this]
  · rw [if_neg hn]
    refine ⟨h1, h2, ?_⟩
    rw [h3]
    have : kv0.1 ≠ name := by rw [← h1]; exact hn
    simp [this]

theorem marked_markStep (t : List (String × List String)) (m0 : StopMap) :
    Marked (FirstMarks t) m0 (m0.map (markStep t)) := by
  unfold Marked
  rw [List.forall₂_map_right_iff]
  induction m0 with
  | nil => exact List.Forall₂.nil
  | cons kv m ih =>
    refine List.Forall₂.cons ?_ ih
    unfold markStep Stop.IsBase
    by_cases hb : kv.2.is_base_ = true
    · rw [if_pos hb]
      exact ⟨rfl, rfl, by simp [hb]⟩
    · rw [if_neg hb]
      cases hl : t.lookup kv.1 with
      | none =>
        refine ⟨rfl, rfl, ?_⟩
        show true = true ↔ _
        exact ⟨fun _ => Or.inr (Or.inl hl), fun _ => rfl⟩
      | some s =>
        dsimp only
        by_cases hs : s.length > 1
        · rw [if_pos hs]
          refine ⟨rfl, rfl, ?_⟩
          show true = true ↔ _
          exact ⟨fun _ => Or.inr (Or.inr ⟨s, hl, hs⟩), fun _ => rfl⟩
        · rw [if_neg hs]
          refine ⟨rfl, rfl, ?_⟩
          constructor
          · intro h; exact absurd h hb
          · rintro (h | h | ⟨s', hs', hlen⟩)
            · exact h
            · rw [hl] at h; cases h
            · rw [hl] at hs'
              cases hs'
              exact absurd hlen hs

theorem countFold_lookup (l : List String) (acc : List (String × Int)) (k : String) :
    (l.foldl (fun counter name =>
        umapSet counter name ((counter.lookup name).getD 0 + 1)) acc).lookup k =
      if k ∈ l then some ((acc.lookup k).getD 0 + (l.count k : Int)) else acc.lookup k := by
  induction l generalizing acc with
  | nil => simp
  | cons x l ih =>
    rw [List.foldl_cons, ih, lookup_umapSet]
    by_cases hkx : k = x
    · subst hkx
      rw [if_pos rfl]
      by_cases hkl : k ∈ l
      · rw [if_pos hkl, if_pos (List.mem_cons_self _ _)]
        simp only [Option.getD_some, List.count_cons_self, Nat.cast_add, Nat.cast_one]
        congr 1
        ring
      · rw [if_neg hkl, if_pos (List.mem_cons_self _ _)]
        have : l.count k = 0 := List.count_eq_zero.mpr hkl
        simp [this]
    · rw [if_neg hkx]
      have hc : (x :: l).count k = l.count k := by
        rw [List.count_cons]
        have : (x == k) = false := by simpa using (fun e => hkx e.symm)
        simp [this]
      by_cases hkl : k ∈ l
      · rw [if_pos hkl, if_pos (List.mem_cons_of_mem _ hkl), hc]
      · rw [if_neg hkl, if_neg (by simp [hkx, hkl])]

theorem countStops_lookup (l : List String) (k : String) :
    (countStops l).lookup k = if k ∈ l then some (l.count k : Int) else none := by
  unfold countStops
  rw [countFold_lookup]
  simp

theorem keys_umapSet {β : Type} (m : List (String × β)) (k : String) (v : β) :
    (umapSet m k v).map Prod.fst =
      if k ∈ m.map Prod.fst then m.map Prod.fst else m.map Prod.fst ++ [k] := by
  induction m with
  | nil => simp [umapSet]
  | cons kv m ih =>
    obtain ⟨k0, v0⟩ := kv
    unfold umapSet
    by_cases h0 : k0 = k
    · subst h0
      rw [if_pos rfl]
      simp
    · rw [if_neg h0, List.map_cons, ih]
      have hne : k ≠ k0 := fun e => h0 e.symm
      by_cases hm : k ∈ m.map Prod.fst
      · rw [if_pos hm, if_pos (by simp [hm])]
        rfl
      · rw [if_neg hm, if_neg (by simp only [List.map_cons, List.mem_cons, not_or]; exact ⟨hne, hm⟩)]
        rfl

theorem nodup_keys_umapSet {β : Type} (m : List (String × β)) (k : String) (v : β)
    (h : (m.map Prod.fst).Nodup) : ((umapSet m k v).map Prod.fst).Nodup := by
  rw [keys_umapSet]
  split
  · exact h
  · rename_i hk
    rw [List.nodup_append]
    refine ⟨h, by simp, ?_⟩
    intro a ha hb
    rw [List.mem_singleton] at hb
    subst hb
    exact hk ha

theorem countStops_nodup (l : List String) : ((countStops l).map Prod.fst).Nodup := by
  unfold countStops
  have : ∀ (acc : List (String × Int)), (acc.map Prod.fst).Nodup →
      ((l.foldl (fun counter name =>
        umapSet counter name ((counter.lookup name).getD 0 + 1)) acc).map Prod.fst).Nodup := by
    induction l with
    | nil => intro acc h; exact h
    | cons x l ih =>
      intro acc h
      rw [List.foldl_cons]
      exact ih _ (nodup_keys_umapSet acc x _ h)
  exact this [] (by simp)

theorem lookup_of_mem_nodup {β : Type} (m : List (String × β)) (k : String) (v : β)
    (h : (m.map Prod.fst).Nodup) (hm : (k, v) ∈ m) : m.lookup k = some v := by
  induction m with
  | nil => cases hm
  | cons kv m ih =>
    obtain ⟨k0, v0⟩ := kv
    rw [List.map_cons, List.nodup_cons] at h
    rcases List.mem_cons.mp hm with he | he
    · cases he
      simp [List.lookup]
    · have hne : k ≠ k0 := by
        intro e
        subst e
        exact h.1 (List.mem_map.mpr ⟨(k, v), he, rfl⟩)
      have hb : (k == k0) = false := by simpa using hne
      rw [List.lookup, hb]
      exact ih h.2 he

theorem mem_countStops (l : List String) (k : String) (c : Int) :
    (k, c) ∈ countStops l ↔ k ∈ l ∧ c = (l.count k : Int) := by
  constructor
  · intro hm
    have hl := lookup_of_mem_nodup _ k c (countStops_nodup l) hm
    rw [countStops_lookup] at hl
    by_cases hk : k ∈ l
    · rw [if_pos hk] at hl
      exact ⟨hk, (Option.some.inj hl).symm⟩
    · rw [if_neg hk] at hl
      cases hl
  · rintro ⟨hk, hc⟩
    apply lookup_mem
    rw [countStops_lookup, if_pos hk, hc]

theorem marked_count_fold (bus : Bus) (m0 : StopMap) (ncs : List (String × Int))
    (hk : ∀ nc ∈ ncs, (m0.lookup nc.1).isSome = true) :
    ∀ (S : String → Prop) (m : StopMap), Marked S m0 m →
    ∃ m', ncs.foldlM (markCountStep bus) m = .ok m' ∧
      Marked (fun k => S k ∨ ∃ nc ∈ ncs, nc.1 = k ∧ CountCond bus nc.2) m0 m' := by
  induction ncs with
  | nil =>
    intro S m h
    exact ⟨m, rfl, marked_congr _ _ _ _ h (by simp)⟩
  | cons nc ncs ih =>
    intro S m h
    have hstep : ∃ m1, markCountStep bus m nc = .ok m1 ∧
        Marked (fun k => S k ∨ (nc.1 = k ∧ CountCond bus nc.2)) m0 m1 := by
      unfold markCountStep CountCond
      cases ht : bus.GetType with
      | ROUND =>
        dsimp only
        by_cases hc : nc.2 > 2
        · rw [if_pos hc]
          obtain ⟨m1, h1, h2⟩ := marked_modify S m0 m nc.1 h (hk nc (List.mem_cons_self _ _))
          refine ⟨m1, h1, marked_congr _ _ _ _ h2 ?_⟩
          intro k
          constructor
          · rintro (hs | hs)
            · exact Or.inl hs
            · exact Or.inr ⟨hs.symm, Or.inl ⟨rfl, hc⟩⟩
          · rintro (hs | ⟨hs, _⟩)
            · exact Or.inl hs
            · exact Or.inr hs.symm
        · rw [if_neg hc]
          refine ⟨m, rfl, marked_congr _ _ _ _ h ?_⟩
          intro k
          constructor
          · intro hs; exact Or.inl hs
          · rintro (hs | ⟨_, ⟨_, hc'⟩ | ⟨ht', _⟩⟩)
            · exact hs
            · exact absurd hc' hc
            · cases ht'
      | TWOWAY =>
        dsimp only
        by_cases hc : nc.2 ≥ 2
        · rw [if_pos hc]
          obtain ⟨m1, h1, h2⟩ := marked_modify S m0 m nc.1 h (hk nc (List.mem_cons_self _ _))
          refine ⟨m1, h1, marked_congr _ _ _ _ h2 ?_⟩
          intro k
          constructor
          · rintro (hs | hs)
            · exact Or.inl hs
            · exact Or.inr ⟨hs.symm, Or.inr ⟨rfl, hc⟩⟩
          · rintro (hs | ⟨hs, _⟩)
            · exact Or.inl hs
            · exact Or.inr hs.symm
        · rw [if_neg hc]
          refine ⟨m, rfl, marked_congr _ _ _ _ h ?_⟩
          intro k
          constructor
          · intro hs; exact Or.inl hs
          · rintro (hs | ⟨_, ⟨ht', _⟩ | ⟨_, hc'⟩⟩)
            · exact hs
            · cases ht'
            · exact absurd hc' hc
    obtain ⟨m1, h1, hm1⟩ := hstep
    obtain ⟨m2, h2, hm2⟩ := ih (fun nc' h' => hk nc' (List.mem_cons_of_mem _ h')) _ m1 hm1
    refine ⟨m2, by rw [List.foldlM_cons, h1, ok_bind, h2], marked_congr _ _ _ _ hm2 ?_⟩
    intro k
    constructor
    · rintro ((hs | ⟨hn, hc⟩) | ⟨nc', hmem, hn, hc⟩)
      · exact Or.inl hs
      · exact Or.inr ⟨nc, List.mem_cons_self _ _, hn, hc⟩
      · exact Or.inr ⟨nc', List.mem_cons_of_mem _ hmem, hn, hc⟩
    · rintro (hs | ⟨nc', hmem, hn, hc⟩)
      · exact Or.inl (Or.inl hs)
      · rcases List.mem_cons.mp hmem with he | he
        · subst he
          exact Or.inl (Or.inr ⟨hn, hc⟩)
        · exact Or.inr ⟨nc', he, hn, hc⟩

theorem countCond_iff (bus : Bus) (k : String) :
    (∃ nc ∈ countStops bus.GetStops, nc.1 = k ∧ CountCond bus nc.2) ↔
      ((bus.GetType = .ROUND ∧ bus.GetStops.count k > 2) ∨
       (bus.GetType = .TWOWAY ∧ bus.GetStops.count k ≥ 2)) := by
  constructor
  · rintro ⟨⟨k', c⟩, hmem, hk, hc⟩
    obtain ⟨_, hcount⟩ := (mem_countStops _ _ _).mp hmem
    have hk' : k' = k := hk
    subst hk'
    have hc' : CountCond bus c := hc
    rw [hcount] at hc'
    rcases hc' with ⟨ht, h⟩ | ⟨ht, h⟩
    · exact Or.inl ⟨ht, by exact_mod_cast h⟩
    · exact Or.inr ⟨ht, by exact_mod_cast h⟩
  · intro h
    have hpos : 0 < bus.GetStops.count k := by
      rcases h with ⟨_, h⟩ | ⟨_, h⟩ <;> omega
    have hmem : k ∈ bus.GetStops := List.count_pos_iff.mp hpos
    refine ⟨(k, (bus.GetStops.count k : Int)), (mem_countStops _ _ _).mpr ⟨hmem, rfl⟩, rfl, ?_⟩
    show CountCond bus (bus.GetStops.count k : Int)
    rcases h with ⟨ht, h⟩ | ⟨ht, h⟩
    · exact Or.inl ⟨ht, by exact_mod_cast h⟩
    · exact Or.inr ⟨ht, by exact_mod_cast h⟩

theorem marked_bus_step (m0 : StopMap) (kb : String × Bus)
    (hne : kb.2.GetStops ≠ [])
    (hk : ∀ name ∈ kb.2.GetStops, (m0.lookup name).isSome = true)
    (S : String → Prop) (m : StopMap) (h : Marked S m0 m) :
    ∃ m', markBusStep m kb = .ok m' ∧ Marked (fun k => S k ∨ BusMarks kb.2 k) m0 m' := by
  obtain ⟨front, hfront⟩ : ∃ a, kb.2.GetStops.head? = some a := by
    cases hs : kb.2.GetStops with
    | nil => exact absurd hs hne
    | cons a l => exact ⟨a, rfl⟩
  obtain ⟨back, hback⟩ : ∃ a, kb.2.GetStops.getLast? = some a := by
    cases hs : kb.2.GetStops.getLast? with
    | none => exact absurd (List.getLast?_eq_none_iff.mp hs) hne
    | some a => exact ⟨a, rfl⟩
  have hf0 : kb.2.GetStops[0]? = some front := by
    rw [← List.head?_eq_getElem?]; exact hfront
  have hb0 : kb.2.GetStops[kb.2.GetStops.length - 1]? = some back := by
    rw [← List.getLast?_eq_getElem?]; exact hback
  have hfm : front ∈ kb.2.GetStops := List.getElem?_mem hf0
  have hbm : back ∈ kb.2.GetStops := List.getElem?_mem hb0
  obtain ⟨m1, h1, hm1⟩ := marked_modify S m0 m front h (hk front hfm)
  obtain ⟨m2, h2, hm2⟩ := marked_modify _ m0 m1 back hm1 (hk back hbm)
  obtain ⟨m3, h3, hm3⟩ := marked_count_fold kb.2 m0 (countStops kb.2.GetStops)
    (fun nc hnc => hk nc.1 ((mem_countStops _ nc.1 nc.2).mp hnc).1) _ m2 hm2
  refine ⟨m3, ?_, marked_congr _ _ _ _ hm3 ?_⟩
  · unfold markBusStep
    dsimp only
    rw [vecAt_of_getElem? _ _ _ hf0, ok_bind, h1, ok_bind, vecAt_of_getElem? _ _ _ hb0, ok_bind,
      h2, ok_bind, h3]
  · intro k
    rw [countCond_iff]
    unfold BusMarks
    rw [hfront, hback]
    constructor
    · rintro (((hs | hf) | hb) | hc)
      · exact Or.inl hs
      · exact Or.inr (Or.inl (by rw [hf]))
      · exact Or.inr (Or.inr (Or.inl (by rw [hb])))
      · exact Or.inr (Or.inr (Or.inr hc))
    · rintro (hs | hf | hb | hc)
      · exact Or.inl (Or.inl (Or.inl hs))
      · exact Or.inl (Or.inl (Or.inr (Option.some.inj hf).symm))
      · exact Or.inl (Or.inr (Option.some.inj hb).symm)
      · exact Or.inr hc

theorem marked_buses_fold (m0 : StopMap) (buses : List (String × Bus))
    (hb : ∀ kb ∈ buses, kb.2.GetStops ≠ [] ∧
      ∀ name ∈ kb.2.GetStops, (m0.lookup name).isSome = true) :
    ∀ (S : String → Prop) (m : StopMap), Marked S m0 m →
    ∃ m', buses.foldlM markBusStep m = .ok m' ∧
      Marked (fun k => S k ∨ ∃ kb ∈ buses, BusMarks kb.2 k) m0 m' := by
  induction buses with
  | nil =>
    intro S m h
    exact ⟨m, rfl, marked_congr _ _ _ _ h (by simp)⟩
  | cons kb buses ih =>
    intro S m h
    obtain ⟨hne, hk⟩ := hb kb (List.mem_cons_self _ _)
    obtain ⟨m1, h1, hm1⟩ := marked_bus_step m0 kb hne hk S m h
    obtain ⟨m2, h2, hm2⟩ := ih (fun kb' h' => hb kb' (List.mem_cons_of_mem _ h')) _ m1 hm1
    refine ⟨m2, by rw [List.foldlM_cons, h1, ok_bind, h2], marked_congr _ _ _ _ hm2 ?_⟩
    intro k
    constructor
    · rintro ((hs | hc) | ⟨kb', hmem, hc⟩)
      · exact Or.inl hs
      · exact Or.inr ⟨kb, List.mem_cons_self _ _, hc⟩
      · exact Or.inr ⟨kb', List.mem_cons_of_mem _ hmem, hc⟩
    · rintro (hs | ⟨kb', hmem, hc⟩)
      · exact Or.inl (Or.inl hs)
      · rcases List.mem_cons.mp hmem with he | he
        · subst he
          exact Or.inl (Or.inr hc)
        · exact Or.inr ⟨kb', he, hc⟩

/-- `MarkBaseStops` on a catalog whose buses list at least one stop and only
stops of the catalog: it returns, and the stops are those of before with the
mark set on the stops of the first loop and on those of the second. -/
theorem markBaseStops_marked (db : Database)
    (hb : ∀ kb ∈ db.buses_, kb.2.GetStops ≠ [] ∧
      ∀ name ∈ kb.2.GetStops, (db.stops_.lookup name).isSome = true) :
    ∃ m', db.MarkBaseStops = .ok { db with stops_ := m' } ∧
      Marked (fun k => FirstMarks db.stops_to_buses_ k ∨ ∃ kb ∈ db.buses_, BusMarks kb.2 k)
        db.stops_ m' := by
  obtain ⟨m', h1, hm⟩ := marked_buses_fold db.stops_ db.buses_ hb _ _
    (marked_markStep db.stops_to_buses_ db.stops_)
  refine ⟨m', ?_, hm⟩
  unfold Database.MarkBaseStops
  dsimp only
  rw [h1]
  rfl

theorem marked_mem (S : String → Prop) (m0 m : StopMap) (h : Marked S m0 m) :
    ∀ kv ∈ m, ∃ kv0 ∈ m0, MarkRel S kv0 kv := by
  unfold Marked at h
  induction h with
  | nil => intro kv hkv; cases hkv
  | cons hr _ ih =>
    intro kv hkv
    rcases List.mem_cons.mp hkv with he | he
    · subst he
      exact ⟨_, List.mem_cons_self _ _, hr⟩
    · obtain ⟨kv0, h0, hr0⟩ := ih kv he
      exact ⟨kv0, List.mem_cons_of_mem _ h0, hr0⟩

theorem one_lt_length_iff (names : List String) (hnd : names.Nodup) :
    names.length > 1 ↔ ∃ a ∈ names, ∃ b ∈ names, a ≠ b := by
  constructor
  · intro h
    match names, hnd, h with
    | a :: b :: rest, hnd, _ =>
      rw [List.nodup_cons] at hnd
      refine ⟨a, by simp, b, by simp, ?_⟩
      intro e
      subst e
      exact hnd.1 (List.mem_cons_self _ _)
  · rintro ⟨a, ha, b, hb, hab⟩
    match names, ha, hb with
    | [x], ha, hb =>
      rw [List.mem_singleton] at ha hb
      exact absurd (ha.trans hb.symm) hab
    | x :: y :: rest, _, _ => simp

theorem firstMarks_iff (db : Database) (k : String) (h : EntryOk db k) :
    FirstMarks db.stops_to_buses_ k ↔
      ∃ kb1 ∈ db.buses_, ∃ kb2 ∈ db.buses_, kb1.1 ≠ kb2.1 ∧
        k ∈ kb1.2.GetStops ∧ k ∈ kb2.2.GetStops := by
  unfold EntryOk at h
  unfold FirstMarks
  cases hl : db.stops_to_buses_.lookup k with
  | none => rw [hl] at h; exact absurd h id
  | some names =>
    rw [hl] at h
    obtain ⟨hnd, h1, h2⟩ := h
    constructor
    · rintro (hn | ⟨s, hs, hlen⟩)
      · cases hn
      · cases hs
        obtain ⟨a, ha, b, hb, hab⟩ := (one_lt_length_iff names hnd).mp hlen
        obtain ⟨kb1, hk1, hn1, hs1⟩ := h1 a ha
        obtain ⟨kb2, hk2, hn2, hs2⟩ := h1 b hb
        exact ⟨kb1, hk1, kb2, hk2, by rw [hn1, hn2]; exact hab, hs1, hs2⟩
    · rintro ⟨kb1, hk1, kb2, hk2, hne, hs1, hs2⟩
      right
      exact ⟨names, rfl, (one_lt_length_iff names hnd).mpr
        ⟨kb1.1, h2 kb1 hk1 hs1, kb2.1, h2 kb2 hk2 hs2, hne⟩⟩

/-- C32: on a catalog whose buses list at least one stop and only stops of the
catalog, whose stops are not yet marked, and where the entry of every listed
stop in `stops_to_buses_` holds the names of the buses listing it,
`MarkBaseStops` returns, keeps the stops but for their marks, and a stop listed
by at least one bus is a base stop afterwards iff two buses of different names
list it, or it is the first or the last listed stop of some bus, or some ROUND
bus lists it more than twice, or some TWOWAY bus lists it at least twice. -/
theorem MarkBaseStops_spec (db : Database)
    (hb : ∀ kb ∈ db.buses_, kb.2.GetStops ≠ [] ∧
      ∀ name ∈ kb.2.GetStops, (db.stops_.lookup name).isSome = true)
    (hinit : ∀ kv ∈ db.stops_, kv.2.IsBase = false)
    (htable : ∀ kb ∈ db.buses_, ∀ k ∈ kb.2.GetStops, EntryOk db k) :
    ∃ db', db.MarkBaseStops = .ok db' ∧
      db'.stops_.map Prod.fst = db.stops_.map Prod.fst ∧
      (∀ kv ∈ db'.stops_, ∃ kv0 ∈ db.stops_,
        kv.1 = kv0.1 ∧ kv.2 = { kv0.2 with is_base_ := kv.2.is_base_ }) ∧
      ∀ kv ∈ db'.stops_, (∃ kb ∈ db.buses_, kv.1 ∈ kb.2.GetStops) →
        (kv.2.IsBase = true ↔
          (∃ kb1 ∈ db.buses_, ∃ kb2 ∈ db.buses_, kb1.1 ≠ kb2.1 ∧
            kv.1 ∈ kb1.2.GetStops ∧ kv.1 ∈ kb2.2.GetStops) ∨
          (∃ kb ∈ db.buses_, kb.2.GetStops.head? = some kv.1 ∨
            kb.2.GetStops.getLast? = some kv.1) ∨
          (∃ kb ∈ db.buses_, kb.2.GetType = .ROUND ∧ kb.2.GetStops.count kv.1 > 2) ∨
          (∃ kb ∈ db.buses_, kb.2.GetType = .TWOWAY ∧ kb.2.GetStops.count kv.1 ≥ 2)) := by
  obtain ⟨m', hres, hm⟩ := markBaseStops_marked db hb
  refine ⟨_, hres, marked_keys _ _ _ hm, ?_, ?_⟩
  · intro kv hkv
    obtain ⟨kv0, h0, h1, h2, _⟩ := marked_mem _ _ _ hm kv hkv
    exact ⟨kv0, h0, h1, h2⟩
  · intro kv hkv ⟨kb, hkb, hk⟩
    obtain ⟨kv0, h0, h1, _, h3⟩ := marked_mem _ _ _ hm kv hkv
    have hi : kv0.2.is_base_ = false := hinit kv0 h0
    have he : EntryOk db kv0.1 := by rw [← h1]; exact htable kb hkb kv.1 hk
    have h3' : kv.2.is_base_ = true ↔ (kv0.2.is_base_ = true ∨
        (FirstMarks db.stops_to_buses_ kv0.1 ∨ ∃ kb ∈ db.buses_, BusMarks kb.2 kv0.1)) := h3
    show kv.2.is_base_ = true ↔ _
    rw [h3', firstMarks_iff db kv0.1 he, h1]
    unfold BusMarks
    constructor
    · rintro (hi' | hf | ⟨kb', hkb', hh | hl | hr | ht⟩)
      · rw [hi] at hi'; cases hi'
      · exact Or.inl hf
      · exact Or.inr (Or.inl ⟨kb', hkb', Or.inl hh⟩)
      · exact Or.inr (Or.inl ⟨kb', hkb', Or.inr hl⟩)
      · exact Or.inr (Or.inr (Or.inl ⟨kb', hkb', hr⟩))
      · exact Or.inr (Or.inr (Or.inr ⟨kb', hkb', ht⟩))
    · rintro (hf | ⟨kb', hkb', hh | hl⟩ | ⟨kb', hkb', hr⟩ | ⟨kb', hkb', ht⟩)
      · exact Or.inr (Or.inl hf)
      · exact Or.inr (Or.inr ⟨kb', hkb', Or.inl hh⟩)
      · exact Or.inr (Or.inr ⟨kb', hkb', Or.inr (Or.inl hl)⟩)
      · exact Or.inr (Or.inr ⟨kb', hkb', Or.inr (Or.inr (Or.inl hr))⟩)
      · exact Or.inr (Or.inr ⟨kb', hkb', Or.inr (Or.inr (Or.inr ht))⟩)

/-- Witness of C32: of the stops of the buses `1` (TWOWAY: A, B, C) and `2`
(ROUND: C, D, E, D, C) the terminals A and C are base stops (C is also on two
buses); B, E and D, which the ROUND bus lists twice, are not. -/
theorem MarkBaseStops_spec_witness :
    markDb.buses_.map (fun kb => (kb.1, kb.2.GetType, kb.2.GetStops)) =
      [("1", .TWOWAY, ["A", "B", "C"]), ("2", .ROUND, ["C", "D", "E", "D", "C"])] ∧
    (baseMarks markDb.MarkBaseStops).take 5 =
      [("A", true), ("B", false), ("C", true), ("D", false), ("E", false)] ∧
    ∃ db', markDb.MarkBaseStops = .ok db' ∧
      db'.stops_.map Prod.fst = markDb.stops_.map Prod.fst ∧
      (∀ kv ∈ db'.stops_, ∃ kv0 ∈ markDb.stops_,
        kv.1 = kv0.1 ∧ kv.2 = { kv0.2 with is_base_ := kv.2.is_base_ }) ∧
      ∀ kv ∈ db'.stops_, (∃ kb ∈ markDb.buses_, kv.1 ∈ kb.2.GetStops) →
        (kv.2.IsBase = true ↔
          (∃ kb1 ∈ markDb.buses_, ∃ kb2 ∈ markDb.buses_, kb1.1 ≠ kb2.1 ∧
            kv.1 ∈ kb1.2.GetStops ∧ kv.1 ∈ kb2.2.GetStops) ∨
          (∃ kb ∈ markDb.buses_, kb.2.GetStops.head? = some kv.1 ∨
            kb.2.GetStops.getLast? = some kv.1) ∨
          (∃ kb ∈ markDb.buses_, kb.2.GetType = .ROUND ∧ kb.2.GetStops.count kv.1 > 2) ∨
          (∃ kb ∈ markDb.buses_, kb.2.GetType = .TWOWAY ∧ kb.2.GetStops.count kv.1 ≥ 2)) :=
  ⟨by decide!, by decide!, MarkBaseStops_spec markDb (by decide!) (by decide!) (by decide!)⟩

/-- C31, the code at the failing input: in the database of make_base after
`UpdateDatabase` the declared stop F, which no bus lists, has an entry in
`stops_to_buses_`, the empty set; the first loop of `MarkBaseStops` marks a
stop with no entry or with more than one bus, the second only stops of buses:
after `MarkBaseStops` the stop F is not a base stop. -/
theorem MarkBaseStops_untouched :
    markDb.stops_to_buses_.lookup "F" = some [] ∧
    (∀ kb ∈ markDb.buses_, "F" ∉ kb.2.GetStops) ∧
    (markDb.stops_.lookup "F").isSome = true ∧
    baseMarks markDb.MarkBaseStops =
      [("A", true), ("B", false), ("C", true), ("D", false), ("E", false), ("F", false)] := by
  refine ⟨by decide!, by decide!, by decide!, by decide!⟩

theorem busMarks_mem (bus : Bus) (k : String) (h : BusMarks bus k) : k ∈ bus.GetStops := by
  rcases h with h | h | ⟨_, h⟩ | ⟨_, h⟩
  · exact List.mem_of_mem_head? h
  · exact List.mem_of_mem_getLast? h
  · exact List.count_pos_iff.mp (by omega)
  · exact List.count_pos_iff.mp (by omega)

/-- A stop that has an entry of at most one bus in `stops_to_buses_` and is
listed by no bus of the catalog is not marked by `MarkBaseStops`: the test
`it == stops_to_buses_.end()` of the first loop fails on it. -/
theorem markBaseStops_unmarked (db db' : Database)
    (hb : ∀ kb ∈ db.buses_, kb.2.GetStops ≠ [] ∧
      ∀ name ∈ kb.2.GetStops, (db.stops_.lookup name).isSome = true)
    (hinit : ∀ kv ∈ db.stops_, kv.2.IsBase = false)
    (h : db.MarkBaseStops = .ok db')
    (k : String) (names : List String)
    (hentry : db.stops_to_buses_.lookup k = some names) (hlen : names.length ≤ 1)
    (hno : ∀ kb ∈ db.buses_, k ∉ kb.2.GetStops) :
    ∀ kv ∈ db'.stops_, kv.1 = k → kv.2.IsBase = false := by
  obtain ⟨m', hres, hm⟩ := markBaseStops_marked db hb
  rw [hres] at h
  cases h
  intro kv hkv hk
  obtain ⟨kv0, h0, h1, _, h3⟩ := marked_mem _ _ _ hm kv hkv
  have h3' : kv.2.is_base_ = true ↔ (kv0.2.is_base_ = true ∨
      (FirstMarks db.stops_to_buses_ kv0.1 ∨ ∃ kb ∈ db.buses_, BusMarks kb.2 kv0.1)) := h3
  have hk0 : kv0.1 = k := by rw [← h1]; exact hk
  cases hbase : kv.2.IsBase with
  | false => rfl
  | true =>
    exfalso
    rcases h3'.mp hbase with hi | hf | ⟨kb, hkb, hbm⟩
    · have := hinit kv0 h0
      unfold Stop.IsBase at this
      rw [this] at hi
      cases hi
    · rw [hk0] at hf
      rcases hf with hf | ⟨s, hs, hl⟩
      · rw [hentry] at hf; cases hf
      · rw [hentry] at hs
        cases hs
        omega
    · rw [hk0] at hbm
      exact hno kb hkb (busMarks_mem kb.2 k hbm)

/-! ## Theorems: the rank rule and the neighbour test -/


theorem rankInner_exact (db : Database) (ys : List MapItem) (i : Nat) (M : Int) (hM : 0 ≤ M)
    (hnn : ∀ a ∈ ys, 0 ≤ a.id) :
    ∀ (k : Nat) (id M' : Int),
    (List.range k).foldlM (rankInnerStep db ys i) (0, M) = .ok (id, M') →
    0 ≤ id ∧ M' = max M id ∧
      ((id = 0 ∧ ∀ j : Nat, j < k → ∃ (xi xj : MapItem), ys[i]? = some xi ∧ ys[j]? = some xj ∧
          db.AreNeighbours xi xj = .ok false) ∨
       (∃ j : Nat, j < k ∧ ∃ (xi xj : MapItem), ys[i]? = some xi ∧ ys[j]? = some xj ∧
          db.AreNeighbours xi xj = .ok true ∧ id = xj.id + 1)) := by
  intro k
  induction k with
  | zero =>
    intro id M' h
    cases h
    exact ⟨le_refl _, (max_eq_left hM).symm, Or.inl ⟨rfl, fun j hj => absurd hj (Nat.not_lt_zero _)⟩⟩
  | succ k ih =>
    intro id M' h
    rw [List.range_succ] at h
    obtain ⟨⟨id0, M0⟩, hfold, hstep⟩ := foldlM_concat_ok _ _ _ _ _ h
    obtain ⟨h0, hM0, hex⟩ := ih id0 M0 hfold
    obtain ⟨xi, xk, r, hxi, hxk, hr, hs⟩ := rankInnerStep_inv db ys i k _ _ hstep
    cases r with
    | false =>
      have hs' : (id, M') = (id0, M0) := hs
      cases hs'
      refine ⟨h0, hM0, ?_⟩
      rcases hex with ⟨hz, hno⟩ | ⟨j, hj, hrest⟩
      · left
        refine ⟨hz, ?_⟩
        intro j hj
        by_cases hjk : j = k
        · subst hjk
          exact ⟨xi, xk, hxi, hxk, hr⟩
        · exact hno j (by omega)
      · right
        exact ⟨j, by omega, hrest⟩
    | true =>
      have hs' : (id, M') = (max id0 (xk.id + 1), max M0 (max id0 (xk.id + 1))) := hs
      cases hs'
      refine ⟨le_trans h0 (le_max_left _ _), ?_, ?_⟩
      · rw [hM0, max_assoc]
        congr 1
        exact max_eq_right (le_max_left _ _)
      · right
        rcases le_total id0 (xk.id + 1) with hle | hle
        · exact ⟨k, by omega, xi, xk, hxi, hxk, hr, max_eq_right hle⟩
        · rcases hex with ⟨hz, _⟩ | ⟨j, hj, xi', xj, h1, h2, h3, h4⟩
          · exfalso
            have hk0 := hnn xk (List.getElem?_mem hxk)
            rw [hz] at hle
            omega
          · exact ⟨j, by omega, xi', xj, h1, h2, h3, by rw [max_eq_left hle, h4]⟩


theorem rankOuter_exact (db : Database) (xs : List MapItem) (hid : ∀ a ∈ xs, a.id = 0) :
    ∀ (c : Nat) (ys : List MapItem) (M : Int),
    (List.range' 1 c).foldlM (rankOuterStep db) (xs, 0) = .ok (ys, M) →
      (∀ a, ys[0]? = some a → a.id = 0) ∧
      (M = 0 ∨ ∃ p : Nat, p ≤ c ∧ ∃ a, ys[p]? = some a ∧ a.id = M) ∧
      ∀ i : Nat, 1 ≤ i → i ≤ c → ∃ a, ys[i]? = some a ∧
        ((a.id = 0 ∧ ∀ j : Nat, j < i → ∃ b, ys[j]? = some b ∧
            db.AreNeighbours a b = .ok false) ∨
         (∃ j : Nat, j < i ∧ ∃ b, ys[j]? = some b ∧
            db.AreNeighbours a b = .ok true ∧ a.id = b.id + 1)) := by
  intro c
  induction c with
  | zero =>
    intro ys M h
    cases h
    refine ⟨?_, Or.inl rfl, ?_⟩
    · intro a ha
      exact hid a (List.getElem?_mem ha)
    · intro i h1 h0
      omega
  | succ c ih =>
    intro ys' M' h
    rw [List.range'_concat, Nat.one_mul] at h
    obtain ⟨⟨ys, M⟩, hfold, hstep⟩ := foldlM_concat_ok _ _ _ _ _ h
    obtain ⟨hzero, hmax, hrec⟩ := ih ys M hfold
    obtain ⟨_, hrange, _⟩ := rankOuter_inv db xs hid c ys M hfold
    have h1c : 1 + c = c + 1 := by omega
    rw [h1c] at hstep
    obtain ⟨id, xi, hin, hxi, hys'⟩ := rankOuterStep_inv db ys ys' M M' (c + 1) hstep
    have hil : c + 1 < ys.length := by
      by_contra hcon
      rw [List.getElem?_eq_none (not_lt.mp hcon)] at hxi
      cases hxi
    have hM : 0 ≤ M := by
      obtain ⟨h1, h2⟩ := hrange ys[c + 1] (List.getElem_mem _)
      exact le_trans h1 h2
    obtain ⟨h0, hMM, hex⟩ := rankInner_exact db ys (c + 1) M hM
      (fun a ha => (hrange a ha).1) (c + 1) id M' hin
    subst hys'
    refine ⟨?_, ?_, ?_⟩
    · intro a ha
      rw [List.getElem?_set_ne (by omega)] at ha
      exact hzero a ha
    · rcases le_total M id with hle | hle
      · right
        refine ⟨c + 1, le_refl _, { xi with id := id }, List.getElem?_set_self hil, ?_⟩
        rw [hMM, max_eq_right hle]
      · rw [hMM, max_eq_left hle]
        rcases hmax with hz | ⟨p, hp, a, ha, hm⟩
        · exact Or.inl hz
        · right
          refine ⟨p, by omega, a, ?_, hm⟩
          rw [List.getElem?_set_ne (by omega)]
          exact ha
    · intro i hi1 hic
      by_cases hi : c + 1 = i
      · subst hi
        refine ⟨{ xi with id := id }, List.getElem?_set_self hil, ?_⟩
        rcases hex with ⟨hz, hno⟩ | ⟨j, hj, xi', xj, e1, e2, e3, e4⟩
        · left
          refine ⟨hz, ?_⟩
          intro j hj
          obtain ⟨xi', xj, e1, e2, e3⟩ := hno j hj
          rw [hxi] at e1
          cases e1
          refine ⟨xj, ?_, ?_⟩
          · rw [List.getElem?_set_ne (by omega)]; exact e2
          · rw [areNeighbours_with_id]; exact e3
        · right
          rw [hxi] at e1
          cases e1
          refine ⟨j, hj, xj, ?_, ?_, e4⟩
          · rw [List.getElem?_set_ne (by omega)]; exact e2
          · rw [areNeighbours_with_id]; exact e3
      · obtain ⟨a, ha, hcase⟩ := hrec i hi1 (by omega)
        refine ⟨a, by rw [List.getElem?_set_ne hi]; exact ha, ?_⟩
        rcases hcase with ⟨hz, hno⟩ | ⟨j, hj, b, hb, e3, e4⟩
        · left
          refine ⟨hz, ?_⟩
          intro j hj
          obtain ⟨b, hb, e3⟩ := hno j hj
          exact ⟨b, by rw [List.getElem?_set_ne (by omega)]; exact hb, e3⟩
        · right
          exact ⟨j, hj, b, by rw [List.getElem?_set_ne (by omega)]; exact hb, e3, e4⟩

/-- The ranks of `CompressCoordinates` (helper of C36): whenever the rank
assignment returns on a vector of items entering with the rank 0, the first
item has the rank 0, every later item has the rank 0 if no earlier item is its
neighbour and otherwise 1 + the greatest rank of the earlier items that are
its neighbours, and the tracked maximum is the greatest rank of the vector. -/
theorem assignRanks_recurrence (db : Database) (xs ys : List MapItem) (M : Int)
    (hid : ∀ a ∈ xs, a.id = 0) (h : db.assignRanks xs = .ok (ys, M)) :
    ys.map MapItem.noId = xs.map MapItem.noId ∧
    (∀ a, ys[0]? = some a → a.id = 0) ∧
    (∀ (i : Nat) (a : MapItem), 1 ≤ i → ys[i]? = some a →
      (∀ (j : Nat) (b : MapItem), j < i → ys[j]? = some b →
        db.AreNeighbours a b = .ok true → b.id + 1 ≤ a.id) ∧
      ((a.id = 0 ∧ ∀ (j : Nat) (b : MapItem), j < i → ys[j]? = some b →
          db.AreNeighbours a b = .ok false) ∨
       (∃ (j : Nat) (b : MapItem), j < i ∧ ys[j]? = some b ∧
          db.AreNeighbours a b = .ok true ∧ a.id = 1 + b.id))) ∧
    (∀ a ∈ ys, a.id ≤ M) ∧
    (ys ≠ [] → ∃ a ∈ ys, a.id = M) := by
  unfold Database.assignRanks at h
  obtain ⟨hsame, hrange, hnb⟩ := rankOuter_inv db xs hid (xs.length - 1) ys M h
  obtain ⟨hzero, hmax, hrec⟩ := rankOuter_exact db xs hid (xs.length - 1) ys M h
  have hlen : ys.length = xs.length := by
    have := congrArg List.length hsame
    simpa using this
  refine ⟨hsame, hzero, ?_, fun a ha => (hrange a ha).2, ?_⟩
  · intro i a hi1 hia
    have hil : i < ys.length := by
      by_contra hcon
      rw [List.getElem?_eq_none (not_lt.mp hcon)] at hia
      cases hia
    constructor
    · intro j b hji hjb hn
      obtain ⟨a', b', r, e1, e2, e3, e4⟩ := hnb i j hji (by omega)
      rw [hia] at e1
      rw [hjb] at e2
      cases e1
      cases e2
      rw [hn] at e3
      have hr : r = true := by cases e3; rfl
      have := e4 hr
      omega
    · obtain ⟨a', ha', hcase⟩ := hrec i hi1 (by omega)
      rw [hia] at ha'
      cases ha'
      rcases hcase with ⟨hz, hno⟩ | ⟨j, hj, b, hb, e3, e4⟩
      · left
        refine ⟨hz, ?_⟩
        intro j b hj hjb
        obtain ⟨b', hb', e3⟩ := hno j hj
        rw [hjb] at hb'
        cases hb'
        exact e3
      · right
        exact ⟨j, b, hj, hb, e3, by rw [e4, add_comm]⟩
  · intro hne
    rcases hmax with hz | ⟨p, _, a, ha, hm⟩
    · have h0 : 0 < ys.length := List.length_pos.mpr hne
      refine ⟨ys[0], List.getElem_mem _, ?_⟩
      rw [hz]
      exact hzero _ (List.getElem?_eq_getElem h0)
    · exact ⟨a, List.getElem?_mem ha, hm⟩

/-- C36: the ranks of two stops with the same coordinates.  On the catalog of
the stops A and B, both at (1, 1), with no bus, `stops_neighbours_` is empty,
the neighbour test on the two items throws `std::out_of_range`, and so do the
rank assignment of the X axis and `CompressCoordinates`: the ranks 0 and 0 are
never assigned.  With the bus from A to B the two stops are neighbours and get
the ranks 0 and 1 on both axes, with the maximum 1; with each stop on a bus of
its own that lists it twice, they are not neighbours and get the ranks 0 and 0
on both axes, with the maximum 0. -/
theorem CompressCoordinates_twin_stops :
    twinDb.stops_.map (fun kv => (kv.1, kv.2.GetLatitude, kv.2.GetLongitude)) =
      [("A", 1, 1), ("B", 1, 1)] ∧
    twinDb.buses_ = [] ∧ twinDb.stops_neighbours_ = [] ∧
    thrown (twinDb.AreNeighbours (stopItem 0 "B") (stopItem 0 "A")) = some .out_of_range ∧
    rankView (twinDb.xRanks sortAscending) = none ∧
    thrown (twinDb.xRanks sortAscending) = some .out_of_range ∧
    thrown (twinDb.CompressCoordinates sortAscending sortDescending) = some .out_of_range ∧
    (twinLineDb.AreNeighbours (stopItem 0 "B") (stopItem 0 "A")).toOption = some true ∧
    rankView (twinLineDb.xRanks sortAscending) = some ([(some "A", 0), (some "B", 1)], 1) ∧
    rankView (twinLineDb.yRanks sortAscending sortDescending) =
      some ([(some "A", 0), (some "B", 1)], 1) ∧
    (twinLoopDb.AreNeighbours (stopItem 0 "B") (stopItem 0 "A")).toOption = some false ∧
    rankView (twinLoopDb.xRanks sortAscending) = some ([(some "A", 0), (some "B", 0)], 0) ∧
    rankView (twinLoopDb.yRanks sortAscending sortDescending) =
      some ([(some "A", 0), (some "B", 0)], 0) := by
  refine ⟨by decide!, by decide!, by decide!, by decide!, by decide!, by decide!, by decide!,
    by decide!, by decide!, by decide!, by decide!, by decide!, by decide!⟩

/-- C37: the neighbour test on a stop with no bus.  In the catalog of
`markUpdates` the stop F is declared and on no bus, so `FillStopsNeighbours`
gives it no entry in `stops_neighbours_`, and the test with the item of F as
its first argument throws `std::out_of_range`, against the stop A and against
F itself, while the test of A against F returns false.  Elsewhere the test
returns the value of the rule: true for A and B, adjacent on the bus `1`, in
both orders, false for A and C; true for the company and its nearby stop C in
both orders, false for the company and A, false for two companies. -/
theorem AreNeighbours_isolated_stop :
    (markDb.stops_.lookup "F").isSome = true ∧
    filledMarkDb.stops_neighbours_.lookup "F" = none ∧
    thrown (filledMarkDb.AreNeighbours (stopItem 0 "F") (stopItem 0 "A")) = some .out_of_range ∧
    thrown (filledMarkDb.AreNeighbours (stopItem 0 "F") (stopItem 0 "F")) = some .out_of_range ∧
    (filledMarkDb.AreNeighbours (stopItem 0 "A") (stopItem 0 "F")).toOption = some false ∧
    (filledMarkDb.AreNeighbours (stopItem 0 "A") (stopItem 0 "B")).toOption = some true ∧
    (filledMarkDb.AreNeighbours (stopItem 0 "B") (stopItem 0 "A")).toOption = some true ∧
    (filledMarkDb.AreNeighbours (stopItem 0 "A") (stopItem 0 "C")).toOption = some false ∧
    (filledLayoutDb.AreNeighbours (companyItem 0 0) (stopItem 0 "C")).toOption = some true ∧
    (filledLayoutDb.AreNeighbours (stopItem 0 "C") (companyItem 0 0)).toOption = some true ∧
    (filledLayoutDb.AreNeighbours (companyItem 0 0) (stopItem 0 "A")).toOption = some false ∧
    (filledLayoutDb.AreNeighbours (stopItem 0 "A") (companyItem 0 0)).toOption = some false ∧
    (filledLayoutDb.AreNeighbours (companyItem 0 0) (companyItem 0 0)).toOption = some false := by
  refine ⟨by decide!, by decide!, by decide!, by decide!, by decide!, by decide!, by decide!,
    by decide!, by decide!, by decide!, by decide!, by decide!, by decide!⟩

/-- The neighbour test on two stops (helper of C37): with the table of
`FillStopsNeighbours`, the test on the items of the stops `l` and `r` returns
whether the two are adjacent on some bus when `l` has an entry in the table,
and throws `std::out_of_range` when it has none. -/
theorem areNeighbours_stops (db : Database) (K : String → Prop)
    (ht : TableFor db.stops_neighbours_ K (fun n s => Adjacent db.buses_ s n))
    (a b : MapItem) (l r : String) (ha : a.stop_ptr = some l) (hb : b.stop_ptr = some r) :
    (K l → ∃ v, db.AreNeighbours a b = .ok v ∧ (v = true ↔ Adjacent db.buses_ l r)) ∧
    (¬ K l → db.AreNeighbours a b = .error .out_of_range) := by
  unfold Database.AreNeighbours
  rw [ha, hb]
  dsimp only
  unfold mapAt
  constructor
  · intro hk
    cases hl : db.stops_neighbours_.lookup l with
    | none => exact absurd hk ((ht l).1.mp hl)
    | some s =>
      refine ⟨decide (s.count r ≠ 0), rfl, ?_⟩
      have hmem : r ∈ s ↔ Adjacent db.buses_ l r := ((ht l).2 s hl).2 r
      rw [decide_eq_true_iff, ← hmem, ← List.count_pos_iff]
      omega
  · intro hk
    rw [(ht l).1.mpr hk]
    rfl

/-- The neighbour test on a company and a stop (helper of C37): in either
order of the arguments the test returns whether the stop is one of the nearby
stops of the company; on two companies it returns false. -/
theorem areNeighbours_company (db : Database) (a b : MapItem) (c : Nat)
    (ha : a.IsCompany c) (hc : c < db.companies_.length) :
    (∀ r, b.stop_ptr = some r →
      (∃ v, db.AreNeighbours a b = .ok v ∧ (v = true ↔ Nearby db.companies_ c r)) ∧
      (∃ v, db.AreNeighbours b a = .ok v ∧ (v = true ↔ Nearby db.companies_ c r))) ∧
    (b.stop_ptr = none → db.AreNeighbours a b = .ok false ∧ db.AreNeighbours b a = .ok false) := by
  obtain ⟨ha1, ha2⟩ := ha
  have hget : db.companies_[c]? = some db.companies_[c] := List.getElem?_eq_getElem hc
  have hnear : ∀ r, (db.companies_[c].nearby_stops.any (fun stop => decide (stop.name = r)) = true ↔
      Nearby db.companies_ c r) := by
    intro r
    rw [List.any_eq_true]
    constructor
    · rintro ⟨stop, hs, hn⟩
      exact ⟨_, hget, stop, hs, of_decide_eq_true hn⟩
    · rintro ⟨company, hcomp, stop, hs, hn⟩
      rw [hget] at hcomp
      cases hcomp
      exact ⟨stop, hs, decide_eq_true hn⟩
  constructor
  · intro r hb
    constructor
    · refine ⟨_, ?_, hnear r⟩
      unfold Database.AreNeighbours
      rw [ha1, ha2, hb]
      dsimp only
      rw [vecAt_of_getElem? _ _ _ hget]
      rfl
    · refine ⟨_, ?_, hnear r⟩
      unfold Database.AreNeighbours
      rw [ha1, ha2, hb]
      dsimp only
      rw [vecAt_of_getElem? _ _ _ hget]
      cases b.company_ptr <;> rfl
  · intro hb
    constructor
    · unfold Database.AreNeighbours
      rw [ha1, ha2, hb]
      rfl
    · unfold Database.AreNeighbours
      rw [ha1, ha2, hb]
      cases b.company_ptr <;> rfl

/-! ## Theorems: the intermediate stops -/

theorem lookup_map_modify (m : StopMap) (name : String) (f : Stop → Stop) (q : String) :
    (m.map (fun kv => if kv.1 = name then (kv.1, f kv.2) else kv)).lookup q =
      if q = name then (m.lookup q).map f else m.lookup q := by
  induction m with
  | nil => simp
  | cons kv m ih =>
    obtain ⟨k0, v0⟩ := kv
    rw [List.map_cons]
    by_cases hn : k0 = name
    · have e : (if (k0, v0).1 = name then ((k0, v0).1, f (k0, v0).2) else (k0, v0)) =
          (k0, f v0) := if_pos hn
      rw [e]
      by_cases hq : q = k0
      · have hqn : q = name := hq.trans hn
        have hb : (q == k0) = true := by simpa using hq
        rw [if_pos hqn]
        simp only [List.lookup, hb, Option.map_some']
      · have hb : (q == k0) = false := by simpa using hq
        simp only [List.lookup, hb]
        exact ih
    · have e : (if (k0, v0).1 = name then ((k0, v0).1, f (k0, v0).2) else (k0, v0)) =
          (k0, v0) := if_neg hn
      rw [e]
      by_cases hq : q = k0
      · have hqn : ¬ q = name := fun e => hn (hq.symm.trans e)
        have hb : (q == k0) = true := by simpa using hq
        rw [if_neg hqn]
        simp only [List.lookup, hb]
      · have hb : (q == k0) = false := by simpa using hq
        simp only [List.lookup, hb]
        exact ih

theorem stopsModify_lookup (m : StopMap) (name : String) (f : Stop → Stop)
    (h : (m.lookup name).isSome = true) :
    ∃ m', stopsModify m name f = .ok m' ∧
      ∀ q, m'.lookup q = if q = name then (m.lookup q).map f else m.lookup q :=
  ⟨_, stopsModify_ok m name f h, lookup_map_modify m name f⟩

theorem moveStep_lookup (stops : List String) (i : Nat) (a b c d : ℚ) (m : StopMap) (k : Nat)
    (name : String) (hk : stops[k]? = some name) (h : (m.lookup name).isSome = true) :
    ∃ m', moveStep stops i a b c d m k = .ok m' ∧
      ∀ q, m'.lookup q = if q = name then (m.lookup q).map (moveWrite i a b c d k)
        else m.lookup q := by
  obtain ⟨m1, h1, l1⟩ := stopsModify_lookup m name
    (fun s => s.SetLatitude (a + c * ((k - i : Nat) : ℚ))) h
  have h' : (m1.lookup name).isSome = true := by
    rw [l1 name, if_pos rfl]
    obtain ⟨x, hx⟩ := Option.isSome_iff_exists.mp h
    rw [hx]
    rfl
  obtain ⟨m2, h2, l2⟩ := stopsModify_lookup m1 name
    (fun s => s.SetLongitude (b + d * ((k - i : Nat) : ℚ))) h'
  refine ⟨m2, ?_, ?_⟩
  · unfold moveStep
    rw [vecAt_of_getElem? _ _ _ hk, ok_bind, h1, ok_bind, h2]
  · intro q
    rw [l2 q, l1 q]
    by_cases hq : q = name
    · simp only [if_pos hq, Option.map_map]
      rfl
    · simp only [if_neg hq]

theorem sameButDisplay_refl (m : StopMap) : SameButDisplay m m := fun _ => rfl

theorem sameButDisplay_trans (m1 m2 m3 : StopMap) (h1 : SameButDisplay m1 m2)
    (h2 : SameButDisplay m2 m3) : SameButDisplay m1 m3 := fun q => (h2 q).trans (h1 q)

theorem sameButDisplay_isSome (m m' : StopMap) (h : SameButDisplay m m') (q : String) :
    (m'.lookup q).isSome = (m.lookup q).isSome := by
  have := congrArg Option.isSome (h q)
  simpa using this

theorem moveWrite_of_noDisplay (i : Nat) (a b c d : ℚ) (k : Nat) (o1 o2 : Option Stop)
    (h : o1.map Stop.noDisplay = o2.map Stop.noDisplay) :
    o1.map (moveWrite i a b c d k) = o2.map (moveWrite i a b c d k) := by
  have e : ∀ s, moveWrite i a b c d k s = moveWrite i a b c d k s.noDisplay := fun _ => rfl
  have e' : moveWrite i a b c d k = (moveWrite i a b c d k) ∘ Stop.noDisplay := funext e
  rw [e', ← Option.map_map, ← Option.map_map, h]

theorem noDisplay_moveWrite (i : Nat) (a b c d : ℚ) (k : Nat) (o : Option Stop) :
    (o.map (moveWrite i a b c d k)).map Stop.noDisplay = o.map Stop.noDisplay := by
  rw [Option.map_map]
  rfl

/-- The loop over `k` of `MoveIntermediateStops` on the positions from `i` to
below `i + len`: it returns when every position holds a stop of the map; the
stops keep all but their display coordinates, a stop at none of the positions
keeps them too, and a stop at one of the positions gets the coordinates
written at the last position that holds it. -/
theorem moveSegment_fold (stops : List String) (i : Nat) (a b c d : ℚ) (m : StopMap) :
    ∀ len : Nat,
    (∀ k : Nat, i ≤ k → k < i + len → ∃ name, stops[k]? = some name ∧
      (m.lookup name).isSome = true) →
    ∃ m', (List.range' i len).foldlM (moveStep stops i a b c d) m = .ok m' ∧
      SameButDisplay m m' ∧
      (∀ q, (∀ k : Nat, i ≤ k → k < i + len → stops[k]? ≠ some q) → m'.lookup q = m.lookup q) ∧
      (∀ (k : Nat) (q : String), i ≤ k → k < i + len → stops[k]? = some q →
        (∀ k' : Nat, k < k' → k' < i + len → stops[k']? ≠ some q) →
        m'.lookup q = (m.lookup q).map (moveWrite i a b c d k)) := by
  intro len
  induction len with
  | zero =>
    intro _
    refine ⟨m, rfl, sameButDisplay_refl m, fun _ _ => rfl, ?_⟩
    intro k q h1 h2
    omega
  | succ len ih =>
    intro hall
    obtain ⟨m1, hf, hs, hu, hw⟩ := ih (fun k h1 h2 => hall k h1 (by omega))
    obtain ⟨name, hname, hin⟩ := hall (i + len) (by omega) (by omega)
    have hin1 : (m1.lookup name).isSome = true := by
      rw [sameButDisplay_isSome m m1 hs]; exact hin
    obtain ⟨m2, hstep, hl⟩ := moveStep_lookup stops i a b c d m1 (i + len) name hname hin1
    refine ⟨m2, ?_, ?_, ?_, ?_⟩
    · rw [List.range'_concat, Nat.one_mul, List.foldlM_append, hf, ok_bind]
      rw [List.foldlM_cons, hstep, ok_bind]
      rfl
    · intro q
      rw [hl q]
      by_cases hq : q = name
      · rw [if_pos hq, noDisplay_moveWrite]
        exact hs q
      · rw [if_neg hq]
        exact hs q
    · intro q hq
      rw [hl q]
      have hne : q ≠ name := by
        intro e
        subst e
        exact hq (i + len) (by omega) (by omega) hname
      rw [if_neg hne]
      exact hu q (fun k h1 h2 => hq k h1 (by omega))
    · intro k q h1 h2 hkq hlast
      rw [hl q]
      by_cases hk : k = i + len
      · subst hk
        have hqn : q = name := by
          rw [hname] at hkq
          exact (Option.some.inj hkq).symm
        rw [if_pos hqn]
        exact moveWrite_of_noDisplay i a b c d _ _ _ (hs q)
      · have hne : q ≠ name := by
          intro e
          subst e
          exact hlast (i + len) (by omega) (by omega) hname
        rw [if_neg hne]
        exact hw k q h1 (by omega) hkq (fun k' h3 h4 => hlast k' h3 (by omega))

theorem findBaseStep_none (stops : List String) (m : StopMap) (k : Nat) (name : String) (s : Stop)
    (hk : stops[k]? = some name) (hs : m.lookup name = some s) :
    findBaseStep stops m none k = .ok (if s.IsBase = true then some k else none) := by
  unfold findBaseStep
  dsimp only
  rw [vecAt_of_getElem? _ _ _ hk, ok_bind, mapAt_of_lookup _ _ _ hs, ok_bind]
  cases s.IsBase <;> rfl

/-- The loop over `j` of `MoveIntermediateStops` from the position `i + 1` on:
it finds the first position that holds a base stop, if there is one. -/
theorem findBase_fold (stops : List String) (m : StopMap) (i : Nat)
    (hall : ∀ name ∈ stops, (m.lookup name).isSome = true) :
    ∀ c : Nat, i + 1 + c ≤ stops.length →
    ∃ found, (List.range' (i + 1) c).foldlM (findBaseStep stops m) none = .ok found ∧
      ((found = none ∧ ∀ k : Nat, i < k → k < i + 1 + c → ¬ BaseAt m stops k) ∨
       (∃ j : Nat, found = some j ∧ i < j ∧ j < i + 1 + c ∧ BaseAt m stops j ∧
          ∀ k : Nat, i < k → k < j → ¬ BaseAt m stops k)) := by
  intro c
  induction c with
  | zero =>
    intro _
    refine ⟨none, rfl, Or.inl ⟨rfl, ?_⟩⟩
    intro k h1 h2
    omega
  | succ c ih =>
    intro hc
    obtain ⟨found, hf, hcase⟩ := ih (by omega)
    rw [List.range'_concat, Nat.one_mul, List.foldlM_append, hf, ok_bind, List.foldlM_cons]
    rcases hcase with ⟨hnone, hno⟩ | ⟨j, hsome, h1, h2, h3, h4⟩
    · subst hnone
      have hlt : i + 1 + c < stops.length := by omega
      have hk : stops[i + 1 + c]? = some stops[i + 1 + c] := List.getElem?_eq_getElem hlt
      obtain ⟨s, hs⟩ := Option.isSome_iff_exists.mp (hall _ (List.getElem_mem hlt))
      rw [findBaseStep_none stops m _ _ s hk hs, ok_bind]
      by_cases hb : s.IsBase = true
      · rw [if_pos hb]
        refine ⟨_, rfl, Or.inr ⟨i + 1 + c, rfl, by omega, by omega, ⟨_, s, hk, hs, hb⟩, ?_⟩⟩
        intro k h5 h6
        exact hno k h5 h6
      · rw [if_neg hb]
        refine ⟨_, rfl, Or.inl ⟨rfl, ?_⟩⟩
        intro k h5 h6
        by_cases hkc : k = i + 1 + c
        · subst hkc
          rintro ⟨name', s', e1, e2, e3⟩
          rw [hk] at e1
          cases e1
          rw [hs] at e2
          cases e2
          exact hb e3
        · exact hno k h5 (by omega)
    · subst hsome
      refine ⟨some j, rfl, Or.inr ⟨j, rfl, h1, by omega, h3, h4⟩⟩

theorem baseAt_congr (m m' : StopMap) (h : SameButDisplay m m') (stops : List String) (k : Nat) :
    BaseAt m' stops k ↔ BaseAt m stops k := by
  have key : ∀ m1 m2 : StopMap, SameButDisplay m1 m2 → BaseAt m1 stops k → BaseAt m2 stops k := by
    rintro m1 m2 h12 ⟨name, s, e1, e2, e3⟩
    have hq := h12 name
    rw [e2] at hq
    cases hl : m2.lookup name with
    | none => rw [hl] at hq; cases hq
    | some s' =>
      rw [hl] at hq
      refine ⟨name, s', e1, hl, ?_⟩
      have := congrArg Stop.is_base_ (Option.some.inj hq)
      exact this.trans e3
  exact ⟨key m' m (fun q => (h q).symm), key m m' h⟩

theorem moveLoop_done (stops : List String) (bound fuel i : Nat) (m : StopMap)
    (h : ¬ i < bound) : moveLoop stops bound fuel i m = .ok m := by
  cases fuel with
  | zero => rfl
  | succ fuel =>
    rw [moveLoop, if_neg h]
    rfl

theorem moveLoop_none (stops : List String) (bound fuel i : Nat) (m : StopMap)
    (name_i : String) (stop_i : Stop) (hi : i < bound) (h1 : stops[i]? = some name_i)
    (h2 : m.lookup name_i = some stop_i)
    (h3 : (List.range' (i + 1) (stops.length - (i + 1))).foldlM (findBaseStep stops m) none =
      .ok none) :
    moveLoop stops bound (fuel + 1) i m = moveLoop stops bound fuel (i + 1) m := by
  rw [moveLoop, if_pos hi, vecAt_of_getElem? _ _ _ h1, ok_bind, mapAt_of_lookup _ _ _ h2, ok_bind]
  dsimp only
  rw [h3, ok_bind]

theorem moveLoop_some (stops : List String) (bound fuel i j : Nat) (m m1 : StopMap)
    (name_i name_j : String) (stop_i stop_j : Stop) (hi : i < bound)
    (h1 : stops[i]? = some name_i) (h2 : m.lookup name_i = some stop_i)
    (h3 : (List.range' (i + 1) (stops.length - (i + 1))).foldlM (findBaseStep stops m) none =
      .ok (some j))
    (h4 : stops[j]? = some name_j) (h5 : m.lookup name_j = some stop_j)
    (h6 : (List.range' i (j - i + 1)).foldlM
      (moveStep stops i stop_i.GetLatitude stop_i.GetLongitude
        ((stop_j.GetLatitude - stop_i.GetLatitude) / ((j - i : Nat) : ℚ))
        ((stop_j.GetLongitude - stop_i.GetLongitude) / ((j - i : Nat) : ℚ))) m = .ok m1) :
    moveLoop stops bound (fuel + 1) i m = moveLoop stops bound fuel (j - 1 + 1) m1 := by
  rw [moveLoop, if_pos hi, vecAt_of_getElem? _ _ _ h1, ok_bind, mapAt_of_lookup _ _ _ h2, ok_bind]
  dsimp only
  rw [h3, ok_bind]
  dsimp only
  rw [vecAt_of_getElem? _ _ _ h4, ok_bind, mapAt_of_lookup _ _ _ h5, ok_bind, h6, ok_bind]

theorem lt_of_getElem? {α : Type} (l : List α) (i : Nat) (a : α) (h : l[i]? = some a) :
    i < l.length := by
  by_contra hcon
  rw [List.getElem?_eq_none (not_lt.mp hcon)] at h
  cases h

theorem moveWrite_eq_self (i k : Nat) (a b c d : ℚ) (s : Stop)
    (hlat : a + c * ((k - i : Nat) : ℚ) = s.latitude_)
    (hlon : b + d * ((k - i : Nat) : ℚ) = s.longitude_) : moveWrite i a b c d k s = s := by
  unfold moveWrite Stop.SetLatitude Stop.SetLongitude
  rw [hlat, hlon]

theorem step_back (x y : ℚ) (i j : Nat) (hij : i < j) :
    x + (y - x) / ((j - i : Nat) : ℚ) * ((j - i : Nat) : ℚ) = y := by
  have hne : ((j - i : Nat) : ℚ) ≠ 0 := by
    have : j - i ≠ 0 := by omega
    exact_mod_cast this
  rw [div_mul_cancel₀ _ hne]
  ring

theorem step_zero (x c : ℚ) (i : Nat) : x + c * ((i - i : Nat) : ℚ) = x := by
  rw [Nat.sub_self, Nat.cast_zero, mul_zero, add_zero]

/-- One round of the loop over `i` of `MoveIntermediateStops` that found the
base stop at the position `j`: the loop over `k` returns, the stops keep all
but their display coordinates, the base stops keep them too, and so do the
stops at none of the positions from `i` to `j`; a stop between the two
positions gets the coordinates written at the last position that holds it. -/
theorem moveRound (stops : List String) (m : StopMap) (i j : Nat)
    (hall : ∀ name ∈ stops, (m.lookup name).isSome = true) (hij : i < j)
    (name_i name_j : String) (stop_i stop_j : Stop)
    (h1 : stops[i]? = some name_i) (h2 : m.lookup name_i = some stop_i)
    (h4 : stops[j]? = some name_j) (h5 : m.lookup name_j = some stop_j)
    (hno : ∀ k : Nat, i < k → k < j → ¬ BaseAt m stops k) :
    ∃ m1, (List.range' i (j - i + 1)).foldlM
        (moveStep stops i stop_i.GetLatitude stop_i.GetLongitude
          ((stop_j.GetLatitude - stop_i.GetLatitude) / ((j - i : Nat) : ℚ))
          ((stop_j.GetLongitude - stop_i.GetLongitude) / ((j - i : Nat) : ℚ))) m = .ok m1 ∧
      SameButDisplay m m1 ∧
      (∀ q s, m.lookup q = some s → s.IsBase = true → m1.lookup q = some s) ∧
      (∀ q, (∀ k : Nat, i ≤ k → k ≤ j → stops[k]? ≠ some q) → m1.lookup q = m.lookup q) ∧
      (∀ (k : Nat) (q : String), i < k → k < j → stops[k]? = some q →
        (∀ k' : Nat, k < k' → k' ≤ j → stops[k']? ≠ some q) →
        m1.lookup q = (m.lookup q).map
          (moveWrite i stop_i.GetLatitude stop_i.GetLongitude
            ((stop_j.GetLatitude - stop_i.GetLatitude) / ((j - i : Nat) : ℚ))
            ((stop_j.GetLongitude - stop_i.GetLongitude) / ((j - i : Nat) : ℚ)) k)) := by
  have hj : j < stops.length := lt_of_getElem? _ _ _ h4
  have hpos : ∀ k : Nat, i ≤ k → k < i + (j - i + 1) → ∃ name, stops[k]? = some name ∧
      (m.lookup name).isSome = true := by
    intro k _ hk
    have hlt : k < stops.length := by omega
    exact ⟨stops[k], List.getElem?_eq_getElem hlt, hall _ (List.getElem_mem hlt)⟩
  obtain ⟨m1, hf, hs, hu, hw⟩ := moveSegment_fold stops i stop_i.GetLatitude stop_i.GetLongitude
    ((stop_j.GetLatitude - stop_i.GetLatitude) / ((j - i : Nat) : ℚ))
    ((stop_j.GetLongitude - stop_i.GetLongitude) / ((j - i : Nat) : ℚ)) m (j - i + 1) hpos
  refine ⟨m1, hf, hs, ?_, ?_, ?_⟩
  · intro q s hq hb
    by_cases hqj : stops[j]? = some q
    · have hnq : name_j = q := by
        rw [h4] at hqj
        exact Option.some.inj hqj
      subst hnq
      rw [h5] at hq
      cases hq
      rw [hw j name_j (by omega) (by omega) h4 (fun k' h h' => by omega), h5, Option.map_some']
      rw [moveWrite_eq_self]
      · exact step_back _ _ i j hij
      · exact step_back _ _ i j hij
    · have hmid : ∀ k' : Nat, i < k' → k' < i + (j - i + 1) → stops[k']? ≠ some q := by
        intro k' h h' e
        by_cases hk : k' = j
        · subst hk; exact hqj e
        · exact hno k' h (by omega) ⟨q, s, e, hq, hb⟩
      by_cases hqi : stops[i]? = some q
      · have hnq : name_i = q := by
          rw [h1] at hqi
          exact Option.some.inj hqi
        subst hnq
        rw [h2] at hq
        cases hq
        rw [hw i name_i (le_refl _) (by omega) h1 hmid, h2, Option.map_some']
        rw [moveWrite_eq_self]
        · exact step_zero _ _ i
        · exact step_zero _ _ i
      · rw [hu q, hq]
        intro k h h'
        by_cases hk : k = i
        · subst hk; exact hqi
        · exact hmid k (by omega) h'
  · intro q hq
    exact hu q (fun k h h' => hq k h (by omega))
  · intro k q h h' hkq hlast
    exact hw k q (by omega) (by omega) hkq (fun k' e e' => hlast k' e (by omega))

/-- The loop over `i` of `MoveIntermediateStops` on one bus, from the counter
`i` on, with enough rounds left: it returns when the bus lists stops of the
map; the stops keep all but their display coordinates, the base stops keep
them too, and so do the stops at no position from `i` on; between two base
positions from `i` on with no base position between them, the stop that is
listed at no later position has the coordinates of the line between the two
base stops. -/
theorem moveLoop_spec (stops : List String) :
    ∀ (fuel i : Nat) (m : StopMap), (∀ name ∈ stops, (m.lookup name).isSome = true) →
    stops.length - 1 ≤ fuel + i →
    ∃ m', moveLoop stops (stops.length - 1) fuel i m = .ok m' ∧ SameButDisplay m m' ∧
      (∀ q s, m.lookup q = some s → s.IsBase = true → m'.lookup q = some s) ∧
      (∀ q, (∀ k : Nat, i ≤ k → stops[k]? ≠ some q) → m'.lookup q = m.lookup q) ∧
      (∀ (a b k : Nat) (q : String), i ≤ a → a < k → k < b → BaseAt m stops a →
        BaseAt m stops b → (∀ c : Nat, a < c → c < b → ¬ BaseAt m stops c) →
        stops[k]? = some q → (∀ k' : Nat, k < k' → stops[k']? ≠ some q) →
        ∃ (na nb : String) (sa sb : Stop), stops[a]? = some na ∧ stops[b]? = some nb ∧
          m.lookup na = some sa ∧ m.lookup nb = some sb ∧
          m'.lookup q = (m.lookup q).map
            (moveWrite a sa.GetLatitude sa.GetLongitude
              ((sb.GetLatitude - sa.GetLatitude) / ((b - a : Nat) : ℚ))
              ((sb.GetLongitude - sa.GetLongitude) / ((b - a : Nat) : ℚ)) k)) := by
  intro fuel
  induction fuel with
  | zero =>
    intro i m _ hfuel
    refine ⟨m, rfl, sameButDisplay_refl m, fun q s h _ => h, fun _ _ => rfl, ?_⟩
    intro a b k q ha hak hkb _ hBb
    obtain ⟨nb, _, e, _, _⟩ := hBb
    have := lt_of_getElem? _ _ _ e
    omega
  | succ fuel ih =>
    intro i m hall hfuel
    by_cases hi : i < stops.length - 1
    · have hin : i < stops.length := by omega
      have h1 : stops[i]? = some stops[i] := List.getElem?_eq_getElem hin
      obtain ⟨stop_i, h2⟩ := Option.isSome_iff_exists.mp (hall _ (List.getElem_mem hin))
      obtain ⟨found, hf, hcase⟩ := findBase_fold stops m i hall (stops.length - (i + 1))
        (by omega)
      rcases hcase with ⟨hnone, hno⟩ | ⟨j, hsome, hij, hjn, hbj, hfirst⟩
      · subst hnone
        rw [moveLoop_none stops _ fuel i m _ stop_i hi h1 h2 hf]
        obtain ⟨m', heq, hs, hB, hU, hI⟩ := ih (i + 1) m hall (by omega)
        refine ⟨m', heq, hs, hB, fun q hq => hU q (fun k hk => hq k (by omega)), ?_⟩
        intro a b k q ha hak hkb _ hBb
        have hbn : b < stops.length := by
          obtain ⟨nb, _, e, _, _⟩ := hBb
          exact lt_of_getElem? _ _ _ e
        exact absurd hBb (hno b (by omega) (by omega))
      · subst hsome
        obtain ⟨name_j, stop_j, h4, h5, hbase_j⟩ := hbj
        obtain ⟨m1, hseg, hs1, hB1, hU1, hW1⟩ := moveRound stops m i j hall hij _ _ stop_i stop_j
          h1 h2 h4 h5 hfirst
        rw [moveLoop_some stops _ fuel i j m m1 _ _ stop_i stop_j hi h1 h2 hf h4 h5 hseg]
        have hj1 : j - 1 + 1 = j := by omega
        rw [hj1]
        have hall1 : ∀ name ∈ stops, (m1.lookup name).isSome = true := by
          intro name hn
          rw [sameButDisplay_isSome m m1 hs1]
          exact hall name hn
        obtain ⟨m', heq, hs2, hB2, hU2, hI2⟩ := ih j m1 hall1 (by omega)
        refine ⟨m', heq, sameButDisplay_trans _ _ _ hs1 hs2, ?_, ?_, ?_⟩
        · intro q s hq hb
          exact hB2 q s (hB1 q s hq hb) hb
        · intro q hq
          rw [hU2 q (fun k hk => hq k (by omega))]
          exact hU1 q (fun k hk _ => hq k hk)
        · intro a b k q ha hak hkb hBa hBb hnob hkq hlast
          by_cases haj : j ≤ a
          · obtain ⟨na, nb, sa, sb, e1, e2, e3, e4, e5⟩ := hI2 a b k q haj hak hkb
              ((baseAt_congr m m1 hs1 stops a).mpr hBa) ((baseAt_congr m m1 hs1 stops b).mpr hBb)
              (fun c h h' hc => hnob c h h' ((baseAt_congr m m1 hs1 stops c).mp hc)) hkq hlast
            have back : ∀ (p : Nat) (np : String) (sp : Stop), BaseAt m stops p →
                stops[p]? = some np → m1.lookup np = some sp → m.lookup np = some sp := by
              rintro p np sp ⟨n', s', f1, f2, f3⟩ g1 g2
              rw [f1] at g1
              cases g1
              have := hB1 _ _ f2 f3
              rw [g2] at this
              cases this
              exact f2
            refine ⟨na, nb, sa, sb, e1, e2, back a na sa hBa e1 e3, back b nb sb hBb e2 e4, ?_⟩
            rw [e5]
            exact moveWrite_of_noDisplay _ _ _ _ _ _ _ _ (hs1 q)
          · have hai : a = i := by
              by_contra hne
              exact hfirst a (by omega) (by omega) hBa
            subst hai
            have hbj : b = j := by
              by_contra hne
              by_cases hlt : b < j
              · exact hfirst b (by omega) hlt hBb
              · exact hnob j hij (by omega) ⟨name_j, stop_j, h4, h5, hbase_j⟩
            subst hbj
            refine ⟨_, _, stop_i, stop_j, h1, h4, h2, h5, ?_⟩
            rw [hU2 q (fun k' hk' => hlast k' (by omega))]
            exact hW1 k q hak hkb hkq (fun k' h _ => hlast k' h)
    · rw [moveLoop_done stops _ _ i m hi]
      refine ⟨m, rfl, sameButDisplay_refl m, fun q s h _ => h, fun _ _ => rfl, ?_⟩
      intro a b k q ha hak hkb _ hBb
      obtain ⟨nb, _, e, _, _⟩ := hBb
      have := lt_of_getElem? _ _ _ e
      omega

theorem base_lookup_back (m m1 : StopMap) (stops : List String)
    (hB : ∀ q s, m.lookup q = some s → s.IsBase = true → m1.lookup q = some s)
    (p : Nat) (np : String) (sp : Stop) (hp : BaseAt m stops p)
    (g1 : stops[p]? = some np) (g2 : m1.lookup np = some sp) : m.lookup np = some sp := by
  obtain ⟨n', s', f1, f2, f3⟩ := hp
  rw [f1] at g1
  cases g1
  have := hB _ _ f2 f3
  rw [g2] at this
  cases this
  exact f2

/-- The loop over the buses of `MoveIntermediateStops`: it returns when every
bus lists at least one stop and only stops of the map; the stops keep all but
their display coordinates, the base stops keep them too, and so do the stops
that no bus lists; between two base positions of a bus with no base position
between them, the stop that is listed at no later position of the bus and by
no later bus has the coordinates of the line between the two base stops. -/
theorem moveBuses_fold :
    ∀ (buses : List (String × Bus)) (m : StopMap),
    (∀ kb ∈ buses, kb.2.GetStops ≠ [] ∧ kb.2.GetStops.length < 2 ^ 31 ∧
      ∀ name ∈ kb.2.GetStops, (m.lookup name).isSome = true) →
    ∃ m', buses.foldlM
        (fun stops_ kb =>
          moveLoop kb.2.GetStops (toSizeT ((kb.2.GetStops.length : Int) - 1))
            (kb.2.GetStops.length + 1) 0 stops_) m = .ok m' ∧
      SameButDisplay m m' ∧
      (∀ q s, m.lookup q = some s → s.IsBase = true → m'.lookup q = some s) ∧
      (∀ q, (∀ kb ∈ buses, q ∉ kb.2.GetStops) → m'.lookup q = m.lookup q) ∧
      (∀ (p : Nat) (kb : String × Bus), buses[p]? = some kb →
        ∀ (a b k : Nat) (q : String), a < k → k < b → BaseAt m kb.2.GetStops a →
        BaseAt m kb.2.GetStops b → (∀ c : Nat, a < c → c < b → ¬ BaseAt m kb.2.GetStops c) →
        kb.2.GetStops[k]? = some q → (∀ k' : Nat, k < k' → kb.2.GetStops[k']? ≠ some q) →
        (∀ (p' : Nat) (kb' : String × Bus), p < p' → buses[p']? = some kb' →
          q ∉ kb'.2.GetStops) →
        ∃ (na nb : String) (sa sb : Stop), kb.2.GetStops[a]? = some na ∧
          kb.2.GetStops[b]? = some nb ∧ m.lookup na = some sa ∧ m.lookup nb = some sb ∧
          m'.lookup q = (m.lookup q).map
            (moveWrite a sa.GetLatitude sa.GetLongitude
              ((sb.GetLatitude - sa.GetLatitude) / ((b - a : Nat) : ℚ))
              ((sb.GetLongitude - sa.GetLongitude) / ((b - a : Nat) : ℚ)) k)) := by
  intro buses
  induction buses with
  | nil =>
    intro m _
    refine ⟨m, rfl, sameButDisplay_refl m, fun q s h _ => h, fun _ _ => rfl, ?_⟩
    intro p kb hp
    simp at hp
  | cons kb0 rest ih =>
    intro m hb
    obtain ⟨hne, hlen, hall⟩ := hb kb0 (List.mem_cons_self _ _)
    have hpos : 1 ≤ kb0.2.GetStops.length := List.length_pos.mpr hne
    obtain ⟨m1, hloop, hs1, hB1, hU1, hI1⟩ := moveLoop_spec kb0.2.GetStops
      (kb0.2.GetStops.length + 1) 0 m hall (by omega)
    have hb1 : ∀ kb ∈ rest, kb.2.GetStops ≠ [] ∧ kb.2.GetStops.length < 2 ^ 31 ∧
        ∀ name ∈ kb.2.GetStops, (m1.lookup name).isSome = true := by
      intro kb hkb
      obtain ⟨h1, h2, h3⟩ := hb kb (List.mem_cons_of_mem _ hkb)
      refine ⟨h1, h2, ?_⟩
      intro name hn
      rw [sameButDisplay_isSome m m1 hs1]
      exact h3 name hn
    obtain ⟨m', hfold, hs2, hB2, hU2, hI2⟩ := ih m1 hb1
    refine ⟨m', ?_, sameButDisplay_trans _ _ _ hs1 hs2, ?_, ?_, ?_⟩
    · rw [List.foldlM_cons, toSizeT_pred _ hpos hlen, hloop, ok_bind]
      exact hfold
    · intro q s hq hbase
      exact hB2 q s (hB1 q s hq hbase) hbase
    · intro q hq
      rw [hU2 q (fun kb hkb => hq kb (List.mem_cons_of_mem _ hkb))]
      apply hU1 q
      intro k _ e
      exact hq kb0 (List.mem_cons_self _ _) (List.getElem?_mem e)
    · intro p kb hp a b k q hak hkb hBa hBb hnob hkq hlast hlater
      cases p with
      | zero =>
        rw [List.getElem?_cons_zero] at hp
        cases hp
        obtain ⟨na, nb, sa, sb, e1, e2, e3, e4, e5⟩ := hI1 a b k q (Nat.zero_le _) hak hkb
          hBa hBb hnob hkq hlast
        refine ⟨na, nb, sa, sb, e1, e2, e3, e4, ?_⟩
        rw [← e5]
        apply hU2 q
        intro kb' hkb'
        obtain ⟨n, hn⟩ := List.getElem?_of_mem hkb'
        exact hlater (n + 1) kb' (by omega) (by rw [List.getElem?_cons_succ]; exact hn)
      | succ p =>
        rw [List.getElem?_cons_succ] at hp
        obtain ⟨na, nb, sa, sb, e1, e2, e3, e4, e5⟩ := hI2 p kb hp a b k q hak hkb
          ((baseAt_congr m m1 hs1 _ a).mpr hBa) ((baseAt_congr m m1 hs1 _ b).mpr hBb)
          (fun c h h' hc => hnob c h h' ((baseAt_congr m m1 hs1 _ c).mp hc)) hkq hlast
          (fun p' kb' hpp hkb' =>
            hlater (p' + 1) kb' (by omega) (by rw [List.getElem?_cons_succ]; exact hkb'))
        refine ⟨na, nb, sa, sb, e1, e2, base_lookup_back m m1 _ hB1 a na sa hBa e1 e3,
          base_lookup_back m m1 _ hB1 b nb sb hBb e2 e4, ?_⟩
        rw [e5]
        exact moveWrite_of_noDisplay _ _ _ _ _ _ _ _ (hs1 q)
theorem moveScan_fst (stops : List String) (bound : Nat) :
    ∀ (fuel i : Nat) (m : StopMap),
      (moveScan stops bound fuel i m).map Prod.fst = moveLoop stops bound fuel i m := by
  intro fuel
  induction fuel with
  | zero => intro i m; rfl
  | succ fuel ih =>
    intro i m
    rw [moveScan, moveLoop]
    by_cases hi : i < bound
    · rw [if_pos hi, if_pos hi]
      cases h1 : vecAt stops i with
      | error e => rfl
      | ok name_i =>
        rw [ok_bind, ok_bind]
        cases h2 : mapAt m name_i with
        | error e => rfl
        | ok stop_i =>
          rw [ok_bind, ok_bind]
          dsimp only
          cases h3 : (List.range' (i + 1) (stops.length - (i + 1))).foldlM
              (findBaseStep stops m) none with
          | error e => rfl
          | ok found =>
            rw [ok_bind, ok_bind]
            cases found with
            | none =>
              dsimp only
              rw [← ih (i + 1) m]
              cases moveScan stops bound fuel (i + 1) m <;> rfl
            | some j =>
              dsimp only
              cases h4 : vecAt stops j with
              | error e => rfl
              | ok name_j =>
                rw [ok_bind, ok_bind]
                cases h5 : mapAt m name_j with
                | error e => rfl
                | ok stop_j =>
                  rw [ok_bind, ok_bind]
                  cases h6 : (List.range' i (j - i + 1)).foldlM
                      (moveStep stops i stop_i.GetLatitude stop_i.GetLongitude
                        ((stop_j.GetLatitude - stop_i.GetLatitude) / ((j - i : Nat) : ℚ))
                        ((stop_j.GetLongitude - stop_i.GetLongitude) / ((j - i : Nat) : ℚ))) m with
                  | error e => rfl
                  | ok m1 =>
                    rw [ok_bind, ok_bind, ← ih (j - 1 + 1) m1]
                    cases moveScan stops bound fuel (j - 1 + 1) m1 <;> rfl
    · rw [if_neg hi, if_neg hi]
      rfl

theorem moveScan_done (stops : List String) (bound fuel i : Nat) (m : StopMap)
    (h : ¬ i < bound) : moveScan stops bound fuel i m = .ok (m, []) := by
  cases fuel with
  | zero => rfl
  | succ fuel =>
    rw [moveScan, if_neg h]
    rfl

theorem moveScan_some (stops : List String) (bound fuel i j : Nat) (m m1 : StopMap)
    (name_i name_j : String) (stop_i stop_j : Stop) (hi : i < bound)
    (h1 : stops[i]? = some name_i) (h2 : m.lookup name_i = some stop_i)
    (h3 : (List.range' (i + 1) (stops.length - (i + 1))).foldlM (findBaseStep stops m) none =
      .ok (some j))
    (h4 : stops[j]? = some name_j) (h5 : m.lookup name_j = some stop_j)
    (h6 : (List.range' i (j - i + 1)).foldlM
      (moveStep stops i stop_i.GetLatitude stop_i.GetLongitude
        ((stop_j.GetLatitude - stop_i.GetLatitude) / ((j - i : Nat) : ℚ))
        ((stop_j.GetLongitude - stop_i.GetLongitude) / ((j - i : Nat) : ℚ))) m = .ok m1)
    (r : StopMap × List Nat) (hr : moveScan stops bound fuel (j - 1 + 1) m1 = .ok r) :
    moveScan stops bound (fuel + 1) i m = .ok (r.1, i :: r.2) := by
  rw [moveScan, if_pos hi, vecAt_of_getElem? _ _ _ h1, ok_bind, mapAt_of_lookup _ _ _ h2, ok_bind]
  dsimp only
  rw [h3, ok_bind]
  dsimp only
  rw [vecAt_of_getElem? _ _ _ h4, ok_bind, mapAt_of_lookup _ _ _ h5, ok_bind, h6, ok_bind, hr,
    ok_bind]
  rfl

/-- The anchors of the scan of one bus: when the bus lists stops of the map,
the counter stands at a base stop and the last stop of the bus is a base stop,
the scan returns and every anchor position of it holds a base stop. -/
theorem moveScan_anchors (stops : List String) :
    ∀ (fuel i : Nat) (m : StopMap), (∀ name ∈ stops, (m.lookup name).isSome = true) →
    BaseAt m stops i → BaseAt m stops (stops.length - 1) →
    ∃ r, moveScan stops (stops.length - 1) fuel i m = .ok r ∧
      ∀ a ∈ r.2, BaseAt m stops a := by
  intro fuel
  induction fuel with
  | zero =>
    intro i m _ _ _
    refine ⟨(m, []), rfl, ?_⟩
    intro a ha
    cases ha
  | succ fuel ih =>
    intro i m hall hBi hBlast
    by_cases hi : i < stops.length - 1
    · obtain ⟨name_i, stop_i, h1, h2, _⟩ := hBi
      obtain ⟨found, hf, hcase⟩ := findBase_fold stops m i hall (stops.length - (i + 1))
        (by omega)
      rcases hcase with ⟨_, hno⟩ | ⟨j, hsome, hij, hjn, hbj, hfirst⟩
      · exact absurd hBlast (hno _ hi (by omega))
      · subst hsome
        obtain ⟨name_j, stop_j, h4, h5, hbase_j⟩ := hbj
        obtain ⟨m1, hseg, hs1, _, _, _⟩ := moveRound stops m i j hall hij _ _ stop_i stop_j
          h1 h2 h4 h5 hfirst
        have hall1 : ∀ name ∈ stops, (m1.lookup name).isSome = true := by
          intro name hn
          rw [sameButDisplay_isSome m m1 hs1]
          exact hall name hn
        have hj1 : j - 1 + 1 = j := by omega
        obtain ⟨r, hr, hanch⟩ := ih j m1 hall1
          ((baseAt_congr m m1 hs1 stops j).mpr ⟨name_j, stop_j, h4, h5, hbase_j⟩)
          ((baseAt_congr m m1 hs1 stops _).mpr hBlast)
        rw [← hj1] at hr
        refine ⟨_, moveScan_some stops _ fuel i j m m1 _ _ stop_i stop_j hi h1 h2 hf h4 h5 hseg
          r hr, ?_⟩
        intro a ha
        rcases List.mem_cons.mp ha with e | e
        · rw [e]
          exact ⟨name_i, stop_i, h1, h2, by assumption⟩
        · exact (baseAt_congr m m1 hs1 stops a).mp (hanch a e)
    · rw [moveScan_done stops _ _ i m hi]
      refine ⟨_, rfl, ?_⟩
      intro a ha
      cases ha

/-- The anchors of the scans of all the buses: the loop over the buses
returns, with the anchor positions of each bus under its name, and every
anchor position holds a base stop. -/
theorem scan_fold :
    ∀ (buses : List (String × Bus)) (m : StopMap) (acc : List (String × List Nat)),
    (∀ kb ∈ buses, kb.2.GetStops ≠ [] ∧ kb.2.GetStops.length < 2 ^ 31 ∧
      ∀ name ∈ kb.2.GetStops, (m.lookup name).isSome = true) →
    (∀ kb ∈ buses, BaseAt m kb.2.GetStops 0 ∧
      BaseAt m kb.2.GetStops (kb.2.GetStops.length - 1)) →
    ∃ (m' : StopMap) (tr : List (String × List Nat)),
      buses.foldlM scanStep (m, acc) = .ok (m', acc ++ tr) ∧
      List.Forall₂ (fun kb e => e.1 = kb.1 ∧ ∀ a ∈ e.2, BaseAt m kb.2.GetStops a) buses tr := by
  intro buses
  induction buses with
  | nil =>
    intro m acc _ _
    exact ⟨m, [], by rw [List.append_nil]; rfl, List.Forall₂.nil⟩
  | cons kb0 rest ih =>
    intro m acc hb hends
    obtain ⟨hne, hlen, hall⟩ := hb kb0 (List.mem_cons_self _ _)
    obtain ⟨hB0, hBl⟩ := hends kb0 (List.mem_cons_self _ _)
    have hpos : 1 ≤ kb0.2.GetStops.length := List.length_pos.mpr hne
    obtain ⟨r, hr, hanch⟩ := moveScan_anchors kb0.2.GetStops (kb0.2.GetStops.length + 1) 0 m
      hall hB0 hBl
    obtain ⟨m1, hloop, hs1, _, _, _⟩ := moveLoop_spec kb0.2.GetStops
      (kb0.2.GetStops.length + 1) 0 m hall (by omega)
    have hfst : r.1 = m1 := by
      have := moveScan_fst kb0.2.GetStops (kb0.2.GetStops.length - 1)
        (kb0.2.GetStops.length + 1) 0 m
      rw [hr, hloop] at this
      cases this
      rfl
    have hb1 : ∀ kb ∈ rest, kb.2.GetStops ≠ [] ∧ kb.2.GetStops.length < 2 ^ 31 ∧
        ∀ name ∈ kb.2.GetStops, (r.1.lookup name).isSome = true := by
      intro kb hkb
      obtain ⟨h1, h2, h3⟩ := hb kb (List.mem_cons_of_mem _ hkb)
      refine ⟨h1, h2, ?_⟩
      intro name hn
      rw [hfst, sameButDisplay_isSome m m1 hs1]
      exact h3 name hn
    have hends1 : ∀ kb ∈ rest, BaseAt r.1 kb.2.GetStops 0 ∧
        BaseAt r.1 kb.2.GetStops (kb.2.GetStops.length - 1) := by
      intro kb hkb
      obtain ⟨h1, h2⟩ := hends kb (List.mem_cons_of_mem _ hkb)
      rw [hfst]
      exact ⟨(baseAt_congr m m1 hs1 _ _).mpr h1, (baseAt_congr m m1 hs1 _ _).mpr h2⟩
    obtain ⟨m', tr, hfold, hrel⟩ := ih r.1 (acc ++ [(kb0.1, r.2)]) hb1 hends1
    refine ⟨m', (kb0.1, r.2) :: tr, ?_, List.Forall₂.cons ⟨rfl, hanch⟩ ?_⟩
    · rw [List.foldlM_cons]
      have hstep : scanStep (m, acc) kb0 = .ok (r.1, acc ++ [(kb0.1, r.2)]) := by
        unfold scanStep
        rw [toSizeT_pred _ hpos hlen]
        dsimp only
        rw [hr, ok_bind]
        rfl
      rw [hstep, ok_bind, hfold, List.append_assoc]
      rfl
    · refine List.Forall₂.imp ?_ hrel
      intro kb e ⟨h1, h2⟩
      refine ⟨h1, fun a ha => ?_⟩
      have := h2 a ha
      rw [hfst] at this
      exact (baseAt_congr m m1 hs1 _ a).mp this

theorem interpolate_eq (x y : ℚ) (i j k : Nat) (hik : i ≤ k) (hij : i ≤ j) :
    x + (y - x) / ((j - i : Nat) : ℚ) * ((k - i : Nat) : ℚ) = interpolate x y i j k := by
  unfold interpolate
  rw [Nat.cast_sub hik, Nat.cast_sub hij]
  ring

theorem moveIntermediateStops_ok (db : Database) (m' : StopMap)
    (h : db.buses_.foldlM
      (fun stops_ kb =>
        moveLoop kb.2.GetStops (toSizeT ((kb.2.GetStops.length : Int) - 1))
          (kb.2.GetStops.length + 1) 0 stops_) db.stops_ = .ok m') :
    db.MoveIntermediateStops = .ok { db with stops_ := m' } := by
  unfold Database.MoveIntermediateStops
  rw [h, ok_bind]
  rfl

/-- C40: `MoveIntermediateStops` returns on a database whose buses list at
least one stop and only stops of the catalog; it keeps the keys of the map of
the stops, never changes the real (geo) coordinates of a stop nor its mark,
and leaves the display coordinates of every base stop as they were.  When the
first and the last stop of every bus are base stops (as `MarkBaseStops` leaves
them), every anchor position of the scan of every bus holds a base stop. -/
theorem MoveIntermediateStops_base_fixed (db : Database)
    (hb : ∀ kb ∈ db.buses_, kb.2.GetStops ≠ [] ∧ kb.2.GetStops.length < 2 ^ 31 ∧
      ∀ name ∈ kb.2.GetStops, (db.stops_.lookup name).isSome = true) :
    ∃ db', db.MoveIntermediateStops = .ok db' ∧
      db'.stops_.map Prod.fst = db.stops_.map Prod.fst ∧
      (∀ q s, db.stops_.lookup q = some s → ∃ s', db'.stops_.lookup q = some s' ∧
        s'.GetRealLatitude = s.GetRealLatitude ∧ s'.GetRealLongitude = s.GetRealLongitude ∧
        s'.IsBase = s.IsBase ∧
        (s.IsBase = true → s'.GetLatitude = s.GetLatitude ∧ s'.GetLongitude = s.GetLongitude)) ∧
      ((∀ kb ∈ db.buses_, BaseAt db.stops_ kb.2.GetStops 0 ∧
          BaseAt db.stops_ kb.2.GetStops (kb.2.GetStops.length - 1)) →
        ∃ tr, db.scanAnchors = .ok tr ∧
          List.Forall₂ (fun kb e => e.1 = kb.1 ∧ ∀ a ∈ e.2, BaseAt db.stops_ kb.2.GetStops a)
            db.buses_ tr) := by
  obtain ⟨m', hfold, hs, hB, _, _⟩ := moveBuses_fold db.buses_ db.stops_ hb
  have hok := moveIntermediateStops_ok db m' hfold
  refine ⟨_, hok, ?_, ?_, ?_⟩
  · have := (moveIntermediateStops_frame db _ hok).1
    have e := congrArg (List.map Prod.fst) this
    simpa [stopsSkeleton] using e
  · intro q s hq
    have hq' := hs q
    rw [hq] at hq'
    cases hl : m'.lookup q with
    | none => rw [hl] at hq'; cases hq'
    | some s' =>
      rw [hl] at hq'
      have he : s'.noDisplay = s.noDisplay := Option.some.inj hq'
      have g1 := congrArg Stop.real_latitude_ he
      have g2 := congrArg Stop.real_longitude_ he
      have g3 := congrArg Stop.is_base_ he
      refine ⟨s', rfl, g1, g2, g3, ?_⟩
      intro hbase
      have := hB q s hq hbase
      rw [hl] at this
      cases this
      exact ⟨rfl, rfl⟩
  · intro hends
    obtain ⟨m2, tr, hscan, hrel⟩ := scan_fold db.buses_ db.stops_ [] hb hends
    refine ⟨tr, ?_, hrel⟩
    unfold Database.scanAnchors
    rw [hscan, ok_bind]
    rfl

/-- C33, amended: `MoveIntermediateStops` returns on a database whose buses
have distinct names, list at least one stop and only stops of the catalog, and
in which a stop listed by two buses is a base stop (as `MarkBaseStops` leaves
it).  After it, for every bus and every pair of positions `i < j` of its stop
list that hold base stops with no base stop strictly between them, the stop at
a position `k` with `i < k < j` that the bus lists at no later position has
the display latitude `lat_i + (lat_j − lat_i)·(k − i)/(j − i)` and the display
longitude `lon_i + (lon_j − lon_i)·(k − i)/(j − i)` of the display coordinates
of the two base stops. -/
theorem MoveIntermediateStops_line (db : Database)
    (hb : ∀ kb ∈ db.buses_, kb.2.GetStops ≠ [] ∧ kb.2.GetStops.length < 2 ^ 31 ∧
      ∀ name ∈ kb.2.GetStops, (db.stops_.lookup name).isSome = true)
    (hnodup : (db.buses_.map Prod.fst).Nodup)
    (hshared : ∀ kb ∈ db.buses_, ∀ kb' ∈ db.buses_, kb.1 ≠ kb'.1 →
      ∀ q ∈ kb.2.GetStops, q ∈ kb'.2.GetStops →
        (db.stops_.lookup q).map Stop.IsBase = some true) :
    ∃ db', db.MoveIntermediateStops = .ok db' ∧
      ∀ kb ∈ db.buses_, ∀ (i j k : Nat) (q : String), i < k → k < j →
        BaseAt db'.stops_ kb.2.GetStops i → BaseAt db'.stops_ kb.2.GetStops j →
        (∀ c : Nat, i < c → c < j → ¬ BaseAt db'.stops_ kb.2.GetStops c) →
        kb.2.GetStops[k]? = some q → (∀ k' : Nat, k < k' → kb.2.GetStops[k']? ≠ some q) →
        ∃ (ni nj : String) (si sj s : Stop),
          kb.2.GetStops[i]? = some ni ∧ kb.2.GetStops[j]? = some nj ∧
          db'.stops_.lookup ni = some si ∧ db'.stops_.lookup nj = some sj ∧
          db'.stops_.lookup q = some s ∧
          s.GetLatitude = interpolate si.GetLatitude sj.GetLatitude i j k ∧
          s.GetLongitude = interpolate si.GetLongitude sj.GetLongitude i j k := by
  obtain ⟨m', hfold, hs, hB, _, hI⟩ := moveBuses_fold db.buses_ db.stops_ hb
  have hok := moveIntermediateStops_ok db m' hfold
  refine ⟨_, hok, ?_⟩
  intro kb hkb i j k q hik hkj hBi hBj hno hkq hlast
  have hBi0 : BaseAt db.stops_ kb.2.GetStops i := (baseAt_congr _ _ hs _ i).mp hBi
  have hBj0 : BaseAt db.stops_ kb.2.GetStops j := (baseAt_congr _ _ hs _ j).mp hBj
  have hno0 : ∀ c : Nat, i < c → c < j → ¬ BaseAt db.stops_ kb.2.GetStops c :=
    fun c h h' hc => hno c h h' ((baseAt_congr _ _ hs _ c).mpr hc)
  obtain ⟨p, hp⟩ := List.getElem?_of_mem hkb
  have hqmem : q ∈ kb.2.GetStops := List.getElem?_mem hkq
  obtain ⟨s0, hs0⟩ := Option.isSome_iff_exists.mp ((hb kb hkb).2.2 q hqmem)
  have hlater : ∀ (p' : Nat) (kb' : String × Bus), p < p' → db.buses_[p']? = some kb' →
      q ∉ kb'.2.GetStops := by
    intro p' kb' hpp hp' hq'
    by_cases hname : kb.1 = kb'.1
    · have hplt : p < (db.buses_.map Prod.fst).length := by
        rw [List.length_map]
        exact lt_of_getElem? _ _ _ hp
      have : p = p' := by
        apply List.getElem?_inj hplt hnodup
        rw [List.getElem?_map, List.getElem?_map, hp, hp']
        show some kb.1 = some kb'.1
        rw [hname]
      omega
    · have hbase := hshared kb hkb kb' (List.getElem?_mem hp') hname q hqmem hq'
      rw [hs0] at hbase
      exact hno0 k hik hkj ⟨q, s0, hkq, hs0, Option.some.inj hbase⟩
  obtain ⟨na, nb, sa, sb, e1, e2, e3, e4, e5⟩ := hI p kb hp i j k q hik hkj hBi0 hBj0 hno0
    hkq hlast hlater
  have hsa : sa.IsBase = true := by
    obtain ⟨n, s, f1, f2, f3⟩ := hBi0
    rw [e1] at f1
    cases f1
    rw [e3] at f2
    cases f2
    exact f3
  have hsb : sb.IsBase = true := by
    obtain ⟨n, s, f1, f2, f3⟩ := hBj0
    rw [e2] at f1
    cases f1
    rw [e4] at f2
    cases f2
    exact f3
  rw [hs0, Option.map_some'] at e5
  refine ⟨na, nb, sa, sb, _, e1, e2, hB na sa e3 hsa, hB nb sb e4 hsb, e5, ?_, ?_⟩
  · exact interpolate_eq _ _ i j k (by omega) (by omega)
  · exact interpolate_eq _ _ i j k (by omega) (by omega)

/-- Counterexample to C33 as stated: on the ROUND bus `1`, which lists A, B,
C, B, E, A, after `MoveIntermediateStops` the positions 0 and 4 hold the base
stops A at (0, 0) and E at (4, 8), and no position between them holds a base
stop (B and C are not marked); the position 1 holds B, for which the claim
gives the latitude 1 and the longitude 2, and `MoveIntermediateStops` leaves B
at (3, 6), the coordinates written for the position 3, which holds B too. -/
theorem MoveIntermediateStops_line_counterexample :
    (loopDb.buses_.lookup "1").map Bus.GetStops = some ["A", "B", "C", "B", "E", "A"] ∧
    (loopDb.buses_.lookup "1").map Bus.GetType = some .ROUND ∧
    baseMarks loopDb.MoveIntermediateStops =
      [("A", true), ("B", false), ("C", false), ("E", true), ("F", true)] ∧
    displayOf loopDb.MoveIntermediateStops "A" = some (0, 0) ∧
    displayOf loopDb.MoveIntermediateStops "E" = some (4, 8) ∧
    displayOf loopDb.MoveIntermediateStops "B" = some (3, 6) ∧
    interpolate 0 4 0 4 1 = 1 ∧ interpolate 0 8 0 4 1 = 2 ∧
    displayOf loopDb.MoveIntermediateStops "B" ≠
      some (interpolate 0 4 0 4 1, interpolate 0 8 0 4 1) := by
  refine ⟨by decide!, by decide!, by decide!, by decide!, by decide!, by decide!, by decide!,
    by decide!, by decide!⟩

/-- Witness of C33 as amended, on the database of `loopUpdates`: C, listed
once between A and E, gets the coordinates (2, 4) of the middle of the line. -/
theorem MoveIntermediateStops_line_witness :
    (∀ kb ∈ loopDb.buses_, kb.2.GetStops ≠ [] ∧ kb.2.GetStops.length < 2 ^ 31 ∧
      ∀ name ∈ kb.2.GetStops, (loopDb.stops_.lookup name).isSome = true) ∧
    (loopDb.buses_.map Prod.fst).Nodup ∧
    (∀ kb ∈ loopDb.buses_, ∀ kb' ∈ loopDb.buses_, kb.1 ≠ kb'.1 →
      ∀ q ∈ kb.2.GetStops, q ∈ kb'.2.GetStops →
        (loopDb.stops_.lookup q).map Stop.IsBase = some true) ∧
    displayOf loopDb.MoveIntermediateStops "C" = some (2, 4) ∧
    interpolate 0 4 0 4 2 = 2 ∧ interpolate 0 8 0 4 2 = 4 ∧
    ∃ db', loopDb.MoveIntermediateStops = .ok db' ∧
      ∀ kb ∈ loopDb.buses_, ∀ (i j k : Nat) (q : String), i < k → k < j →
        BaseAt db'.stops_ kb.2.GetStops i → BaseAt db'.stops_ kb.2.GetStops j →
        (∀ c : Nat, i < c → c < j → ¬ BaseAt db'.stops_ kb.2.GetStops c) →
        kb.2.GetStops[k]? = some q → (∀ k' : Nat, k < k' → kb.2.GetStops[k']? ≠ some q) →
        ∃ (ni nj : String) (si sj s : Stop),
          kb.2.GetStops[i]? = some ni ∧ kb.2.GetStops[j]? = some nj ∧
          db'.stops_.lookup ni = some si ∧ db'.stops_.lookup nj = some sj ∧
          db'.stops_.lookup q = some s ∧
          s.GetLatitude = interpolate si.GetLatitude sj.GetLatitude i j k ∧
          s.GetLongitude = interpolate si.GetLongitude sj.GetLongitude i j k :=
  ⟨by decide!, by decide!, by decide!, by decide!, by decide!, by decide!,
    MoveIntermediateStops_line loopDb (by decide!) (by decide!) (by decide!)⟩

/-- Witness of C40 on the database of `loopUpdates`: the base stops A, E and F
keep their display coordinates, and the scan of the bus `1` has the anchors 0
and 4, the positions of A and E, the scan of the bus `2` the anchor 0. -/
theorem MoveIntermediateStops_base_fixed_witness :
    (∀ kb ∈ loopDb.buses_, kb.2.GetStops ≠ [] ∧ kb.2.GetStops.length < 2 ^ 31 ∧
      ∀ name ∈ kb.2.GetStops, (loopDb.stops_.lookup name).isSome = true) ∧
    (∀ kb ∈ loopDb.buses_, BaseAt loopDb.stops_ kb.2.GetStops 0 ∧
      BaseAt loopDb.stops_ kb.2.GetStops (kb.2.GetStops.length - 1)) ∧
    loopDb.scanAnchors.toOption = some [("1", [0, 4]), ("2", [0])] ∧
    displayOf (.ok loopDb) "E" = some (4, 8) ∧
    displayOf loopDb.MoveIntermediateStops "E" = some (4, 8) ∧
    ∃ db', loopDb.MoveIntermediateStops = .ok db' ∧
      db'.stops_.map Prod.fst = loopDb.stops_.map Prod.fst ∧
      (∀ q s, loopDb.stops_.lookup q = some s → ∃ s', db'.stops_.lookup q = some s' ∧
        s'.GetRealLatitude = s.GetRealLatitude ∧ s'.GetRealLongitude = s.GetRealLongitude ∧
        s'.IsBase = s.IsBase ∧
        (s.IsBase = true → s'.GetLatitude = s.GetLatitude ∧ s'.GetLongitude = s.GetLongitude)) ∧
      ((∀ kb ∈ loopDb.buses_, BaseAt loopDb.stops_ kb.2.GetStops 0 ∧
          BaseAt loopDb.stops_ kb.2.GetStops (kb.2.GetStops.length - 1)) →
        ∃ tr, loopDb.scanAnchors = .ok tr ∧
          List.Forall₂
            (fun kb e => e.1 = kb.1 ∧ ∀ a ∈ e.2, BaseAt loopDb.stops_ kb.2.GetStops a)
            loopDb.buses_ tr) :=
  ⟨by decide!, by decide!, by decide!, by decide!, by decide!,
    MoveIntermediateStops_base_fixed loopDb (by decide!)⟩

/-! ## Theorems: the buses of a route -/

theorem toSizeT_add_sub (c i j : Nat) (hij : i ≤ j) (h : c + (j - i) < 2 ^ 64) :
    toSizeT ((c : Int) + ((j : Int) - (i : Int))) = c + (j - i) := by
  unfold toSizeT; omega

theorem getElem?_getD (l : List String) (k : Nat) (h : k < l.length) :
    l[k]? = some (l.getD k "") := by
  rw [List.getD_eq_getElem?_getD, List.getElem?_eq_getElem h]
  rfl

theorem roundRun_cons (stops_ : StopMap) (stops : List String) (b e : String) (span : Int)
    (line : Svg.Polyline) (c : Nat) (js : List Nat) (hc : c < stops.length)
    (h : stops.getD c "" ≠ b) :
    roundRun stops_ stops b e span line (c :: js) = roundRun stops_ stops b e span line js := by
  rw [roundRun, vecAt_of_getElem? _ _ _ (getElem?_getD stops c hc), ok_bind, if_neg h]

theorem roundRun_skip (stops_ : StopMap) (stops : List String) (b e : String) (span : Int)
    (line : Svg.Polyline) (c last : Nat) (js : List Nat) (hc : c < stops.length)
    (hlast : toSizeT ((c : Int) + span) = last) (hl : last < stops.length)
    (h : stops.getD last "" ≠ e) :
    roundRun stops_ stops b e span line (c :: js) = roundRun stops_ stops b e span line js := by
  rw [roundRun, vecAt_of_getElem? _ _ _ (getElem?_getD stops c hc), ok_bind]
  by_cases hb : stops.getD c "" = b
  · rw [if_pos hb]
    dsimp only
    rw [hlast, vecAt_of_getElem? _ _ _ (getElem?_getD stops last hl), ok_bind, if_neg h]
  · rw [if_neg hb]

theorem roundRun_match (stops_ : StopMap) (stops : List String) (b e : String) (span : Int)
    (line : Svg.Polyline) (c last : Nat) (js : List Nat) (hc : c < stops.length)
    (hlast : toSizeT ((c : Int) + span) = last) (hl : last < stops.length)
    (hb : stops.getD c "" = b) (he : stops.getD last "" = e) :
    roundRun stops_ stops b e span line (c :: js) =
      (List.range' c (last + 1 - c)).foldlM (addStopPointAt stops_ stops) line := by
  rw [roundRun, vecAt_of_getElem? _ _ _ (getElem?_getD stops c hc), ok_bind, if_pos hb]
  dsimp only
  rw [hlast, vecAt_of_getElem? _ _ _ (getElem?_getD stops last hl), ok_bind, if_pos he]

/-- The search of `RenderBusesOnRoute` on a ROUND bus for the ride from the
position `i` to the position `j`: continued at a position `c` up to `i`, it
reads no index out of the bounds of the stop list and finds a run of
`j - i + 1` positions from a position `a` between `c` and `i`, which holds the
first stop of the ride, to a position that holds its last stop; the points of
the run are added to the line. -/
theorem roundRun_spec (stops_ : StopMap) (stops : List String) (i j : Nat) (line : Svg.Polyline)
    (hij : i < j) (hj : j < stops.length) (hlen : stops.length < 2 ^ 30)
    (hall : ∀ name ∈ stops, (stops_.lookup name).isSome) :
    ∀ (d c : Nat), c + d = i →
    ∃ a : Nat, c ≤ a ∧ a ≤ i ∧ stops.getD a "" = stops.getD i "" ∧
      stops.getD (a + (j - i)) "" = stops.getD j "" ∧
      roundRun stops_ stops (stops.getD i "") (stops.getD j "") ((j : Int) - (i : Int)) line
          (List.range' c (stops.length - c)) =
        .ok { line with points_ := line.points_ ++ runPoints stops_ stops a (j - i) } := by
  intro d
  induction d with
  | zero =>
    intro c hc
    have hci : c = i := by omega
    subst hci
    refine ⟨c, le_refl _, le_refl _, rfl, by rw [Nat.add_sub_cancel' (le_of_lt hij)], ?_⟩
    have hr : List.range' c (stops.length - c) = c :: List.range' (c + 1) (stops.length - c - 1) := by
      have : stops.length - c = (stops.length - c - 1) + 1 := by omega
      rw [this, List.range'_succ]
      rfl
    have hlast : toSizeT ((c : Int) + ((j : Int) - (c : Int))) = c + (j - c) :=
      toSizeT_add_sub c c j (le_of_lt hij) (by omega)
    rw [hr, roundRun_match stops_ stops _ _ _ line c (c + (j - c)) _ (by omega) hlast (by omega) rfl
      (by rw [Nat.add_sub_cancel' (le_of_lt hij)])]
    rw [addStopPointAt_fold stops_ stops hall _ _ line]
    · have : c + (j - c) + 1 - c = j - c + 1 := by omega
      rw [this, runPoints]
    · intro k hk
      rw [List.mem_range'_1] at hk
      omega
  | succ d ih =>
    intro c hc
    have hr : List.range' c (stops.length - c) = c :: List.range' (c + 1) (stops.length - (c + 1)) := by
      have : stops.length - c = (stops.length - (c + 1)) + 1 := by omega
      rw [this, List.range'_succ]
    have hlast : toSizeT ((c : Int) + ((j : Int) - (i : Int))) = c + (j - i) :=
      toSizeT_add_sub c i j (le_of_lt hij) (by omega)
    obtain ⟨a, h1, h2, h3, h4, h5⟩ := ih (c + 1) (by omega)
    by_cases hb : stops.getD c "" = stops.getD i ""
    · by_cases he : stops.getD (c + (j - i)) "" = stops.getD j ""
      · refine ⟨c, le_refl _, by omega, hb, he, ?_⟩
        rw [hr, roundRun_match stops_ stops _ _ _ line c (c + (j - i)) _ (by omega) hlast
          (by omega) hb he]
        rw [addStopPointAt_fold stops_ stops hall _ _ line]
        · have : c + (j - i) + 1 - c = j - i + 1 := by omega
          rw [this, runPoints]
        · intro k hk
          rw [List.mem_range'_1] at hk
          omega
      · refine ⟨a, by omega, h2, h3, h4, ?_⟩
        rw [hr, roundRun_skip stops_ stops _ _ _ line c (c + (j - i)) _ (by omega) hlast
          (by omega) he]
        exact h5
    · refine ⟨a, by omega, h2, h3, h4, ?_⟩
      rw [hr, roundRun_cons stops_ stops _ _ _ line c _ (by omega) hb]
      exact h5

theorem toInt32_natCast_add (c m : Nat) (h : c + m < 2 ^ 31) :
    toInt32 ((c : Int) + (m : Int)) = ((c + m : Nat) : Int) := by
  unfold toInt32; omega

theorem toInt32_natCast_sub (c m : Nat) (hm : m ≤ c) (h : c < 2 ^ 31) :
    toInt32 ((c : Int) - (m : Int)) = ((c - m : Nat) : Int) := by
  unfold toInt32; omega

theorem toSizeT_natCast (c : Nat) (h : c < 2 ^ 64) : toSizeT (c : Int) = c := by
  unfold toSizeT; omega

theorem toSizeT_natCast_sub (c t : Nat) (ht : t ≤ c) (h : c < 2 ^ 64) :
    toSizeT ((c : Int) - (t : Int)) = c - t := by
  unfold toSizeT; omega

theorem stopIs_eq (stops : List String) (P : Prop) [Decidable P] (idx : Nat) (name : String)
    (h : P → idx < stops.length) :
    stopIs stops (decide P) idx name = .ok (decide (P ∧ stops.getD idx "" = name)) := by
  unfold stopIs
  by_cases hp : P
  · rw [decide_eq_true hp, if_pos rfl, vecAt_of_getElem? _ _ _ (getElem?_getD stops idx (h hp)),
      ok_bind]
    by_cases he : stops.getD idx "" = name
    · rw [decide_eq_true he, decide_eq_true (⟨hp, he⟩ : P ∧ _)]
      rfl
    · rw [decide_eq_false he, decide_eq_false (fun h' : P ∧ _ => he h'.2)]
      rfl
  · rw [decide_eq_false hp, decide_eq_false (fun h' : P ∧ _ => hp h'.1)]
    rfl

/-- One round of the loop over `j` of `RenderBusesOnRoute` for a TWOWAY bus,
at a position `c` of a stop list of fewer than `2 ^ 30` stops and for a span
`m` below the size of the list, in terms of natural numbers. -/
theorem twowayRun_step (stops_ : StopMap) (stops : List String) (b e : String) (m c : Nat)
    (line : Svg.Polyline) (js : List Nat) (hc : c < stops.length)
    (hlen : stops.length < 2 ^ 30) (hm : m < stops.length) :
    twowayRun stops_ stops b e (m : Int) line (c :: js) =
      if stops.getD c "" = b then
        if c + m < stops.length ∧ stops.getD (c + m) "" = e then
          (List.range' c (m + 1)).foldlM (addStopPointAt stops_ stops) line
        else if m ≤ c ∧ stops.getD (c - m) "" = e then
          ((List.range (m + 1)).map (fun t => c - t)).foldlM (addStopPointAt stops_ stops) line
        else twowayRun stops_ stops b e (m : Int) line js
      else twowayRun stops_ stops b e (m : Int) line js := by
  rw [twowayRun, vecAt_of_getElem? _ _ _ (getElem?_getD stops c hc), ok_bind]
  by_cases hb : stops.getD c "" = b
  · rw [if_pos hb, if_pos hb]
    dsimp only
    have hup := toInt32_natCast_add c m (by omega)
    have hn : toInt32 (stops.length : Int) = (stops.length : Int) := toInt32_of_lt _ (by omega)
    have hcnt : (((c + m : Nat) : Int) + 1 - (c : Int)).toNat = m + 1 := by omega
    rw [hup, hn, hcnt, toSizeT_natCast _ (by omega)]
    rw [stopIs_eq stops _ (c + m) e (fun h => by exact_mod_cast h), ok_bind]
    by_cases hf : c + m < stops.length ∧ stops.getD (c + m) "" = e
    · have hf' : ((c + m : Nat) : Int) < (stops.length : Int) ∧ stops.getD (c + m) "" = e :=
        ⟨by exact_mod_cast hf.1, hf.2⟩
      rw [if_pos hf, decide_eq_true hf', if_pos rfl]
    · have hf' : ¬ (((c + m : Nat) : Int) < (stops.length : Int) ∧ stops.getD (c + m) "" = e) :=
        fun h => hf ⟨by exact_mod_cast h.1, h.2⟩
      rw [if_neg hf, decide_eq_false hf', if_neg (by decide)]
      by_cases hmc : m ≤ c
      · have hdown := toInt32_natCast_sub c m hmc (by omega)
        have hcnt2 : ((c : Int) - ((c - m : Nat) : Int) + 1).toNat = m + 1 := by omega
        have hmap : (List.range (m + 1)).map (fun (t : Nat) => toSizeT ((c : Int) - (t : Int))) =
            (List.range (m + 1)).map (fun t => c - t) := by
          apply List.map_congr_left
          intro t ht
          rw [List.mem_range] at ht
          exact toSizeT_natCast_sub c t (by omega) (by omega)
        rw [hdown, hcnt2, hmap, toSizeT_natCast _ (by omega),
          stopIs_eq stops _ (c - m) e (fun _ => by omega), ok_bind]
        by_cases hbk : m ≤ c ∧ stops.getD (c - m) "" = e
        · have hbk' : (c : Int) ≥ (m : Int) ∧ stops.getD (c - m) "" = e :=
            ⟨by exact_mod_cast hbk.1, hbk.2⟩
          rw [if_pos hbk, decide_eq_true hbk', if_pos rfl]
        · have hbk' : ¬ ((c : Int) ≥ (m : Int) ∧ stops.getD (c - m) "" = e) :=
            fun h => hbk ⟨hmc, h.2⟩
          rw [if_neg hbk, decide_eq_false hbk', if_neg (by decide)]
      · have hge : ¬ (c : Int) ≥ (m : Int) := by
          intro h
          exact hmc (by exact_mod_cast h)
        have hst : ∀ idx, stopIs stops (decide ((c : Int) ≥ (m : Int))) idx e = .ok false := by
          intro idx
          unfold stopIs
          rw [decide_eq_false hge]
          rfl
        have hno : ¬ (m ≤ c ∧ stops.getD (c - m) "" = e) := fun h => hmc h.1
        rw [hst, ok_bind, if_neg hno, if_neg (by decide)]
  · rw [if_neg hb, if_neg hb]

theorem countDown_eq (a m : Nat) (h : m ≤ a) :
    (List.range (m + 1)).map (fun t => a - t) = (List.range' (a - m) (m + 1)).reverse := by
  rw [List.reverse_range']
  apply List.map_congr_left
  intro t ht
  rw [List.mem_range] at ht
  omega

theorem range'_cons_self (c n : Nat) (h : c < n) :
    List.range' c (n - c) = c :: List.range' (c + 1) (n - (c + 1)) := by
  have : n - c = (n - (c + 1)) + 1 := by omega
  rw [this, List.range'_succ]

theorem forwardPoints (stops_ : StopMap) (stops : List String) (a m : Nat) (line : Svg.Polyline)
    (h : a + m < stops.length) (hall : ∀ name ∈ stops, (stops_.lookup name).isSome) :
    (List.range' a (m + 1)).foldlM (addStopPointAt stops_ stops) line =
      .ok { line with points_ := line.points_ ++ runPoints stops_ stops a m } := by
  rw [addStopPointAt_fold stops_ stops hall _ _ line]
  · rfl
  · intro k hk
    rw [List.mem_range'_1] at hk
    omega

theorem backwardPoints (stops_ : StopMap) (stops : List String) (a m : Nat) (line : Svg.Polyline)
    (h : a < stops.length) (hm : m ≤ a) (hall : ∀ name ∈ stops, (stops_.lookup name).isSome) :
    ((List.range (m + 1)).map (fun t => a - t)).foldlM (addStopPointAt stops_ stops) line =
      .ok { line with points_ := line.points_ ++ (runPoints stops_ stops (a - m) m).reverse } := by
  rw [addStopPointAt_fold stops_ stops hall _ _ line]
  · rw [countDown_eq a m hm, runPoints, List.map_reverse]
  · intro k hk
    rw [List.mem_map] at hk
    obtain ⟨t, _, rfl⟩ := hk
    omega

/-- The search of `RenderBusesOnRoute` on a TWOWAY bus for a ride of the span
`m` from the stop `b` to the stop `e`, when the position `p` holds `b` and the
position `p + m` or the position `p - m` holds `e`: continued at a position
`c` up to `p`, it reads no index out of the bounds of the stop list and finds
a position `a` between `c` and `p` that holds `b`, with `e` at `a + m` (the
points of the run forward are added) or else at `a - m` (the points of the run
backward are added). -/
theorem twowayRun_spec (stops_ : StopMap) (stops : List String) (b e : String) (m p : Nat)
    (line : Svg.Polyline) (hp : p < stops.length) (hlen : stops.length < 2 ^ 30)
    (hm : m < stops.length) (hall : ∀ name ∈ stops, (stops_.lookup name).isSome)
    (hpb : stops.getD p "" = b)
    (hmatch : (p + m < stops.length ∧ stops.getD (p + m) "" = e) ∨
      (m ≤ p ∧ stops.getD (p - m) "" = e)) :
    ∀ (d c : Nat), c + d = p →
    ∃ a : Nat, c ≤ a ∧ a ≤ p ∧ stops.getD a "" = b ∧
      ((a + m < stops.length ∧ stops.getD (a + m) "" = e ∧
        twowayRun stops_ stops b e (m : Int) line (List.range' c (stops.length - c)) =
          .ok { line with points_ := line.points_ ++ runPoints stops_ stops a m }) ∨
       (m ≤ a ∧ stops.getD (a - m) "" = e ∧
        twowayRun stops_ stops b e (m : Int) line (List.range' c (stops.length - c)) =
          .ok { line with
            points_ := line.points_ ++ (runPoints stops_ stops (a - m) m).reverse })) := by
  have key : ∀ c : Nat, c ≤ p →
      (c < p → ∃ a : Nat, c + 1 ≤ a ∧ a ≤ p ∧ stops.getD a "" = b ∧
        ((a + m < stops.length ∧ stops.getD (a + m) "" = e ∧
          twowayRun stops_ stops b e (m : Int) line
              (List.range' (c + 1) (stops.length - (c + 1))) =
            .ok { line with points_ := line.points_ ++ runPoints stops_ stops a m }) ∨
         (m ≤ a ∧ stops.getD (a - m) "" = e ∧
          twowayRun stops_ stops b e (m : Int) line
              (List.range' (c + 1) (stops.length - (c + 1))) =
            .ok { line with
              points_ := line.points_ ++ (runPoints stops_ stops (a - m) m).reverse }))) →
      ∃ a : Nat, c ≤ a ∧ a ≤ p ∧ stops.getD a "" = b ∧
        ((a + m < stops.length ∧ stops.getD (a + m) "" = e ∧
          twowayRun stops_ stops b e (m : Int) line (List.range' c (stops.length - c)) =
            .ok { line with points_ := line.points_ ++ runPoints stops_ stops a m }) ∨
         (m ≤ a ∧ stops.getD (a - m) "" = e ∧
          twowayRun stops_ stops b e (m : Int) line (List.range' c (stops.length - c)) =
            .ok { line with
              points_ := line.points_ ++ (runPoints stops_ stops (a - m) m).reverse })) := by
    intro c hcp hnext
    have hc : c < stops.length := by omega
    have hstep := twowayRun_step stops_ stops b e m c line
      (List.range' (c + 1) (stops.length - (c + 1))) hc hlen hm
    rw [← range'_cons_self c stops.length hc] at hstep
    have hrest : (¬ (stops.getD c "" = b ∧
        ((c + m < stops.length ∧ stops.getD (c + m) "" = e) ∨
          (m ≤ c ∧ stops.getD (c - m) "" = e)))) → c < p := by
      intro hnot
      by_contra hcon
      have hcp' : c = p := by omega
      subst hcp'
      exact hnot ⟨hpb, hmatch⟩
    by_cases hb : stops.getD c "" = b
    · rw [if_pos hb] at hstep
      by_cases hf : c + m < stops.length ∧ stops.getD (c + m) "" = e
      · rw [if_pos hf] at hstep
        refine ⟨c, le_refl _, hcp, hb, Or.inl ⟨hf.1, hf.2, ?_⟩⟩
        rw [hstep]
        exact forwardPoints stops_ stops c m line hf.1 hall
      · rw [if_neg hf] at hstep
        by_cases hbk : m ≤ c ∧ stops.getD (c - m) "" = e
        · rw [if_pos hbk] at hstep
          refine ⟨c, le_refl _, hcp, hb, Or.inr ⟨hbk.1, hbk.2, ?_⟩⟩
          rw [hstep]
          exact backwardPoints stops_ stops c m line hc hbk.1 hall
        · rw [if_neg hbk] at hstep
          have hlt : c < p := hrest (fun h => h.2.elim (fun x => hf x) (fun x => hbk x))
          obtain ⟨a, h1, h2, h3, h4⟩ := hnext hlt
          refine ⟨a, by omega, h2, h3, ?_⟩
          rw [hstep]
          exact h4
    · rw [if_neg hb] at hstep
      have hlt : c < p := hrest (fun h => hb h.1)
      obtain ⟨a, h1, h2, h3, h4⟩ := hnext hlt
      refine ⟨a, by omega, h2, h3, ?_⟩
      rw [hstep]
      exact h4
  intro d
  induction d with
  | zero =>
    intro c hc
    exact key c (by omega) (fun h => by omega)
  | succ d ih =>
    intro c hc
    exact key c (by omega) (fun _ => ih (c + 1) (by omega))

theorem runPoints_length (stops_ : StopMap) (stops : List String) (a m : Nat) :
    (runPoints stops_ stops a m).length = m + 1 := by
  unfold runPoints
  rw [List.length_map, List.length_range']

theorem busLineStyle_points (db : Database) (color : Svg.Color) :
    (busLineStyle db color).points_ = [] := rfl

theorem renderRideStep_other (db : Database) (doc : Svg.Document) (item : RouteItem)
    (h : item.isRide = false) : renderRideStep db doc item = .ok doc := by
  cases item with
  | BusItem _ _ _ _ _ => cases h
  | StopItem _ _ => rfl
  | WalkItem _ _ => rfl
  | WaitItem _ => rfl

/-- The polyline of one ride: for a `BusItem` that is the ride of an edge of
a drawable bus, the body of the loop of `RenderBusesOnRoute` returns the
document with the polyline of the ride added. -/
theorem renderRideStep_ride (db : Database) (doc : Svg.Document) (item : RouteItem)
    (hr : item.isRide = true) (h : RideOk db item) :
    ∃ obj, renderRideStep db doc item = .ok (doc.Add obj) ∧ RideLine db item obj := by
  cases item with
  | StopItem _ _ => cases hr
  | WalkItem _ _ => cases hr
  | WaitItem _ => cases hr
  | BusItem name stop_beg stop_end span_count t =>
    obtain ⟨bus, hbus, ⟨hlen, hall, c, hc, hclt⟩, j, hj, i, hij, hspan, hdir⟩ := h
    have hcol : (bus.GetColorId >>= vecAt db.map_settings_.render_settings.color_palette) =
        .ok (db.map_settings_.render_settings.color_palette[c]) := by
      unfold Bus.GetColorId
      rw [hc]
      show vecAt _ c = _
      unfold vecAt
      rw [List.getElem?_eq_getElem hclt]
    have hm : span_count = ((j - i : Nat) : Int) := by
      rw [hspan, Nat.cast_sub (le_of_lt hij)]
    have hmn : span_count.toNat = j - i := by
      rw [hm]
      rfl
    have hji : i + (j - i) = j := by omega
    have hstep : ∀ line', (match bus.GetType with
        | .ROUND =>
          roundRun db.stops_ bus.GetStops stop_beg stop_end span_count
            (busLineStyle db (db.map_settings_.render_settings.color_palette[c]))
            (List.range bus.GetStops.length)
        | .TWOWAY =>
          twowayRun db.stops_ bus.GetStops stop_beg stop_end span_count
            (busLineStyle db (db.map_settings_.render_settings.color_palette[c]))
            (List.range (toInt32 bus.GetStops.length).toNat)) = .ok line' →
        renderRideStep db doc (.BusItem name stop_beg stop_end span_count t) =
          .ok (doc.Add (.polyline line')) := by
      intro line' hl
      unfold renderRideStep
      dsimp only
      rw [mapAt_of_lookup _ _ _ hbus, ok_bind, hcol, ok_bind]
      cases hty : bus.GetType with
      | ROUND =>
        rw [hty] at hl
        dsimp only at hl ⊢
        rw [hl, ok_bind]
        rfl
      | TWOWAY =>
        rw [hty] at hl
        dsimp only at hl ⊢
        rw [hl, ok_bind]
        rfl
    have hrange : List.range bus.GetStops.length =
        List.range' 0 (bus.GetStops.length - 0) := by
      rw [List.range_eq_range', Nat.sub_zero]
    have hrange2 : List.range (toInt32 bus.GetStops.length).toNat =
        List.range' 0 (bus.GetStops.length - 0) := by
      rw [toInt32_of_lt _ (by omega), Int.toNat_ofNat, List.range_eq_range', Nat.sub_zero]
    cases htype : bus.GetType with
    | ROUND =>
      rcases hdir with ⟨hb, he⟩ | ⟨htw, _⟩
      · obtain ⟨a, _, hai, hab, hae, hrun⟩ := roundRun_spec db.stops_ bus.GetStops i j
          (busLineStyle db (db.map_settings_.render_settings.color_palette[c])) hij hj hlen hall
          i 0 (by omega)
        rw [← hb, ← he, ← hspan, ← hrange] at hrun
        refine ⟨_, hstep _ (by rw [htype]; exact hrun), ?_⟩
        refine ⟨bus, _, a, _, hbus, hcol, rfl, ?_, by rw [hab, hb], Or.inl ⟨?_, ?_, ?_⟩⟩
        · rw [busLineStyle_points, List.nil_append, runPoints_length, hm]
          rfl
        · rw [hmn]; omega
        · rw [hmn, hae, he]
        · rw [busLineStyle_points, List.nil_append, hmn]
      · rw [htype] at htw
        cases htw
    | TWOWAY =>
      have hmlt : j - i < bus.GetStops.length := by omega
      have hres : ∀ p : Nat, p < bus.GetStops.length → bus.GetStops.getD p "" = stop_beg →
          ((p + (j - i) < bus.GetStops.length ∧ bus.GetStops.getD (p + (j - i)) "" = stop_end) ∨
            (j - i ≤ p ∧ bus.GetStops.getD (p - (j - i)) "" = stop_end)) →
          ∃ obj, renderRideStep db doc (.BusItem name stop_beg stop_end span_count t) =
            .ok (doc.Add obj) ∧
            RideLine db (.BusItem name stop_beg stop_end span_count t) obj := by
        intro p hp hpb hmatch
        obtain ⟨a, _, hap, hab, hcase⟩ := twowayRun_spec db.stops_ bus.GetStops stop_beg stop_end
          (j - i) p (busLineStyle db (db.map_settings_.render_settings.color_palette[c]))
          hp hlen hmlt hall hpb hmatch p 0 (by omega)
        rw [← hm, ← hrange2] at hcase
        rcases hcase with ⟨h1, h2, hrun⟩ | ⟨h1, h2, hrun⟩
        · refine ⟨_, hstep _ (by rw [htype]; exact hrun), ?_⟩
          refine ⟨bus, _, a, _, hbus, hcol, rfl, ?_, hab, Or.inl ⟨?_, ?_, ?_⟩⟩
          · rw [busLineStyle_points, List.nil_append, runPoints_length, hm]
            rfl
          · rw [hmn]; exact h1
          · rw [hmn]; exact h2
          · rw [busLineStyle_points, List.nil_append, hmn]
        · refine ⟨_, hstep _ (by rw [htype]; exact hrun), ?_⟩
          refine ⟨bus, _, a, _, hbus, hcol, rfl, ?_, hab, Or.inr ⟨htype, ?_, ?_, ?_, ?_⟩⟩
          · rw [busLineStyle_points, List.nil_append, List.length_reverse, runPoints_length, hm]
            rfl
          · rw [hmn]; exact h1
          · omega
          · rw [hmn]; exact h2
          · rw [busLineStyle_points, List.nil_append, hmn]
      rcases hdir with ⟨hb, he⟩ | ⟨_, hb, he⟩
      · exact hres i (by omega) hb.symm (Or.inl ⟨by omega, by rw [hji]; exact he.symm⟩)
      · refine hres j hj hb.symm (Or.inr ⟨by omega, ?_⟩)
        have : j - (j - i) = i := by omega
        rw [this]
        exact he.symm

theorem renderRides_fold (db : Database) :
    ∀ (items : List RouteItem) (doc : Svg.Document), (∀ item ∈ items, RideOk db item) →
    ∃ lines, items.foldlM (renderRideStep db) doc = .ok { objects_ := doc.objects_ ++ lines } ∧
      List.Forall₂ (RideLine db) (items.filter RouteItem.isRide) lines := by
  intro items
  induction items with
  | nil =>
    intro doc _
    exact ⟨[], by rw [List.append_nil]; rfl, List.Forall₂.nil⟩
  | cons item items ih =>
    intro doc h
    by_cases hr : item.isRide = true
    · obtain ⟨obj, hstep, hline⟩ := renderRideStep_ride db doc item hr
        (h item (List.mem_cons_self _ _))
      obtain ⟨lines, hfold, hrel⟩ := ih (doc.Add obj) (fun x hx => h x (List.mem_cons_of_mem _ hx))
      refine ⟨obj :: lines, ?_, ?_⟩
      · rw [List.foldlM_cons, hstep, ok_bind, hfold]
        unfold Svg.Document.Add
        rw [List.append_assoc]
        rfl
      · rw [List.filter_cons_of_pos hr]
        exact List.Forall₂.cons hline hrel
    · have hr' : item.isRide = false := by
        cases hv : item.isRide with
        | true => exact absurd hv hr
        | false => rfl
      obtain ⟨lines, hfold, hrel⟩ := ih doc (fun x hx => h x (List.mem_cons_of_mem _ hx))
      refine ⟨lines, ?_, ?_⟩
      · rw [List.foldlM_cons, renderRideStep_other db doc item hr', ok_bind, hfold]
      · rw [List.filter_cons_of_neg hr]
        exact hrel

/-- C38: for a route whose `BusItem`s are rides of edges of drawable buses of
the catalog, `RenderBusesOnRoute` returns, so it reads no stop list out of
its bounds, and adds to the document one polyline for every `BusItem`, in
their order: the polyline of a ride of the span `span_count` has exactly
`span_count + 1` points, the positions on the map of a run of consecutive
positions of the stop list of the bus that starts at a position holding
`stop_beg` and ends at a position holding `stop_end`, taken forward, or
backward on a TWOWAY bus only. -/
theorem RenderBusesOnRoute_runs (db : Database) (doc : Svg.Document) (route : RouteInfo)
    (h : ∀ item ∈ route.items, RideOk db item) :
    ∃ lines, db.RenderBusesOnRoute doc route = .ok { objects_ := doc.objects_ ++ lines } ∧
      List.Forall₂ (RideLine db) (route.items.filter RouteItem.isRide) lines :=
  renderRides_fold db route.items doc h

theorem vertexRouter_name (stops : StopMap) (rs : RouterSettings)
    (hnd : (stops.map Prod.fst).Nodup) (name : String) (hmem : name ∈ stops.map Prod.fst) :
    (stops.map Prod.fst).getD (vertexOf (vertexRouter stops rs).stop_to_id name) "" = name := by
  obtain ⟨i, hi, rfl⟩ := List.getElem_of_mem hmem
  have h1 : (List.zip (stops.map Prod.fst) (List.range' 0 stops.length)).lookup
      (stops.map Prod.fst)[i] = some (0 + i) := by
    have := lookup_zip_range' (stops.map Prod.fst) hnd 0 i hi
    simpa only [List.length_map, List.get_eq_getElem] using this
  have h2 : vertexOf (vertexRouter stops rs).stop_to_id (stops.map Prod.fst)[i] = 0 + i := by
    unfold vertexOf vertexRouter
    dsimp only
    rw [h1]
    rfl
  rw [h2, Nat.zero_add, List.getD_eq_getElem?_getD, List.getElem?_eq_getElem hi]
  rfl

/-- The rides of the router of a catalog: the ride item of every edge of the
graph is the ride of some bus of the catalog between two positions `i < j` of
its stop list, from the stop at `i` to the stop at `j`, or, for a TWOWAY bus,
from the stop at `j` to the stop at `i`, with the span `j - i`. -/
theorem rideItemOf_new (buses : List (String × Bus)) (stops : StopMap) (rs : RouterSettings)
    (h : CatalogOk buses stops) (e : Nat)
    (he : e < (buses.flatMap (fun kb => busEdges (vertexRouter stops rs) stops kb.2)).length) :
    ∃ kb ∈ buses, ∃ j : Nat, j < kb.2.GetStops.length ∧ ∃ i : Nat, i < j ∧ ∃ t : ℚ,
      rideItemOf (pushEdges (vertexRouter stops rs)
          (buses.flatMap (fun kb => busEdges (vertexRouter stops rs) stops kb.2))) e =
        .BusItem kb.2.GetName (kb.2.GetStops.getD i "") (kb.2.GetStops.getD j "")
          ((j : Int) - (i : Int)) t ∨
      (kb.2.GetType = .TWOWAY ∧
        rideItemOf (pushEdges (vertexRouter stops rs)
            (buses.flatMap (fun kb => busEdges (vertexRouter stops rs) stops kb.2))) e =
          .BusItem kb.2.GetName (kb.2.GetStops.getD j "") (kb.2.GetStops.getD i "")
            ((j : Int) - (i : Int)) t) := by
  obtain ⟨hsorted, _, hbuses⟩ := h
  have hnd : (stops.map Prod.fst).Nodup := hsorted.nodup
  have hmem := List.getElem_mem he
  obtain ⟨kb, hkb, hin⟩ := List.mem_flatMap.mp hmem
  have hkeys : ∀ name ∈ kb.2.stops_, name ∈ stops.map Prod.fst := by
    intro name hn
    obtain ⟨st, hst⟩ := (hbuses kb hkb).1.1 name hn
    exact lookup_isSome_mem_keys stops name st hst
  have hride : ∀ x : Edge × (String × Int),
      (buses.flatMap (fun kb => busEdges (vertexRouter stops rs) stops kb.2))[e] = x →
      rideItemOf (pushEdges (vertexRouter stops rs)
          (buses.flatMap (fun kb => busEdges (vertexRouter stops rs) stops kb.2))) e =
        .BusItem x.2.1 ((stops.map Prod.fst).getD x.1.from_ "")
          ((stops.map Prod.fst).getD x.1.to_ "") x.2.2 (x.1.weight - (rs.bus_wait_time : ℚ)) := by
    intro x hx
    unfold rideItemOf
    have h1 : (pushEdges (vertexRouter stops rs)
        (buses.flatMap (fun kb => busEdges (vertexRouter stops rs) stops kb.2))).graph_.edges.getD e
          { from_ := 0, to_ := 0, weight := 0 } = x.1 := by
      rw [pushEdges_edges_of_nil _ _ rfl, List.getD_eq_getElem?_getD, List.getElem?_map,
        List.getElem?_eq_getElem he, hx]
      rfl
    have h2 : (pushEdges (vertexRouter stops rs)
        (buses.flatMap (fun kb => busEdges (vertexRouter stops rs) stops kb.2))).edge_to_info.getD e
          ("", 0) = x.2 := by
      rw [pushEdges_info_of_nil _ _ rfl, List.getD_eq_getElem?_getD, List.getElem?_map,
        List.getElem?_eq_getElem he, hx]
      rfl
    dsimp only
    rw [h1, h2]
    rfl
  have hfwd : ∀ ij : Nat × Nat, ij ∈ positionPairs kb.2.stops_.length →
      (buses.flatMap (fun kb => busEdges (vertexRouter stops rs) stops kb.2))[e] =
        forwardEdgeOf (vertexRouter stops rs) stops kb.2 ij →
      ∃ j : Nat, j < kb.2.GetStops.length ∧ ∃ i : Nat, i < j ∧ ∃ t : ℚ,
        rideItemOf (pushEdges (vertexRouter stops rs)
            (buses.flatMap (fun kb => busEdges (vertexRouter stops rs) stops kb.2))) e =
          .BusItem kb.2.GetName (kb.2.GetStops.getD i "") (kb.2.GetStops.getD j "")
            ((j : Int) - (i : Int)) t := by
    intro ij hij hx
    rw [mem_positionPairs] at hij
    refine ⟨ij.2, hij.2, ij.1, hij.1,
      (forwardEdgeOf (vertexRouter stops rs) stops kb.2 ij).1.weight - (rs.bus_wait_time : ℚ), ?_⟩
    rw [hride _ hx]
    unfold forwardEdgeOf
    dsimp only
    rw [vertexRouter_name stops rs hnd _ (hkeys _ (getD_mem _ _ (by omega))),
      vertexRouter_name stops rs hnd _ (hkeys _ (getD_mem _ _ hij.2))]
    rfl
  have hbwd : ∀ ij : Nat × Nat, ij ∈ positionPairs kb.2.stops_.length →
      (buses.flatMap (fun kb => busEdges (vertexRouter stops rs) stops kb.2))[e] =
        backwardEdgeOf (vertexRouter stops rs) stops kb.2 ij →
      ∃ j : Nat, j < kb.2.GetStops.length ∧ ∃ i : Nat, i < j ∧ ∃ t : ℚ,
        rideItemOf (pushEdges (vertexRouter stops rs)
            (buses.flatMap (fun kb => busEdges (vertexRouter stops rs) stops kb.2))) e =
          .BusItem kb.2.GetName (kb.2.GetStops.getD j "") (kb.2.GetStops.getD i "")
            ((j : Int) - (i : Int)) t := by
    intro ij hij hx
    rw [mem_positionPairs] at hij
    refine ⟨ij.2, hij.2, ij.1, hij.1,
      (backwardEdgeOf (vertexRouter stops rs) stops kb.2 ij).1.weight - (rs.bus_wait_time : ℚ), ?_⟩
    rw [hride _ hx]
    unfold backwardEdgeOf
    dsimp only
    rw [vertexRouter_name stops rs hnd _ (hkeys _ (getD_mem _ _ hij.2)),
      vertexRouter_name stops rs hnd _ (hkeys _ (getD_mem _ _ (by omega)))]
    rfl
  refine ⟨kb, hkb, ?_⟩
  unfold busEdges at hin
  cases hty : kb.2.type_ with
  | ROUND =>
    rw [hty] at hin
    obtain ⟨ij, hij, hx⟩ := List.mem_map.mp hin
    obtain ⟨j, hj, i, hi, t, ht⟩ := hfwd ij hij hx.symm
    exact ⟨j, hj, i, hi, t, Or.inl ht⟩
  | TWOWAY =>
    rw [hty] at hin
    rcases List.mem_append.mp hin with hin' | hin'
    · obtain ⟨ij, hij, hx⟩ := List.mem_map.mp hin'
      obtain ⟨j, hj, i, hi, t, ht⟩ := hfwd ij hij hx.symm
      exact ⟨j, hj, i, hi, t, Or.inl ht⟩
    · obtain ⟨ij, hij, hx⟩ := List.mem_map.mp hin'
      obtain ⟨j, hj, i, hi, t, ht⟩ := hbwd ij hij hx.symm
      exact ⟨j, hj, i, hi, t, Or.inr ⟨hty, ht⟩⟩

/-- The unchecked read of the ROUND branch: for a `BusItem` that is the ride
of no edge, here a span of 9 on a bus of 4 stops, `stops[j + span_count]` is
read out of the bounds of the stop list. -/
theorem renderRideStep_unchecked :
    thrown (renderRideStep colouredDb {} (.BusItem "R1" "A" "C" 9 1)) = some .bad_index := by
  decide!

/-- Witness of C38 on the route of `rideRoute`: the ride from C to A on the
TWOWAY bus is drawn through C, B, A, the run backward from the position 2; the
ride from B to A on the ROUND bus through B, C, A, the run forward from the
position 1. -/
theorem RenderBusesOnRoute_runs_witness :
    (∀ item ∈ rideRoute.items, RideOk colouredDb item) ∧
    (colouredDb.RenderBusesOnRoute {} rideRoute).toOption.map
        (fun doc => doc.objects_.map Svg.Object.linePoints) =
      some [[⟨190, 10⟩, ⟨100, 50⟩, ⟨10, 90⟩], [⟨100, 50⟩, ⟨190, 10⟩, ⟨10, 90⟩]] ∧
    ∃ lines, colouredDb.RenderBusesOnRoute {} rideRoute =
        .ok { objects_ := ({} : Svg.Document).objects_ ++ lines } ∧
      List.Forall₂ (RideLine colouredDb) (rideRoute.items.filter RouteItem.isRide) lines :=
  ⟨by decide!, by decide!, RenderBusesOnRoute_runs colouredDb {} rideRoute (by decide!)⟩

end TransportCatalog
